import Mathlib

/-!
# Sequential structure-from-motion engine: a shallow embedding

The definitions below follow `src/openMVG/sfm/pipelines/sequential/sequential_SfM.cpp`
(class `SequentialSfMReconstructionEngine`), the cubic solver of
`src/openMVG/numeric/poly.h`, the map initialisation threshold of
`src/openMVG/vsslam/mapping/Cartographer.cpp`, the feature matching of
`src/software/VSSLAM/slam/Tracker_Features.hpp` and the landmark colouring of
`src/software/SfM/main_ComputeSfM_DataColorWithUncertainty.cpp`.

Conventions of the embedding

* `std::map<IndexT, T>` is an association list `StlMap T`, `std::set<IndexT>` a
  list `StlSet`; both are kept in ascending key order by the update functions.
* `double` / `float` quantities (pixels, angles, depths) are rationals: the
  engine only compares them, so rounding inside the numerical collaborators is
  outside the embedding.
* Numerical collaborators that are not part of the engine (robust estimators,
  bundle adjustment, camera projection, triangulation) are fields of the
  record `Collaborators`.
* A C++ exception or an undefined operation (`map::at` on a missing key,
  dereferencing `end()`, incrementing an iterator to an erased element) is the
  result `none`.
* The functions of `<cmath>` used by the cubic solver are fields of the record
  `RealMath`.
-/

namespace OpenMVG

/-! ## Containers -/

/-- Association list standing for `std::map<IndexT, T>` (Hash_Map in the source). -/
abbrev StlMap (α : Type) := List (Nat × α)

/-- List standing for `std::set<IndexT>`. -/
abbrev StlSet := List Nat

namespace StlMap

variable {α : Type}

/-- Lookup, `m.find(k)`: the value bound to `k`, if any. -/
def find : StlMap α → Nat → Option α
  | [], _ => none
  | (k', v) :: t, k => if k' = k then some v else find t k

/-- Membership test `m.count(k) != 0`. -/
def contains (m : StlMap α) (k : Nat) : Bool := (find m k).isSome

/-- Assignment `m[k] = v`: overwrite the binding of `k` or create it. -/
def assign : StlMap α → Nat → α → StlMap α
  | [], k, v => [(k, v)]
  | (k', v') :: t, k, v =>
    if k < k' then (k, v) :: (k', v') :: t
    else if k' = k then (k, v) :: t
    else (k', v') :: assign t k v

/-- Insertion `m.insert(make_pair(k, v))`: an existing binding is kept. -/
def insertNew (m : StlMap α) (k : Nat) (v : α) : StlMap α :=
  if contains m k then m else assign m k v

/-- Key list, `std::transform(..., stl::RetrieveKey())`. -/
def keys (m : StlMap α) : List Nat := m.map Prod.fst

end StlMap

namespace StlSet

/-- Insertion `s.insert(k)`. -/
def insert : StlSet → Nat → StlSet
  | [], k => [k]
  | k' :: t, k =>
    if k < k' then k :: k' :: t
    else if k' = k then k' :: t
    else k' :: insert t k

/-- Removal `s.erase(k)`. -/
def erase (s : StlSet) (k : Nat) : StlSet := s.filter (fun x => x ≠ k)

/-- Smallest element, `*min_element(s.begin(), s.end())`; undefined on the empty set. -/
def minElement : StlSet → Option Nat
  | [] => none
  | k :: t => some (t.foldl min k)

/-- Largest element, `*max_element(s.begin(), s.end())`; undefined on the empty set. -/
def maxElement : StlSet → Option Nat
  | [] => none
  | k :: t => some (t.foldl max k)

end StlSet

/-- Fold with a step that may be undefined. -/
def foldlOpt {α β : Type} (f : β → α → Option β) : List α → β → Option β
  | [], b => some b
  | a :: t, b =>
    match f b a with
    | none => none
    | some b' => foldlOpt f t b'

/-! ## Data model -/

/-- Two-dimensional point (pixel coordinates). -/
abbrev Vec2 := ℚ × ℚ

/-- Three-dimensional point. -/
abbrev Vec3 := ℚ × ℚ × ℚ

/-- Camera pose: rotation (row-major 3x3) and centre. -/
structure Pose3 where
  rotation : List ℚ
  center : List ℚ
deriving DecidableEq, Repr

/-- Identity pose `Pose3(Mat3::Identity(), Vec3::Zero())`. -/
def Pose3.identity : Pose3 := ⟨[1, 0, 0, 0, 1, 0, 0, 0, 1], [0, 0, 0]⟩

/-- Camera model tags (`EINTRINSIC`). -/
inductive EINTRINSIC where
  | PINHOLE_CAMERA
  | PINHOLE_CAMERA_RADIAL1
  | PINHOLE_CAMERA_RADIAL3
  | PINHOLE_CAMERA_BROWN
  | PINHOLE_CAMERA_FISHEYE
  | UNKNOWN
deriving DecidableEq, Repr

/-- Intrinsic camera parameters; `isPinhole` is the outcome of
`dynamic_cast<const Pinhole_Intrinsic*>`. -/
structure Intrinsic where
  kind : EINTRINSIC
  isPinhole : Bool
  w : Nat
  h : Nat
  focal : ℚ
  ppx : ℚ
  ppy : ℚ
deriving DecidableEq, Repr

/-- View: ids of the view, its intrinsic group and its pose, and the image size. -/
structure View where
  id_view : Nat
  id_intrinsic : Nat
  id_pose : Nat
  ui_width : Nat
  ui_height : Nat
deriving DecidableEq, Repr

/-- Observation of a landmark in one view: pixel and feature index. -/
structure Observation where
  x : Vec2
  id_feat : Nat
deriving DecidableEq, Repr

/-- Landmark: a 3D point and its observations, keyed by view id. -/
structure Landmark where
  X : Vec3
  obs : StlMap Observation
deriving DecidableEq, Repr

/-- Scene container `SfM_Data`. -/
structure SfM_Data where
  views : StlMap View
  intrinsics : StlMap Intrinsic
  poses : StlMap Pose3
  structure_ : StlMap Landmark
deriving DecidableEq, Repr

/-- Track: view id to feature index (`tracks::submapTrack`). -/
abbrev SubmapTrack := StlMap Nat

/-- Tracks keyed by track id (`tracks::STLMAPTracks`). -/
abbrev STLMAPTracks := StlMap SubmapTrack

/-- Pair of view ids. -/
abbrev Pair := Nat × Nat

/-- Matches of one view pair: the pair and its feature-index correspondences
(an entry of `matches_provider_->pairWise_matches_`). -/
abbrev PairMatches := Pair × List (Nat × Nat)

/-- Mutable members of `SequentialSfMReconstructionEngine`. -/
structure Engine where
  sfm_data_ : SfM_Data
  map_tracks_ : STLMAPTracks
  map_ACThreshold_ : StlMap ℚ
  set_remaining_view_id_ : StlSet
  set_remaining_view_id_subset_ : StlSet
  set_reconstructed_view_id_ : StlSet
  initial_pair_ : Pair
  cam_type_ : EINTRINSIC
  bRestricted_window_SfM_ : Bool
  sfm_slide_window_size_ : Nat
  pairWise_matches_ : List PairMatches
  intrinsic_refinement_options_ : Nat
deriving DecidableEq, Repr

/-! ## Track utilities -/

/-- Modelled from the spec: `TracksUtilsMap::GetTracksInImages` is declared in
`openMVG/tracks/tracks.hpp`, which is not among the sources. It keeps the
tracks seen by every view of `set_imagesId`, each restricted to those views
("gather common track correspondences", "intersect the view's tracks"). -/
def GetTracksInImages (set_imagesId : StlSet) (map_tracksIn : STLMAPTracks) : STLMAPTracks :=
  map_tracksIn.filterMap fun kt =>
    if set_imagesId.all (fun v => StlMap.contains kt.2 v) ∧ set_imagesId ≠ [] then
      some (kt.1, kt.2.filter fun e => set_imagesId.contains e.1)
    else none

/-- Modelled from the spec: `TracksUtilsMap::GetTracksIdVector` (not among the
sources) returns the ids of the given tracks. -/
def GetTracksIdVector (map_tracks : STLMAPTracks) : StlSet := StlMap.keys map_tracks

/-- Intersection of two id sets, `std::set_intersection`. -/
def set_intersection (a b : StlSet) : List Nat := a.filter fun x => b.contains x

/-! ## Resection-candidate selection -/

/-- Threshold used to select the best images, `dThresholdGroup = 0.75f`,
as the fraction `num / den`. -/
def dThresholdGroup : Nat × Nat := (3, 4)

/-- Window computed from the extreme ids of `s`
(`min_subset_i`, `max_subset_i`); undefined when `s` is empty. -/
def windowBounds (s : StlSet) (window nViews : Nat) : Option (Nat × Nat) :=
  match StlSet.minElement s, StlSet.maxElement s with
  | some lo, some hi =>
    some (if lo < window then 0 else lo - window,
          if hi > nViews then nViews else hi + window)
  | _, _ => none

/-- Loop "Add all views that have not been yet recovered and are in the
interval", a `for` loop with an iterator over `set_remaining_view_id_`. For a
view inside `[lo, hi]` the body inserts the view into the subset and erases it
from `set_remaining_view_id_`, the set the loop runs over: the iterator of the
loop then refers to the erased element, and the `++iter` that follows is
undefined. The loop is therefore `none` as soon as a view of the set lies
inside the window; otherwise it leaves the two sets as they are. The result is
`(subset, remaining)`. -/
def absorbWindow (lo hi : Nat) (subset remaining : StlSet) : Option (StlSet × StlSet) :=
  foldlOpt
    (fun acc viewId =>
      -- insert(viewId), erase(viewId), then `++iter` on the erased element
      if viewId ≥ lo ∧ viewId ≤ hi then none
      else some acc)
    remaining (subset, remaining)

/-- Scoring loop: `(viewId, #tracks of the view that are landmark ids)` for
every active view that has at least one track. -/
def scoreViews (map_tracks : STLMAPTracks) (reconstructed_trackId : StlSet)
    (active : StlSet) : List (Nat × Nat) :=
  active.filterMap fun viewId =>
    let map_tracksCommon := GetTracksInImages [viewId] map_tracks
    if map_tracksCommon = [] then none
    else some (viewId, (set_intersection (GetTracksIdVector map_tracksCommon) reconstructed_trackId).length)

/-- Sort by decreasing number of matches, `std::sort` with
`sort_pair_second<..., std::greater>`. -/
def sortPutative (vec_putative : List (Nat × Nat)) : List (Nat × Nat) :=
  vec_putative.insertionSort fun a b => a.2 ≥ b.2

/-- Group selection at a ratio `num / den`: the best view, then the following
views while their score is `> static_cast<size_t>(ratio * M)`. The product
`0.75f * M` is exact in single precision for every count `M` below `2 ^ 22`,
so the truncated product is the integer quotient `3 * M / 4`. -/
def selectGroup (ratio : Nat × Nat) (sorted : List (Nat × Nat)) : List Nat :=
  match sorted with
  | [] => []
  | best :: rest =>
    let M := best.2
    let threshold := ratio.1 * M / ratio.2
    best.1 :: (rest.takeWhile fun p => p.2 > threshold).map Prod.fst

/-- `FindImagesWithPossibleResection`: returns the boolean result, the output
vector `vec_possible_indexes` and the updated engine; `none` when an
`end()` iterator is dereferenced or an invalidated iterator is incremented. -/
def FindImagesWithPossibleResection (e : Engine) : Option (Bool × List Nat × Engine) :=
  if (e.set_remaining_view_id_ = [] ∧ e.set_remaining_view_id_subset_ = [])
      ∨ e.sfm_data_.structure_ = [] then
    some (false, [], e)
  else
    -- restricted mode: refill an empty active subset from the window
    let e1 : Option Engine :=
      if e.bRestricted_window_SfM_ then
        if e.set_remaining_view_id_subset_ = [] then
          match windowBounds e.set_reconstructed_view_id_ e.sfm_slide_window_size_
              e.sfm_data_.views.length with
          | none => none
          | some (lo, hi) =>
            match absorbWindow lo hi e.set_remaining_view_id_subset_ e.set_remaining_view_id_ with
            | none => none
            | some r =>
              some { e with set_remaining_view_id_subset_ := r.1, set_remaining_view_id_ := r.2 }
        else some e
      else some e
    match e1 with
    | none => none
    | some e1 =>
      let active :=
        if e1.bRestricted_window_SfM_ then e1.set_remaining_view_id_subset_
        else e1.set_remaining_view_id_
      let reconstructed_trackId := StlMap.keys e1.sfm_data_.structure_
      let vec_putative := sortPutative (scoreViews e1.map_tracks_ reconstructed_trackId active)
      if vec_putative = [] ∨ (vec_putative.head?.map Prod.snd) = some 0 then
        if ¬ e1.bRestricted_window_SfM_ then
          some (false, [], { e1 with set_remaining_view_id_ := [] })
        else if e1.set_remaining_view_id_ = [] then
          some (false, [], { e1 with set_remaining_view_id_ := [],
                                     set_remaining_view_id_subset_ := [] })
        else
          match windowBounds e1.set_remaining_view_id_subset_ e1.sfm_slide_window_size_
              e1.sfm_data_.views.length with
          | none => none
          | some (lo, hi) =>
            match absorbWindow lo hi e1.set_remaining_view_id_subset_ e1.set_remaining_view_id_ with
            | none => none
            | some r =>
              some (true, [],
                { e1 with set_remaining_view_id_subset_ := r.1, set_remaining_view_id_ := r.2 })
      else
        some (true, selectGroup dThresholdGroup vec_putative, e1)

/-! ## Steps of the restricted-window selection -/

/-- Window expansion: the absorbing loop on the window around the ids of
`around`. -/
def expandWindow (e : Engine) (around : StlSet) : Option Engine :=
  match windowBounds around e.sfm_slide_window_size_ e.sfm_data_.views.length with
  | none => none
  | some (lo, hi) =>
    match absorbWindow lo hi e.set_remaining_view_id_subset_ e.set_remaining_view_id_ with
    | none => none
    | some r =>
      some { e with set_remaining_view_id_subset_ := r.1, set_remaining_view_id_ := r.2 }

/-- First expansion of `FindImagesWithPossibleResection`: in restricted mode an
empty active subset is refilled from the window around the reconstructed views. -/
def refillActiveSubset (e : Engine) : Option Engine :=
  if e.bRestricted_window_SfM_ then
    if e.set_remaining_view_id_subset_ = [] then expandWindow e e.set_reconstructed_view_id_
    else some e
  else some e

/-- The vector `vec_putative` after the sort: the scored views of the active set. -/
def putativeViews (e : Engine) : List (Nat × Nat) :=
  sortPutative (scoreViews e.map_tracks_ (StlMap.keys e.sfm_data_.structure_)
    (if e.bRestricted_window_SfM_ then e.set_remaining_view_id_subset_
     else e.set_remaining_view_id_))

/-- The active subset and the remaining set have no view in common. -/
def PoolsDisjoint (e : Engine) : Prop :=
  ∀ v, v ∈ e.set_remaining_view_id_subset_ → v ∉ e.set_remaining_view_id_

instance (e : Engine) : Decidable (PoolsDisjoint e) := by
  unfold PoolsDisjoint; infer_instance

/-! ## Collaborators -/

/-- Result of the two-view estimator (`RelativePose_Info`). -/
structure RelativePose_Info where
  relativePose : Pose3
  vec_inliers : List Nat
  found_residual_precision : ℚ
deriving DecidableEq, Repr

/-- Output of `SfM_Localizer::Localize`: the pose and the fields it writes
into `Image_Localizer_Match_Data`. -/
structure LocalizeResult where
  pose : Pose3
  projection_matrix : List ℚ
  vec_inliers : List Nat
  error_max : ℚ
deriving DecidableEq, Repr

/-- Options handed to the bundle adjuster: `Optimize_Options` and the choice
of the linear solver. -/
structure BA_Options where
  intrinsics_opt : Nat
  extrinsics_adjust_all : Bool
  structure_adjust_all : Bool
  sparse_solver : Bool
deriving DecidableEq, Repr

/-- Functions the engine calls and that are defined outside of it. Features
are read through `feats view featureIndex`
(`features_provider_->feats_per_view[view][featureIndex].coords()`). -/
structure Collaborators where
  feats : Nat → Nat → Vec2
  hasFeatures : Nat → Bool
  get_ud_pixel : Intrinsic → Vec2 → Vec2
  have_disto : Intrinsic → Bool
  /-- `robustRelativePose(K_I, K_J, xI, xJ, info, sizes, max_iteration)`;
  the third argument is `initial_residual_tolerance` when it is set. -/
  robustRelativePose : Intrinsic → Intrinsic → Option ℚ → List Vec2 → List Vec2 → Nat →
    Option RelativePose_Info
  /-- `TriangulateDLT` on the projective equivalents of the two cameras. -/
  TriangulateDLT : Intrinsic → Pose3 → Vec2 → Intrinsic → Pose3 → Vec2 → Vec3
  AngleBetweenRay : Pose3 → Intrinsic → Pose3 → Intrinsic → Vec2 → Vec2 → ℚ
  /-- Norm of `cam->residual(pose, X, x)`. -/
  residualNorm : Intrinsic → Pose3 → Vec3 → Vec2 → ℚ
  depth : Pose3 → Vec3 → ℚ
  /-- `Bundle_Adjustment_Ceres::Adjust`: success flag and refined scene. -/
  Adjust : SfM_Data → BA_Options → Bool × SfM_Data
  sparseAvailable : Bool
  Localize : Nat × Nat → Option Intrinsic → List Vec2 → List Vec3 → Option LocalizeResult
  /-- `KRt_From_P`: focal `(K(0,0) + K(1,1)) / 2` and principal point. -/
  focalAndPrincipalPoint : List ℚ → ℚ × ℚ × ℚ
  RefinePose : Intrinsic → Pose3 → LocalizeResult → List Vec2 → List Vec3 → Option Pose3
  Get_Valid_Views : SfM_Data → StlSet
  RemoveOutliers_PixelResidualError : SfM_Data → ℚ → Nat → SfM_Data × Nat
  RemoveOutliers_AngleError : SfM_Data → ℚ → SfM_Data × Nat
  eraseUnstablePosesAndObservations : SfM_Data → SfM_Data
  CleanGraph_KeepLargestBiEdge_Nodes : List Pair → StlSet
  KeepOnlyReferencedElement : StlSet → List PairMatches → List PairMatches
  /-- Track builder: `Build`, `Filter`, `ExportToSTL`. -/
  buildTracks : List PairMatches → STLMAPTracks
  /-- Ids typed by the user in `ChooseInitialPair`, when two integers are read. -/
  userPair : Option Pair

/-- Collect a list of optional values; `none` as soon as one is missing. -/
def optionAll {α : Type} : List (Option α) → Option (List α)
  | [] => some []
  | none :: _ => none
  | some a :: t => (optionAll t).map (fun l => a :: l)

/-! ## Automatic choice of the initial pair -/

/-- Minimal inlier count, `iMin_inliers_count`. -/
def iMin_inliers_count : Nat := 100

/-- Lower angle limit, `fRequired_min_angle`. -/
def fRequired_min_angle : ℚ := 3

/-- Upper angle limit, `fLimit_max_angle`. -/
def fLimit_max_angle : ℚ := 60

/-- Views that support a valid intrinsic (`valid_views`). -/
def viewsWithIntrinsic (d : SfM_Data) : StlSet :=
  d.views.foldl
    (fun s kv => if StlMap.contains d.intrinsics kv.2.id_intrinsic then StlSet.insert s kv.2.id_view
                 else s)
    []

/-- The set `{I, J}` as a `std::set`. -/
def pairImageSet (I J : Nat) : StlSet := if I = J then [I] else [I, J]

/-- Feature indices `i = iter->second`, `j = (++iter)->second` of a common track. -/
def trackFeatures (t : SubmapTrack) : Option (Nat × Nat) :=
  match t with
  | (_, i) :: (_, j) :: _ => some (i, j)
  | _ => none

/-- Feature indices of all common tracks, in track order. -/
def commonFeatures (map_tracksCommon : STLMAPTracks) : Option (List (Nat × Nat)) :=
  optionAll (map_tracksCommon.map fun t => trackFeatures t.2)

/-- Angles between the bearing vectors of the inliers (`vec_angles`). -/
def pairAngles (C : Collaborators) (I J : Nat) (cam_I cam_J : Intrinsic)
    (common : List (Nat × Nat)) (info : RelativePose_Info) : Option (List ℚ) :=
  optionAll (info.vec_inliers.map fun inlier_idx =>
    (common.get? inlier_idx).map fun ij =>
      C.AngleBetweenRay Pose3.identity cam_I info.relativePose cam_J
        (C.feats I ij.1) (C.feats J ij.2))

/-- Median of the angles: element of rank `size / 2` (`std::nth_element`). -/
def medianAngle (vec_angles : List ℚ) : Option ℚ :=
  (vec_angles.insertionSort fun a b => a ≤ b).get? (vec_angles.length / 2)

/-- Body of the loop over `pairWise_matches_` for one pair: `some (some (angle, pair))`
when the pair is stored in `scoring_per_pair`, `some none` when it is not. -/
def scorePair (C : Collaborators) (e : Engine) (valid_views : StlSet) (current_pair : Pair) :
    Option (Option (ℚ × Pair)) :=
  let I := min current_pair.1 current_pair.2
  let J := max current_pair.1 current_pair.2
  if valid_views.contains I ∧ valid_views.contains J then
    match StlMap.find e.sfm_data_.views I, StlMap.find e.sfm_data_.views J with
    | some view_I, some view_J =>
      match StlMap.find e.sfm_data_.intrinsics view_I.id_intrinsic,
            StlMap.find e.sfm_data_.intrinsics view_J.id_intrinsic with
      | some cam_I, some cam_J =>
        if cam_I.isPinhole ∧ cam_J.isPinhole then
          match commonFeatures (GetTracksInImages (pairImageSet I J) e.map_tracks_) with
          | none => none
          | some common =>
            let xI := common.map fun ij => C.get_ud_pixel cam_I (C.feats I ij.1)
            let xJ := common.map fun ij => C.get_ud_pixel cam_J (C.feats J ij.2)
            match C.robustRelativePose cam_I cam_J (some 16) xI xJ 256 with
            | none => some none
            | some info =>
              if info.vec_inliers.length > iMin_inliers_count then
                match pairAngles C I J cam_I cam_J common info with
                | none => none
                | some vec_angles =>
                  match medianAngle vec_angles with
                  | none => none
                  | some scoring_angle =>
                    if scoring_angle > fRequired_min_angle ∧ scoring_angle < fLimit_max_angle then
                      some (some (scoring_angle, current_pair))
                    else some none
              else some none
        else some none
      | _, _ => none
    | _, _ => none
  else some none

/-- Order of `std::pair<double, Pair>`: lexicographic. -/
def scoreLE (a b : ℚ × Pair) : Prop :=
  a.1 < b.1 ∨ (a.1 = b.1 ∧ (a.2.1 < b.2.1 ∨ (a.2.1 = b.2.1 ∧ a.2.2 ≤ b.2.2)))

instance : DecidableRel scoreLE := fun a b => by unfold scoreLE; infer_instance

/-- The vector `scoring_per_pair` built by the loop over the pairs. -/
def scoring_per_pair (C : Collaborators) (e : Engine) : Option (List (ℚ × Pair)) :=
  (optionAll (e.pairWise_matches_.map fun m =>
    scorePair C e (viewsWithIntrinsic e.sfm_data_) m.1)).map fun r => r.filterMap id

/-- `AutomaticInitialPairChoice`: `some (some pair)` when it returns true and
sets `initial_pair`, `some none` when it returns false. -/
def AutomaticInitialPairChoice (C : Collaborators) (e : Engine) : Option (Option Pair) :=
  if (viewsWithIntrinsic e.sfm_data_).length < 2 then some none
  else
    match scoring_per_pair C e with
    | none => none
    | some scoring =>
      match (scoring.insertionSort scoreLE).reverse with
      | [] => some none
      | best :: _ => some (some best.2)

/-! ## Seeding: `MakeInitialPair3D` -/

/-- Landmarks of the two-view scene ("Init structure"): one per common track,
triangulated from the two features, observed in both views. -/
def initSeedStructure (C : Collaborators) (I J : Nat) (view_I view_J : View)
    (cam_I cam_J : Intrinsic) (Pose_I Pose_J : Pose3) :
    STLMAPTracks → StlMap Landmark → Option (StlMap Landmark) :=
  foldlOpt fun landmarks t =>
    match trackFeatures t.2 with
    | none => none
    | some (i, j) =>
      let x1_ := C.feats I i
      let x2_ := C.feats J j
      let X := C.TriangulateDLT cam_I Pose_I x1_ cam_J Pose_J x2_
      let obs := StlMap.assign (StlMap.assign [] view_I.id_view ⟨x1_, i⟩) view_J.id_view ⟨x2_, j⟩
      some (StlMap.assign landmarks t.1 ⟨X, obs⟩)

/-- Test applied to a refined seed landmark and its two observations. -/
def seedInlier (C : Collaborators) (cam_I cam_J : Intrinsic) (pose_I pose_J : Pose3)
    (found_residual_precision : ℚ) (landmark : Landmark) (ob_xI ob_xJ : Observation) : Bool :=
  decide (C.AngleBetweenRay pose_I cam_I pose_J cam_J ob_xI.x ob_xJ.x > 2
    ∧ C.depth pose_I landmark.X > 0
    ∧ C.depth pose_J landmark.X > 0
    ∧ C.residualNorm cam_I pose_I landmark.X ob_xI.x < found_residual_precision
    ∧ C.residualNorm cam_J pose_J landmark.X ob_xJ.x < found_residual_precision)

/-- Loop "List inliers and save them" over the landmarks of the refined
two-view scene; the accumulator is the structure of the main scene. -/
def saveSeedInliers (C : Collaborators) (view_I view_J : View) (cam_I cam_J : Intrinsic)
    (pose_I pose_J : Pose3) (found_residual_precision : ℚ) :
    List (Nat × Landmark) → StlMap Landmark → Option (StlMap Landmark) :=
  foldlOpt fun s tl =>
    match StlMap.find tl.2.obs view_I.id_view, StlMap.find tl.2.obs view_J.id_view with
    | some ob_xI, some ob_xJ =>
      if seedInlier C cam_I cam_J pose_I pose_J found_residual_precision tl.2 ob_xI ob_xJ then
        some (StlMap.assign s tl.1 tl.2)
      else some s
    | _, _ => none

/-- Two-view scene handed to the bundle adjuster (`tiny_scene`). -/
def seedTinyScene (C : Collaborators) (e : Engine) (I J : Nat) (view_I view_J : View)
    (cam_I cam_J : Intrinsic) (info : RelativePose_Info) : Option SfM_Data :=
  match StlMap.find e.sfm_data_.views view_I.id_view,
        StlMap.find e.sfm_data_.views view_J.id_view with
  | some vI, some vJ =>
    let views := StlMap.insertNew (StlMap.insertNew [] view_I.id_view vI) view_J.id_view vJ
    let intrinsics :=
      StlMap.insertNew (StlMap.insertNew [] view_I.id_intrinsic cam_I) view_J.id_intrinsic cam_J
    let poses :=
      StlMap.assign (StlMap.assign [] view_I.id_pose Pose3.identity) view_J.id_pose info.relativePose
    let Pose_I := (StlMap.find poses view_I.id_pose).getD Pose3.identity
    let Pose_J := (StlMap.find poses view_J.id_pose).getD Pose3.identity
    match initSeedStructure C I J view_I view_J cam_I cam_J Pose_I Pose_J
        (GetTracksInImages (pairImageSet I J) e.map_tracks_) [] with
    | none => none
    | some landmarks => some ⟨views, intrinsics, poses, landmarks⟩
  | _, _ => none

/-- `MakeInitialPair3D`: result flag and updated engine. -/
def MakeInitialPair3D (C : Collaborators) (e : Engine) (current_pair : Pair) :
    Option (Bool × Engine) :=
  let I := min current_pair.1 current_pair.2
  let J := max current_pair.1 current_pair.2
  match StlMap.find e.sfm_data_.views I, StlMap.find e.sfm_data_.views J with
  | some view_I, some view_J =>
    match StlMap.find e.sfm_data_.intrinsics view_I.id_intrinsic,
          StlMap.find e.sfm_data_.intrinsics view_J.id_intrinsic with
    | some cam_I, some cam_J =>
      if ¬ (cam_I.isPinhole ∧ cam_J.isPinhole) then some (false, e)
      else
        match commonFeatures (GetTracksInImages (pairImageSet I J) e.map_tracks_) with
        | none => none
        | some common =>
          let xI := common.map fun ij => C.get_ud_pixel cam_I (C.feats I ij.1)
          let xJ := common.map fun ij => C.get_ud_pixel cam_J (C.feats J ij.2)
          match C.robustRelativePose cam_I cam_J none xI xJ 4096 with
          | none => some (false, e)
          | some info =>
            -- Bound min precision at 1 pix.
            let found_residual_precision := max info.found_residual_precision 1
            match seedTinyScene C e I J view_I view_J cam_I cam_J info with
            | none => none
            | some tiny_scene =>
              let ba := C.Adjust tiny_scene ⟨0, true, true, false⟩
              if ¬ ba.1 then some (false, e)
              else
                let tiny := ba.2
                let pose_I := (StlMap.find tiny.poses view_I.id_pose).getD Pose3.identity
                let poses1 := StlMap.assign e.sfm_data_.poses view_I.id_pose pose_I
                let pose_J := (StlMap.find tiny.poses view_J.id_pose).getD Pose3.identity
                let poses2 := StlMap.assign poses1 view_J.id_pose pose_J
                let thresholds :=
                  StlMap.insertNew (StlMap.insertNew e.map_ACThreshold_ I found_residual_precision)
                    J found_residual_precision
                let remaining :=
                  StlSet.erase (StlSet.erase e.set_remaining_view_id_ view_I.id_view) view_J.id_view
                match saveSeedInliers C view_I view_J cam_I cam_J pose_I pose_J
                    found_residual_precision tiny.structure_ e.sfm_data_.structure_ with
                | none => none
                | some structure1 =>
                  some (decide (structure1 ≠ []),
                    { e with sfm_data_ := { e.sfm_data_ with poses := poses2, structure_ := structure1 },
                             map_ACThreshold_ := thresholds,
                             set_remaining_view_id_ := remaining })
    | _, _ => some (false, e)
  | _, _ => none

/-! ## Resection -/

/-- Modelled from the spec: `TracksUtilsMap::GetFeatIndexPerViewAndTrackId`
(not among the sources) lists, for the track ids of the set in ascending
order, the feature index of the view in that track ("2D-3D correspondence
set"). -/
def GetFeatIndexPerViewAndTrackId (map_tracks : STLMAPTracks) (set_trackId : StlSet)
    (nImageIndex : Nat) : List Nat :=
  set_trackId.filterMap fun trackId =>
    (StlMap.find map_tracks trackId).bind fun t => StlMap.find t nImageIndex

/-- One 2D-3D correspondence of the resection: track id, feature index,
3D point of the landmark and pixel of the feature in the image domain. -/
structure Correspondence where
  trackId : Nat
  featId : Nat
  X : Vec3
  x : Vec2
deriving DecidableEq, Repr

/-- Step A: ids of the tracks of the view that are already reconstructed
(`set_trackIdForResection`). -/
def trackIdsForResection (e : Engine) (viewIndex : Nat) : StlSet :=
  set_intersection (GetTracksIdVector (GetTracksInImages [viewIndex] e.map_tracks_))
    (StlMap.keys e.sfm_data_.structure_)

/-- Correspondences of a view with the reconstructed landmarks (steps A and B):
`pt3D.col(cpt)`, `pt2D_original.col(cpt)` with their track and feature ids. -/
def resectionCorrespondences (C : Collaborators) (e : Engine) (viewIndex : Nat) :
    Option (List Correspondence) :=
  let set_trackIdForResection := trackIdsForResection e viewIndex
  let vec_featIdForResection :=
    GetFeatIndexPerViewAndTrackId (GetTracksInImages [viewIndex] e.map_tracks_)
      set_trackIdForResection viewIndex
  optionAll ((set_trackIdForResection.zip vec_featIdForResection).map fun tf =>
    (StlMap.find e.sfm_data_.structure_ tf.1).map fun landmark =>
      (⟨tf.1, tf.2, landmark.X, C.feats viewIndex tf.2⟩ : Correspondence))

/-- New camera of the configured type (`switch (cam_type_)`); `none` for an
unknown camera type. -/
def makeIntrinsic (cam_type : EINTRINSIC) (w h : Nat) (focal ppx ppy : ℚ) : Option Intrinsic :=
  match cam_type with
  | EINTRINSIC.UNKNOWN => none
  | k => some ⟨k, true, w, h, focal, ppx, ppy⟩

/-- New unique intrinsic identifier: 0, or the largest existing id plus one
(`IndexT` is a 32 bit unsigned integer). -/
def newIntrinsicId (intrinsics : StlMap Intrinsic) : Nat :=
  match StlSet.maxElement (StlMap.keys intrinsics) with
  | none => 0
  | some m => (m + 1) % 2 ^ 32

/-- Access `structure[trackId].obs[viewIndex] = ob`; `operator[]` creates a
missing landmark. -/
def addObservation (s : StlMap Landmark) (trackId viewIndex : Nat) (ob : Observation) :
    StlMap Landmark :=
  let landmark := (StlMap.find s trackId).getD ⟨(0, 0, 0), []⟩
  StlMap.assign s trackId { landmark with obs := StlMap.assign landmark.obs viewIndex ob }

/-- Inlier test of step F for one correspondence. -/
def resectionInlier (C : Collaborators) (intrinsic : Intrinsic) (pose : Pose3) (error_max : ℚ)
    (c : Correspondence) : Bool :=
  decide (C.residualNorm intrinsic pose c.X c.x < error_max ∧ C.depth pose c.X > 0)

/-- Step F: add the new 2D observations to the reconstructed tracks. -/
def resectionStepF (C : Collaborators) (intrinsic : Intrinsic) (pose : Pose3) (error_max : ℚ)
    (viewIndex : Nat) (corr : List Correspondence) (s : StlMap Landmark) : StlMap Landmark :=
  corr.foldl
    (fun s c =>
      if resectionInlier C intrinsic pose error_max c then
        addObservation s c.trackId viewIndex ⟨c.x, c.featId⟩
      else s)
    s

/-- Threshold of a view in step G, `std::max(4.0, map_ACThreshold_.at(I))`. -/
def viewThreshold (map_ACThreshold : StlMap ℚ) (I : Nat) : Option ℚ :=
  (StlMap.find map_ACThreshold I).map fun t => max 4 t

/-- Step G for one view: add the observation of view `I` to an existing
landmark when it has none and passes the depth and residual test. -/
def extendLandmark (C : Collaborators) (map_ACThreshold : StlMap ℚ) (I : Nat) (cam_I : Intrinsic)
    (pose_I : Pose3) (xI : Vec2) (featI : Nat) (landmark : Landmark) : Option Landmark :=
  if StlMap.contains landmark.obs I then some landmark
  else if C.depth pose_I landmark.X > 0 then
    match viewThreshold map_ACThreshold I with
    | none => none
    | some t =>
      if C.residualNorm cam_I pose_I landmark.X xI < t then
        some { landmark with obs := StlMap.assign landmark.obs I ⟨xI, featI⟩ }
      else some landmark
  else some landmark

/-- Step G for one common track of the views `I < J`. -/
def triangulateTrack (C : Collaborators) (map_ACThreshold : StlMap ℚ) (I J : Nat)
    (cam_I cam_J : Intrinsic) (pose_I pose_J : Pose3)
    (s : StlMap Landmark) (t : Nat × SubmapTrack) : Option (StlMap Landmark) :=
  match StlMap.find t.2 I, StlMap.find t.2 J with
  | some featI, some featJ =>
    let xI := C.feats I featI
    let xJ := C.feats J featJ
    match StlMap.find s t.1 with
    | some landmark =>
      -- 3D point triangulated before, only add image observation if needed
      match extendLandmark C map_ACThreshold I cam_I pose_I xI featI landmark with
      | none => none
      | some landmark1 =>
        match extendLandmark C map_ACThreshold J cam_J pose_J xJ featJ landmark1 with
        | none => none
        | some landmark2 => some (StlMap.assign s t.1 landmark2)
    | none =>
      -- A new 3D point must be added
      let X_euclidean :=
        C.TriangulateDLT cam_I pose_I (C.get_ud_pixel cam_I xI) cam_J pose_J (C.get_ud_pixel cam_J xJ)
      if C.AngleBetweenRay pose_I cam_I pose_J cam_J xI xJ > 2
          ∧ C.depth pose_I X_euclidean > 0 ∧ C.depth pose_J X_euclidean > 0 then
        match viewThreshold map_ACThreshold I with
        | none => none
        | some tI =>
          if C.residualNorm cam_I pose_I X_euclidean xI < tI then
            match viewThreshold map_ACThreshold J with
            | none => none
            | some tJ =>
              if C.residualNorm cam_J pose_J X_euclidean xJ < tJ then
                some (StlMap.assign s t.1
                  ⟨X_euclidean, StlMap.assign (StlMap.assign [] I ⟨xI, featI⟩) J ⟨xJ, featJ⟩⟩)
              else some s
          else some s
      else some s
  | _, _ => none

/-- Step G, body of the loop over the valid views for the view `indexI`. -/
def triangulateWithView (C : Collaborators) (e : Engine) (viewIndex : Nat)
    (s : StlMap Landmark) (indexI : Nat) : Option (StlMap Landmark) :=
  if indexI = viewIndex then some s
  else
    let I := min viewIndex indexI
    let J := max viewIndex indexI
    let map_tracksCommonIJ := GetTracksInImages [I, J] e.map_tracks_
    match StlMap.find e.sfm_data_.views I, StlMap.find e.sfm_data_.views J with
    | some view_I, some view_J =>
      match StlMap.find e.sfm_data_.intrinsics view_I.id_intrinsic,
            StlMap.find e.sfm_data_.intrinsics view_J.id_intrinsic,
            StlMap.find e.sfm_data_.poses view_I.id_pose,
            StlMap.find e.sfm_data_.poses view_J.id_pose with
      | some cam_I, some cam_J, some pose_I, some pose_J =>
        foldlOpt (triangulateTrack C e.map_ACThreshold_ I J cam_I cam_J pose_I pose_J)
          map_tracksCommonIJ s
      | _, _, _, _ => none
    | _, _ => none

/-- Step G: triangulate the new possible tracks with every valid view. The
views, intrinsics, poses and thresholds are those of `e`; `s` is the structure. -/
def resectionStepG (C : Collaborators) (e : Engine) (viewIndex : Nat) (s : StlMap Landmark) :
    Option (StlMap Landmark) :=
  foldlOpt (triangulateWithView C e viewIndex) (C.Get_Valid_Views e.sfm_data_) s

/-- Step E: store the new intrinsic (if one was created), the pose and the threshold. -/
def resectionCommit (e : Engine) (viewIndex : Nat) (view_I : View) (b_new_intrinsic : Bool)
    (intrinsic : Intrinsic) (pose : Pose3) (error_max : ℚ) : Engine :=
  let d := e.sfm_data_
  let d1 : SfM_Data :=
    if b_new_intrinsic then
      let new_intrinsic_id := newIntrinsicId d.intrinsics
      { d with views := StlMap.assign d.views viewIndex { view_I with id_intrinsic := new_intrinsic_id },
               intrinsics := StlMap.assign d.intrinsics new_intrinsic_id intrinsic }
    else d
  { e with sfm_data_ := { d1 with poses := StlMap.assign d1.poses view_I.id_pose pose },
           map_ACThreshold_ := StlMap.insertNew e.map_ACThreshold_ viewIndex error_max }

/-- `Resection(viewIndex)`: result flag and updated engine. -/
def Resection (C : Collaborators) (e : Engine) (viewIndex : Nat) : Option (Bool × Engine) :=
  if trackIdsForResection e viewIndex = [] then some (false, e)
  else
    match StlMap.find e.sfm_data_.views viewIndex with
    | none => none
    | some view_I =>
      match resectionCorrespondences C e viewIndex with
      | none => none
      | some corr =>
        let optional_intrinsic := StlMap.find e.sfm_data_.intrinsics view_I.id_intrinsic
        let pt2D := corr.map fun c =>
          match optional_intrinsic with
          | some intr => if C.have_disto intr then C.get_ud_pixel intr c.x else c.x
          | none => c.x
        let pt3D := corr.map fun c => c.X
        let pt2D_original := corr.map fun c => c.x
        match C.Localize (view_I.ui_width, view_I.ui_height) optional_intrinsic pt2D pt3D with
        | none => some (false, e)
        | some loc =>
          let b_new_intrinsic := optional_intrinsic.isNone
          let created : Option Intrinsic :=
            match optional_intrinsic with
            | some intr => some intr
            | none =>
              let fp := C.focalAndPrincipalPoint loc.projection_matrix
              makeIntrinsic e.cam_type_ view_I.ui_width view_I.ui_height fp.1 fp.2.1 fp.2.2
          match created with
          | none => some (false, e)
          | some intrinsic =>
            match C.RefinePose intrinsic loc.pose loc pt2D_original pt3D with
            | none => some (false, e)
            | some pose =>
              let e1 := resectionCommit e viewIndex view_I b_new_intrinsic intrinsic pose loc.error_max
              let s1 := resectionStepF C intrinsic pose loc.error_max viewIndex corr
                e1.sfm_data_.structure_
              let e2 := { e1 with sfm_data_ := { e1.sfm_data_ with structure_ := s1 } }
              match resectionStepG C e2 viewIndex s1 with
              | none => none
              | some s2 => some (true, { e2 with sfm_data_ := { e2.sfm_data_ with structure_ := s2 } })

/-! ## Refinement and outlier rejection -/

/-- `BundleAdjustment()`: sparse solver when there are more than 100 poses and
a sparse library is available. -/
def BundleAdjustment (C : Collaborators) (e : Engine) : Bool × Engine :=
  let sparse := decide (e.sfm_data_.poses.length > 100) && C.sparseAvailable
  let r := C.Adjust e.sfm_data_ ⟨e.intrinsic_refinement_options_, true, true, sparse⟩
  (r.1, { e with sfm_data_ := r.2 })

/-- Numbers of observations removed by the two passes of `badTrackRejector`
(`nbOutliers_residualErr`, `nbOutliers_angleErr`). -/
def rejectedCounts (C : Collaborators) (e : Engine) (dPrecision : ℚ) : Nat × Nat :=
  let r1 := C.RemoveOutliers_PixelResidualError e.sfm_data_ dPrecision 2
  let r2 := C.RemoveOutliers_AngleError r1.1 2
  (r1.2, r2.2)

/-- `badTrackRejector(dPrecision, count)`. -/
def badTrackRejector (C : Collaborators) (e : Engine) (dPrecision : ℚ) (count : Nat) :
    Bool × Engine :=
  let r1 := C.RemoveOutliers_PixelResidualError e.sfm_data_ dPrecision 2
  let nbOutliers_residualErr := r1.2
  let r2 := C.RemoveOutliers_AngleError r1.1 2
  let nbOutliers_angleErr := r2.2
  (decide (nbOutliers_residualErr + nbOutliers_angleErr > count), { e with sfm_data_ := r2.1 })

/-- One pass of the body and condition of
`do { BundleAdjustment(); } while (badTrackRejector(4.0, 50));`. -/
def refineCycle (C : Collaborators) (e : Engine) : Bool × Engine :=
  badTrackRejector C (BundleAdjustment C e).2 4 50

/-- The loop `do { BundleAdjustment(); } while (badTrackRejector(4.0, 50));`,
with the number of cycles it ran. -/
def refineLoop (C : Collaborators) : Nat → Engine → Option (Nat × Engine)
  | 0, _ => none
  | fuel + 1, e =>
    let r := refineCycle C e
    if r.1 then (refineLoop C fuel r.2).map fun x => (x.1 + 1, x.2)
    else some (1, r.2)

/-! ## The reconstruction process -/

/-- `ChooseInitialPair(initialPairIndex)`: result flag and the value of
`initialPairIndex` on return. -/
def ChooseInitialPair (C : Collaborators) (e : Engine) : Bool × Pair :=
  let check : Pair → Bool × Pair := fun p => (C.hasFeatures p.1 && C.hasFeatures p.2, p)
  if e.initial_pair_ ≠ (0, 0) then check e.initial_pair_
  else if e.sfm_data_.intrinsics = [] ∨ viewsWithIntrinsic e.sfm_data_ = [] then
    (false, e.initial_pair_)
  else
    match C.userPair with
    | some p => check p
    | none => check e.initial_pair_

/-- Bookkeeping after `Resection(*iter)` in the loop of `Process`: the view
leaves the remaining set and, in restricted mode, moves from the active subset
to the reconstructed set. -/
def dropFromPools (e : Engine) (viewId : Nat) : Engine :=
  let e2 := { e with set_remaining_view_id_ := StlSet.erase e.set_remaining_view_id_ viewId }
  if e2.bRestricted_window_SfM_ then
    { e2 with
      set_remaining_view_id_subset_ := StlSet.erase e2.set_remaining_view_id_subset_ viewId,
      set_reconstructed_view_id_ := StlSet.insert e2.set_reconstructed_view_id_ viewId }
  else e2

/-- Loop over `vec_possible_resection_indexes` in `Process`. -/
def resectGroup (C : Collaborators) : List Nat → Bool → Engine → Option (Bool × Engine)
  | [], bImageAdded, e => some (bImageAdded, e)
  | viewId :: rest, bImageAdded, e =>
    match Resection C e viewId with
    | none => none
    | some (ok, e1) => resectGroup C rest (bImageAdded || ok) (dropFromPools e1 viewId)

/-- The loop `while (FindImagesWithPossibleResection(...))` of `Process`. -/
def growthLoop (C : Collaborators) : Nat → Engine → Option Engine
  | 0, _ => none
  | fuel + 1, e =>
    match FindImagesWithPossibleResection e with
    | none => none
    | some (false, _, e1) => some e1
    | some (true, vec_possible_resection_indexes, e1) =>
      match resectGroup C vec_possible_resection_indexes false e1 with
      | none => none
      | some (false, e2) => growthLoop C fuel e2
      | some (true, e2) =>
        match refineLoop C fuel e2 with
        | none => none
        | some (_, e3) =>
          growthLoop C fuel
            { e3 with sfm_data_ := C.eraseUnstablePosesAndObservations e3.sfm_data_ }

/-- Choice of the initial pair in `Process`: the engine with `initial_pair_`
set, or `some none` when `Process` returns false. -/
def chooseSeed (C : Collaborators) (e : Engine) : Option (Option Engine) :=
  if e.initial_pair_ = (0, 0) then
    match AutomaticInitialPairChoice C e with
    | none => none
    | some (some p) => some (some { e with initial_pair_ := p })
    | some none =>
      let r := ChooseInitialPair C e
      if r.1 then some (some { e with initial_pair_ := r.2 }) else some none
  else some (some e)

/-- "Set initial pair as reconstructed views" (restricted mode only). -/
def markSeedReconstructed (e : Engine) : Engine :=
  if e.bRestricted_window_SfM_ then
    { e with
      set_reconstructed_view_id_ :=
        StlSet.insert (StlSet.insert e.set_reconstructed_view_id_ e.initial_pair_.1)
          e.initial_pair_.2 }
  else e

/-- "Ensure there is no remaining outliers": `badTrackRejector(4.0, 0)` and,
when it returns true, `eraseUnstablePosesAndObservations`. -/
def finalRejection (C : Collaborators) (e : Engine) : Engine :=
  let r := badTrackRejector C e 4 0
  if r.1 then { r.2 with sfm_data_ := C.eraseUnstablePosesAndObservations r.2.sfm_data_ }
  else r.2

/-- Part of `Process` that follows a successful `MakeInitialPair3D`. -/
def growAndFinish (C : Collaborators) (fuel : Nat) (e : Engine) : Option (Bool × Engine) :=
  match growthLoop C fuel (markSeedReconstructed e) with
  | none => none
  | some e2 => some (true, finalRejection C e2)

/-- State after the filter on the largest bi-edge connected component and
`InitLandmarkTracks`. -/
def filterAndBuildTracks (C : Collaborators) (e : Engine) : Engine :=
  let set_remainingIds := C.CleanGraph_KeepLargestBiEdge_Nodes (e.pairWise_matches_.map Prod.fst)
  let e1 := { e with
    pairWise_matches_ := C.KeepOnlyReferencedElement set_remainingIds e.pairWise_matches_,
    set_remaining_view_id_ := set_remainingIds }
  { e1 with map_tracks_ := C.buildTracks e1.pairWise_matches_ }

/-- `Process()`: `none` when the run does not return within `fuel` rounds of
its loops or leaves defined behaviour. -/
def Process (C : Collaborators) (fuel : Nat) (e : Engine) : Option (Bool × Engine) :=
  if C.CleanGraph_KeepLargestBiEdge_Nodes (e.pairWise_matches_.map Prod.fst) = [] then
    some (false, e)
  else
    let e2 := filterAndBuildTracks C e
    -- InitLandmarkTracks returns map_tracks_.size() > 0
    if e2.map_tracks_ = [] then some (false, e2)
    else
      match chooseSeed C e2 with
      | none => none
      | some none => some (false, e2)
      | some (some e3) =>
        match MakeInitialPair3D C e3 e3.initial_pair_ with
        | none => none
        | some (false, e4) => some (false, e4)
        | some (true, e4) => growAndFinish C fuel e4

/-- The loop `while (FindImagesWithPossibleResection(...))` of `Process`, with
the number of rounds, that is of executions of its body
(`resectionGroupIndex` when the loop ends). -/
def growthLoopRounds (C : Collaborators) : Nat → Engine → Option (Nat × Engine)
  | 0, _ => none
  | fuel + 1, e =>
    match FindImagesWithPossibleResection e with
    | none => none
    | some (false, _, e1) => some (0, e1)
    | some (true, vec_possible_resection_indexes, e1) =>
      match resectGroup C vec_possible_resection_indexes false e1 with
      | none => none
      | some (false, e2) => (growthLoopRounds C fuel e2).map fun r => (r.1 + 1, r.2)
      | some (true, e2) =>
        match refineLoop C fuel e2 with
        | none => none
        | some (_, e3) =>
          (growthLoopRounds C fuel
            { e3 with sfm_data_ := C.eraseUnstablePosesAndObservations e3.sfm_data_ }).map
            fun r => (r.1 + 1, r.2)

/-! ## Structures up to the order of storage -/

/-- Content of a landmark: its position and its observation in each view. -/
abbrev LandmarkView := Vec3 × (Nat → Option Observation)

/-- Position and observation per view of a stored landmark. -/
def Landmark.view (l : Landmark) : LandmarkView := (l.X, fun v => StlMap.find l.obs v)

/-- Content of a structure map: the content of the landmark of each track id. -/
def structureView (s : StlMap Landmark) : Nat → Option LandmarkView :=
  fun k => (StlMap.find s k).map Landmark.view

/-- Step G for one view, `extendLandmark`, on the content of a landmark. -/
def extendView (C : Collaborators) (map_ACThreshold : StlMap ℚ) (I : Nat) (cam_I : Intrinsic)
    (pose_I : Pose3) (xI : Vec2) (featI : Nat) (l : LandmarkView) : Option LandmarkView :=
  if (l.2 I).isSome then some l
  else if C.depth pose_I l.1 > 0 then
    match viewThreshold map_ACThreshold I with
    | none => none
    | some t =>
      if C.residualNorm cam_I pose_I l.1 xI < t then
        some (l.1, Function.update l.2 I (some ⟨xI, featI⟩))
      else some l
  else some l

/-- Step G for one common track of the views `I < J`, as a function of the
landmark `x` stored under the track id: the landmark stored afterwards, or
`none` when a lookup fails. -/
def trackUpdate (C : Collaborators) (map_ACThreshold : StlMap ℚ) (I J : Nat)
    (cam_I cam_J : Intrinsic) (pose_I pose_J : Pose3) (t : Nat × SubmapTrack)
    (x : Option Landmark) : Option (Option Landmark) :=
  match StlMap.find t.2 I, StlMap.find t.2 J with
  | some featI, some featJ =>
    let xI := C.feats I featI
    let xJ := C.feats J featJ
    match x with
    | some landmark =>
      match extendLandmark C map_ACThreshold I cam_I pose_I xI featI landmark with
      | none => none
      | some landmark1 =>
        match extendLandmark C map_ACThreshold J cam_J pose_J xJ featJ landmark1 with
        | none => none
        | some landmark2 => some (some landmark2)
    | none =>
      let X_euclidean :=
        C.TriangulateDLT cam_I pose_I (C.get_ud_pixel cam_I xI) cam_J pose_J (C.get_ud_pixel cam_J xJ)
      if C.AngleBetweenRay pose_I cam_I pose_J cam_J xI xJ > 2
          ∧ C.depth pose_I X_euclidean > 0 ∧ C.depth pose_J X_euclidean > 0 then
        match viewThreshold map_ACThreshold I with
        | none => none
        | some tI =>
          if C.residualNorm cam_I pose_I X_euclidean xI < tI then
            match viewThreshold map_ACThreshold J with
            | none => none
            | some tJ =>
              if C.residualNorm cam_J pose_J X_euclidean xJ < tJ then
                some (some
                  ⟨X_euclidean, StlMap.assign (StlMap.assign [] I ⟨xI, featI⟩) J ⟨xJ, featJ⟩⟩)
              else some none
          else some none
      else some none
  | _, _ => none

/-- Store the landmark `r` under the track id `k`; nothing to store when `r` is `none`. -/
def storeLandmark (s : StlMap Landmark) (k : Nat) (r : Option Landmark) : StlMap Landmark :=
  match r with
  | none => s
  | some l => StlMap.assign s k l

/-- The function `trackUpdate` on the content of the landmark. -/
def trackUpdateView (C : Collaborators) (map_ACThreshold : StlMap ℚ) (I J : Nat)
    (cam_I cam_J : Intrinsic) (pose_I pose_J : Pose3) (t : Nat × SubmapTrack)
    (x : Option LandmarkView) : Option (Option LandmarkView) :=
  match x with
  | none =>
    (trackUpdate C map_ACThreshold I J cam_I cam_J pose_I pose_J t none).map
      (Option.map Landmark.view)
  | some l =>
    match StlMap.find t.2 I, StlMap.find t.2 J with
    | some featI, some featJ =>
      ((extendView C map_ACThreshold I cam_I pose_I (C.feats I featI) featI l).bind
        (extendView C map_ACThreshold J cam_J pose_J (C.feats J featJ) featJ)).map some
    | _, _ => none

/-- An update of the content stored under one track id. -/
abbrev KeyUpdate := Nat × (Option LandmarkView → Option (Option LandmarkView))

/-- Apply an update to the content of a structure map. -/
def applyUpdate (σ : Nat → Option LandmarkView) (u : KeyUpdate) : Option (Nat → Option LandmarkView) :=
  (u.2 (σ u.1)).map fun r => Function.update σ u.1 r

/-- Apply the updates of a list in order. -/
def applyUpdates (L : List KeyUpdate) (σ : Nat → Option LandmarkView) :
    Option (Nat → Option LandmarkView) :=
  foldlOpt applyUpdate L σ

/-- Apply, in order, the updates of a list that are for the track id `k` to
the content stored under `k`. -/
def applyUpdatesAt (k : Nat) (L : List KeyUpdate) (x : Option LandmarkView) :
    Option (Option LandmarkView) :=
  foldlOpt (fun y u => if u.1 = k then u.2 y else some y) L x

/-- One step after another, each of which may be undefined. -/
def thenStep {α : Type} (f g : α → Option α) : α → Option α := fun x => (f x).bind g

/-- Intrinsic and pose of a view, as step G looks them up. -/
def viewCamera (e : Engine) (a : Nat) : Option (Intrinsic × Pose3) :=
  match StlMap.find e.sfm_data_.views a with
  | none => none
  | some view =>
    match StlMap.find e.sfm_data_.intrinsics view.id_intrinsic,
          StlMap.find e.sfm_data_.poses view.id_pose with
    | some cam, some pose => some (cam, pose)
    | _, _ => none

/-- The updates that step G makes for the view `indexI`, one per common track;
`none` when a lookup of a view, intrinsic or pose fails. -/
def viewUpdates (C : Collaborators) (e : Engine) (viewIndex indexI : Nat) :
    Option (List KeyUpdate) :=
  if indexI = viewIndex then some []
  else
    let I := min viewIndex indexI
    let J := max viewIndex indexI
    match viewCamera e I, viewCamera e J with
    | some cp_I, some cp_J =>
      some ((GetTracksInImages [I, J] e.map_tracks_).map fun t =>
        (t.1, trackUpdateView C e.map_ACThreshold_ I J cp_I.1 cp_J.1 cp_I.2 cp_J.2 t))
    | _, _ => none

/-! ## Calls made by the refinement block of `Process` -/

/-- A call made by the block `if (bImageAdded) { ... }` of `Process`. -/
inductive RefineEvent where
  /-- Call `BundleAdjustment()`. -/
  | callBundleAdjustment
  /-- Call `badTrackRejector(4.0, 50)`, with its result. -/
  | callBadTrackRejector (result : Bool)
  /-- Call `eraseUnstablePosesAndObservations(sfm_data_)`. -/
  | callEraseUnstable
deriving DecidableEq, Repr

/-- The loop `do { BundleAdjustment(); } while (badTrackRejector(4.0, 50));`
with the calls it makes, in order. -/
def refineTrace (C : Collaborators) : Nat → Engine → Option (List RefineEvent × Engine)
  | 0, _ => none
  | fuel + 1, e =>
    let e1 := (BundleAdjustment C e).2
    let r := badTrackRejector C e1 4 50
    if r.1 then
      (refineTrace C fuel r.2).map fun x =>
        (RefineEvent.callBundleAdjustment :: RefineEvent.callBadTrackRejector true :: x.1, x.2)
    else some ([RefineEvent.callBundleAdjustment, RefineEvent.callBadTrackRejector false], r.2)

/-- The refinement of the block `if (bImageAdded) { ... }` of `Process`: the
loop, then `eraseUnstablePosesAndObservations(sfm_data_)`, with the calls made. -/
def refineBlock (C : Collaborators) (fuel : Nat) (e : Engine) :
    Option (List RefineEvent × Engine) :=
  (refineTrace C fuel e).map fun x =>
    (x.1 ++ [RefineEvent.callEraseUnstable],
     { x.2 with sfm_data_ := C.eraseUnstablePosesAndObservations x.2.sfm_data_ })

/-- Calls of `n` cycles whose rejection asks for another cycle. -/
def repeatedCycles : Nat → List RefineEvent
  | 0 => []
  | n + 1 =>
    RefineEvent.callBundleAdjustment :: RefineEvent.callBadTrackRejector true :: repeatedCycles n

/-- Every rejection that asks for another cycle is followed by a pruning
before the next bundle adjustment. -/
def prunedBeforeRepeat : List RefineEvent → Bool
  | RefineEvent.callBadTrackRejector true :: RefineEvent.callBundleAdjustment :: _ => false
  | _ :: rest => prunedBeforeRepeat rest
  | [] => true

/-! ## Cubic polynomials (`numeric/poly.h`) -/

/-- The functions of `<cmath>` used by the cubic solver, on the rationals that
stand for `Real`. -/
structure RealMath where
  /-- Function `sqrt(x)`. -/
  sqrt : ℚ → ℚ
  /-- Function `acos(x)`. -/
  acos : ℚ → ℚ
  /-- Function `cos(x)`. -/
  cos : ℚ → ℚ
  /-- Function `pow(x, y)`. -/
  pow : ℚ → ℚ → ℚ
  /-- Constant `M_PI`. -/
  M_PI : ℚ

/-- `SolveCubicPolynomial(a, b, c, x0, x1, x2)` for `x^3 + a x^2 + b x + c`:
the number of solutions and the contents of `*x0, *x1, *x2` after the call;
`x` holds their contents before the call. -/
def SolveCubicPolynomial (M : RealMath) (a b c : ℚ) (x : ℚ × ℚ × ℚ) : Nat × ℚ × ℚ × ℚ :=
  let q := a * a - 3 * b
  let r := 2 * a * a * a - 9 * a * b + 27 * c
  let Q := q / 9
  let R := r / 54
  let Q3 := Q * Q * Q
  let R2 := R * R
  let CR2 := 729 * r * r
  let CQ3 := 2916 * q * q * q
  if R = 0 ∧ Q = 0 then (3, -a / 3, -a / 3, -a / 3)
  else if CR2 = CQ3 then
    let sqrtQ := M.sqrt Q
    if R > 0 then (3, -2 * sqrtQ - a / 3, sqrtQ - a / 3, sqrtQ - a / 3)
    else (3, -sqrtQ - a / 3, -sqrtQ - a / 3, 2 * sqrtQ - a / 3)
  else if CR2 < CQ3 then
    let sqrtQ := M.sqrt Q
    let sqrtQ3 := sqrtQ * sqrtQ * sqrtQ
    let theta := M.acos (R / sqrtQ3)
    let norm := -2 * sqrtQ
    let x0 := norm * M.cos (theta / 3) - a / 3
    let x1 := norm * M.cos ((theta + 2 * M.M_PI) / 3) - a / 3
    let x2 := norm * M.cos ((theta - 2 * M.M_PI) / 3) - a / 3
    let s1 : ℚ × ℚ := if x0 > x1 then (x1, x0) else (x0, x1)
    if s1.2 > x2 then
      if s1.1 > x2 then (3, x2, s1.1, s1.2) else (3, s1.1, x2, s1.2)
    else (3, s1.1, s1.2, x2)
  else
    let sgnR : ℚ := if R ≥ 0 then 1 else -1
    let A := -sgnR * M.pow (|R| + M.sqrt (R2 - Q3)) (1 / 3)
    let B := Q / A
    (1, A + B - a / 3, x.2.1, x.2.2)

/-- `SolveCubicPolynomial(coeffs, solutions)`, the overload on arrays of four
values: `coeffs = (coeffs[0], coeffs[1], coeffs[2], coeffs[3])`, and `x` holds
`solutions[0..2]` before the call. -/
def SolveCubicPolynomial_coeffs (M : RealMath) (coeffs : ℚ × ℚ × ℚ × ℚ) (x : ℚ × ℚ × ℚ) :
    Nat × ℚ × ℚ × ℚ :=
  if coeffs.1 = 0 then (0, x)
  else
    let a := coeffs.2.2.1 / coeffs.2.2.2
    let b := coeffs.2.1 / coeffs.2.2.2
    let c := coeffs.1 / coeffs.2.2.2
    SolveCubicPolynomial M a b c x

/-- The overload on arrays as its documentation describes it, with
coefficients in ascending order: no solution for a quadratic
(`coeffs[3] = 0`), else the solutions of the monic cubic. -/
def SolveCubicPolynomial_coeffs_documented (M : RealMath) (coeffs : ℚ × ℚ × ℚ × ℚ)
    (x : ℚ × ℚ × ℚ) : Nat × ℚ × ℚ × ℚ :=
  if coeffs.2.2.2 = 0 then (0, x)
  else
    SolveCubicPolynomial M (coeffs.2.2.1 / coeffs.2.2.2) (coeffs.2.1 / coeffs.2.2.2)
      (coeffs.1 / coeffs.2.2.2) x

/-- Local variable `Q = q / 9` of `SolveCubicPolynomial`, with `q = a * a - 3 * b`. -/
def cubic_Q (a b : ℚ) : ℚ := (a * a - 3 * b) / 9

/-- Local variable `R = r / 54` of `SolveCubicPolynomial`, with
`r = 2 * a * a * a - 9 * a * b + 27 * c`. -/
def cubic_R (a b c : ℚ) : ℚ := (2 * a * a * a - 9 * a * b + 27 * c) / 54

/-- Local variable `CR2 = 729 * r * r` of `SolveCubicPolynomial`. -/
def cubic_CR2 (a b c : ℚ) : ℚ :=
  729 * (2 * a * a * a - 9 * a * b + 27 * c) * (2 * a * a * a - 9 * a * b + 27 * c)

/-- Local variable `CQ3 = 2916 * q * q * q` of `SolveCubicPolynomial`. -/
def cubic_CQ3 (a b : ℚ) : ℚ := 2916 * (a * a - 3 * b) * (a * a - 3 * b) * (a * a - 3 * b)

/-- Value of the polynomial `x^3 + a x^2 + b x + c`. -/
def cubicValue (a b c x : ℚ) : ℚ := x ^ 3 + a * x ^ 2 + b * x + c

/-- Functions of `<cmath>` for the examples: the square roots of 0, 1 and 4
are exact, the other values are not used. -/
def exampleMath : RealMath :=
  { sqrt := fun y => if y = 1 then 1 else if y = 4 then 2 else 0,
    acos := fun _ => 0,
    cos := fun _ => 1,
    pow := fun y _ => y,
    M_PI := 3 }

/-! ## Frame matching (`software/VSSLAM/slam/Tracker_Features.hpp`) -/

/-- The two best candidates of a reference feature in
`matchFramesFeatureMatchingNoMM`. -/
structure BestTwo where
  best_idx : Nat
  second_best_idx : Nat
  best_distance : ℚ
  second_best_distance : ℚ
deriving DecidableEq, Repr

/-- Value of `std::numeric_limits<size_t>::infinity()`: `size_t` has no
infinity, and the function returns `size_t()`, that is 0. -/
def size_t_infinity : Nat := 0

/-- Initial values of `best_idx`, `second_best_idx`, `best_distance` and
`second_best_distance`. -/
def BestTwo.init : BestTwo := ⟨size_t_infinity, size_t_infinity, 30, 30⟩

/-- Body of the loop over the candidates `c_i` for one reference feature:
`pixelDistance c_i` is `(candidate_feat_undist[c_i] - ref_feat_undist[p_i]).norm()`
and `descriptorDistance c_i` the squared descriptor distance to the candidate. -/
def bestTwoStep (win_size : ℚ) (pixelDistance descriptorDistance : Nat → ℚ) (st : BestTwo)
    (c_i : Nat) : BestTwo :=
  if pixelDistance c_i > win_size then st
  else
    let distance := descriptorDistance c_i
    if distance < st.best_distance then
      ⟨c_i, st.best_idx, distance, st.best_distance⟩
    else if distance < st.second_best_distance then
      { st with second_best_distance := distance, second_best_idx := c_i }
    else st

/-- The test `(best_distance / second_best_distance) < ratio` on doubles: the
quotient by zero is an infinity or not a number, and then the test holds only
for a negative infinity. -/
def ratioTest (best_distance second_best_distance ratio : ℚ) : Bool :=
  if second_best_distance = 0 then decide (best_distance < 0)
  else decide (best_distance / second_best_distance < ratio)

/-- "Detect best match": the value stored in `matches_ref_cur_idxs[p_i]`,
which is -1 when no match is stored. -/
def detectBestMatch (ratio : ℚ) (st : BestTwo) : Int :=
  if st.best_idx ≠ size_t_infinity then
    if st.second_best_idx ≠ size_t_infinity then
      if ratioTest st.best_distance st.second_best_distance ratio then (st.best_idx : Int)
      else -1
    else (st.best_idx : Int)
  else -1

/-- The search of `matchFramesFeatureMatchingNoMM` for one reference feature
among `n_candidates` candidates: the value of `matches_ref_cur_idxs[p_i]`. -/
def matchReference (win_size ratio : ℚ) (pixelDistance descriptorDistance : Nat → ℚ)
    (n_candidates : Nat) : Int :=
  detectBestMatch ratio
    ((List.range n_candidates).foldl (bestTwoStep win_size pixelDistance descriptorDistance)
      BestTwo.init)

/-- Inner loop of the pruning, over the entries `matches_ref_cur_idxs[j]`,
`j > i`: an entry equal to `v = matches_ref_cur_idxs[i]` is set to -1 and
clears `bOkMatch`. The result is `bOkMatch` and the entries after the loop. -/
def pruneScan (v : Int) : Bool → List Int → Bool × List Int
  | bOkMatch, [] => (bOkMatch, [])
  | bOkMatch, x :: t =>
    if v = x then
      let r := pruneScan v false t
      (r.1, (-1) :: r.2)
    else
      let r := pruneScan v bOkMatch t
      (r.1, x :: r.2)

/-- Outer loop of the pruning from the index `i`, on the entries
`matches_ref_cur_idxs[i ..]`; `bOkMatch` is true at the start of every
iteration. The fuel is the number of entries left. -/
def pruneLoop : Nat → Nat → List Int → StlMap Nat → StlMap Nat
  | 0, _, _, match_cur_ref_feat_ids => match_cur_ref_feat_ids
  | _ + 1, _, [], match_cur_ref_feat_ids => match_cur_ref_feat_ids
  | fuel + 1, i, x :: t, match_cur_ref_feat_ids =>
    if x ≠ -1 then
      let r := pruneScan x true t
      if r.1 then pruneLoop fuel (i + 1) r.2 (StlMap.assign match_cur_ref_feat_ids x.toNat i)
      else pruneLoop fuel (i + 1) r.2 match_cur_ref_feat_ids
    else pruneLoop fuel (i + 1) t match_cur_ref_feat_ids

/-- "Prune matches and insert" of `matchFramesFeatureMatchingNoMM`: the map
`match_cur_ref_feat_ids` after the loops and the returned size. -/
def pruneMatches (matches_ref_cur_idxs : List Int) (match_cur_ref_feat_ids : StlMap Nat) :
    StlMap Nat × Nat :=
  let m := pruneLoop matches_ref_cur_idxs.length 0 matches_ref_cur_idxs match_cur_ref_feat_ids
  (m, m.length)

/-! ## Map initialization (`vsslam/mapping/Cartographer.cpp`) -/

/-- The map `map_landmarkDegree_nPts` of
`findMinLandmarkQualityForGlobalMapInitialization`: for each degree, the number
of landmarks of `tmp_structure` with that number of observations. The local
structure is given by the values `n_all_obs_` of its landmarks. -/
def landmarkDegreeCounts (tmp_structure : List Nat) : StlMap Nat :=
  tmp_structure.foldl
    (fun m n_all_obs => StlMap.assign m n_all_obs ((StlMap.find m n_all_obs).getD 0 + 1)) []

/-- The loop from `rbegin()` to `rend()` over the degrees: `n_totalPts` is
the running total, the result is `min_necessary_connectivity`. -/
def firstSufficientDegree (init_min_map_pts min_obs_per_landmark : Nat) :
    List (Nat × Nat) → Nat → Nat
  | [], _ => 0
  | (degree, nPts) :: rest, n_totalPts =>
    if n_totalPts + nPts ≥ init_min_map_pts then min min_obs_per_landmark degree
    else firstSufficientDegree init_min_map_pts min_obs_per_landmark rest (n_totalPts + nPts)

/-- `Cartographer::findMinLandmarkQualityForGlobalMapInitialization`. -/
def findMinLandmarkQualityForGlobalMapInitialization (tmp_structure : List Nat)
    (init_min_map_pts min_obs_per_landmark : Nat) : Nat :=
  firstSufficientDegree init_min_map_pts min_obs_per_landmark
    (landmarkDegreeCounts tmp_structure).reverse 0

/-- Total of the counts of the degrees that satisfy `p`. -/
def degreeTotal (p : Nat → Bool) (m : List (Nat × Nat)) : Nat :=
  ((m.filter fun kc => p kc.1).map Prod.snd).sum

/-! ## Colouring of the landmarks
(`software/SfM/main_ComputeSfM_DataColorWithUncertainty.cpp`) -/

/-- Modelled from the spec: `stl::indexed_sort::sort_index_helper(packet_vec,
data, 1)` with packets `sort_index_packet_descend` is declared in
`openMVG/stl/indexed_sort.hpp`, which is not among the sources. It puts first
the packet of a largest value ("Find the View index that is the most
represented", "First image index with the most of occurence"); the result is
`packet_vec[0].index`, here the index of the first largest value, undefined
for an empty vector. -/
def sort_index_first (vec_cardinal : List Nat) : Option Nat :=
  if vec_cardinal = [] then none
  else some (vec_cardinal.indexOf (vec_cardinal.foldl max 0))

/-- The map `map_IndexCardinal` of `ColorizeTracks`: for each view, the number
of its observations among the remaining tracks. -/
def countObservations (structure_ : StlMap Landmark) (remainingTrackToColor : StlSet) :
    Option (StlMap Nat) :=
  foldlOpt
    (fun map_IndexCardinal trackId =>
      match StlMap.find structure_ trackId with
      | none => none
      | some landmark =>
        some (landmark.obs.foldl
          (fun m vo => StlMap.assign m vo.1 ((StlMap.find m vo.1).getD 0 + 1))
          map_IndexCardinal))
    remainingTrackToColor []

/-- The view `view_index` of `ColorizeTracks`: the key of `map_IndexCardinal`
at the position given by the sort. -/
def mostRepresentedView (map_IndexCardinal : StlMap Nat) : Option Nat :=
  match sort_index_first (map_IndexCardinal.map Prod.snd) with
  | none => none
  | some index => (map_IndexCardinal.get? index).map Prod.fst

/-- The map `trackIds_to_contiguousIndexes`: the rank of each track id among
the landmarks. -/
def contiguousIndexes (structure_ : StlMap Landmark) : StlMap Nat :=
  structure_.enum.foldl (fun m ikl => StlMap.assign m ikl.2.1 ikl.1) []

/-- One step of the loop "Iterate through the remaining track to color": the
track seen in `view_index` gets the colour of its pixel and joins
`set_toRemove`. The state is `(vec_tracksColor, set_toRemove)`, the first as
the map of the slots written. -/
def colorTrack (structure_ : StlMap Landmark) (contiguous : StlMap Nat) (image : Vec2 → Vec3)
    (view_index : Nat) (st : StlMap Vec3 × StlSet) (trackId : Nat) :
    Option (StlMap Vec3 × StlSet) :=
  match StlMap.find structure_ trackId with
  | none => none
  | some landmark =>
    match StlMap.find landmark.obs view_index with
    | none => some st
    | some ob =>
      some (StlMap.assign st.1 ((StlMap.find contiguous trackId).getD 0) (image ob.x),
            StlSet.insert st.2 trackId)

/-- Body of the loop `while (!remainingTrackToColor.empty())`. `ReadImage`
gives the image of a view as a function from pixels to colours, `none` when
the file can be read neither as colour nor as gray image. The result is
`some none` when the image cannot be read, else the view, the remaining tracks
and the colours after the iteration. -/
def colorizeStep (ReadImage : View → Option (Vec2 → Vec3)) (d : SfM_Data)
    (contiguous : StlMap Nat) (remainingTrackToColor : StlSet) (vec_tracksColor : StlMap Vec3) :
    Option (Option (Nat × StlSet × StlMap Vec3)) :=
  match countObservations d.structure_ remainingTrackToColor with
  | none => none
  | some map_IndexCardinal =>
    match mostRepresentedView map_IndexCardinal with
    | none => none
    | some view_index =>
      match StlMap.find d.views view_index with
      | none => none
      | some view =>
        match ReadImage view with
        | none => some none
        | some image =>
          match foldlOpt (colorTrack d.structure_ contiguous image view_index)
              remainingTrackToColor (vec_tracksColor, []) with
          | none => none
          | some r =>
            some (some (view_index, r.2.foldl StlSet.erase remainingTrackToColor, r.1))

/-- The loop `while (!remainingTrackToColor.empty())` of `ColorizeTracks`: the
result flag, the colours and the views selected, in order. -/
def colorizeLoop (ReadImage : View → Option (Vec2 → Vec3)) (d : SfM_Data)
    (contiguous : StlMap Nat) :
    Nat → StlSet → StlMap Vec3 → List Nat → Option (Bool × StlMap Vec3 × List Nat)
  | 0, remainingTrackToColor, vec_tracksColor, selected =>
    if remainingTrackToColor = [] then some (true, vec_tracksColor, selected) else none
  | fuel + 1, remainingTrackToColor, vec_tracksColor, selected =>
    if remainingTrackToColor = [] then some (true, vec_tracksColor, selected)
    else
      match colorizeStep ReadImage d contiguous remainingTrackToColor vec_tracksColor with
      | none => none
      | some none => some (false, vec_tracksColor, selected)
      | some (some r) =>
        colorizeLoop ReadImage d contiguous fuel r.2.1 r.2.2 (selected ++ [r.1])

/-- `ColorizeTracks(sfm_data, vec_3dPoints, vec_tracksColor)`: the result
flag, the slots of `vec_tracksColor` written with their colour, and the views
selected. The tracks to colour are the ids of the landmarks. -/
def ColorizeTracks (ReadImage : View → Option (Vec2 → Vec3)) (fuel : Nat) (d : SfM_Data) :
    Option (Bool × StlMap Vec3 × List Nat) :=
  colorizeLoop ReadImage d (contiguousIndexes d.structure_) fuel (StlMap.keys d.structure_) [] []

/-- The track has an observation in the view. -/
def trackSeenIn (structure_ : StlMap Landmark) (view_index trackId : Nat) : Bool :=
  match StlMap.find structure_ trackId with
  | none => false
  | some landmark => StlMap.contains landmark.obs view_index

/-! ## Example scenes -/

/-- Landmark of the examples, seen by views 0 and 1 through feature `t`. -/
def exampleLandmark (t : Nat) : Landmark :=
  { X := (0, 0, 1), obs := [(0, ⟨(0, 0), t⟩), (1, ⟨(0, 0), t⟩)] }

/-- Half a pixel, the rational 1/2. -/
def halfPixel : ℚ := ⟨1, 2, by decide, by decide⟩

/-- Pinhole camera of the examples. -/
def exampleCamera : Intrinsic := ⟨EINTRINSIC.PINHOLE_CAMERA, true, 10, 10, 1, 5, 5⟩

/-- Four views sharing one intrinsic group, each with its own pose id. -/
def exampleViews : StlMap View :=
  [(0, ⟨0, 0, 0, 10, 10⟩), (1, ⟨1, 0, 1, 10, 10⟩), (2, ⟨2, 0, 2, 10, 10⟩), (3, ⟨3, 0, 3, 10, 10⟩)]

/-- Engine after seeding on views 0 and 1 with four landmarks: view 2 sees
the tracks of the four landmarks, view 3 sees three of them. -/
def engineScores43 : Engine :=
  { sfm_data_ :=
      { views := exampleViews,
        intrinsics := [(0, exampleCamera)],
        poses := [(0, Pose3.identity), (1, Pose3.identity)],
        structure_ := [(0, exampleLandmark 0), (1, exampleLandmark 1),
                       (2, exampleLandmark 2), (3, exampleLandmark 3)] },
    map_tracks_ :=
      [(0, [(0, 0), (1, 0), (2, 0), (3, 0)]), (1, [(0, 1), (1, 1), (2, 1), (3, 1)]),
       (2, [(0, 2), (1, 2), (2, 2), (3, 2)]), (3, [(0, 3), (1, 3), (2, 3)])],
    map_ACThreshold_ := [(0, 1), (1, 1)],
    set_remaining_view_id_ := [2, 3],
    set_remaining_view_id_subset_ := [],
    set_reconstructed_view_id_ := [],
    initial_pair_ := (0, 1),
    cam_type_ := EINTRINSIC.PINHOLE_CAMERA_RADIAL3,
    bRestricted_window_SfM_ := false,
    sfm_slide_window_size_ := 0,
    pairWise_matches_ := [],
    intrinsic_refinement_options_ := 0 }

/-- Collaborators of the examples: the estimators succeed with every
correspondence as inlier, every angle is 20 degrees, every residual is half
a pixel, every depth is 1, the bundle adjuster leaves the scene as it is and
the outlier passes remove nothing. -/
def exampleCollaborators : Collaborators :=
  { feats := fun _ _ => (0, 0),
    hasFeatures := fun _ => true,
    get_ud_pixel := fun _ x => x,
    have_disto := fun _ => false,
    robustRelativePose := fun _ _ _ xI _ _ => some ⟨Pose3.identity, List.range xI.length, halfPixel⟩,
    TriangulateDLT := fun _ _ _ _ _ _ => (0, 0, 1),
    AngleBetweenRay := fun _ _ _ _ _ _ => 20,
    residualNorm := fun _ _ _ _ => halfPixel,
    depth := fun _ _ => 1,
    Adjust := fun d _ => (true, d),
    sparseAvailable := false,
    Localize := fun _ _ pt2D _ => some ⟨Pose3.identity, [], List.range pt2D.length, 2⟩,
    focalAndPrincipalPoint := fun _ => (1, 5, 5),
    RefinePose := fun _ pose _ _ _ => some pose,
    Get_Valid_Views := fun d =>
      (d.views.filter fun kv =>
        StlMap.contains d.intrinsics kv.2.id_intrinsic && StlMap.contains d.poses kv.2.id_pose).map
        fun kv => kv.2.id_view,
    RemoveOutliers_PixelResidualError := fun d _ _ => (d, 0),
    RemoveOutliers_AngleError := fun d _ => (d, 0),
    eraseUnstablePosesAndObservations := fun d => d,
    CleanGraph_KeepLargestBiEdge_Nodes := fun pairs =>
      pairs.foldl (fun s p => StlSet.insert (StlSet.insert s p.1) p.2) [],
    KeepOnlyReferencedElement := fun _ m => m,
    buildTracks := fun _ => [],
    userPair := none }

/-- Collaborators whose outlier passes remove 30 and 20 observations. -/
def collaboratorsRemoving50 : Collaborators :=
  { exampleCollaborators with
    RemoveOutliers_PixelResidualError := fun d _ _ => (d, 30),
    RemoveOutliers_AngleError := fun d _ => (d, 20) }

/-- Engine before seeding: views 0 and 1 share `n` tracks, the only pair with
matches is (0, 1). -/
def enginePair (n : Nat) : Engine :=
  { sfm_data_ :=
      { views := exampleViews, intrinsics := [(0, exampleCamera)], poses := [], structure_ := [] },
    map_tracks_ := (List.range n).map fun t => (t, [(0, t), (1, t)]),
    map_ACThreshold_ := [],
    set_remaining_view_id_ := [0, 1, 2, 3],
    set_remaining_view_id_subset_ := [],
    set_reconstructed_view_id_ := [],
    initial_pair_ := (0, 0),
    cam_type_ := EINTRINSIC.PINHOLE_CAMERA_RADIAL3,
    bRestricted_window_SfM_ := false,
    sfm_slide_window_size_ := 0,
    pairWise_matches_ := [((0, 1), [])],
    intrinsic_refinement_options_ := 0 }

/-- Pose moved away from the identity: centre (1, 0, 0). -/
def movedPose : Pose3 := ⟨[1, 0, 0, 0, 1, 0, 0, 0, 1], [1, 0, 0]⟩

/-- Collaborators whose bundle adjuster moves the centre of every pose to
(1, 0, 0). -/
def collaboratorsMovingPoses : Collaborators :=
  { exampleCollaborators with
    Adjust := fun d _ => (true, { d with poses := d.poses.map fun kp => (kp.1, movedPose) }) }

/-- Landmark created by the seed of the examples for track `t`. -/
def seedLandmark (t : Nat) : Landmark :=
  ⟨(0, 0, 1), [(0, ⟨(0, 0), t⟩), (1, ⟨(0, 0), t⟩)]⟩

/-- Two-view scene of the pair (0, 1) on `enginePair 3`. -/
def tinySceneSeed : SfM_Data :=
  ⟨[(0, ⟨0, 0, 0, 10, 10⟩), (1, ⟨1, 0, 1, 10, 10⟩)], [(0, exampleCamera)],
    [(0, Pose3.identity), (1, Pose3.identity)],
    [(0, seedLandmark 0), (1, seedLandmark 1), (2, seedLandmark 2)]⟩

/-- Engine `enginePair 3` after `MakeInitialPair3D` on the pair (0, 1) with
the collaborators of the examples. -/
def engineSeeded : Engine :=
  { enginePair 3 with
    sfm_data_ :=
      { views := exampleViews, intrinsics := [(0, exampleCamera)],
        poses := [(0, Pose3.identity), (1, Pose3.identity)],
        structure_ := [(0, seedLandmark 0), (1, seedLandmark 1), (2, seedLandmark 2)] },
    map_ACThreshold_ := [(0, 1), (1, 1)],
    set_remaining_view_id_ := [2, 3] }

/-! ## Predicates on scenes -/

/-- Every landmark of the scene has at least two observations. -/
def AllLandmarksHaveTwoObs (s : StlMap Landmark) : Prop :=
  ∀ kv ∈ s, 2 ≤ kv.2.obs.length

instance (s : StlMap Landmark) : Decidable (AllLandmarksHaveTwoObs s) := by
  unfold AllLandmarksHaveTwoObs; infer_instance

/-- The structure `s` keeps every landmark id of `s0` and is not smaller. -/
def KeepsLandmarks (s0 s : StlMap Landmark) : Prop :=
  (∀ k ∈ StlMap.keys s0, k ∈ StlMap.keys s) ∧ s0.length ≤ s.length

/-- The views are stored under their own id (`views[k]->id_view == k`). -/
def ViewsKeyedById (d : SfM_Data) : Prop :=
  ∀ kv ∈ d.views, kv.2.id_view = kv.1

instance (d : SfM_Data) : Decidable (ViewsKeyedById d) := by
  unfold ViewsKeyedById; infer_instance

/-- Every view that has a pose has an entry in the threshold map. -/
def ThresholdsCoverPoses (e : Engine) : Prop :=
  ∀ kv ∈ e.sfm_data_.views,
    StlMap.contains e.sfm_data_.poses kv.2.id_pose = true →
      StlMap.contains e.map_ACThreshold_ kv.1 = true

instance (e : Engine) : Decidable (ThresholdsCoverPoses e) := by
  unfold ThresholdsCoverPoses; infer_instance

/-- Each view has its own pose id. -/
def PoseIdsDistinct (views : StlMap View) : Prop :=
  ∀ a ∈ views, ∀ b ∈ views, a.2.id_pose = b.2.id_pose → a.1 = b.1

instance (views : StlMap View) : Decidable (PoseIdsDistinct views) := by
  unfold PoseIdsDistinct; infer_instance

/-- A sequence of `Resection` calls, one per view of the list; `none` when a
call is undefined. -/
def resectViews (C : Collaborators) (viewIndexes : List Nat) (e : Engine) : Option Engine :=
  foldlOpt (fun e0 viewIndex => (Resection C e0 viewIndex).map Prod.snd) viewIndexes e

/-! ## Example scenes: resection and full run -/

/-- Landmark of the examples once view 2 observes it. -/
def resectedLandmark (t : Nat) : Landmark :=
  ⟨(0, 0, 1), [(0, ⟨(0, 0), t⟩), (1, ⟨(0, 0), t⟩), (2, ⟨(0, 0), t⟩)]⟩

/-- Engine `engineScores43` after `Resection(2)` with the collaborators of the
examples. -/
def engineResected : Engine :=
  { engineScores43 with
    sfm_data_ :=
      { views := exampleViews, intrinsics := [(0, exampleCamera)],
        poses := [(0, Pose3.identity), (1, Pose3.identity), (2, Pose3.identity)],
        structure_ := [(0, resectedLandmark 0), (1, resectedLandmark 1),
                       (2, resectedLandmark 2), (3, resectedLandmark 3)] },
    map_ACThreshold_ := [(0, 1), (1, 1), (2, 2)] }

/-- Correspondences of view 2 with the landmarks of `engineScores43`. -/
def correspondencesView2 : List Correspondence :=
  [⟨0, 0, (0, 0, 1), (0, 0)⟩, ⟨1, 1, (0, 0, 1), (0, 0)⟩,
   ⟨2, 2, (0, 0, 1), (0, 0)⟩, ⟨3, 3, (0, 0, 1), (0, 0)⟩]

/-- Tracks of the run example: three tracks seen by views 0, 1, 2 and one
seen by views 0, 1, 3. -/
def runTracks : STLMAPTracks :=
  [(0, [(0, 0), (1, 0), (2, 0)]), (1, [(0, 1), (1, 1), (2, 1)]),
   (2, [(0, 2), (1, 2), (2, 2)]), (3, [(0, 3), (1, 3), (3, 0)])]

/-- Collaborators of the run example: the track builder returns `runTracks`
and the localizer fails with fewer than three correspondences. -/
def collaboratorsRun : Collaborators :=
  { exampleCollaborators with
    buildTracks := fun _ => runTracks,
    Localize := fun _ _ pt2D _ =>
      if pt2D.length < 3 then none else some ⟨Pose3.identity, [], List.range pt2D.length, 2⟩ }

/-- Engine of the run example before `Process`, with the preset pair (0, 1). -/
def engineStart : Engine :=
  { sfm_data_ :=
      { views := exampleViews, intrinsics := [(0, exampleCamera)], poses := [], structure_ := [] },
    map_tracks_ := [],
    map_ACThreshold_ := [],
    set_remaining_view_id_ := [0, 1, 2, 3],
    set_remaining_view_id_subset_ := [],
    set_reconstructed_view_id_ := [],
    initial_pair_ := (0, 1),
    cam_type_ := EINTRINSIC.PINHOLE_CAMERA_RADIAL3,
    bRestricted_window_SfM_ := false,
    sfm_slide_window_size_ := 0,
    pairWise_matches_ := [((0, 1), []), ((0, 2), []), ((0, 3), []), ((1, 2), []), ((1, 3), [])],
    intrinsic_refinement_options_ := 0 }

/-- Engine of the run example after the seed on (0, 1). -/
def engineRunSeeded : Engine :=
  { engineStart with
    sfm_data_ :=
      { views := exampleViews, intrinsics := [(0, exampleCamera)],
        poses := [(0, Pose3.identity), (1, Pose3.identity)],
        structure_ := [(0, seedLandmark 0), (1, seedLandmark 1), (2, seedLandmark 2),
                       (3, seedLandmark 3)] },
    map_tracks_ := runTracks,
    map_ACThreshold_ := [(0, 1), (1, 1)],
    set_remaining_view_id_ := [2, 3] }

/-- Engine of the run example after `Resection(2)` and its bookkeeping. -/
def engineRunResected : Engine :=
  { engineRunSeeded with
    sfm_data_ :=
      { views := exampleViews, intrinsics := [(0, exampleCamera)],
        poses := [(0, Pose3.identity), (1, Pose3.identity), (2, Pose3.identity)],
        structure_ := [(0, resectedLandmark 0), (1, resectedLandmark 1), (2, resectedLandmark 2),
                       (3, seedLandmark 3)] },
    map_ACThreshold_ := [(0, 1), (1, 1), (2, 2)],
    set_remaining_view_id_ := [3] }

/-- Engines met by the growth loop of the run example. -/
def runInvariant (e : Engine) : Prop :=
  e ∈ [engineRunSeeded, dropFromPools engineRunSeeded 3, engineRunResected,
       dropFromPools engineRunResected 3]

instance (e : Engine) : Decidable (runInvariant e) := by
  unfold runInvariant; infer_instance

/-- Views of the window examples: the ids 0, 10, 11 and 12. -/
def gapViews : StlMap View :=
  [(0, ⟨0, 0, 0, 10, 10⟩), (10, ⟨10, 0, 10, 10, 10⟩), (11, ⟨11, 0, 11, 10, 10⟩),
   (12, ⟨12, 0, 12, 10, 10⟩)]

/-- Restricted-mode engine with a window of size 2: views 10 and 11 are
reconstructed, view 12 remains, the active subset is empty. The largest
reconstructed id, 11, exceeds the number of views, 4. -/
def engineWindowGap : Engine :=
  { sfm_data_ :=
      { views := gapViews, intrinsics := [(0, exampleCamera)],
        poses := [(10, Pose3.identity), (11, Pose3.identity)],
        structure_ := [(0, ⟨(0, 0, 1), [(10, ⟨(0, 0), 0⟩), (11, ⟨(0, 0), 0⟩)]⟩)] },
    map_tracks_ := [(0, [(10, 0), (11, 0), (12, 0)])],
    map_ACThreshold_ := [(10, 1), (11, 1)],
    set_remaining_view_id_ := [12],
    set_remaining_view_id_subset_ := [],
    set_reconstructed_view_id_ := [10, 11],
    initial_pair_ := (10, 11),
    cam_type_ := EINTRINSIC.PINHOLE_CAMERA_RADIAL3,
    bRestricted_window_SfM_ := true,
    sfm_slide_window_size_ := 2,
    pairWise_matches_ := [],
    intrinsic_refinement_options_ := 0 }

/-- Restricted-mode engine with a window of size 1 on the views 0..3: views 0
and 1 are reconstructed, views 2 and 3 remain, the active subset is empty.
View 2 sees the three landmarks, view 3 sees none of them. -/
def engineWindow : Engine :=
  { sfm_data_ :=
      { views := exampleViews, intrinsics := [(0, exampleCamera)],
        poses := [(0, Pose3.identity), (1, Pose3.identity)],
        structure_ := [(0, seedLandmark 0), (1, seedLandmark 1), (2, seedLandmark 2)] },
    map_tracks_ :=
      [(0, [(0, 0), (1, 0), (2, 0)]), (1, [(0, 1), (1, 1), (2, 1)]), (2, [(0, 2), (1, 2), (2, 2)]),
       (3, [(2, 3), (3, 0)])],
    map_ACThreshold_ := [(0, 1), (1, 1)],
    set_remaining_view_id_ := [2, 3],
    set_remaining_view_id_subset_ := [],
    set_reconstructed_view_id_ := [0, 1],
    initial_pair_ := (0, 1),
    cam_type_ := EINTRINSIC.PINHOLE_CAMERA_RADIAL3,
    bRestricted_window_SfM_ := true,
    sfm_slide_window_size_ := 1,
    pairWise_matches_ := [],
    intrinsic_refinement_options_ := 0 }

/-- Restricted-mode engine whose active subset holds view 3 only, with score
0, while view 2 is still in the remaining set. -/
def engineWiden : Engine :=
  { engineWindow with set_remaining_view_id_subset_ := [3], set_remaining_view_id_ := [2] }

/-- Engine `engineScores43` in which view 3 refers to the intrinsic id 7,
which does not exist. -/
def engineNoIntrinsic : Engine :=
  { engineScores43 with
    sfm_data_ :=
      { engineScores43.sfm_data_ with
        views := [(0, ⟨0, 0, 0, 10, 10⟩), (1, ⟨1, 0, 1, 10, 10⟩), (2, ⟨2, 0, 2, 10, 10⟩),
                  (3, ⟨3, 7, 3, 10, 10⟩)] } }

/-- Engine `engineNoIntrinsic` after `Resection(3)` with the collaborators of
the examples: view 3 refers to the new intrinsic id 1. -/
def engineNoIntrinsicResected : Engine :=
  { engineNoIntrinsic with
    sfm_data_ :=
      { views := [(0, ⟨0, 0, 0, 10, 10⟩), (1, ⟨1, 0, 1, 10, 10⟩), (2, ⟨2, 0, 2, 10, 10⟩),
                  (3, ⟨3, 1, 3, 10, 10⟩)],
        intrinsics := [(0, exampleCamera),
                       (1, ⟨EINTRINSIC.PINHOLE_CAMERA_RADIAL3, true, 10, 10, 1, 5, 5⟩)],
        poses := [(0, Pose3.identity), (1, Pose3.identity), (3, Pose3.identity)],
        structure_ :=
          [(0, ⟨(0, 0, 1), [(0, ⟨(0, 0), 0⟩), (1, ⟨(0, 0), 0⟩), (3, ⟨(0, 0), 0⟩)]⟩),
           (1, ⟨(0, 0, 1), [(0, ⟨(0, 0), 1⟩), (1, ⟨(0, 0), 1⟩), (3, ⟨(0, 0), 1⟩)]⟩),
           (2, ⟨(0, 0, 1), [(0, ⟨(0, 0), 2⟩), (1, ⟨(0, 0), 2⟩), (3, ⟨(0, 0), 2⟩)]⟩),
           (3, exampleLandmark 3)] },
    map_ACThreshold_ := [(0, 1), (1, 1), (3, 2)] }

/-- Collaborators whose residual pass removes every landmark of a scene that
has some, reporting 60 removed observations, and removes nothing from a scene
without landmarks. -/
def collaboratorsRemovingOnce : Collaborators :=
  { exampleCollaborators with
    RemoveOutliers_PixelResidualError := fun d _ _ =>
      if d.structure_.isEmpty then (d, 0) else ({ d with structure_ := [] }, 60) }

/-- Collaborators whose triangulation depends on the pose of the first view:
the first coordinate of the point is that of the centre of the pose. -/
def collaboratorsPoseDependent : Collaborators :=
  { exampleCollaborators with
    TriangulateDLT := fun _ pose_I _ _ _ _ => (pose_I.center.headD 0, 0, 1) }

/-- Engine in step G of `Resection(2)`: views 0 and 1 are reconstructed with
different poses, and track 5, seen by the views 0, 1 and 2, has no landmark. -/
def engineSharedTrack : Engine :=
  { engineScores43 with
    sfm_data_ :=
      { views := exampleViews, intrinsics := [(0, exampleCamera)],
        poses := [(0, Pose3.identity), (1, movedPose), (2, Pose3.identity)],
        structure_ := [] },
    map_tracks_ := [(5, [(0, 5), (1, 5), (2, 5)])],
    map_ACThreshold_ := [(0, 1), (1, 1), (2, 2)] }

/-- Collaborators whose localization fails. -/
def collaboratorsNoLocalize : Collaborators :=
  { exampleCollaborators with Localize := fun _ _ _ _ => none }

/-- Six views sharing one intrinsic group, each with its own pose id. -/
def sixViews : StlMap View :=
  [(0, ⟨0, 0, 0, 10, 10⟩), (1, ⟨1, 0, 1, 10, 10⟩), (2, ⟨2, 0, 2, 10, 10⟩),
   (3, ⟨3, 0, 3, 10, 10⟩), (4, ⟨4, 0, 4, 10, 10⟩), (5, ⟨5, 0, 5, 10, 10⟩)]

/-- Restricted mode with window size 1 after the seed on the views 0 and 1:
the only remaining view is 5, outside the window, and the active subset is empty. -/
def engineEmptyWindow : Engine :=
  { engineScores43 with
    sfm_data_ := { engineScores43.sfm_data_ with views := sixViews },
    bRestricted_window_SfM_ := true,
    sfm_slide_window_size_ := 1,
    set_reconstructed_view_id_ := [0, 1],
    set_remaining_view_id_ := [5],
    set_remaining_view_id_subset_ := [] }

/-- Restricted mode with window size 1: the active subset holds view 2, whose
only track (with view 5) has no landmark, and view 5 remains outside the
window around view 2. -/
def engineStuckWindow : Engine :=
  { engineScores43 with
    sfm_data_ := { engineScores43.sfm_data_ with views := sixViews },
    map_tracks_ := [(0, [(0, 0), (1, 0)]), (1, [(0, 1), (1, 1)]), (9, [(2, 0), (5, 0)])],
    bRestricted_window_SfM_ := true,
    sfm_slide_window_size_ := 1,
    set_reconstructed_view_id_ := [0, 1],
    set_remaining_view_id_ := [5],
    set_remaining_view_id_subset_ := [2] }

/-- Number of observations in the view among the remaining tracks: the value
counted for the view by the loops "Count the number of observation per view for
each 3Dpoint Index" of `ColorizeTracks`. -/
def observationCount (structure_ : StlMap Landmark) (remainingTrackToColor : StlSet)
    (view_index : Nat) : Nat :=
  (remainingTrackToColor.map (fun trackId =>
    match StlMap.find structure_ trackId with
    | none => 0
    | some landmark => landmark.obs.countP (fun vo => vo.1 == view_index))).sum

/-- Scene for `ColorizeTracks`: three views and four landmarks; view 1 sees the
landmarks 10, 11 and 12, view 2 the landmarks 12 and 13, view 0 the landmark
10. -/
def colourScene : SfM_Data :=
  { views := [(0, ⟨0, 0, 0, 640, 480⟩), (1, ⟨1, 0, 1, 640, 480⟩), (2, ⟨2, 0, 2, 640, 480⟩)],
    intrinsics := [],
    poses := [],
    structure_ :=
      [(10, ⟨(0, 0, 1), [(0, ⟨(1, 2), 0⟩), (1, ⟨(3, 4), 0⟩)]⟩),
       (11, ⟨(0, 1, 1), [(1, ⟨(5, 6), 1⟩)]⟩),
       (12, ⟨(1, 0, 1), [(1, ⟨(7, 8), 2⟩), (2, ⟨(9, 10), 0⟩)]⟩),
       (13, ⟨(1, 1, 1), [(2, ⟨(11, 12), 1⟩)]⟩)] }

/-- Image reader of the example: every file is read, and the colour of a
pixel of view `v` is `(x, y, v)`. -/
def exampleReadImage (view : View) : Option (Vec2 → Vec3) :=
  some (fun x => (x.1, x.2, (view.id_view : ℚ)))

/-- Tracks of the restricted run: three tracks seen by the views 0 and 1 and
one seen by the views 0 and 5. -/
def restrictedRunTracks : STLMAPTracks :=
  [(0, [(0, 0), (1, 0)]), (1, [(0, 1), (1, 1)]), (2, [(0, 2), (1, 2)]), (3, [(0, 3), (5, 0)])]

/-- Collaborators of the restricted run: those of the examples, with a track
builder that returns `restrictedRunTracks`. -/
def collaboratorsRestrictedRun : Collaborators :=
  { exampleCollaborators with buildTracks := fun _ => restrictedRunTracks }

/-- Engine before `Process` in restricted mode with window size 1: six views,
matches between the views 0, 1 and 5, preset pair (0, 1). -/
def engineStartRestricted : Engine :=
  { sfm_data_ :=
      { views := sixViews, intrinsics := [(0, exampleCamera)], poses := [], structure_ := [] },
    map_tracks_ := [],
    map_ACThreshold_ := [],
    set_remaining_view_id_ := [0, 1, 2, 3, 4, 5],
    set_remaining_view_id_subset_ := [],
    set_reconstructed_view_id_ := [],
    initial_pair_ := (0, 1),
    cam_type_ := EINTRINSIC.PINHOLE_CAMERA_RADIAL3,
    bRestricted_window_SfM_ := true,
    sfm_slide_window_size_ := 1,
    pairWise_matches_ := [((0, 1), []), ((0, 5), []), ((1, 5), [])],
    intrinsic_refinement_options_ := 0 }

/-- Engine of the restricted run after the seed on (0, 1): three landmarks, the
views 0 and 1 have a pose and view 5 remains. -/
def engineRestrictedSeeded : Engine :=
  { engineStartRestricted with
    sfm_data_ :=
      { views := sixViews, intrinsics := [(0, exampleCamera)],
        poses := [(0, Pose3.identity), (1, Pose3.identity)],
        structure_ := [(0, seedLandmark 0), (1, seedLandmark 1), (2, seedLandmark 2)] },
    map_tracks_ := restrictedRunTracks,
    map_ACThreshold_ := [(0, 1), (1, 1)],
    set_remaining_view_id_ := [5] }

/-- Median of rank `length / 2`, in the words of the specification: `m` is one
of the angles, at most `length / 2` of the angles are strictly smaller than
`m` and more than `length / 2` of them are not larger. -/
def IsMedianAngle (vec_angles : List ℚ) (m : ℚ) : Prop :=
  m ∈ vec_angles
    ∧ vec_angles.countP (fun a => decide (a < m)) ≤ vec_angles.length / 2
    ∧ vec_angles.length / 2 < vec_angles.countP (fun a => decide (a ≤ m))

/-- Accepted pair, in the words of the specification: both views of the pair
support an intrinsic and have a pinhole camera, the two-view estimator on the
common tracks succeeds with more than 100 inliers, and `m`, the median of the
angles between the bearing vectors of the inliers, lies strictly between 3 and
60 degrees. -/
def PairAccepted (C : Collaborators) (e : Engine) (current_pair : Pair) (m : ℚ) : Prop :=
  ∃ (view_I view_J : View) (cam_I cam_J : Intrinsic) (common : List (Nat × Nat))
      (info : RelativePose_Info) (vec_angles : List ℚ),
    min current_pair.1 current_pair.2 ∈ viewsWithIntrinsic e.sfm_data_
      ∧ max current_pair.1 current_pair.2 ∈ viewsWithIntrinsic e.sfm_data_
      ∧ StlMap.find e.sfm_data_.views (min current_pair.1 current_pair.2) = some view_I
      ∧ StlMap.find e.sfm_data_.views (max current_pair.1 current_pair.2) = some view_J
      ∧ StlMap.find e.sfm_data_.intrinsics view_I.id_intrinsic = some cam_I
      ∧ StlMap.find e.sfm_data_.intrinsics view_J.id_intrinsic = some cam_J
      ∧ cam_I.isPinhole = true ∧ cam_J.isPinhole = true
      ∧ commonFeatures (GetTracksInImages
          (pairImageSet (min current_pair.1 current_pair.2) (max current_pair.1 current_pair.2))
          e.map_tracks_) = some common
      ∧ C.robustRelativePose cam_I cam_J (some 16)
          (common.map fun ij =>
            C.get_ud_pixel cam_I (C.feats (min current_pair.1 current_pair.2) ij.1))
          (common.map fun ij =>
            C.get_ud_pixel cam_J (C.feats (max current_pair.1 current_pair.2) ij.2))
          256 = some info
      ∧ 100 < info.vec_inliers.length
      ∧ pairAngles C (min current_pair.1 current_pair.2) (max current_pair.1 current_pair.2)
          cam_I cam_J common info = some vec_angles
      ∧ IsMedianAngle vec_angles m
      ∧ 3 < m ∧ m < 60

/-! # Properties -/

/-- C1: on the engine `engineScores43` the scored views are view 2 with 4
correspondences and view 3 with 3; although 3 is at least 0.75 * 4, the call
returns only view 2 as candidate. -/
theorem FindImagesWithPossibleResection_drops_view_at_ratio :
    scoreViews engineScores43.map_tracks_ (StlMap.keys engineScores43.sfm_data_.structure_)
        engineScores43.set_remaining_view_id_ = [(2, 4), (3, 3)]
      ∧ FindImagesWithPossibleResection engineScores43 = some (true, [2], engineScores43)
      ∧ (3 : ℚ) ≥ 3 / 4 * 4 := by
  refine ⟨by decide, by decide, by norm_num⟩

/-- C2 (as stated, refuted): when the two passes remove 30 + 20 = 50
observations, the condition of the refinement loop is false and the loop
stops after its first cycle. -/
theorem refineLoop_stops_at_50 :
    (rejectedCounts collaboratorsRemoving50 (BundleAdjustment collaboratorsRemoving50 engineScores43).2 4).1
        + (rejectedCounts collaboratorsRemoving50
            (BundleAdjustment collaboratorsRemoving50 engineScores43).2 4).2 = 50
      ∧ (refineCycle collaboratorsRemoving50 engineScores43).1 = false
      ∧ (refineLoop collaboratorsRemoving50 10 engineScores43).map Prod.fst = some 1 := by
  refine ⟨by decide, by decide, by decide⟩

/-- C2 (amended): a cycle of the refinement loop (bundle adjustment, then
outlier rejection with pixel threshold 4.0 and count 50) is followed by another
cycle if and only if the rejection removed strictly more than 50 observations. -/
theorem refineLoop_repeats_iff (C : Collaborators) (e : Engine) (fuel : Nat) :
    ((refineCycle C e).1 = true ↔
        50 < (rejectedCounts C (BundleAdjustment C e).2 4).1
              + (rejectedCounts C (BundleAdjustment C e).2 4).2)
      ∧ refineLoop C (fuel + 1) e =
          if 50 < (rejectedCounts C (BundleAdjustment C e).2 4).1
                    + (rejectedCounts C (BundleAdjustment C e).2 4).2
          then (refineLoop C fuel (refineCycle C e).2).map fun x => (x.1 + 1, x.2)
          else some (1, (refineCycle C e).2) := by
  have h : (refineCycle C e).1 = true ↔
      50 < (rejectedCounts C (BundleAdjustment C e).2 4).1
            + (rejectedCounts C (BundleAdjustment C e).2 4).2 := by
    simp [refineCycle, badTrackRejector, rejectedCounts]
  refine ⟨h, ?_⟩
  by_cases hc : 50 < (rejectedCounts C (BundleAdjustment C e).2 4).1
            + (rejectedCounts C (BundleAdjustment C e).2 4).2
  · have h1 : (refineCycle C e).1 = true := h.mpr hc
    simp [refineLoop, h1, hc]
  · have h1 : (refineCycle C e).1 = false := by
      cases hb : (refineCycle C e).1
      · rfl
      · exact absurd (h.mp hb) hc
    simp [refineLoop, h1, hc]

/-- C6: `badTrackRejector(dPrecision, count)` returns true if and only if the
number of observations removed by the residual pass plus the number removed by
the angle pass is strictly greater than `count`; the scene it leaves is the
one produced by the two passes. -/
theorem badTrackRejector_true_iff (C : Collaborators) (e : Engine) (dPrecision : ℚ) (count : Nat) :
    ((badTrackRejector C e dPrecision count).1 = true ↔
        count < (rejectedCounts C e dPrecision).1 + (rejectedCounts C e dPrecision).2)
      ∧ (badTrackRejector C e dPrecision count).2.sfm_data_ =
          (C.RemoveOutliers_AngleError
            (C.RemoveOutliers_PixelResidualError e.sfm_data_ dPrecision 2).1 2).1 := by
  simp [badTrackRejector, rejectedCounts]

/-- C3 (as stated, refuted): views 0 and 1 have valid pinhole intrinsics, the
estimator succeeds with exactly 100 inliers and the median angle of these
inliers is 20 degrees, yet the pair is not stored as a seed candidate and the
automatic choice fails. -/
theorem scorePair_rejects_100_inliers :
    (exampleCollaborators.robustRelativePose exampleCamera exampleCamera (some 16)
        (List.replicate 100 (0, 0)) (List.replicate 100 (0, 0)) 256).map
        (fun info => info.vec_inliers.length) = some 100
      ∧ (pairAngles exampleCollaborators 0 1 exampleCamera exampleCamera
          ((List.range 100).map fun t => (t, t))
          ⟨Pose3.identity, List.range 100, halfPixel⟩).bind medianAngle = some 20
      ∧ scorePair exampleCollaborators (enginePair 100)
          (viewsWithIntrinsic (enginePair 100).sfm_data_) (0, 1) = some none
      ∧ AutomaticInitialPairChoice exampleCollaborators (enginePair 100) = some none := by
  set_option maxRecDepth 100000 in
  refine ⟨by decide, by decide, by decide, by decide⟩

/-- C3 (amended): a candidate pair whose two views have valid pinhole
intrinsics, for which the two-view estimator succeeds and whose median
triangulation angle `m` is strictly between 3 and 60 degrees is stored as a
seed candidate if and only if the estimator's inlier count is strictly greater
than 100; otherwise the pair is skipped. -/
theorem scorePair_accept_iff (C : Collaborators) (e : Engine) (valid_views : StlSet)
    (current_pair : Pair) (view_I view_J : View) (cam_I cam_J : Intrinsic)
    (common : List (Nat × Nat)) (info : RelativePose_Info) (vec_angles : List ℚ) (m : ℚ)
    (hI : valid_views.contains (min current_pair.1 current_pair.2) = true)
    (hJ : valid_views.contains (max current_pair.1 current_pair.2) = true)
    (hvI : StlMap.find e.sfm_data_.views (min current_pair.1 current_pair.2) = some view_I)
    (hvJ : StlMap.find e.sfm_data_.views (max current_pair.1 current_pair.2) = some view_J)
    (hcI : StlMap.find e.sfm_data_.intrinsics view_I.id_intrinsic = some cam_I)
    (hcJ : StlMap.find e.sfm_data_.intrinsics view_J.id_intrinsic = some cam_J)
    (hpI : cam_I.isPinhole = true) (hpJ : cam_J.isPinhole = true)
    (hcommon : commonFeatures (GetTracksInImages
        (pairImageSet (min current_pair.1 current_pair.2) (max current_pair.1 current_pair.2))
        e.map_tracks_) = some common)
    (hest : C.robustRelativePose cam_I cam_J (some 16)
        (common.map fun ij => C.get_ud_pixel cam_I (C.feats (min current_pair.1 current_pair.2) ij.1))
        (common.map fun ij => C.get_ud_pixel cam_J (C.feats (max current_pair.1 current_pair.2) ij.2))
        256 = some info)
    (hang : pairAngles C (min current_pair.1 current_pair.2) (max current_pair.1 current_pair.2)
        cam_I cam_J common info = some vec_angles)
    (hmed : medianAngle vec_angles = some m) (h3 : 3 < m) (h60 : m < 60) :
    (scorePair C e valid_views current_pair = some (some (m, current_pair))
        ↔ 100 < info.vec_inliers.length)
      ∧ (¬ 100 < info.vec_inliers.length → scorePair C e valid_views current_pair = some none) := by
  simp only [scorePair, hI, hJ, hvI, hvJ, hcI, hcJ, hpI, hpJ, hcommon, hest, hang, hmed,
    iMin_inliers_count, fRequired_min_angle, fLimit_max_angle, and_self, if_true, gt_iff_lt]
  by_cases h : 100 < info.vec_inliers.length
  · simp [h, h3, h60]
  · simp [h]

/-- Witness for C3: on the engine with 101 common tracks the pair (0, 1) has
101 inliers and is stored with its median angle of 20 degrees. -/
theorem scorePair_accept_iff_witness :
    scorePair exampleCollaborators (enginePair 101)
        (viewsWithIntrinsic (enginePair 101).sfm_data_) (0, 1) = some (some (20, (0, 1))) := by
  set_option maxRecDepth 100000 in
  exact (scorePair_accept_iff exampleCollaborators (enginePair 101)
    (viewsWithIntrinsic (enginePair 101).sfm_data_) (0, 1) ⟨0, 0, 0, 10, 10⟩ ⟨1, 0, 1, 10, 10⟩
    exampleCamera exampleCamera ((List.range 101).map fun t => (t, t))
    ⟨Pose3.identity, List.range 101, halfPixel⟩ (List.replicate 101 20) 20
    (by decide) (by decide) (by decide) (by decide) (by decide) (by decide) rfl rfl
    (by decide) rfl (by decide) (by decide) (by norm_num) (by norm_num)).1.mpr (by decide)

/-! ## Auxiliary facts: containers -/

theorem optionAll_mem {α : Type} : ∀ (l : List (Option α)) (r : List α),
    optionAll l = some r → ∀ x, x ∈ r ↔ some x ∈ l
  | [], r, h, x => by
    simp only [optionAll, Option.some.injEq] at h
    subst h
    simp
  | none :: t, r, h, x => by simp [optionAll] at h
  | some a :: t, r, h, x => by
    simp only [optionAll, Option.map_eq_some'] at h
    obtain ⟨r', hr', rfl⟩ := h
    have ih := optionAll_mem t r' hr' x
    simp [ih]

theorem StlMap.find_assign {α : Type} (m : StlMap α) (k : Nat) (v : α) (k' : Nat) :
    StlMap.find (StlMap.assign m k v) k' = if k = k' then some v else StlMap.find m k' := by
  induction m with
  | nil => simp [StlMap.assign, StlMap.find]
  | cons hd t ih =>
    obtain ⟨k0, v0⟩ := hd
    by_cases hk : k = k'
    · subst hk
      simp only [StlMap.assign, if_true]
      by_cases h1 : k < k0
      · simp [h1, StlMap.find]
      · by_cases h2 : k0 = k
        · simp [h1, h2, StlMap.find]
        · simp [h1, h2, StlMap.find, ih]
    · simp only [StlMap.assign, if_neg hk]
      by_cases h1 : k < k0
      · simp [h1, StlMap.find, hk]
      · by_cases h2 : k0 = k
        · subst h2
          simp [h1, StlMap.find, hk]
        · simp [h1, h2, StlMap.find, ih, hk]

theorem StlMap.mem_assign {α : Type} (m : StlMap α) (k : Nat) (v : α) (x : Nat × α)
    (hx : x ∈ StlMap.assign m k v) : x = (k, v) ∨ x ∈ m := by
  induction m with
  | nil => simpa [StlMap.assign] using hx
  | cons hd t ih =>
    obtain ⟨k0, v0⟩ := hd
    simp only [StlMap.assign] at hx
    split_ifs at hx with h1 h2
    · simpa using hx
    · rcases List.mem_cons.mp hx with h | h
      · exact Or.inl h
      · exact Or.inr (List.mem_cons_of_mem _ h)
    · rcases List.mem_cons.mp hx with h | h
      · exact Or.inr (h ▸ List.mem_cons_self _ _)
      · rcases ih h with h' | h'
        · exact Or.inl h'
        · exact Or.inr (List.mem_cons_of_mem _ h')

theorem StlMap.find_some_mem {α : Type} (m : StlMap α) (k : Nat) (v : α)
    (h : StlMap.find m k = some v) : (k, v) ∈ m := by
  induction m with
  | nil => simp [StlMap.find] at h
  | cons hd t ih =>
    obtain ⟨k0, v0⟩ := hd
    simp only [StlMap.find] at h
    split_ifs at h with h1
    · simp only [Option.some.injEq] at h
      subst h1 h
      exact List.mem_cons_self _ _
    · exact List.mem_cons_of_mem _ (ih h)

theorem StlMap.find_isSome_iff {α : Type} (m : StlMap α) (k : Nat) :
    (StlMap.find m k).isSome = true ↔ k ∈ StlMap.keys m := by
  induction m with
  | nil => simp [StlMap.find, StlMap.keys]
  | cons hd t ih =>
    obtain ⟨k0, v0⟩ := hd
    simp only [StlMap.find, StlMap.keys, List.map_cons, List.mem_cons]
    split_ifs with h1
    · simp [h1]
    · simp only [StlMap.keys] at ih
      rw [ih]
      constructor
      · exact Or.inr
      · rintro (h | h)
        · exact absurd h.symm h1
        · exact h

theorem StlMap.length_le_assign {α : Type} (m : StlMap α) (k : Nat) (v : α) :
    m.length ≤ (StlMap.assign m k v).length := by
  induction m with
  | nil => simp [StlMap.assign]
  | cons hd t ih =>
    obtain ⟨k0, v0⟩ := hd
    simp only [StlMap.assign]
    split_ifs
    · simp
    · simp
    · simp only [List.length_cons]; omega

theorem StlMap.length_assign_pair {α : Type} (I J : Nat) (a b : α) (h : I ≠ J) :
    (StlMap.assign (StlMap.assign [] I a) J b).length = 2 := by
  simp only [StlMap.assign, if_neg h]
  split_ifs <;> rfl

theorem StlMap.mem_keys_assign {α : Type} (m : StlMap α) (k : Nat) (v : α) (k' : Nat) :
    k' ∈ StlMap.keys (StlMap.assign m k v) ↔ k' = k ∨ k' ∈ StlMap.keys m := by
  rw [← StlMap.find_isSome_iff, ← StlMap.find_isSome_iff, StlMap.find_assign]
  split_ifs with h
  · simp [h]
  · constructor
    · exact Or.inr
    · rintro (h' | h')
      · exact absurd h'.symm h
      · exact h'

theorem two_le_length_of_mem_ne {α : Type} {a b : α} : ∀ {l : List α},
    a ∈ l → b ∈ l → a ≠ b → 2 ≤ l.length
  | [], ha, _, _ => by simp at ha
  | [x], ha, hb, hne => by
    simp only [List.mem_singleton] at ha hb
    exact absurd (ha.trans hb.symm) hne
  | _ :: _ :: _, _, _, _ => by simp

/-! ## Auxiliary facts: the order of the scored pairs -/

theorem scoreLE_total (a b : ℚ × Pair) : scoreLE a b ∨ scoreLE b a := by
  unfold scoreLE
  rcases lt_trichotomy a.1 b.1 with h | h | h
  · exact Or.inl (Or.inl h)
  · rcases lt_trichotomy a.2.1 b.2.1 with h1 | h1 | h1
    · exact Or.inl (Or.inr ⟨h, Or.inl h1⟩)
    · rcases le_total a.2.2 b.2.2 with h2 | h2
      · exact Or.inl (Or.inr ⟨h, Or.inr ⟨h1, h2⟩⟩)
      · exact Or.inr (Or.inr ⟨h.symm, Or.inr ⟨h1.symm, h2⟩⟩)
    · exact Or.inr (Or.inr ⟨h.symm, Or.inl h1⟩)
  · exact Or.inr (Or.inl h)

theorem scoreLE_trans (a b c : ℚ × Pair) (hab : scoreLE a b) (hbc : scoreLE b c) :
    scoreLE a c := by
  unfold scoreLE at *
  rcases hab with h | ⟨h, h'⟩
  · rcases hbc with g | ⟨g, _⟩
    · exact Or.inl (lt_trans h g)
    · exact Or.inl (g ▸ h)
  · rcases hbc with g | ⟨g, g'⟩
    · exact Or.inl (h ▸ g)
    · refine Or.inr ⟨h.trans g, ?_⟩
      rcases h' with h1 | ⟨h1, h2⟩
      · rcases g' with g1 | ⟨g1, _⟩
        · exact Or.inl (lt_trans h1 g1)
        · exact Or.inl (g1 ▸ h1)
      · rcases g' with g1 | ⟨g1, g2⟩
        · exact Or.inl (h1 ▸ g1)
        · exact Or.inr ⟨h1.trans g1, le_trans h2 g2⟩

theorem scoreLE_fst_le {a b : ℚ × Pair} (h : scoreLE a b) : a.1 ≤ b.1 := by
  rcases h with h | ⟨h, _⟩
  · exact le_of_lt h
  · exact le_of_eq h

/-- The first element of the sorted and reversed scoring vector is an element
of the vector above all the others. -/
theorem sorted_reverse_head (l : List (ℚ × Pair)) (hl : l ≠ []) :
    ∃ best rest, (l.insertionSort scoreLE).reverse = best :: rest ∧ best ∈ l
      ∧ ∀ x ∈ l, scoreLE x best := by
  haveI : IsTotal (ℚ × Pair) scoreLE := ⟨scoreLE_total⟩
  haveI : IsTrans (ℚ × Pair) scoreLE := ⟨scoreLE_trans⟩
  have hsorted : (l.insertionSort scoreLE).Sorted scoreLE := List.sorted_insertionSort scoreLE l
  have hperm : (l.insertionSort scoreLE).Perm l := List.perm_insertionSort scoreLE l
  have hrev : (l.insertionSort scoreLE).reverse.Pairwise (fun a b => scoreLE b a) :=
    List.pairwise_reverse.mpr hsorted
  cases hr : (l.insertionSort scoreLE).reverse with
  | nil =>
    have h1 : l.insertionSort scoreLE = [] := by simpa using hr
    have h2 : l = [] := by
      have := hperm.length_eq
      rw [h1] at this
      exact List.length_eq_zero.mp this.symm
    exact absurd h2 hl
  | cons best rest =>
    rw [hr] at hrev
    have hmem : ∀ x, x ∈ l ↔ x ∈ best :: rest := by
      intro x
      rw [← hr, List.mem_reverse]
      exact (hperm.mem_iff).symm
    refine ⟨best, rest, rfl, (hmem best).mpr (List.mem_cons_self _ _), ?_⟩
    intro x hx
    rcases List.mem_cons.mp ((hmem x).mp hx) with h | h
    · subst h
      rcases scoreLE_total x x with h | h <;> exact h
    · exact (List.pairwise_cons.mp hrev).1 x h

/-- A pair stored by the loop body is the current pair, its angle lies
strictly inside the limits and both its views support an intrinsic. -/
theorem scorePair_stored (C : Collaborators) (e : Engine) (valid_views : StlSet)
    (current_pair : Pair) (sp : ℚ × Pair)
    (h : scorePair C e valid_views current_pair = some (some sp)) :
    sp.2 = current_pair ∧ 3 < sp.1 ∧ sp.1 < 60
      ∧ min current_pair.1 current_pair.2 ∈ valid_views
      ∧ max current_pair.1 current_pair.2 ∈ valid_views := by
  unfold scorePair at h
  simp only [fRequired_min_angle, fLimit_max_angle, gt_iff_lt] at h
  split_ifs at h with hv
  · simp at hv
    repeat' split at h
    all_goals first
      | (simp only [Option.some.injEq, reduceCtorEq] at h; done)
      | skip
    all_goals
      rename_i hang
      simp only [Option.some.injEq] at h
      subst h
      exact ⟨rfl, hang.1, hang.2, hv.1, hv.2⟩
  · simp at h

theorem scoring_per_pair_mem (C : Collaborators) (e : Engine) (scoring : List (ℚ × Pair))
    (hscoring : scoring_per_pair C e = some scoring) (sp : ℚ × Pair) (hsp : sp ∈ scoring) :
    ∃ m ∈ e.pairWise_matches_,
      scorePair C e (viewsWithIntrinsic e.sfm_data_) m.1 = some (some sp) := by
  simp only [scoring_per_pair, Option.map_eq_some'] at hscoring
  obtain ⟨r, hr, rfl⟩ := hscoring
  have h1 : some sp ∈ r := by
    rcases List.mem_filterMap.mp hsp with ⟨a, ha, hid⟩
    simp only [id] at hid
    exact hid ▸ ha
  have h2 := (optionAll_mem _ r hr (some sp)).mp h1
  rcases List.mem_map.mp h2 with ⟨m, hm, hmeq⟩
  exact ⟨m, hm, hmeq⟩

/-- The choice among the stored pairs: with no stored pair the function returns
false; otherwise, when at least two views support an intrinsic, it returns true
with a stored pair of largest angle, and a pair with the unique largest angle
is the one returned. -/
theorem AutomaticInitialPairChoice_head (C : Collaborators) (e : Engine)
    (scoring : List (ℚ × Pair))
    (hscoring : scoring_per_pair C e = some scoring)
    (hlen : scoring ≠ [] → ¬ (viewsWithIntrinsic e.sfm_data_).length < 2) :
    (scoring = [] → AutomaticInitialPairChoice C e = some none)
      ∧ (scoring ≠ [] → ∃ best ∈ scoring,
          AutomaticInitialPairChoice C e = some (some best.2) ∧ ∀ sp ∈ scoring, sp.1 ≤ best.1)
      ∧ (∀ best ∈ scoring, (∀ sp ∈ scoring, sp ≠ best → sp.1 < best.1) →
          AutomaticInitialPairChoice C e = some (some best.2)) := by
  have hbest : scoring ≠ [] → ∃ best ∈ scoring,
      AutomaticInitialPairChoice C e = some (some best.2) ∧ ∀ sp ∈ scoring, scoreLE sp best := by
    intro hne
    obtain ⟨best, rest, hrev, hmem, hmax⟩ := sorted_reverse_head scoring hne
    refine ⟨best, hmem, ?_, hmax⟩
    simp only [AutomaticInitialPairChoice, if_neg (hlen hne), hscoring, hrev]
  refine ⟨?_, ?_, ?_⟩
  · intro hnil
    subst hnil
    simp only [AutomaticInitialPairChoice, hscoring]
    split_ifs <;> simp
  · intro hne
    obtain ⟨best, hmem, hres, hmax⟩ := hbest hne
    exact ⟨best, hmem, hres, fun sp hsp => scoreLE_fst_le (hmax sp hsp)⟩
  · intro best hmem huniq
    obtain ⟨best', hmem', hres, hmax⟩ := hbest (List.ne_nil_of_mem hmem)
    by_cases hEq : best' = best
    · rw [← hEq]; exact hres
    · have h1 := huniq best' hmem' hEq
      have h2 := scoreLE_fst_le (hmax best hmem)
      exact absurd h1 (not_lt.mpr h2)

/-- C8 (as stated, refuted): with a bundle adjuster that moves the poses, the
pose stored for the smaller view id 0 after `MakeInitialPair3D` is not the
identity, for the call with (0, 1) as for the call with (1, 0). -/
theorem MakeInitialPair3D_reference_pose_refined :
    (MakeInitialPair3D collaboratorsMovingPoses (enginePair 3) (0, 1)).map
        (fun r => (r.1, StlMap.find r.2.sfm_data_.poses 0)) = some (true, some movedPose)
      ∧ (MakeInitialPair3D collaboratorsMovingPoses (enginePair 3) (1, 0)).map
        (fun r => (r.1, StlMap.find r.2.sfm_data_.poses 0)) = some (true, some movedPose)
      ∧ movedPose ≠ Pose3.identity := by
  refine ⟨by decide, by decide, by decide⟩

/-- C8 (amended): `MakeInitialPair3D` called with (I, J) and with (J, I)
produces the same result and the same engine (poses, structure, stored
thresholds). When the two views have different pose ids, the view of the
smaller id has the identity pose in the two-view scene handed to the bundle
adjuster, and once the adjustment has succeeded the poses stored for the two
views are those of the scene that the bundle adjuster returns. -/
theorem MakeInitialPair3D_symmetric (C : Collaborators) (e : Engine) (I J : Nat) :
    MakeInitialPair3D C e (I, J) = MakeInitialPair3D C e (J, I)
      ∧ ∀ (view_I view_J : View) (cam_I cam_J : Intrinsic) (info : RelativePose_Info)
          (tiny_scene : SfM_Data),
          StlMap.find e.sfm_data_.views (min I J) = some view_I →
          StlMap.find e.sfm_data_.views (max I J) = some view_J →
          view_I.id_pose ≠ view_J.id_pose →
          seedTinyScene C e (min I J) (max I J) view_I view_J cam_I cam_J info = some tiny_scene →
          (StlMap.find tiny_scene.poses view_I.id_pose = some Pose3.identity
            ∧ StlMap.find tiny_scene.poses view_J.id_pose = some info.relativePose)
          ∧ ∀ (common : List (Nat × Nat)) (tiny : SfM_Data) (b : Bool) (e' : Engine),
              StlMap.find e.sfm_data_.intrinsics view_I.id_intrinsic = some cam_I →
              StlMap.find e.sfm_data_.intrinsics view_J.id_intrinsic = some cam_J →
              cam_I.isPinhole = true → cam_J.isPinhole = true →
              commonFeatures (GetTracksInImages (pairImageSet (min I J) (max I J))
                e.map_tracks_) = some common →
              C.robustRelativePose cam_I cam_J none
                (common.map fun ij => C.get_ud_pixel cam_I (C.feats (min I J) ij.1))
                (common.map fun ij => C.get_ud_pixel cam_J (C.feats (max I J) ij.2))
                4096 = some info →
              C.Adjust tiny_scene ⟨0, true, true, false⟩ = (true, tiny) →
              MakeInitialPair3D C e (I, J) = some (b, e') →
              StlMap.find e'.sfm_data_.poses view_I.id_pose
                  = some ((StlMap.find tiny.poses view_I.id_pose).getD Pose3.identity)
                ∧ StlMap.find e'.sfm_data_.poses view_J.id_pose
                  = some ((StlMap.find tiny.poses view_J.id_pose).getD Pose3.identity) := by
  constructor
  · have hmin : min J I = min I J := min_comm J I
    have hmax : max J I = max I J := max_comm J I
    simp only [MakeInitialPair3D, hmin, hmax]
  · intro view_I view_J cam_I cam_J info tiny_scene hvI hvJ hne htiny
    constructor
    · simp only [seedTinyScene] at htiny
      split at htiny
      · split at htiny
        · simp at htiny
        · simp only [Option.some.injEq] at htiny
          subst htiny
          simp only [StlMap.find_assign, if_true, StlMap.find, if_neg hne.symm, and_self]
      · simp at htiny
    · intro common tiny b e' hcI hcJ hpI hpJ hcommon hest hBA hres
      simp only [MakeInitialPair3D, hvI, hvJ, hcI, hcJ, hpI, hpJ, hcommon, hest, htiny, hBA,
        and_self, not_true_eq_false, if_false, Bool.not_eq_true] at hres
      split at hres
      · simp at hres
      · simp only [Option.some.injEq, Prod.mk.injEq] at hres
        obtain ⟨_, he'⟩ := hres
        subst he'
        simp only [StlMap.find_assign, if_true, if_neg hne.symm, and_self]

/-- Witness for C8: on the engine with three common tracks the two-view scene
of the pair (0, 1) gives the identity pose to view 0, and with a bundle adjuster
that moves the poses the pose stored for view 0 is the moved one. -/
theorem MakeInitialPair3D_symmetric_witness :
    (StlMap.find [(0, Pose3.identity), (1, Pose3.identity)] 0 = some Pose3.identity
        ∧ StlMap.find [(0, Pose3.identity), (1, Pose3.identity)] 1 = some Pose3.identity)
      ∧ (StlMap.find [(0, movedPose), (1, movedPose)] 0 = some movedPose
        ∧ StlMap.find [(0, movedPose), (1, movedPose)] 1 = some movedPose) :=
  have T := (MakeInitialPair3D_symmetric collaboratorsMovingPoses (enginePair 3) 0 1).2
    ⟨0, 0, 0, 10, 10⟩ ⟨1, 0, 1, 10, 10⟩ exampleCamera exampleCamera
    ⟨Pose3.identity, [0, 1, 2], halfPixel⟩ tinySceneSeed
    (by decide) (by decide) (by decide) (by decide)
  ⟨T.1, T.2 [(0, 0), (1, 1), (2, 2)]
    { tinySceneSeed with poses := [(0, movedPose), (1, movedPose)] } true
    { engineSeeded with
      sfm_data_ := { engineSeeded.sfm_data_ with poses := [(0, movedPose), (1, movedPose)] } }
    (by decide) (by decide) rfl rfl (by decide) rfl (by decide) (by decide)⟩

/-! ## Seeding -/

/-- Keys of the structure after the loop that saves the seed inliers. -/
theorem saveSeedInliers_keys (C : Collaborators) (view_I view_J : View) (cam_I cam_J : Intrinsic)
    (pose_I pose_J : Pose3) (prec : ℚ) :
    ∀ (l : List (Nat × Landmark)) (s s' : StlMap Landmark),
      saveSeedInliers C view_I view_J cam_I cam_J pose_I pose_J prec l s = some s' →
      ∀ k, k ∈ StlMap.keys s' ↔ k ∈ StlMap.keys s ∨ ∃ lm ob_xI ob_xJ, (k, lm) ∈ l
        ∧ StlMap.find lm.obs view_I.id_view = some ob_xI
        ∧ StlMap.find lm.obs view_J.id_view = some ob_xJ
        ∧ seedInlier C cam_I cam_J pose_I pose_J prec lm ob_xI ob_xJ = true := by
  intro l
  induction l with
  | nil =>
    intro s s' h k
    simp only [saveSeedInliers, foldlOpt, Option.some.injEq] at h
    subst h
    simp
  | cons hd t ih =>
    intro s s' h k
    obtain ⟨k0, lm0⟩ := hd
    simp only [saveSeedInliers, foldlOpt] at h
    cases hI : StlMap.find lm0.obs view_I.id_view with
    | none => simp [hI] at h
    | some obI =>
      cases hJ : StlMap.find lm0.obs view_J.id_view with
      | none => simp [hI, hJ] at h
      | some obJ =>
        simp only [hI, hJ] at h
        by_cases hin : seedInlier C cam_I cam_J pose_I pose_J prec lm0 obI obJ = true
        · simp only [hin, if_true] at h
          have := ih (StlMap.assign s k0 lm0) s' h k
          rw [this, StlMap.mem_keys_assign]
          constructor
          · rintro ((h1 | h1) | ⟨lm, a, b, hm, h2⟩)
            · subst h1
              exact Or.inr ⟨lm0, obI, obJ, List.mem_cons_self _ _, hI, hJ, hin⟩
            · exact Or.inl h1
            · exact Or.inr ⟨lm, a, b, List.mem_cons_of_mem _ hm, h2⟩
          · rintro (h1 | ⟨lm, a, b, hm, h2⟩)
            · exact Or.inl (Or.inr h1)
            · rcases List.mem_cons.mp hm with heq | hm'
              · simp only [Prod.mk.injEq] at heq
                exact Or.inl (Or.inl heq.1)
              · exact Or.inr ⟨lm, a, b, hm', h2⟩
        · simp only [hin] at h
          have := ih s s' h k
          rw [this]
          constructor
          · rintro (h1 | ⟨lm, a, b, hm, h2⟩)
            · exact Or.inl h1
            · exact Or.inr ⟨lm, a, b, List.mem_cons_of_mem _ hm, h2⟩
          · rintro (h1 | ⟨lm, a, b, hm, h2⟩)
            · exact Or.inl h1
            · rcases List.mem_cons.mp hm with heq | hm'
              · simp only [Prod.mk.injEq] at heq
                obtain ⟨rfl, rfl⟩ := heq
                rw [hI, hJ] at h2
                simp only [Option.some.injEq] at h2
                obtain ⟨rfl, rfl, h3⟩ := h2
                exact absurd h3 hin
              · exact Or.inr ⟨lm, a, b, hm', h2⟩

/-- Keys of the two-view structure: one landmark per common track. -/
theorem initSeedStructure_keys (C : Collaborators) (I J : Nat) (view_I view_J : View)
    (cam_I cam_J : Intrinsic) (Pose_I Pose_J : Pose3) :
    ∀ (tracks : STLMAPTracks) (s s' : StlMap Landmark),
      initSeedStructure C I J view_I view_J cam_I cam_J Pose_I Pose_J tracks s = some s' →
      ∀ k, k ∈ StlMap.keys s' ↔ k ∈ StlMap.keys s ∨ k ∈ StlMap.keys tracks := by
  intro tracks
  induction tracks with
  | nil =>
    intro s s' h k
    simp only [initSeedStructure, foldlOpt, Option.some.injEq] at h
    subst h
    simp [StlMap.keys]
  | cons hd t ih =>
    intro s s' h k
    simp only [initSeedStructure, foldlOpt] at h
    cases hf : trackFeatures hd.2 with
    | none => simp [hf] at h
    | some ij =>
      simp only [hf] at h
      have := ih _ s' h k
      rw [this, StlMap.mem_keys_assign]
      simp only [StlMap.keys, List.map_cons, List.mem_cons]
      tauto

/-- C7: after a seed whose estimation and bundle adjustment succeeded on an
initially empty structure, the two-view scene has one landmark per common
track, and a track is a landmark of the main scene if and only if its
refined landmark has a parallax angle > 2 degrees, positive depth in both
views and a residual norm in each view strictly below the estimator's
residual precision floored at 1 pixel; the call returns true if and only if
there is such a track. -/
theorem MakeInitialPair3D_landmarks_iff (C : Collaborators) (e e' : Engine) (current_pair : Pair)
    (view_I view_J : View) (cam_I cam_J : Intrinsic) (common : List (Nat × Nat))
    (info : RelativePose_Info) (tiny_scene tiny : SfM_Data) (b : Bool)
    (hvI : StlMap.find e.sfm_data_.views (min current_pair.1 current_pair.2) = some view_I)
    (hvJ : StlMap.find e.sfm_data_.views (max current_pair.1 current_pair.2) = some view_J)
    (hcI : StlMap.find e.sfm_data_.intrinsics view_I.id_intrinsic = some cam_I)
    (hcJ : StlMap.find e.sfm_data_.intrinsics view_J.id_intrinsic = some cam_J)
    (hpI : cam_I.isPinhole = true) (hpJ : cam_J.isPinhole = true)
    (hcommon : commonFeatures (GetTracksInImages
        (pairImageSet (min current_pair.1 current_pair.2) (max current_pair.1 current_pair.2))
        e.map_tracks_) = some common)
    (hest : C.robustRelativePose cam_I cam_J none
        (common.map fun ij => C.get_ud_pixel cam_I (C.feats (min current_pair.1 current_pair.2) ij.1))
        (common.map fun ij => C.get_ud_pixel cam_J (C.feats (max current_pair.1 current_pair.2) ij.2))
        4096 = some info)
    (htiny : seedTinyScene C e (min current_pair.1 current_pair.2)
        (max current_pair.1 current_pair.2) view_I view_J cam_I cam_J info = some tiny_scene)
    (hBA : C.Adjust tiny_scene ⟨0, true, true, false⟩ = (true, tiny))
    (hempty : e.sfm_data_.structure_ = [])
    (hres : MakeInitialPair3D C e current_pair = some (b, e')) :
    (∀ trackId, trackId ∈ StlMap.keys tiny_scene.structure_ ↔
        trackId ∈ StlMap.keys (GetTracksInImages
          (pairImageSet (min current_pair.1 current_pair.2) (max current_pair.1 current_pair.2))
          e.map_tracks_))
      ∧ (∀ trackId, trackId ∈ StlMap.keys e'.sfm_data_.structure_ ↔
          ∃ landmark ob_xI ob_xJ, (trackId, landmark) ∈ tiny.structure_
            ∧ StlMap.find landmark.obs view_I.id_view = some ob_xI
            ∧ StlMap.find landmark.obs view_J.id_view = some ob_xJ
            ∧ C.AngleBetweenRay ((StlMap.find tiny.poses view_I.id_pose).getD Pose3.identity) cam_I
                ((StlMap.find tiny.poses view_J.id_pose).getD Pose3.identity) cam_J
                ob_xI.x ob_xJ.x > 2
            ∧ C.depth ((StlMap.find tiny.poses view_I.id_pose).getD Pose3.identity) landmark.X > 0
            ∧ C.depth ((StlMap.find tiny.poses view_J.id_pose).getD Pose3.identity) landmark.X > 0
            ∧ C.residualNorm cam_I ((StlMap.find tiny.poses view_I.id_pose).getD Pose3.identity)
                landmark.X ob_xI.x < max info.found_residual_precision 1
            ∧ C.residualNorm cam_J ((StlMap.find tiny.poses view_J.id_pose).getD Pose3.identity)
                landmark.X ob_xJ.x < max info.found_residual_precision 1)
      ∧ (b = true ↔ ∃ trackId, trackId ∈ StlMap.keys e'.sfm_data_.structure_) := by
  have hkeys1 : ∀ trackId, trackId ∈ StlMap.keys tiny_scene.structure_ ↔
        trackId ∈ StlMap.keys (GetTracksInImages
          (pairImageSet (min current_pair.1 current_pair.2) (max current_pair.1 current_pair.2))
          e.map_tracks_) := by
    intro trackId
    simp only [seedTinyScene] at htiny
    split at htiny
    · split at htiny
      · simp at htiny
      · rename_i landmarks hl
        simp only [Option.some.injEq] at htiny
        subst htiny
        have := initSeedStructure_keys C _ _ view_I view_J cam_I cam_J _ _ _ _ _ hl trackId
        simpa [StlMap.keys] using this
    · simp at htiny
  simp only [MakeInitialPair3D, hvI, hvJ, hcI, hcJ, hpI, hpJ, hcommon, hest, htiny, hBA,
    and_self, not_true_eq_false, if_false, hempty, Bool.not_eq_true] at hres
  split at hres
  · simp at hres
  · rename_i structure1 hsave
    simp only [Option.some.injEq, Prod.mk.injEq] at hres
    obtain ⟨hb, he'⟩ := hres
    subst he'
    have hk := saveSeedInliers_keys C view_I view_J cam_I cam_J _ _ _ _ _ _ hsave
    refine ⟨hkeys1, ?_, ?_⟩
    · intro trackId
      rw [hk trackId]
      simp only [StlMap.keys, List.map_nil, List.not_mem_nil, false_or, seedInlier,
        decide_eq_true_eq, gt_iff_lt]
    · rw [← hb]
      simp only [decide_eq_true_eq, ne_eq]
      constructor
      · intro hne
        cases hs : structure1 with
        | nil => exact absurd hs hne
        | cons hd t => exact ⟨hd.1, by simp [StlMap.keys]⟩
      · rintro ⟨k, hk'⟩ hnil
        rw [hnil] at hk'
        simp [StlMap.keys] at hk'

/-- Witness for C7: on `enginePair 3` the seed on (0, 1) returns true and its
three common tracks are the landmarks of the scene. -/
theorem MakeInitialPair3D_landmarks_iff_witness :
    (true = true ↔ ∃ trackId, trackId ∈ StlMap.keys engineSeeded.sfm_data_.structure_) :=
  (MakeInitialPair3D_landmarks_iff exampleCollaborators (enginePair 3) engineSeeded (0, 1)
    ⟨0, 0, 0, 10, 10⟩ ⟨1, 0, 1, 10, 10⟩ exampleCamera exampleCamera [(0, 0), (1, 1), (2, 2)]
    ⟨Pose3.identity, [0, 1, 2], halfPixel⟩ tinySceneSeed tinySceneSeed true
    (by decide) (by decide) (by decide) (by decide) rfl rfl (by decide) rfl (by decide) rfl
    (by decide) (by decide)).2.2

/-! ## Landmarks keep at least two observations -/

theorem foldlOpt_invariant {α β : Type} (P : β → Prop) (f : β → α → Option β)
    (hf : ∀ b a b', P b → f b a = some b' → P b') :
    ∀ (l : List α) (b b' : β), P b → foldlOpt f l b = some b' → P b'
  | [], b, b', hb, h => by
    simp only [foldlOpt, Option.some.injEq] at h
    exact h ▸ hb
  | a :: t, b, b', hb, h => by
    simp only [foldlOpt] at h
    cases hfa : f b a with
    | none => simp [hfa] at h
    | some b1 =>
      simp only [hfa] at h
      exact foldlOpt_invariant P f hf t b1 b' (hf b a b1 hb hfa) h

theorem two_le_length_of_find {α : Type} (m : StlMap α) (a b : Nat) (x y : α)
    (ha : StlMap.find m a = some x) (hb : StlMap.find m b = some y) (hne : a ≠ b) :
    2 ≤ m.length :=
  two_le_length_of_mem_ne (StlMap.find_some_mem m a x ha) (StlMap.find_some_mem m b y hb)
    (fun h => hne (Prod.mk.inj h).1)

theorem AllLandmarksHaveTwoObs_assign (s : StlMap Landmark) (k : Nat) (lm : Landmark)
    (hs : AllLandmarksHaveTwoObs s) (hlm : 2 ≤ lm.obs.length) :
    AllLandmarksHaveTwoObs (StlMap.assign s k lm) := by
  intro kv hkv
  rcases StlMap.mem_assign s k lm kv hkv with h | h
  · rw [h]; exact hlm
  · exact hs kv h

theorem saveSeedInliers_twoObs (C : Collaborators) (view_I view_J : View) (cam_I cam_J : Intrinsic)
    (pose_I pose_J : Pose3) (prec : ℚ) (hne : view_I.id_view ≠ view_J.id_view)
    (l : List (Nat × Landmark)) (s s' : StlMap Landmark) (hs : AllLandmarksHaveTwoObs s)
    (h : saveSeedInliers C view_I view_J cam_I cam_J pose_I pose_J prec l s = some s') :
    AllLandmarksHaveTwoObs s' := by
  refine foldlOpt_invariant AllLandmarksHaveTwoObs _ ?_ l s s' hs h
  intro b a b' hb hstep
  cases hI : StlMap.find a.2.obs view_I.id_view with
  | none => simp [hI] at hstep
  | some obI =>
    cases hJ : StlMap.find a.2.obs view_J.id_view with
    | none => simp [hI, hJ] at hstep
    | some obJ =>
      simp only [hI, hJ] at hstep
      split_ifs at hstep
      · simp only [Option.some.injEq] at hstep
        subst hstep
        exact AllLandmarksHaveTwoObs_assign b a.1 a.2 hb
          (two_le_length_of_find _ _ _ _ _ hI hJ hne)
      · simp only [Option.some.injEq] at hstep
        exact hstep ▸ hb

/-- After a seed that returns a result on an empty structure, every landmark
has at least two observations. -/
theorem MakeInitialPair3D_twoObs (C : Collaborators) (e e' : Engine) (current_pair : Pair)
    (b : Bool) (hkeyed : ViewsKeyedById e.sfm_data_) (hpair : current_pair.1 ≠ current_pair.2)
    (hstart : AllLandmarksHaveTwoObs e.sfm_data_.structure_)
    (hres : MakeInitialPair3D C e current_pair = some (b, e')) :
    AllLandmarksHaveTwoObs e'.sfm_data_.structure_ := by
  unfold MakeInitialPair3D at hres
  simp only [] at hres
  split at hres
  · rename_i view_I view_J hvI hvJ
    have hidI : view_I.id_view = min current_pair.1 current_pair.2 :=
      hkeyed _ (StlMap.find_some_mem _ _ _ hvI)
    have hidJ : view_J.id_view = max current_pair.1 current_pair.2 :=
      hkeyed _ (StlMap.find_some_mem _ _ _ hvJ)
    have hne : view_I.id_view ≠ view_J.id_view := by
      rw [hidI, hidJ]
      intro heq
      rcases le_total current_pair.1 current_pair.2 with h | h
      · rw [min_eq_left h, max_eq_right h] at heq; exact hpair heq
      · rw [min_eq_right h, max_eq_left h] at heq; exact hpair heq.symm
    split at hres
    · split_ifs at hres
      · repeat' split at hres
        all_goals first
          | simp only [reduceCtorEq] at hres
          | (simp only [Option.some.injEq, Prod.mk.injEq] at hres
             exact hres.2 ▸ hstart)
          | skip
        all_goals
          rename_i structure1 hsave
          simp only [Option.some.injEq, Prod.mk.injEq] at hres
          rw [← hres.2]
          exact saveSeedInliers_twoObs C view_I view_J _ _ _ _ _ hne _ _ _ hstart hsave
      · simp only [Option.some.injEq, Prod.mk.injEq] at hres
        exact hres.2 ▸ hstart
    · simp only [Option.some.injEq, Prod.mk.injEq] at hres
      exact hres.2 ▸ hstart
  · simp at hres

theorem addObservation_twoObs (s : StlMap Landmark) (trackId viewIndex : Nat) (ob : Observation)
    (hs : AllLandmarksHaveTwoObs s) (hk : (StlMap.find s trackId).isSome = true) :
    AllLandmarksHaveTwoObs (addObservation s trackId viewIndex ob) := by
  obtain ⟨lm, hlm⟩ := Option.isSome_iff_exists.mp hk
  simp only [addObservation, hlm, Option.getD_some]
  refine AllLandmarksHaveTwoObs_assign s trackId _ hs ?_
  exact le_trans (hs _ (StlMap.find_some_mem s trackId lm hlm)) (StlMap.length_le_assign _ _ _)

theorem addObservation_find_isSome (s : StlMap Landmark) (trackId viewIndex : Nat)
    (ob : Observation) (k : Nat) (hk : (StlMap.find s k).isSome = true) :
    (StlMap.find (addObservation s trackId viewIndex ob) k).isSome = true := by
  simp only [addObservation, StlMap.find_assign]
  split_ifs
  · rfl
  · exact hk

theorem resectionStepF_twoObs (C : Collaborators) (intrinsic : Intrinsic) (pose : Pose3)
    (error_max : ℚ) (viewIndex : Nat) :
    ∀ (corr : List Correspondence) (s : StlMap Landmark), AllLandmarksHaveTwoObs s →
      (∀ c ∈ corr, (StlMap.find s c.trackId).isSome = true) →
      AllLandmarksHaveTwoObs (resectionStepF C intrinsic pose error_max viewIndex corr s) := by
  intro corr
  induction corr with
  | nil => intro s hs _; exact hs
  | cons c t ih =>
    intro s hs hc
    simp only [resectionStepF, List.foldl_cons]
    split_ifs
    · refine ih _ (addObservation_twoObs s _ _ _ hs (hc c (List.mem_cons_self _ _))) ?_
      intro c' hc'
      exact addObservation_find_isSome s _ _ _ _ (hc c' (List.mem_cons_of_mem _ hc'))
    · exact ih s hs fun c' hc' => hc c' (List.mem_cons_of_mem _ hc')

theorem resectionCorrespondences_find (C : Collaborators) (e : Engine) (viewIndex : Nat)
    (corr : List Correspondence) (h : resectionCorrespondences C e viewIndex = some corr) :
    ∀ c ∈ corr, ∃ landmark, StlMap.find e.sfm_data_.structure_ c.trackId = some landmark
      ∧ c.X = landmark.X ∧ c.x = C.feats viewIndex c.featId := by
  intro c hc
  simp only [resectionCorrespondences] at h
  have h1 := (optionAll_mem _ corr h c).mp hc
  rcases List.mem_map.mp h1 with ⟨tf, _, htf⟩
  rcases Option.map_eq_some'.mp htf with ⟨lm, hlm, hceq⟩
  subst hceq
  exact ⟨lm, hlm, rfl, rfl⟩

theorem extendLandmark_length (C : Collaborators) (map_ACThreshold : StlMap ℚ) (I : Nat)
    (cam_I : Intrinsic) (pose_I : Pose3) (xI : Vec2) (featI : Nat) (landmark landmark' : Landmark)
    (h : extendLandmark C map_ACThreshold I cam_I pose_I xI featI landmark = some landmark') :
    landmark.obs.length ≤ landmark'.obs.length := by
  unfold extendLandmark at h
  repeat' split at h
  all_goals first
    | simp only [reduceCtorEq] at h
    | (simp only [Option.some.injEq] at h
       subst h
       first
         | exact le_refl _
         | exact StlMap.length_le_assign _ _ _)

theorem triangulateTrack_twoObs (C : Collaborators) (map_ACThreshold : StlMap ℚ) (I J : Nat)
    (cam_I cam_J : Intrinsic) (pose_I pose_J : Pose3) (hIJ : I ≠ J)
    (s s' : StlMap Landmark) (t : Nat × SubmapTrack) (hs : AllLandmarksHaveTwoObs s)
    (h : triangulateTrack C map_ACThreshold I J cam_I cam_J pose_I pose_J s t = some s') :
    AllLandmarksHaveTwoObs s' := by
  unfold triangulateTrack at h
  simp only [] at h
  split at h
  · split at h
    · rename_i landmark hfind
      split at h
      · simp at h
      · rename_i landmark1 h1
        split at h
        · simp at h
        · rename_i landmark2 h2
          simp only [Option.some.injEq] at h
          subst h
          refine AllLandmarksHaveTwoObs_assign s _ _ hs ?_
          have a1 := extendLandmark_length _ _ _ _ _ _ _ _ _ h1
          have a2 := extendLandmark_length _ _ _ _ _ _ _ _ _ h2
          have a0 : 2 ≤ landmark.obs.length := hs _ (StlMap.find_some_mem s _ _ hfind)
          omega
    · repeat' split at h
      all_goals first
        | simp only [reduceCtorEq] at h
        | (simp only [Option.some.injEq] at h
           subst h
           first
             | exact hs
             | exact AllLandmarksHaveTwoObs_assign s _ _ hs
                 (le_of_eq (StlMap.length_assign_pair I J _ _ hIJ).symm))
  · simp at h

theorem resectionStepG_twoObs (C : Collaborators) (e : Engine) (viewIndex : Nat)
    (s s' : StlMap Landmark) (hs : AllLandmarksHaveTwoObs s)
    (h : resectionStepG C e viewIndex s = some s') : AllLandmarksHaveTwoObs s' := by
  refine foldlOpt_invariant AllLandmarksHaveTwoObs _ ?_ _ s s' hs h
  intro b indexI b' hb hstep
  unfold triangulateWithView at hstep
  simp only [] at hstep
  split_ifs at hstep with hidx
  · simp only [Option.some.injEq] at hstep
    exact hstep ▸ hb
  · have hIJ : min viewIndex indexI ≠ max viewIndex indexI := by
      intro heq
      rcases le_total viewIndex indexI with h' | h'
      · rw [min_eq_left h', max_eq_right h'] at heq; exact hidx heq.symm
      · rw [min_eq_right h', max_eq_left h'] at heq; exact hidx heq
    repeat' split at hstep
    all_goals first
      | simp only [reduceCtorEq] at hstep
      | exact foldlOpt_invariant AllLandmarksHaveTwoObs _
          (fun b0 a b1 hb0 hst => triangulateTrack_twoObs C _ _ _ _ _ _ _ hIJ b0 b1 a hb0 hst)
          _ b b' hb hstep

theorem resectionCommit_structure (e : Engine) (viewIndex : Nat) (view_I : View)
    (b_new_intrinsic : Bool) (intrinsic : Intrinsic) (pose : Pose3) (error_max : ℚ) :
    (resectionCommit e viewIndex view_I b_new_intrinsic intrinsic pose error_max).sfm_data_.structure_
      = e.sfm_data_.structure_ := by
  unfold resectionCommit
  cases b_new_intrinsic <;> simp

/-- After a `Resection` call that returns a result, every landmark has at
least two observations when this held before the call. -/
theorem Resection_twoObs (C : Collaborators) (e e' : Engine) (viewIndex : Nat) (b : Bool)
    (hstart : AllLandmarksHaveTwoObs e.sfm_data_.structure_)
    (hres : Resection C e viewIndex = some (b, e')) :
    AllLandmarksHaveTwoObs e'.sfm_data_.structure_ := by
  unfold Resection at hres
  simp only [] at hres
  split_ifs at hres
  · simp only [Option.some.injEq, Prod.mk.injEq] at hres
    exact hres.2 ▸ hstart
  · split at hres
    · simp at hres
    · split at hres
      · simp at hres
      · rename_i corr hcorr
        repeat' split at hres
        all_goals first
          | simp only [reduceCtorEq] at hres
          | (simp only [Option.some.injEq, Prod.mk.injEq] at hres
             exact hres.2 ▸ hstart)
          | skip
        all_goals
          rename_i s2 hG
          simp only [Option.some.injEq, Prod.mk.injEq] at hres
          rw [← hres.2]
          refine resectionStepG_twoObs C _ viewIndex _ s2 ?_ hG
          rw [resectionCommit_structure]
          refine resectionStepF_twoObs C _ _ _ viewIndex corr _ hstart ?_
          intro c hc
          obtain ⟨lm, hlm, _⟩ := resectionCorrespondences_find C e viewIndex corr hcorr c hc
          simp [hlm]

/-- C9: after a `MakeInitialPair3D` call that returns true on a scene without
landmarks (views stored under their ids, two different views), and after a
`Resection` call that returns true on a scene in which every landmark had at
least two observations, every landmark of the scene has at least two
observations. -/
theorem landmarks_keep_two_observations (C : Collaborators) (e e' : Engine) :
    (∀ current_pair : Pair, ViewsKeyedById e.sfm_data_ → current_pair.1 ≠ current_pair.2 →
        e.sfm_data_.structure_ = [] →
        MakeInitialPair3D C e current_pair = some (true, e') →
        AllLandmarksHaveTwoObs e'.sfm_data_.structure_)
      ∧ (∀ viewIndex : Nat, AllLandmarksHaveTwoObs e.sfm_data_.structure_ →
        Resection C e viewIndex = some (true, e') →
        AllLandmarksHaveTwoObs e'.sfm_data_.structure_) := by
  constructor
  · intro current_pair hkeyed hpair hempty hres
    refine MakeInitialPair3D_twoObs C e e' current_pair true hkeyed hpair ?_ hres
    rw [hempty]
    intro kv hkv
    simp at hkv
  · intro viewIndex hstart hres
    exact Resection_twoObs C e e' viewIndex true hstart hres

/-- Witness for C9, seed: the three landmarks created by the seed on
`enginePair 3` have two observations each. -/
theorem landmarks_keep_two_observations_witness :
    AllLandmarksHaveTwoObs engineSeeded.sfm_data_.structure_
      ∧ AllLandmarksHaveTwoObs engineResected.sfm_data_.structure_ :=
  ⟨(landmarks_keep_two_observations exampleCollaborators (enginePair 3) engineSeeded).1 (0, 1)
      (by decide) (by decide) (by decide) (by decide),
   (landmarks_keep_two_observations exampleCollaborators engineScores43 engineResected).2 2
      (by decide) (by decide)⟩

/-! ## Resection, step F -/

theorem addObservation_find (s : StlMap Landmark) (trackId viewIndex : Nat) (ob : Observation)
    (k : Nat) :
    StlMap.find (addObservation s trackId viewIndex ob) k =
      if trackId = k then
        some { (StlMap.find s trackId).getD ⟨(0, 0, 0), []⟩ with
          obs := StlMap.assign ((StlMap.find s trackId).getD ⟨(0, 0, 0), []⟩).obs viewIndex ob }
      else StlMap.find s k := by
  simp only [addObservation, StlMap.find_assign]

/-- Step F leaves the landmarks that are not among the correspondences as they are. -/
theorem resectionStepF_find_other (C : Collaborators) (intrinsic : Intrinsic) (pose : Pose3)
    (error_max : ℚ) (viewIndex : Nat) (k : Nat) :
    ∀ (corr : List Correspondence) (s : StlMap Landmark), (∀ c ∈ corr, c.trackId ≠ k) →
      StlMap.find (resectionStepF C intrinsic pose error_max viewIndex corr s) k
        = StlMap.find s k := by
  intro corr
  induction corr with
  | nil => intro s _; rfl
  | cons c t ih =>
    intro s hc
    simp only [resectionStepF, List.foldl_cons]
    have hck : c.trackId ≠ k := hc c (List.mem_cons_self _ _)
    have ht : ∀ c' ∈ t, c'.trackId ≠ k := fun c' hc' => hc c' (List.mem_cons_of_mem _ hc')
    split_ifs
    · have := ih (addObservation s c.trackId viewIndex ⟨c.x, c.featId⟩) ht
      simp only [resectionStepF] at this
      rw [this, addObservation_find, if_neg hck]
    · have := ih s ht
      simp only [resectionStepF] at this
      exact this

/-- C10: in step F of `Resection`, for every 2D-3D correspondence (one per
track) the landmark of the track receives the observation of the view if and
only if the residual norm under the refined pose is strictly below the
localization threshold `error_max` and the depth of the point is positive;
the landmark of a rejected correspondence and every other landmark are left
unchanged. -/
theorem resectionStepF_adds_iff (C : Collaborators) (intrinsic : Intrinsic) (pose : Pose3)
    (error_max : ℚ) (viewIndex : Nat) (corr : List Correspondence) (s : StlMap Landmark)
    (hnodup : (corr.map fun c => c.trackId).Nodup) :
    (∀ c ∈ corr, ∀ landmark, StlMap.find s c.trackId = some landmark →
        StlMap.find (resectionStepF C intrinsic pose error_max viewIndex corr s) c.trackId =
          some (if C.residualNorm intrinsic pose c.X c.x < error_max ∧ C.depth pose c.X > 0 then
                  { landmark with obs := StlMap.assign landmark.obs viewIndex ⟨c.x, c.featId⟩ }
                else landmark))
      ∧ (∀ c ∈ corr, ∀ landmark landmark', StlMap.find s c.trackId = some landmark →
          StlMap.contains landmark.obs viewIndex = false →
          StlMap.find (resectionStepF C intrinsic pose error_max viewIndex corr s) c.trackId
            = some landmark' →
          (StlMap.find landmark'.obs viewIndex = some ⟨c.x, c.featId⟩ ↔
            (C.residualNorm intrinsic pose c.X c.x < error_max ∧ C.depth pose c.X > 0))
          ∧ (StlMap.contains landmark'.obs viewIndex = true ↔
            (C.residualNorm intrinsic pose c.X c.x < error_max ∧ C.depth pose c.X > 0)))
      ∧ (∀ k, (∀ c ∈ corr, c.trackId ≠ k) →
          StlMap.find (resectionStepF C intrinsic pose error_max viewIndex corr s) k
            = StlMap.find s k) := by
  have h1 : ∀ (corr : List Correspondence) (s : StlMap Landmark),
      (corr.map fun c => c.trackId).Nodup →
      ∀ c ∈ corr, ∀ landmark, StlMap.find s c.trackId = some landmark →
        StlMap.find (resectionStepF C intrinsic pose error_max viewIndex corr s) c.trackId =
          some (if C.residualNorm intrinsic pose c.X c.x < error_max ∧ C.depth pose c.X > 0 then
                  { landmark with obs := StlMap.assign landmark.obs viewIndex ⟨c.x, c.featId⟩ }
                else landmark) := by
    intro corr
    induction corr with
    | nil => intro s _ c hc; simp at hc
    | cons c0 t ih =>
      intro s hnd c hc landmark hfind
      simp only [List.map_cons, List.nodup_cons, List.mem_map, not_exists, not_and] at hnd
      obtain ⟨hc0, hndt⟩ := hnd
      rcases List.mem_cons.mp hc with heq | hct
      · subst heq
        have hrest := resectionStepF_find_other C intrinsic pose error_max viewIndex c.trackId t
        simp only [resectionStepF, List.foldl_cons, resectionInlier, decide_eq_true_eq]
        simp only [resectionStepF, resectionInlier, decide_eq_true_eq] at hrest
        rw [hrest _ (fun c' hc' => hc0 c' hc')]
        split_ifs
        · rw [addObservation_find, if_pos rfl, hfind]
          rfl
        · exact hfind
      · have hne : c0.trackId ≠ c.trackId := fun h => hc0 c hct h.symm
        have hcons : resectionStepF C intrinsic pose error_max viewIndex (c0 :: t) s =
            resectionStepF C intrinsic pose error_max viewIndex t
              (if resectionInlier C intrinsic pose error_max c0 then
                addObservation s c0.trackId viewIndex ⟨c0.x, c0.featId⟩ else s) := rfl
        rw [hcons]
        refine ih _ hndt c hct landmark ?_
        by_cases hin0 : resectionInlier C intrinsic pose error_max c0 = true
        · rw [if_pos hin0, addObservation_find, if_neg hne]; exact hfind
        · rw [if_neg hin0]; exact hfind
  refine ⟨h1 corr s hnodup, ?_, fun k hk =>
    resectionStepF_find_other C intrinsic pose error_max viewIndex k corr s hk⟩
  intro c hc landmark landmark' hfind hnot hfind'
  rw [h1 corr s hnodup c hc landmark hfind] at hfind'
  simp only [Option.some.injEq] at hfind'
  subst hfind'
  have hnone : StlMap.find landmark.obs viewIndex = none := by
    simpa [StlMap.contains] using hnot
  by_cases hin : C.residualNorm intrinsic pose c.X c.x < error_max ∧ C.depth pose c.X > 0
  · simp [hin, StlMap.contains, StlMap.find_assign]
  · simp [hin, StlMap.contains, hnone]

/-- Witness for C10: with a residual of half a pixel under the threshold 2
and depth 1, the landmark of track 0 receives the observation of view 2. -/
theorem resectionStepF_adds_iff_witness :
    StlMap.find (resectionStepF exampleCollaborators exampleCamera Pose3.identity 2 2
        correspondencesView2 engineScores43.sfm_data_.structure_) 0
      = some (resectedLandmark 0) :=
  ((resectionStepF_adds_iff exampleCollaborators exampleCamera Pose3.identity 2 2
      correspondencesView2 engineScores43.sfm_data_.structure_ (by decide)).1
    ⟨0, 0, (0, 0, 1), (0, 0)⟩ (by decide) (exampleLandmark 0) (by decide)).trans (by decide)

/-! ## The result of `Process` -/

theorem chooseSeed_none_iff (C : Collaborators) (e : Engine) :
    chooseSeed C e = some none ↔
      (e.initial_pair_ = (0, 0) ∧ AutomaticInitialPairChoice C e = some none
        ∧ (ChooseInitialPair C e).1 = false) := by
  unfold chooseSeed
  split_ifs with h0
  · cases hA : AutomaticInitialPairChoice C e with
    | none => simp [hA]
    | some r =>
      cases r with
      | some p => simp [hA]
      | none =>
        cases hC : (ChooseInitialPair C e).1 <;> simp [hA, hC, h0]
  · constructor
    · intro h
      simp at h
    · rintro ⟨h, _⟩
      exact absurd h h0

/-! ## Termination of the growth loop in unrestricted mode -/

theorem refineLoop_succ (C : Collaborators) :
    ∀ (n : Nat) (e : Engine) (r : Nat × Engine),
      refineLoop C n e = some r → refineLoop C (n + 1) e = some r
  | 0, e, r, h => by simp [refineLoop] at h
  | n + 1, e, r, h => by
    rw [refineLoop] at h
    rw [refineLoop]
    by_cases hc : (refineCycle C e).1 = true
    · simp only [hc, if_true, Option.map_eq_some'] at h ⊢
      obtain ⟨x, hx, hr⟩ := h
      exact ⟨x, refineLoop_succ C n _ x hx, hr⟩
    · simp only [hc] at h ⊢
      exact h

theorem refineLoop_mono (C : Collaborators) (n m : Nat) (hnm : n ≤ m) (e : Engine)
    (r : Nat × Engine) (h : refineLoop C n e = some r) : refineLoop C m e = some r := by
  induction hnm with
  | refl => exact h
  | step _ ih => exact refineLoop_succ C _ e r ih

theorem growthLoop_succ (C : Collaborators) :
    ∀ (n : Nat) (e e' : Engine), growthLoop C n e = some e' → growthLoop C (n + 1) e = some e'
  | 0, e, e', h => by simp [growthLoop] at h
  | n + 1, e, e', h => by
    rw [growthLoop] at h
    rw [growthLoop]
    cases hF : FindImagesWithPossibleResection e with
    | none => simp [hF] at h
    | some r =>
      obtain ⟨b, cands, e1⟩ := r
      cases b with
      | false =>
        simp only [hF] at h ⊢
        exact h
      | true =>
        simp only [hF] at h ⊢
        cases hG : resectGroup C cands false e1 with
        | none => simp [hG] at h
        | some rg =>
          obtain ⟨added, e2⟩ := rg
          cases added with
          | false =>
            simp only [hG] at h ⊢
            exact growthLoop_succ C n e2 e' h
          | true =>
            simp only [hG] at h ⊢
            cases hR : refineLoop C n e2 with
            | none => simp [hR] at h
            | some rr =>
              obtain ⟨k, e3⟩ := rr
              simp only [hR] at h
              simp only [refineLoop_succ C n e2 (k, e3) hR]
              exact growthLoop_succ C n _ e' h

theorem growthLoop_mono (C : Collaborators) (n m : Nat) (hnm : n ≤ m) (e e' : Engine)
    (h : growthLoop C n e = some e') : growthLoop C m e = some e' := by
  induction hnm with
  | refl => exact h
  | step _ ih => exact growthLoop_succ C _ e e' ih

theorem Resection_pools (C : Collaborators) (e e' : Engine) (viewIndex : Nat) (b : Bool)
    (hres : Resection C e viewIndex = some (b, e')) :
    e'.set_remaining_view_id_ = e.set_remaining_view_id_
      ∧ e'.bRestricted_window_SfM_ = e.bRestricted_window_SfM_ := by
  unfold Resection at hres
  simp only [] at hres
  repeat' split at hres
  all_goals first
    | simp only [reduceCtorEq] at hres
    | (simp only [Option.some.injEq, Prod.mk.injEq] at hres
       obtain ⟨_, rfl⟩ := hres
       exact ⟨rfl, rfl⟩)

theorem refineLoop_pools (C : Collaborators) :
    ∀ (n : Nat) (e : Engine) (r : Nat × Engine), refineLoop C n e = some r →
      r.2.set_remaining_view_id_ = e.set_remaining_view_id_
        ∧ r.2.bRestricted_window_SfM_ = e.bRestricted_window_SfM_
  | 0, e, r, h => by simp [refineLoop] at h
  | n + 1, e, r, h => by
    rw [refineLoop] at h
    have hcyc : (refineCycle C e).2.set_remaining_view_id_ = e.set_remaining_view_id_
        ∧ (refineCycle C e).2.bRestricted_window_SfM_ = e.bRestricted_window_SfM_ := by
      simp [refineCycle, badTrackRejector, BundleAdjustment]
    by_cases hc : (refineCycle C e).1 = true
    · simp only [hc, if_true, Option.map_eq_some'] at h
      obtain ⟨x, hx, hr⟩ := h
      have := refineLoop_pools C n _ x hx
      subst hr
      exact ⟨this.1.trans hcyc.1, this.2.trans hcyc.2⟩
    · simp only [hc, Bool.false_eq_true, if_false, Option.some.injEq] at h
      subst h
      exact hcyc

theorem selectGroup_sublist (ratio : Nat × Nat) (sorted : List (Nat × Nat)) :
    (selectGroup ratio sorted).Sublist (sorted.map Prod.fst) := by
  cases sorted with
  | nil => simp [selectGroup]
  | cons best rest =>
    simp only [selectGroup, List.map_cons]
    exact List.Sublist.cons₂ _ ((List.takeWhile_sublist _).map _)

theorem scoreViews_sublist (map_tracks : STLMAPTracks) (reconstructed_trackId active : StlSet) :
    ((scoreViews map_tracks reconstructed_trackId active).map Prod.fst).Sublist active := by
  induction active with
  | nil => simp [scoreViews]
  | cons v t ih =>
    simp only [scoreViews, List.filterMap_cons] at ih ⊢
    split
    · exact List.Sublist.cons _ ih
    · rename_i b hb
      split_ifs at hb
      simp only [Option.some.injEq] at hb
      subst hb
      simp only [List.map_cons]
      exact List.Sublist.cons₂ _ ih

theorem sortPutative_perm (l : List (Nat × Nat)) : (sortPutative l).Perm l :=
  List.perm_insertionSort _ l

/-- Candidates of the group selection on the scored views of an active set
without repetition: no repetition, all of them active views. -/
theorem selectGroup_scoreViews (ratio : Nat × Nat) (map_tracks : STLMAPTracks)
    (reconstructed_trackId active : StlSet) (hnd : active.Nodup) :
    (selectGroup ratio (sortPutative (scoreViews map_tracks reconstructed_trackId active))).Nodup
      ∧ ∀ v ∈ selectGroup ratio
          (sortPutative (scoreViews map_tracks reconstructed_trackId active)), v ∈ active := by
  have hperm := (sortPutative_perm (scoreViews map_tracks reconstructed_trackId active)).map Prod.fst
  have hsub := scoreViews_sublist map_tracks reconstructed_trackId active
  have hsel := selectGroup_sublist ratio
    (sortPutative (scoreViews map_tracks reconstructed_trackId active))
  refine ⟨hsel.nodup (hperm.nodup_iff.mpr (hsub.nodup hnd)), ?_⟩
  intro v hv
  exact hsub.subset (hperm.subset (hsel.subset hv))

/-- In unrestricted mode the call either returns false, or returns true with
a non-empty candidate list without repetition, made of remaining views, and
leaves the engine as it is. -/
theorem FindImagesWithPossibleResection_unrestricted (e : Engine)
    (hmode : e.bRestricted_window_SfM_ = false) (hnd : e.set_remaining_view_id_.Nodup) :
    (∃ e1, FindImagesWithPossibleResection e = some (false, [], e1)
        ∧ e1.bRestricted_window_SfM_ = false)
      ∨ ∃ cands, FindImagesWithPossibleResection e = some (true, cands, e)
          ∧ cands ≠ [] ∧ cands.Nodup ∧ ∀ v ∈ cands, v ∈ e.set_remaining_view_id_ := by
  unfold FindImagesWithPossibleResection
  simp only [hmode, Bool.false_eq_true, if_false, not_false_eq_true, if_true]
  split_ifs with h1 h2
  · exact Or.inl ⟨e, rfl, hmode⟩
  · exact Or.inl ⟨_, rfl, rfl⟩
  · right
    refine ⟨_, rfl, ?_, selectGroup_scoreViews _ _ _ _ hnd⟩
    simp only [not_or] at h2
    intro hnil
    cases hs : sortPutative (scoreViews e.map_tracks_ (StlMap.keys e.sfm_data_.structure_)
        e.set_remaining_view_id_) with
    | nil => exact h2.1 hs
    | cons best rest =>
      rw [hs] at hnil
      simp [selectGroup] at hnil

theorem StlSet.length_erase_le (s : StlSet) (k : Nat) : (StlSet.erase s k).length ≤ s.length :=
  List.length_filter_le _ _

theorem StlSet.length_erase_lt (s : StlSet) (k : Nat) (hk : k ∈ s) :
    (StlSet.erase s k).length < s.length := by
  unfold StlSet.erase
  rw [List.length_filter_lt_length_iff_exists]
  exact ⟨k, hk, by simp⟩

theorem StlSet.mem_erase (s : StlSet) (k v : Nat) : v ∈ StlSet.erase s k ↔ v ∈ s ∧ v ≠ k := by
  simp [StlSet.erase]

theorem dropFromPools_remaining (e : Engine) (viewId : Nat) :
    (dropFromPools e viewId).set_remaining_view_id_ = StlSet.erase e.set_remaining_view_id_ viewId := by
  unfold dropFromPools
  simp only []
  split_ifs <;> rfl

/-- The loop over the candidates is defined and shrinks the remaining set,
when every `Resection` call on an engine of the invariant is defined and
leads back into the invariant. -/
theorem resectGroup_defined (C : Collaborators) (Inv : Engine → Prop)
    (hRes : ∀ e v, Inv e → v ∈ e.set_remaining_view_id_ →
      ∃ r, Resection C e v = some r ∧ Inv (dropFromPools r.2 v)) :
    ∀ (cands : List Nat) (b : Bool) (e : Engine), Inv e → cands.Nodup →
      (∀ v ∈ cands, v ∈ e.set_remaining_view_id_) →
      ∃ r, resectGroup C cands b e = some r ∧ Inv r.2
        ∧ r.2.set_remaining_view_id_.length ≤ e.set_remaining_view_id_.length
        ∧ (cands ≠ [] → r.2.set_remaining_view_id_.length < e.set_remaining_view_id_.length) := by
  intro cands
  induction cands with
  | nil =>
    intro b e hInv _ _
    exact ⟨(b, e), rfl, hInv, le_refl _, fun h => absurd rfl h⟩
  | cons v rest ih =>
    intro b e hInv hnd hmem
    obtain ⟨r, hr, hInv'⟩ := hRes e v hInv (hmem v (List.mem_cons_self _ _))
    obtain ⟨ok, e1⟩ := r
    have hrem : (dropFromPools e1 v).set_remaining_view_id_
        = StlSet.erase e.set_remaining_view_id_ v := by
      rw [dropFromPools_remaining, (Resection_pools C e e1 v ok hr).1]
    have hnd' := List.nodup_cons.mp hnd
    have hmem' : ∀ v' ∈ rest, v' ∈ (dropFromPools e1 v).set_remaining_view_id_ := by
      intro v' hv'
      rw [hrem, StlSet.mem_erase]
      exact ⟨hmem v' (List.mem_cons_of_mem _ hv'), fun h => hnd'.1 (h ▸ hv')⟩
    obtain ⟨r2, hr2, hInv2, hle, _⟩ := ih (b || ok) (dropFromPools e1 v) hInv' hnd'.2 hmem'
    have hlt : (StlSet.erase e.set_remaining_view_id_ v).length < e.set_remaining_view_id_.length :=
      StlSet.length_erase_lt _ _ (hmem v (List.mem_cons_self _ _))
    rw [hrem] at hle
    refine ⟨r2, ?_, hInv2, by omega, fun _ => by omega⟩
    simp only [resectGroup, hr, hr2]

/-- The growth loop ends in unrestricted mode, given an invariant of the
engine under which the remaining set has no repetition, every `Resection`
call is defined and the refinement loop ends. -/
theorem growthLoop_terminates (C : Collaborators) (Inv : Engine → Prop)
    (hMode : ∀ e, Inv e → e.bRestricted_window_SfM_ = false)
    (hNodup : ∀ e, Inv e → e.set_remaining_view_id_.Nodup)
    (hRes : ∀ e v, Inv e → v ∈ e.set_remaining_view_id_ →
      ∃ r, Resection C e v = some r ∧ Inv (dropFromPools r.2 v))
    (hRefine : ∀ e, Inv e → ∃ n r, refineLoop C n e = some r
      ∧ Inv { r.2 with sfm_data_ := C.eraseUnstablePosesAndObservations r.2.sfm_data_ }) :
    ∀ (n : Nat) (e : Engine), Inv e → e.set_remaining_view_id_.length ≤ n →
      ∃ fuel e', growthLoop C fuel e = some e' := by
  intro n
  induction n with
  | zero =>
    intro e hInv hlen
    rcases FindImagesWithPossibleResection_unrestricted e (hMode e hInv) (hNodup e hInv) with
      ⟨e1, h1, _⟩ | ⟨cands, _, hne, _, hmem⟩
    · exact ⟨1, e1, by simp [growthLoop, h1]⟩
    · obtain ⟨v, hv⟩ := List.exists_mem_of_ne_nil cands hne
      have := hmem v hv
      have h0 : e.set_remaining_view_id_ = [] := List.length_eq_zero.mp (Nat.le_zero.mp hlen)
      rw [h0] at this
      simp at this
  | succ n ih =>
    intro e hInv hlen
    rcases FindImagesWithPossibleResection_unrestricted e (hMode e hInv) (hNodup e hInv) with
      ⟨e1, h1, _⟩ | ⟨cands, h1, hne, hnd, hmem⟩
    · exact ⟨1, e1, by simp [growthLoop, h1]⟩
    · obtain ⟨r, hr, hInv2, _, hlt⟩ :=
        resectGroup_defined C Inv hRes cands false e hInv hnd hmem
      obtain ⟨added, e2⟩ := r
      have hlen2 : e2.set_remaining_view_id_.length ≤ n := by
        have := hlt hne
        simp only at this
        omega
      cases added with
      | false =>
        obtain ⟨fuel, e', hg⟩ := ih e2 hInv2 hlen2
        exact ⟨fuel + 1, e', by simp only [growthLoop, h1, hr, hg]⟩
      | true =>
        obtain ⟨n1, rr, hrr, hInv3⟩ := hRefine e2 hInv2
        obtain ⟨k, e3⟩ := rr
        have hpools := refineLoop_pools C n1 e2 (k, e3) hrr
        obtain ⟨fuel, e', hg⟩ := ih _ hInv3 (by
          show e3.set_remaining_view_id_.length ≤ n
          rw [hpools.1]; exact hlen2)
        refine ⟨max n1 fuel + 1, e', ?_⟩
        have hR := refineLoop_mono C n1 (max n1 fuel) (le_max_left _ _) e2 (k, e3) hrr
        have hG := growthLoop_mono C fuel (max n1 fuel) (le_max_right _ _) _ e' hg
        simp only [growthLoop, h1, hr, hR, hG]

/-- The result of `Process`: it returns false exactly in the fatal cases (the
connectivity filter returns an empty view set, the track builder yields no
track, no initial pair is preset and both the automatic and the manual choice
fail, or `MakeInitialPair3D` returns false). Once the seed has succeeded,
`Process` returns true as soon as the growth loop ends, and inside that loop a
`Resection` that returns false only drops the view from the pools: the loop
goes on with the next candidate. In unrestricted mode the growth loop does
end, and `Process` returns true, whenever the engine keeps an invariant under
which the `Resection` calls are defined and the refinement loop ends. -/
theorem Process_false_iff_fatal (C : Collaborators) (e : Engine) :
    (∀ fuel, (∃ e', Process C fuel e = some (false, e')) ↔
        (C.CleanGraph_KeepLargestBiEdge_Nodes (e.pairWise_matches_.map Prod.fst) = []
          ∨ (filterAndBuildTracks C e).map_tracks_ = []
          ∨ ((filterAndBuildTracks C e).initial_pair_ = (0, 0)
              ∧ AutomaticInitialPairChoice C (filterAndBuildTracks C e) = some none
              ∧ (ChooseInitialPair C (filterAndBuildTracks C e)).1 = false)
          ∨ ∃ e3 e4, chooseSeed C (filterAndBuildTracks C e) = some (some e3)
              ∧ MakeInitialPair3D C e3 e3.initial_pair_ = some (false, e4)))
      ∧ (∀ e3 e4,
          C.CleanGraph_KeepLargestBiEdge_Nodes (e.pairWise_matches_.map Prod.fst) ≠ [] →
          (filterAndBuildTracks C e).map_tracks_ ≠ [] →
          chooseSeed C (filterAndBuildTracks C e) = some (some e3) →
          MakeInitialPair3D C e3 e3.initial_pair_ = some (true, e4) →
          ∀ fuel, Process C fuel e =
            (growthLoop C fuel (markSeedReconstructed e4)).map
              fun e5 => (true, finalRejection C e5))
      ∧ (∀ (viewId : Nat) (rest : List Nat) (bImageAdded ok : Bool) (e0 e1 : Engine),
          Resection C e0 viewId = some (ok, e1) →
          resectGroup C (viewId :: rest) bImageAdded e0 =
            resectGroup C rest (bImageAdded || ok) (dropFromPools e1 viewId))
      ∧ (∀ (Inv : Engine → Prop) (e3 e4 : Engine),
          C.CleanGraph_KeepLargestBiEdge_Nodes (e.pairWise_matches_.map Prod.fst) ≠ [] →
          (filterAndBuildTracks C e).map_tracks_ ≠ [] →
          chooseSeed C (filterAndBuildTracks C e) = some (some e3) →
          MakeInitialPair3D C e3 e3.initial_pair_ = some (true, e4) →
          Inv (markSeedReconstructed e4) →
          (∀ e, Inv e → e.bRestricted_window_SfM_ = false) →
          (∀ e, Inv e → e.set_remaining_view_id_.Nodup) →
          (∀ e v, Inv e → v ∈ e.set_remaining_view_id_ →
            ∃ r, Resection C e v = some r ∧ Inv (dropFromPools r.2 v)) →
          (∀ e, Inv e → ∃ n r, refineLoop C n e = some r
            ∧ Inv { r.2 with sfm_data_ := C.eraseUnstablePosesAndObservations r.2.sfm_data_ }) →
          ∃ fuel e', Process C fuel e = some (true, e')) := by
  have hsecond : ∀ e3 e4,
      C.CleanGraph_KeepLargestBiEdge_Nodes (e.pairWise_matches_.map Prod.fst) ≠ [] →
      (filterAndBuildTracks C e).map_tracks_ ≠ [] →
      chooseSeed C (filterAndBuildTracks C e) = some (some e3) →
      MakeInitialPair3D C e3 e3.initial_pair_ = some (true, e4) →
      ∀ fuel, Process C fuel e =
        (growthLoop C fuel (markSeedReconstructed e4)).map
          fun e5 => (true, finalRejection C e5) := by
    intro e3 e4 h1 h2 hS hM fuel
    simp only [Process, h1, h2, if_false, hS, hM, growAndFinish]
    cases growthLoop C fuel (markSeedReconstructed e4) <;> rfl
  refine ⟨?_, hsecond, ?_, ?_⟩
  · intro fuel
    rw [← chooseSeed_none_iff]
    unfold Process
    by_cases h1 : C.CleanGraph_KeepLargestBiEdge_Nodes (e.pairWise_matches_.map Prod.fst) = []
    · simp [h1]
    · by_cases h2 : (filterAndBuildTracks C e).map_tracks_ = []
      · simp [h1, h2]
      · simp only [h1, h2, if_false, false_or]
        cases hS : chooseSeed C (filterAndBuildTracks C e) with
        | none => simp
        | some r =>
          cases r with
          | none => simp
          | some e3 =>
            have hR : (∃ e3' e4', some (some e3) = some (some e3')
                ∧ MakeInitialPair3D C e3' e3'.initial_pair_ = some (false, e4')) ↔
                ∃ e4', MakeInitialPair3D C e3 e3.initial_pair_ = some (false, e4') := by
              constructor
              · rintro ⟨e3', e4', h3, h4⟩
                simp only [Option.some.injEq] at h3
                subst h3
                exact ⟨e4', h4⟩
              · rintro ⟨e4', h4⟩
                exact ⟨e3, e4', rfl, h4⟩
            simp only [reduceCtorEq, false_or, hR]
            cases hM : MakeInitialPair3D C e3 e3.initial_pair_ with
            | none => simp
            | some r4 =>
              obtain ⟨b4, e4⟩ := r4
              cases b4 with
              | false => simp
              | true =>
                simp only [growAndFinish]
                constructor
                · rintro ⟨e', he'⟩
                  split at he' <;> simp at he'
                · intro h
                  simp at h
  · intro viewId rest bImageAdded ok e0 e1 hR
    simp only [resectGroup, hR]
  · intro Inv e3 e4 h1 h2 hS hM hInv hMode hNodup hRes hRefine
    obtain ⟨fuel, e5, hg⟩ := growthLoop_terminates C Inv hMode hNodup hRes hRefine _
      (markSeedReconstructed e4) hInv (le_refl _)
    refine ⟨fuel, finalRejection C e5, ?_⟩
    rw [hsecond e3 e4 h1 h2 hS hM fuel, hg]
    rfl

/-- The run example in unrestricted mode: the seed on the preset pair (0, 1)
succeeds, view 2 is resected, the resection of view 3 fails, and `Process`
returns true with three poses. -/
theorem Process_false_iff_fatal_witness :
    (∃ fuel e', Process collaboratorsRun fuel engineStart = some (true, e'))
      ∧ (Process collaboratorsRun 3 engineStart).map (fun r => (r.1, r.2.sfm_data_.poses.length))
          = some (true, 3) := by
  have hmem : ∀ e, runInvariant e →
      e = engineRunSeeded ∨ e = dropFromPools engineRunSeeded 3 ∨ e = engineRunResected
        ∨ e = dropFromPools engineRunResected 3 := by
    intro e h
    simpa only [runInvariant, List.mem_cons, List.mem_singleton, List.not_mem_nil, or_false]
      using h
  refine ⟨(Process_false_iff_fatal collaboratorsRun engineStart).2.2.2 runInvariant
    (filterAndBuildTracks collaboratorsRun engineStart) engineRunSeeded
    (by decide) (by decide) (by decide) (by decide) (by decide) ?_ ?_ ?_ ?_,
    ((Process_false_iff_fatal collaboratorsRun engineStart).2.1
      (filterAndBuildTracks collaboratorsRun engineStart) engineRunSeeded
      (by decide) (by decide) (by decide) (by decide) 3) ▸ (by decide)⟩
  · intro e hInv
    rcases hmem e hInv with rfl | rfl | rfl | rfl <;> rfl
  · intro e hInv
    rcases hmem e hInv with rfl | rfl | rfl | rfl <;> decide
  · intro e v hInv hv
    rcases hmem e hInv with rfl | rfl | rfl | rfl
    · have h2 : v ∈ [2, 3] := hv
      simp only [List.mem_cons, List.mem_singleton, List.not_mem_nil, or_false] at h2
      rcases h2 with rfl | rfl
      · exact ⟨_, rfl, by decide⟩
      · exact ⟨_, rfl, by decide⟩
    · have h2 : v ∈ [2] := hv
      simp only [List.mem_singleton] at h2
      subst h2
      exact ⟨_, rfl, by decide⟩
    · have h2 : v ∈ [3] := hv
      simp only [List.mem_singleton] at h2
      subst h2
      exact ⟨_, rfl, by decide⟩
    · have h2 : v ∈ ([] : List Nat) := hv
      simp at h2
  · intro e hInv
    exact ⟨1, (1, e), rfl, hInv⟩

/-! ## Restricted-window selection -/

/-- `FindImagesWithPossibleResection` in terms of its steps. -/
theorem FindImagesWithPossibleResection_steps (e : Engine) :
    FindImagesWithPossibleResection e =
      if (e.set_remaining_view_id_ = [] ∧ e.set_remaining_view_id_subset_ = [])
          ∨ e.sfm_data_.structure_ = [] then
        some (false, [], e)
      else
        match refillActiveSubset e with
        | none => none
        | some e1 =>
          if putativeViews e1 = [] ∨ ((putativeViews e1).head?.map Prod.snd) = some 0 then
            if ¬ e1.bRestricted_window_SfM_ then
              some (false, [], { e1 with set_remaining_view_id_ := [] })
            else if e1.set_remaining_view_id_ = [] then
              some (false, [], { e1 with set_remaining_view_id_ := [],
                                         set_remaining_view_id_subset_ := [] })
            else
              match expandWindow e1 e1.set_remaining_view_id_subset_ with
              | none => none
              | some e2 => some (true, [], e2)
          else some (true, selectGroup dThresholdGroup (putativeViews e1), e1) := by
  have hinner : ∀ e1 : Engine,
      (match windowBounds e1.set_remaining_view_id_subset_ e1.sfm_slide_window_size_
          e1.sfm_data_.views.length with
        | none => (none : Option (Bool × List Nat × Engine))
        | some (lo, hi) =>
          match absorbWindow lo hi e1.set_remaining_view_id_subset_ e1.set_remaining_view_id_ with
          | none => none
          | some r =>
            some (true, [],
              { e1 with set_remaining_view_id_subset_ := r.1, set_remaining_view_id_ := r.2 }))
        = match expandWindow e1 e1.set_remaining_view_id_subset_ with
          | none => none
          | some e2 => some (true, [], e2) := by
    intro e1
    unfold expandWindow
    cases windowBounds e1.set_remaining_view_id_subset_ e1.sfm_slide_window_size_
      e1.sfm_data_.views.length with
    | none => rfl
    | some lohi =>
      obtain ⟨lo, hi⟩ := lohi
      simp only []
      cases absorbWindow lo hi e1.set_remaining_view_id_subset_ e1.set_remaining_view_id_ <;> rfl
  unfold FindImagesWithPossibleResection putativeViews
  simp only [hinner]
  by_cases h0 : (e.set_remaining_view_id_ = [] ∧ e.set_remaining_view_id_subset_ = [])
      ∨ e.sfm_data_.structure_ = []
  · simp only [h0, if_true]
  · simp only [h0, if_false]
    have hrefill : (if e.bRestricted_window_SfM_ = true then
          if e.set_remaining_view_id_subset_ = [] then
            match windowBounds e.set_reconstructed_view_id_ e.sfm_slide_window_size_
                e.sfm_data_.views.length with
            | none => none
            | some (lo, hi) =>
              match absorbWindow lo hi e.set_remaining_view_id_subset_ e.set_remaining_view_id_ with
              | none => none
              | some r =>
                some { e with
                  set_remaining_view_id_subset_ := r.1, set_remaining_view_id_ := r.2 }
          else some e
        else some e) = refillActiveSubset e := by
      unfold refillActiveSubset expandWindow
      split_ifs
      · cases windowBounds e.set_reconstructed_view_id_ e.sfm_slide_window_size_
          e.sfm_data_.views.length with
        | none => rfl
        | some lohi => rfl
      · rfl
      · rfl
    rw [hrefill]

theorem StlSet.mem_insert (s : StlSet) (k v : Nat) : v ∈ StlSet.insert s k ↔ v = k ∨ v ∈ s := by
  induction s with
  | nil => simp [StlSet.insert]
  | cons a t ih =>
    simp only [StlSet.insert]
    split_ifs with h1 h2
    · simp
    · subst h2
      simp
    · simp only [List.mem_cons, ih]
      tauto

theorem foldl_min_le (t : List Nat) : ∀ a : Nat,
    t.foldl min a ≤ a ∧ (∀ x ∈ t, t.foldl min a ≤ x) ∧ (t.foldl min a = a ∨ t.foldl min a ∈ t) := by
  induction t with
  | nil => intro a; simp
  | cons b t ih =>
    intro a
    obtain ⟨h1, h2, h3⟩ := ih (min a b)
    simp only [List.foldl_cons, List.mem_cons]
    refine ⟨le_trans h1 (min_le_left _ _), ?_, ?_⟩
    · rintro x (rfl | hx)
      · exact le_trans h1 (min_le_right _ _)
      · exact h2 x hx
    · rcases h3 with h | h
      · rcases min_choice a b with hm | hm
        · exact Or.inl (h.trans hm)
        · exact Or.inr (Or.inl (h.trans hm))
      · exact Or.inr (Or.inr h)

theorem foldl_max_ge (t : List Nat) : ∀ a : Nat,
    a ≤ t.foldl max a ∧ (∀ x ∈ t, x ≤ t.foldl max a) ∧ (t.foldl max a = a ∨ t.foldl max a ∈ t) := by
  induction t with
  | nil => intro a; simp
  | cons b t ih =>
    intro a
    obtain ⟨h1, h2, h3⟩ := ih (max a b)
    simp only [List.foldl_cons, List.mem_cons]
    refine ⟨le_trans (le_max_left _ _) h1, ?_, ?_⟩
    · rintro x (rfl | hx)
      · exact le_trans (le_max_right _ _) h1
      · exact h2 x hx
    · rcases h3 with h | h
      · rcases max_choice a b with hm | hm
        · exact Or.inl (h.trans hm)
        · exact Or.inr (Or.inl (h.trans hm))
      · exact Or.inr (Or.inr h)

/-- The value of `minElement` is an element of the set below all the others. -/
theorem StlSet.minElement_spec (s : StlSet) (m : Nat) (h : StlSet.minElement s = some m) :
    m ∈ s ∧ ∀ x ∈ s, m ≤ x := by
  cases s with
  | nil => simp [StlSet.minElement] at h
  | cons a t =>
    simp only [StlSet.minElement, Option.some.injEq] at h
    subst h
    obtain ⟨h1, h2, h3⟩ := foldl_min_le t a
    refine ⟨?_, ?_⟩
    · rcases h3 with h | h
      · rw [h]; exact List.mem_cons_self _ _
      · exact List.mem_cons_of_mem _ h
    · intro x hx
      rcases List.mem_cons.mp hx with rfl | hx
      · exact h1
      · exact h2 x hx

/-- The value of `maxElement` is an element of the set above all the others. -/
theorem StlSet.maxElement_spec (s : StlSet) (m : Nat) (h : StlSet.maxElement s = some m) :
    m ∈ s ∧ ∀ x ∈ s, x ≤ m := by
  cases s with
  | nil => simp [StlSet.maxElement] at h
  | cons a t =>
    simp only [StlSet.maxElement, Option.some.injEq] at h
    subst h
    obtain ⟨h1, h2, h3⟩ := foldl_max_ge t a
    refine ⟨?_, ?_⟩
    · rcases h3 with h | h
      · rw [h]; exact List.mem_cons_self _ _
      · exact List.mem_cons_of_mem _ h
    · intro x hx
      rcases List.mem_cons.mp hx with rfl | hx
      · exact h1
      · exact h2 x hx

theorem absorb_foldlOpt_eq_some (lo hi : Nat) :
    ∀ (l : List Nat) (acc r : StlSet × StlSet),
      foldlOpt (fun acc viewId => if viewId ≥ lo ∧ viewId ≤ hi then none else some acc) l acc
          = some r
        ↔ (∀ v ∈ l, ¬ (lo ≤ v ∧ v ≤ hi)) ∧ r = acc := by
  intro l
  induction l with
  | nil =>
    intro acc r
    simp only [foldlOpt, Option.some.injEq, List.not_mem_nil, false_implies, implies_true,
      true_and]
    exact eq_comm
  | cons a t ih =>
    intro acc r
    simp only [foldlOpt]
    by_cases hw : a ≥ lo ∧ a ≤ hi
    · rw [if_pos hw]
      constructor
      · intro h
        exact Option.noConfusion h
      · rintro ⟨hall, _⟩
        exact absurd hw (hall a (List.mem_cons_self _ _))
    · rw [if_neg hw]
      simp only []
      rw [ih, List.forall_mem_cons]
      constructor
      · rintro ⟨h1, h2⟩
        exact ⟨⟨hw, h1⟩, h2⟩
      · rintro ⟨⟨_, h1⟩, h2⟩
        exact ⟨h1, h2⟩

/-- The absorbing loop is defined exactly when no view of the remaining set
lies inside the window, and it then leaves the two pools as they are. -/
theorem absorbWindow_eq_some (lo hi : Nat) (subset remaining : StlSet) (r : StlSet × StlSet) :
    absorbWindow lo hi subset remaining = some r
      ↔ (∀ v ∈ remaining, ¬ (lo ≤ v ∧ v ≤ hi)) ∧ r = (subset, remaining) :=
  absorb_foldlOpt_eq_some lo hi remaining (subset, remaining) r

/-- The absorbing loop is undefined exactly when a view of the remaining set
lies inside the window. -/
theorem absorbWindow_eq_none (lo hi : Nat) (subset remaining : StlSet) :
    absorbWindow lo hi subset remaining = none ↔ ∃ v ∈ remaining, lo ≤ v ∧ v ≤ hi := by
  cases h : absorbWindow lo hi subset remaining with
  | none =>
    simp only [true_iff]
    by_contra hno
    have hall : ∀ v ∈ remaining, ¬ (lo ≤ v ∧ v ≤ hi) := fun v hv hin => hno ⟨v, hv, hin⟩
    have := (absorbWindow_eq_some lo hi subset remaining (subset, remaining)).mpr ⟨hall, rfl⟩
    rw [h] at this
    exact Option.noConfusion this
  | some r =>
    simp only [reduceCtorEq, false_iff, not_exists, not_and]
    intro v hv hlo
    exact fun hhi => ((absorbWindow_eq_some lo hi subset remaining r).mp h).1 v hv ⟨hlo, hhi⟩

/-- A window expansion that is defined leaves the engine as it is: no view of
the remaining set lies inside the window `[lo, hi]`. -/
theorem expandWindow_spec (e e' : Engine) (around : StlSet) (h : expandWindow e around = some e') :
    ∃ lo hi, windowBounds around e.sfm_slide_window_size_ e.sfm_data_.views.length = some (lo, hi)
      ∧ (∀ v ∈ e.set_remaining_view_id_, ¬ (lo ≤ v ∧ v ≤ hi))
      ∧ e' = e := by
  unfold expandWindow at h
  cases hw : windowBounds around e.sfm_slide_window_size_ e.sfm_data_.views.length with
  | none => simp [hw] at h
  | some lohi =>
    obtain ⟨lo, hi⟩ := lohi
    simp only [hw] at h
    cases ha : absorbWindow lo hi e.set_remaining_view_id_subset_ e.set_remaining_view_id_ with
    | none => simp [ha] at h
    | some r =>
      obtain ⟨hall, hr⟩ := (absorbWindow_eq_some lo hi _ _ r).mp ha
      simp only [ha, Option.some.injEq] at h
      subst hr
      subst h
      exact ⟨lo, hi, rfl, hall, rfl⟩

theorem expandWindow_disjoint (e e' : Engine) (around : StlSet) (hd : PoolsDisjoint e)
    (h : expandWindow e around = some e') : PoolsDisjoint e' := by
  obtain ⟨_, _, _, _, he⟩ := expandWindow_spec e e' around h
  exact he ▸ hd

theorem refillActiveSubset_eq (e e' : Engine) (h : refillActiveSubset e = some e') : e' = e := by
  unfold refillActiveSubset at h
  split_ifs at h
  · obtain ⟨_, _, _, _, he⟩ := expandWindow_spec e e' _ h
    exact he
  · simp only [Option.some.injEq] at h; exact h.symm
  · simp only [Option.some.injEq] at h; exact h.symm

theorem refillActiveSubset_disjoint (e e' : Engine) (hd : PoolsDisjoint e)
    (h : refillActiveSubset e = some e') : PoolsDisjoint e' :=
  (refillActiveSubset_eq e e' h) ▸ hd

theorem refillActiveSubset_frame (e e' : Engine) (h : refillActiveSubset e = some e') :
    e'.bRestricted_window_SfM_ = e.bRestricted_window_SfM_ ∧ e'.sfm_data_ = e.sfm_data_ := by
  rw [refillActiveSubset_eq e e' h]
  exact ⟨rfl, rfl⟩

/-- The upper end of the window: on `engineWindowGap` the reconstructed views
are 10 and 11 and the window size is 2, so view 12 lies inside
`[10 - 2, 11 + 2]`; the largest reconstructed id exceeds the number of views,
the window of the code ends at the number of views, 4, and the first expansion
leaves view 12 in the remaining set and the active subset empty. -/
theorem refillActiveSubset_skips_view_in_window :
    (refillActiveSubset engineWindowGap).map
        (fun e => (e.set_remaining_view_id_subset_, e.set_remaining_view_id_)) = some ([], [12])
      ∧ StlSet.minElement engineWindowGap.set_reconstructed_view_id_ = some 10
      ∧ StlSet.maxElement engineWindowGap.set_reconstructed_view_id_ = some 11
      ∧ 10 - engineWindowGap.sfm_slide_window_size_ ≤ 12
      ∧ 12 ≤ 11 + engineWindowGap.sfm_slide_window_size_ := by
  refine ⟨by decide, by decide, by decide, by decide, by decide⟩

/-- In restricted mode with an empty active subset, the first expansion is
defined exactly when no view of the remaining set lies inside the window
around the reconstructed views, and it then moves nothing. -/
theorem refillActiveSubset_defined_iff (e : Engine) (lo hi : Nat)
    (hmode : e.bRestricted_window_SfM_ = true)
    (hsub : e.set_remaining_view_id_subset_ = [])
    (hw : windowBounds e.set_reconstructed_view_id_ e.sfm_slide_window_size_
      e.sfm_data_.views.length = some (lo, hi)) :
    (refillActiveSubset e = none ↔ ∃ v ∈ e.set_remaining_view_id_, lo ≤ v ∧ v ≤ hi)
      ∧ ∀ e1, refillActiveSubset e = some e1 → e1 = e :=
  ⟨by
    simp only [refillActiveSubset, hmode, hsub, if_true, expandWindow, hw]
    rw [← absorbWindow_eq_none lo hi [] e.set_remaining_view_id_]
    cases absorbWindow lo hi [] e.set_remaining_view_id_ <;> simp,
   fun e1 h => refillActiveSubset_eq e e1 h⟩

/-- C15: on `engineWindow` (restricted mode, views 0 and 1 reconstructed,
window size 1, views 2 and 3 remaining, empty active subset) the window is
`[0, 2]` and view 2 of the remaining set lies inside it, so the claim has view
2 moved to the active subset. The loop of the code erases view 2 from the set
under its own iterator and then increments that iterator: the first expansion,
and with it the call, is undefined. -/
theorem refillActiveSubset_undefined_when_absorbing :
    engineWindow.bRestricted_window_SfM_ = true
      ∧ engineWindow.set_remaining_view_id_subset_ = []
      ∧ engineWindow.set_remaining_view_id_ = [2, 3]
      ∧ windowBounds engineWindow.set_reconstructed_view_id_ engineWindow.sfm_slide_window_size_
          engineWindow.sfm_data_.views.length = some (0, 2)
      ∧ absorbWindow 0 2 engineWindow.set_remaining_view_id_subset_
          engineWindow.set_remaining_view_id_ = none
      ∧ refillActiveSubset engineWindow = none
      ∧ FindImagesWithPossibleResection engineWindow = none := by
  refine ⟨by decide, by decide, by decide, by decide, by decide, by decide, by decide⟩

theorem Resection_subset (C : Collaborators) (e e' : Engine) (viewIndex : Nat) (b : Bool)
    (hres : Resection C e viewIndex = some (b, e')) :
    e'.set_remaining_view_id_subset_ = e.set_remaining_view_id_subset_
      ∧ e'.set_reconstructed_view_id_ = e.set_reconstructed_view_id_ := by
  unfold Resection at hres
  simp only [] at hres
  repeat' split at hres
  all_goals first
    | simp only [reduceCtorEq] at hres
    | (simp only [Option.some.injEq, Prod.mk.injEq] at hres
       obtain ⟨_, rfl⟩ := hres
       exact ⟨rfl, rfl⟩)

theorem dropFromPools_disjoint (e : Engine) (viewId : Nat) (hd : PoolsDisjoint e) :
    PoolsDisjoint (dropFromPools e viewId) := by
  intro v hv hv'
  rw [dropFromPools_remaining, StlSet.mem_erase] at hv'
  have hsub : v ∈ e.set_remaining_view_id_subset_ := by
    unfold dropFromPools at hv
    simp only [] at hv
    split_ifs at hv
    · exact ((StlSet.mem_erase _ _ _).mp hv).1
    · exact hv
  exact hd v hsub hv'.1

theorem FindImagesWithPossibleResection_disjoint (e e' : Engine) (b : Bool) (cands : List Nat)
    (hd : PoolsDisjoint e) (h : FindImagesWithPossibleResection e = some (b, cands, e')) :
    PoolsDisjoint e' := by
  rw [FindImagesWithPossibleResection_steps] at h
  split_ifs at h with h0
  · simp only [Option.some.injEq, Prod.mk.injEq] at h
    exact h.2.2 ▸ hd
  · cases hr : refillActiveSubset e with
    | none => simp [hr] at h
    | some e1 =>
      have hd1 := refillActiveSubset_disjoint e e1 hd hr
      simp only [hr] at h
      by_cases h1 : putativeViews e1 = [] ∨ ((putativeViews e1).head?.map Prod.snd) = some 0
      · rw [if_pos h1] at h
        by_cases h2 : e1.bRestricted_window_SfM_ = true
        · rw [if_neg (not_not.mpr h2)] at h
          by_cases h3 : e1.set_remaining_view_id_ = []
          · rw [if_pos h3] at h
            simp only [Option.some.injEq, Prod.mk.injEq] at h
            rw [← h.2.2]
            intro v _ hv'
            exact List.not_mem_nil v hv'
          · rw [if_neg h3] at h
            cases hx : expandWindow e1 e1.set_remaining_view_id_subset_ with
            | none => simp [hx] at h
            | some e2 =>
              simp only [hx, Option.some.injEq, Prod.mk.injEq] at h
              rw [← h.2.2]
              exact expandWindow_disjoint e1 e2 _ hd1 hx
        · rw [if_pos h2] at h
          simp only [Option.some.injEq, Prod.mk.injEq] at h
          rw [← h.2.2]
          intro v _ hv'
          exact List.not_mem_nil v hv'
      · rw [if_neg h1] at h
        simp only [Option.some.injEq, Prod.mk.injEq] at h
        exact h.2.2 ▸ hd1

theorem resectGroup_disjoint (C : Collaborators) :
    ∀ (cands : List Nat) (b : Bool) (e : Engine) (r : Bool × Engine), PoolsDisjoint e →
      resectGroup C cands b e = some r → PoolsDisjoint r.2
  | [], b, e, r, hd, h => by
    simp only [resectGroup, Option.some.injEq] at h
    exact h ▸ hd
  | v :: rest, b, e, r, hd, h => by
    simp only [resectGroup] at h
    cases hR : Resection C e v with
    | none => simp [hR] at h
    | some r1 =>
      obtain ⟨ok, e1⟩ := r1
      simp only [hR] at h
      have hd1 : PoolsDisjoint e1 := by
        intro x hx hx'
        rw [(Resection_subset C e e1 v ok hR).1] at hx
        rw [(Resection_pools C e e1 v ok hR).1] at hx'
        exact hd x hx hx'
      exact resectGroup_disjoint C rest _ _ r (dropFromPools_disjoint e1 v hd1) h

/-- C16: when the active subset and the remaining set are disjoint before a
call to `FindImagesWithPossibleResection`, they are disjoint after it and
after each window expansion; the updates made for a candidate in the growth
loop of `Process` (its `Resection` and the erasures that follow) and the whole
loop over the candidates keep them disjoint. -/
theorem pools_stay_disjoint (C : Collaborators) (e : Engine) (hd : PoolsDisjoint e) :
    (∀ b cands e', FindImagesWithPossibleResection e = some (b, cands, e') → PoolsDisjoint e')
      ∧ (∀ around e', expandWindow e around = some e' → PoolsDisjoint e')
      ∧ (∀ viewId ok e1, Resection C e viewId = some (ok, e1) →
          PoolsDisjoint (dropFromPools e1 viewId))
      ∧ (∀ cands b r, resectGroup C cands b e = some r → PoolsDisjoint r.2) := by
  refine ⟨?_, ?_, ?_, ?_⟩
  · intro b cands e' h
    exact FindImagesWithPossibleResection_disjoint e e' b cands hd h
  · intro around e' h
    exact expandWindow_disjoint e e' around hd h
  · intro viewId ok e1 hR
    refine dropFromPools_disjoint e1 viewId ?_
    intro x hx hx'
    rw [(Resection_subset C e e1 viewId ok hR).1] at hx
    rw [(Resection_pools C e e1 viewId ok hR).1] at hx'
    exact hd x hx hx'
  · intro cands b r h
    exact resectGroup_disjoint C cands b e r hd h

/-- Witness for C16: with view 2 in the active subset and view 3 in the
remaining set the call returns view 2 as candidate and the two pools are still
disjoint. -/
theorem pools_stay_disjoint_witness :
    PoolsDisjoint
      { engineWindow with set_remaining_view_id_subset_ := [2], set_remaining_view_id_ := [3] } :=
  (pools_stay_disjoint exampleCollaborators
    { engineWindow with set_remaining_view_id_subset_ := [2], set_remaining_view_id_ := [3] }
    (by decide)).1 true [2]
    { engineWindow with set_remaining_view_id_subset_ := [2], set_remaining_view_id_ := [3] }
    (by decide)

theorem scoreViews_nil (map_tracks : STLMAPTracks) (reconstructed_trackId : StlSet) :
    scoreViews map_tracks reconstructed_trackId [] = [] := rfl

theorem sortPutative_eq_nil (l : List (Nat × Nat)) (h : l = []) : sortPutative l = [] := by
  subst h; rfl

/-- When a view is scored, the active set is not empty and the window around
it is defined. -/
theorem windowBounds_of_scored (e : Engine) (hmode : e.bRestricted_window_SfM_ = true)
    (hne : putativeViews e ≠ []) :
    ∃ lohi, windowBounds e.set_remaining_view_id_subset_ e.sfm_slide_window_size_
      e.sfm_data_.views.length = some lohi := by
  cases hs : e.set_remaining_view_id_subset_ with
  | nil =>
    exfalso
    apply hne
    simp only [putativeViews, hmode, if_true, hs]
    rfl
  | cons a t =>
    simp only [windowBounds, StlSet.minElement, StlSet.maxElement]
    exact ⟨_, rfl⟩

/-- In restricted mode with a non-empty landmark set, a call of
`FindImagesWithPossibleResection` that returns false had an empty remaining
set on entry and leaves it empty. A call that reaches the widening with views
remaining and returns has moved no view: it returns true with an empty
candidate list and the engine as it was. -/
theorem FindImagesWithPossibleResection_restricted_results (e : Engine)
    (hmode : e.bRestricted_window_SfM_ = true) (hland : e.sfm_data_.structure_ ≠ []) :
    (∀ cands e', FindImagesWithPossibleResection e = some (false, cands, e') →
        e'.set_remaining_view_id_ = [] ∧ e.set_remaining_view_id_ = [])
      ∧ (∀ b cands e', FindImagesWithPossibleResection e = some (b, cands, e') →
          e.set_remaining_view_id_ ≠ [] →
          (putativeViews e = [] ∨ (putativeViews e).head?.map Prod.snd = some 0) →
          b = true ∧ cands = [] ∧ e' = e) := by
  constructor
  · intro cands e' h
    rw [FindImagesWithPossibleResection_steps] at h
    by_cases h0 : (e.set_remaining_view_id_ = [] ∧ e.set_remaining_view_id_subset_ = [])
        ∨ e.sfm_data_.structure_ = []
    · rw [if_pos h0] at h
      simp only [Option.some.injEq, Prod.mk.injEq, true_and] at h
      rcases h0 with h0 | h0
      · rw [← h.2]
        exact ⟨h0.1, h0.1⟩
      · exact absurd h0 hland
    · rw [if_neg h0] at h
      cases hr : refillActiveSubset e with
      | none => simp [hr] at h
      | some e1 =>
        have he1 := refillActiveSubset_eq e e1 hr
        subst he1
        simp only [hr] at h
        by_cases h1 : putativeViews e1 = [] ∨ ((putativeViews e1).head?.map Prod.snd) = some 0
        · rw [if_pos h1, if_neg (not_not.mpr hmode)] at h
          by_cases h3 : e1.set_remaining_view_id_ = []
          · rw [if_pos h3] at h
            simp only [Option.some.injEq, Prod.mk.injEq, true_and] at h
            rw [← h.2]
            exact ⟨rfl, h3⟩
          · rw [if_neg h3] at h
            cases hx : expandWindow e1 e1.set_remaining_view_id_subset_ with
            | none => simp [hx] at h
            | some e2 => simp [hx] at h
        · rw [if_neg h1] at h
          simp at h
  · intro b cands e' h hrem hzero
    have h0 : ¬ ((e.set_remaining_view_id_ = [] ∧ e.set_remaining_view_id_subset_ = [])
        ∨ e.sfm_data_.structure_ = []) := by
      rintro (h | h)
      · exact hrem h.1
      · exact hland h
    rw [FindImagesWithPossibleResection_steps, if_neg h0] at h
    cases hr : refillActiveSubset e with
    | none => simp [hr] at h
    | some e1 =>
      have he1 := refillActiveSubset_eq e e1 hr
      subst he1
      simp only [hr] at h
      rw [if_pos hzero, if_neg (not_not.mpr hmode), if_neg hrem] at h
      cases hx : expandWindow e1 e1.set_remaining_view_id_subset_ with
      | none => simp [hx] at h
      | some e2 =>
        obtain ⟨_, _, _, _, he2⟩ := expandWindow_spec e1 e2 _ hx
        simp only [hx, Option.some.injEq, Prod.mk.injEq] at h
        obtain ⟨hb, hc, he⟩ := h
        exact ⟨hb.symm, hc.symm, he ▸ he2⟩

/-- C17: on `engineWiden` (restricted mode, three landmarks) the active subset
holds view 3 only, with score 0, and view 2 remains. The window around the
subset is `[2, 4]` and contains view 2, so the claim has the call widen the
window and return true. The widening loop of the code erases view 2 from the
set under its own iterator and then increments that iterator: the call is
undefined. -/
theorem FindImagesWithPossibleResection_widening_undefined :
    engineWiden.bRestricted_window_SfM_ = true
      ∧ engineWiden.sfm_data_.structure_.length = 3
      ∧ engineWiden.set_remaining_view_id_ = [2]
      ∧ putativeViews engineWiden = [(3, 0)]
      ∧ windowBounds engineWiden.set_remaining_view_id_subset_ engineWiden.sfm_slide_window_size_
          engineWiden.sfm_data_.views.length = some (2, 4)
      ∧ expandWindow engineWiden engineWiden.set_remaining_view_id_subset_ = none
      ∧ FindImagesWithPossibleResection engineWiden = none := by
  refine ⟨by decide, by decide, by decide, by decide, by decide, by decide, by decide⟩

/-! ## Group selection and the ratio -/

theorem takeWhile_mem_mono {α : Type} (p q : α → Bool) (hpq : ∀ x, p x = true → q x = true) :
    ∀ (l : List α) (x : α), x ∈ l.takeWhile p → x ∈ l.takeWhile q := by
  intro l
  induction l with
  | nil => intro x hx; simp at hx
  | cons a t ih =>
    intro x hx
    by_cases hp : p a = true
    · rw [List.takeWhile_cons_of_pos hp] at hx
      rw [List.takeWhile_cons_of_pos (hpq a hp)]
      rcases List.mem_cons.mp hx with h | h
      · exact h ▸ List.mem_cons_self _ _
      · exact List.mem_cons_of_mem _ (ih x h)
    · rw [List.takeWhile_cons_of_neg hp] at hx
      simp at hx

theorem ratio_threshold_mono (r1 r2 : Nat × Nat) (M : Nat) (hd1 : 0 < r1.2) (hd2 : 0 < r2.2)
    (hle : r1.1 * r2.2 ≤ r2.1 * r1.2) : r1.1 * M / r1.2 ≤ r2.1 * M / r2.2 := by
  rw [Nat.le_div_iff_mul_le hd2]
  have h1 : r1.1 * M / r1.2 * r1.2 ≤ r1.1 * M := Nat.div_mul_le_self _ _
  have h2 : r1.1 * M / r1.2 * r2.2 * r1.2 ≤ r2.1 * M * r1.2 := by
    calc r1.1 * M / r1.2 * r2.2 * r1.2 = r1.1 * M / r1.2 * r1.2 * r2.2 := by ring
      _ ≤ r1.1 * M * r2.2 := Nat.mul_le_mul_right _ h1
      _ = r1.1 * r2.2 * M := by ring
      _ ≤ r2.1 * r1.2 * M := Nat.mul_le_mul_right _ hle
      _ = r2.1 * M * r1.2 := by ring
  exact Nat.le_of_mul_le_mul_right h2 hd1

/-- C13: for a fixed vector of scored views and two ratios `r1 ≤ r2` (as
fractions with positive denominators), every candidate selected with the ratio
`r2` in place of 0.75 is selected with the ratio `r1`. -/
theorem selectGroup_monotone (r1 r2 : Nat × Nat) (hd1 : 0 < r1.2) (hd2 : 0 < r2.2)
    (hle : r1.1 * r2.2 ≤ r2.1 * r1.2) (vec_putative : List (Nat × Nat)) :
    ∀ v ∈ selectGroup r2 (sortPutative vec_putative),
      v ∈ selectGroup r1 (sortPutative vec_putative) := by
  intro v hv
  cases hs : sortPutative vec_putative with
  | nil =>
    rw [hs] at hv
    simp [selectGroup] at hv
  | cons best rest =>
    rw [hs] at hv
    simp only [selectGroup, List.mem_cons, List.mem_map] at hv ⊢
    rcases hv with h | ⟨p, hp, hpv⟩
    · exact Or.inl h
    · refine Or.inr ⟨p, ?_, hpv⟩
      refine takeWhile_mem_mono _ _ ?_ rest p hp
      intro x hx
      simp only [gt_iff_lt, decide_eq_true_eq] at hx ⊢
      exact lt_of_le_of_lt (ratio_threshold_mono r1 r2 best.2 hd1 hd2 hle) hx

/-- Witness for C13: on the scores 4 and 3, view 2, selected at the ratio
3/4, is selected at the ratio 1/2. -/
theorem selectGroup_monotone_witness :
    2 ∈ selectGroup (1, 2) (sortPutative [(2, 4), (3, 3)]) :=
  selectGroup_monotone (1, 2) (3, 4) (by decide) (by decide) (by decide) [(2, 4), (3, 3)] 2
    (by decide)

/-! ## Resection keeps the landmarks -/

theorem KeepsLandmarks_assign (s0 s : StlMap Landmark) (k : Nat) (lm : Landmark)
    (h : KeepsLandmarks s0 s) : KeepsLandmarks s0 (StlMap.assign s k lm) :=
  ⟨fun k' hk' => (StlMap.mem_keys_assign s k lm k').mpr (Or.inr (h.1 k' hk')),
   le_trans h.2 (StlMap.length_le_assign s k lm)⟩

theorem resectionStepF_keeps (C : Collaborators) (intrinsic : Intrinsic) (pose : Pose3)
    (error_max : ℚ) (viewIndex : Nat) (s0 : StlMap Landmark) :
    ∀ (corr : List Correspondence) (s : StlMap Landmark), KeepsLandmarks s0 s →
      KeepsLandmarks s0 (resectionStepF C intrinsic pose error_max viewIndex corr s) := by
  intro corr
  induction corr with
  | nil => intro s hs; exact hs
  | cons c t ih =>
    intro s hs
    have hcons : resectionStepF C intrinsic pose error_max viewIndex (c :: t) s =
        resectionStepF C intrinsic pose error_max viewIndex t
          (if resectionInlier C intrinsic pose error_max c then
            addObservation s c.trackId viewIndex ⟨c.x, c.featId⟩ else s) := rfl
    rw [hcons]
    apply ih
    split_ifs
    · exact KeepsLandmarks_assign s0 s _ _ hs
    · exact hs

theorem triangulateTrack_keeps (C : Collaborators) (map_ACThreshold : StlMap ℚ) (I J : Nat)
    (cam_I cam_J : Intrinsic) (pose_I pose_J : Pose3) (s0 s s' : StlMap Landmark)
    (t : Nat × SubmapTrack) (hs : KeepsLandmarks s0 s)
    (h : triangulateTrack C map_ACThreshold I J cam_I cam_J pose_I pose_J s t = some s') :
    KeepsLandmarks s0 s' := by
  unfold triangulateTrack at h
  simp only [] at h
  repeat' split at h
  all_goals first
    | simp only [reduceCtorEq] at h
    | (simp only [Option.some.injEq] at h
       subst h
       first
         | exact hs
         | exact KeepsLandmarks_assign s0 s _ _ hs)

theorem resectionStepG_keeps (C : Collaborators) (e : Engine) (viewIndex : Nat)
    (s0 s s' : StlMap Landmark) (hs : KeepsLandmarks s0 s)
    (h : resectionStepG C e viewIndex s = some s') : KeepsLandmarks s0 s' := by
  refine foldlOpt_invariant (KeepsLandmarks s0) _ ?_ _ s s' hs h
  intro b indexI b' hb hstep
  unfold triangulateWithView at hstep
  simp only [] at hstep
  repeat' split at hstep
  all_goals first
    | simp only [reduceCtorEq] at hstep
    | (simp only [Option.some.injEq] at hstep
       exact hstep ▸ hb)
    | exact foldlOpt_invariant (KeepsLandmarks s0) _
        (fun b0 a b1 hb0 hst => triangulateTrack_keeps C _ _ _ _ _ _ _ s0 b0 b1 a hb0 hst)
        _ b b' hb hstep

/-- C14: a `Resection` call that returns, with success or not, never removes a
landmark: every landmark id of the scene before the call is a landmark id
after it, and the number of landmarks does not decrease. -/
theorem Resection_keeps_landmarks (C : Collaborators) (e e' : Engine) (viewIndex : Nat) (b : Bool)
    (hres : Resection C e viewIndex = some (b, e')) :
    (∀ k ∈ StlMap.keys e.sfm_data_.structure_, k ∈ StlMap.keys e'.sfm_data_.structure_)
      ∧ e.sfm_data_.structure_.length ≤ e'.sfm_data_.structure_.length := by
  have hrefl : KeepsLandmarks e.sfm_data_.structure_ e.sfm_data_.structure_ :=
    ⟨fun _ h => h, le_refl _⟩
  show KeepsLandmarks e.sfm_data_.structure_ e'.sfm_data_.structure_
  unfold Resection at hres
  simp only [] at hres
  split_ifs at hres
  · simp only [Option.some.injEq, Prod.mk.injEq] at hres
    exact hres.2 ▸ hrefl
  · repeat' split at hres
    all_goals first
      | simp only [reduceCtorEq] at hres
      | (simp only [Option.some.injEq, Prod.mk.injEq] at hres
         exact hres.2 ▸ hrefl)
      | skip
    all_goals
      rename_i s2 hG
      simp only [Option.some.injEq, Prod.mk.injEq] at hres
      rw [← hres.2]
      refine resectionStepG_keeps C _ viewIndex _ _ s2 ?_ hG
      refine resectionStepF_keeps C _ _ _ viewIndex _ _ _ ?_
      rw [resectionCommit_structure]
      exact hrefl

/-- Witness for C14: `Resection(2)` on `engineScores43` keeps its four landmarks. -/
theorem Resection_keeps_landmarks_witness :
    engineScores43.sfm_data_.structure_.length ≤ engineResected.sfm_data_.structure_.length :=
  (Resection_keeps_landmarks exampleCollaborators engineScores43 engineResected 2 true
    (by decide)).2

/-! ## Resection, step G: new landmarks -/

/-- Step G of `Resection` for one common track of the views `I < J` (the new
view and an already reconstructed one, with stored thresholds `tI` and `tJ`)
that has no landmark yet: a landmark at the triangulated point with exactly
the observations of `I` and `J` is created if and only if the parallax angle
is > 2 degrees, the depth is positive in both views and the residual norm in
each view is strictly below `max(4, threshold of the view)`; otherwise the
structure is left as it is. -/
theorem triangulateTrack_creates_iff (C : Collaborators) (map_ACThreshold : StlMap ℚ) (I J : Nat)
    (cam_I cam_J : Intrinsic) (pose_I pose_J : Pose3) (s : StlMap Landmark)
    (t : Nat × SubmapTrack) (featI featJ : Nat) (tI tJ : ℚ)
    (hIJ : I < J)
    (hfI : StlMap.find t.2 I = some featI) (hfJ : StlMap.find t.2 J = some featJ)
    (hnew : StlMap.find s t.1 = none)
    (htI : StlMap.find map_ACThreshold I = some tI)
    (htJ : StlMap.find map_ACThreshold J = some tJ) :
    triangulateTrack C map_ACThreshold I J cam_I cam_J pose_I pose_J s t =
        some (if C.AngleBetweenRay pose_I cam_I pose_J cam_J (C.feats I featI) (C.feats J featJ) > 2
                ∧ C.depth pose_I (C.TriangulateDLT cam_I pose_I (C.get_ud_pixel cam_I (C.feats I featI))
                    cam_J pose_J (C.get_ud_pixel cam_J (C.feats J featJ))) > 0
                ∧ C.depth pose_J (C.TriangulateDLT cam_I pose_I (C.get_ud_pixel cam_I (C.feats I featI))
                    cam_J pose_J (C.get_ud_pixel cam_J (C.feats J featJ))) > 0
                ∧ C.residualNorm cam_I pose_I (C.TriangulateDLT cam_I pose_I
                    (C.get_ud_pixel cam_I (C.feats I featI)) cam_J pose_J
                    (C.get_ud_pixel cam_J (C.feats J featJ))) (C.feats I featI) < max 4 tI
                ∧ C.residualNorm cam_J pose_J (C.TriangulateDLT cam_I pose_I
                    (C.get_ud_pixel cam_I (C.feats I featI)) cam_J pose_J
                    (C.get_ud_pixel cam_J (C.feats J featJ))) (C.feats J featJ) < max 4 tJ
              then StlMap.assign s t.1
                ⟨C.TriangulateDLT cam_I pose_I (C.get_ud_pixel cam_I (C.feats I featI))
                    cam_J pose_J (C.get_ud_pixel cam_J (C.feats J featJ)),
                  [(I, ⟨C.feats I featI, featI⟩), (J, ⟨C.feats J featJ, featJ⟩)]⟩
              else s)
      ∧ ∀ s', triangulateTrack C map_ACThreshold I J cam_I cam_J pose_I pose_J s t = some s' →
          ((StlMap.find s' t.1).isSome = true ↔
            (C.AngleBetweenRay pose_I cam_I pose_J cam_J (C.feats I featI) (C.feats J featJ) > 2
              ∧ C.depth pose_I (C.TriangulateDLT cam_I pose_I (C.get_ud_pixel cam_I (C.feats I featI))
                  cam_J pose_J (C.get_ud_pixel cam_J (C.feats J featJ))) > 0
              ∧ C.depth pose_J (C.TriangulateDLT cam_I pose_I (C.get_ud_pixel cam_I (C.feats I featI))
                  cam_J pose_J (C.get_ud_pixel cam_J (C.feats J featJ))) > 0
              ∧ C.residualNorm cam_I pose_I (C.TriangulateDLT cam_I pose_I
                  (C.get_ud_pixel cam_I (C.feats I featI)) cam_J pose_J
                  (C.get_ud_pixel cam_J (C.feats J featJ))) (C.feats I featI) < max 4 tI
              ∧ C.residualNorm cam_J pose_J (C.TriangulateDLT cam_I pose_I
                  (C.get_ud_pixel cam_I (C.feats I featI)) cam_J pose_J
                  (C.get_ud_pixel cam_J (C.feats J featJ))) (C.feats J featJ) < max 4 tJ))
          ∧ ∀ k, k ≠ t.1 → StlMap.find s' k = StlMap.find s k := by
  have hobs : ∀ (a b : Observation),
      StlMap.assign (StlMap.assign [] I a) J b = [(I, a), (J, b)] := by
    intro a b
    have h1 : ¬ J < I := by omega
    have h2 : ¬ I = J := by omega
    simp only [StlMap.assign, h1, h2, if_false]
  refine (fun hmain => ⟨hmain, ?_⟩) ?_
  · simp only [triangulateTrack, hfI, hfJ, hnew, viewThreshold, htI, htJ, Option.map_some', hobs]
    split_ifs <;> first | rfl | (exfalso; tauto)
  intro s' hs'
  rw [hmain] at hs'
  simp only [Option.some.injEq] at hs'
  subst hs'
  split_ifs with hc
  · refine ⟨?_, ?_⟩
    · simp only [StlMap.find_assign, if_true, Option.isSome_some, true_iff]
      exact hc
    · intro k hk
      rw [StlMap.find_assign, if_neg (fun h => hk h.symm)]
  · refine ⟨?_, fun k _ => rfl⟩
    rw [hnew]
    simp only [Option.isSome_none, Bool.false_eq_true, false_iff]
    exact hc

/-- Example of the step on one track: with the collaborators of the examples,
track 7 of the views 0 and 2, which has no landmark, becomes a landmark with
the two observations. -/
theorem triangulateTrack_creates_iff_witness :
    triangulateTrack exampleCollaborators [(0, 1), (2, 2)] 0 2 exampleCamera exampleCamera
        Pose3.identity Pose3.identity engineScores43.sfm_data_.structure_ (7, [(0, 7), (2, 7)])
      = some (StlMap.assign engineScores43.sfm_data_.structure_ 7
          ⟨(0, 0, 1), [(0, ⟨(0, 0), 7⟩), (2, ⟨(0, 0), 7⟩)]⟩) :=
  ((triangulateTrack_creates_iff exampleCollaborators [(0, 1), (2, 2)] 0 2 exampleCamera
      exampleCamera Pose3.identity Pose3.identity engineScores43.sfm_data_.structure_
      (7, [(0, 7), (2, 7)]) 7 7 1 2 (by decide) (by decide) (by decide) (by decide) (by decide)
      (by decide)).1).trans (by decide)

/-! ## Resection, step E: the new intrinsic id -/

theorem StlSet.maxElement_of_max (s : StlSet) (m : Nat) (hm : m ∈ s) (hmax : ∀ x ∈ s, x ≤ m) :
    StlSet.maxElement s = some m := by
  cases h : StlSet.maxElement s with
  | none =>
    cases s with
    | nil => simp at hm
    | cons a t => simp [StlSet.maxElement] at h
  | some m' =>
    obtain ⟨h1, h2⟩ := StlSet.maxElement_spec s m' h
    have := hmax m' h1
    have := h2 m hm
    congr 1
    omega

theorem newIntrinsicId_fresh (intrinsics : StlMap Intrinsic) :
    (intrinsics = [] → newIntrinsicId intrinsics = 0)
      ∧ (∀ m, m ∈ StlMap.keys intrinsics → (∀ k ∈ StlMap.keys intrinsics, k ≤ m) →
          m + 1 < 2 ^ 32 →
          newIntrinsicId intrinsics = m + 1
            ∧ newIntrinsicId intrinsics ∉ StlMap.keys intrinsics) := by
  refine ⟨?_, ?_⟩
  · intro h
    simp [newIntrinsicId, h, StlMap.keys, StlSet.maxElement]
  · intro m hmem hmax hlt
    have hm := StlSet.maxElement_of_max _ m hmem hmax
    have hid : newIntrinsicId intrinsics = m + 1 := by
      simp only [newIntrinsicId, hm]
      exact Nat.mod_eq_of_lt hlt
    refine ⟨hid, ?_⟩
    rw [hid]
    intro hin
    have := hmax _ hin
    omega

theorem Resection_intrinsics (C : Collaborators) (e e' : Engine) (viewIndex : Nat) (b : Bool)
    (view_I : View) (hview : StlMap.find e.sfm_data_.views viewIndex = some view_I)
    (hres : Resection C e viewIndex = some (b, e')) :
    (b = true → StlMap.find e.sfm_data_.intrinsics view_I.id_intrinsic = none →
        ∃ intrinsic,
          e'.sfm_data_.intrinsics
              = StlMap.assign e.sfm_data_.intrinsics (newIntrinsicId e.sfm_data_.intrinsics) intrinsic
            ∧ e'.sfm_data_.views
              = StlMap.assign e.sfm_data_.views viewIndex
                  { view_I with id_intrinsic := newIntrinsicId e.sfm_data_.intrinsics })
      ∧ ((StlMap.find e.sfm_data_.intrinsics view_I.id_intrinsic).isSome = true →
          e'.sfm_data_.intrinsics = e.sfm_data_.intrinsics
            ∧ e'.sfm_data_.views = e.sfm_data_.views) := by
  unfold Resection at hres
  simp only [hview] at hres
  cases hopt : StlMap.find e.sfm_data_.intrinsics view_I.id_intrinsic with
  | none =>
    refine ⟨fun hb _ => ?_, fun h => by simp at h⟩
    subst hb
    simp only [hopt] at hres
    repeat' split at hres
    all_goals first
      | simp only [reduceCtorEq] at hres
      | (simp only [Option.some.injEq, Prod.mk.injEq, Bool.false_eq_true, false_and] at hres)
    all_goals
      rename_i intrinsic _ _ _ _ _ _ _
      simp only [Option.some.injEq, Prod.mk.injEq, true_and] at hres
      subst hres
      exact ⟨intrinsic, by simp [resectionCommit], by simp [resectionCommit]⟩
  | some intr =>
    refine ⟨fun _ h => by simp at h, fun _ => ?_⟩
    simp only [hopt] at hres
    repeat' split at hres
    all_goals first
      | simp only [reduceCtorEq] at hres
      | (simp only [Option.some.injEq, Prod.mk.injEq] at hres
         obtain ⟨_, rfl⟩ := hres
         exact ⟨by simp [resectionCommit], by simp [resectionCommit]⟩)

/-- C19: for a `Resection` call that returns on a view of the scene. When the
call succeeds and the view had no intrinsic, an intrinsic is stored under the
id `newIntrinsicId`, the view refers to that id and the intrinsics under the
other ids are unchanged; that id is 0 when there was no intrinsic, and when `m`
is the largest existing id and `m + 1` fits in 32 bits it is `m + 1`, which
was not a key of the intrinsics. When the view already had an intrinsic, the
intrinsics and the views are unchanged. -/
theorem Resection_new_intrinsic_id (C : Collaborators) (e e' : Engine) (viewIndex : Nat) (b : Bool)
    (view_I : View) (hview : StlMap.find e.sfm_data_.views viewIndex = some view_I)
    (hres : Resection C e viewIndex = some (b, e')) :
    (b = true → StlMap.find e.sfm_data_.intrinsics view_I.id_intrinsic = none →
        (StlMap.find e'.sfm_data_.intrinsics (newIntrinsicId e.sfm_data_.intrinsics)).isSome = true
          ∧ StlMap.find e'.sfm_data_.views viewIndex
              = some { view_I with id_intrinsic := newIntrinsicId e.sfm_data_.intrinsics }
          ∧ (∀ k, k ≠ newIntrinsicId e.sfm_data_.intrinsics →
              StlMap.find e'.sfm_data_.intrinsics k = StlMap.find e.sfm_data_.intrinsics k)
          ∧ (e.sfm_data_.intrinsics = [] → newIntrinsicId e.sfm_data_.intrinsics = 0)
          ∧ (∀ m, m ∈ StlMap.keys e.sfm_data_.intrinsics →
              (∀ k ∈ StlMap.keys e.sfm_data_.intrinsics, k ≤ m) → m + 1 < 2 ^ 32 →
              newIntrinsicId e.sfm_data_.intrinsics = m + 1
                ∧ newIntrinsicId e.sfm_data_.intrinsics ∉ StlMap.keys e.sfm_data_.intrinsics))
      ∧ ((StlMap.find e.sfm_data_.intrinsics view_I.id_intrinsic).isSome = true →
          e'.sfm_data_.intrinsics = e.sfm_data_.intrinsics
            ∧ e'.sfm_data_.views = e.sfm_data_.views) := by
  obtain ⟨hnew, hold⟩ := Resection_intrinsics C e e' viewIndex b view_I hview hres
  refine ⟨fun hb hnone => ?_, hold⟩
  obtain ⟨intrinsic, hi, hv⟩ := hnew hb hnone
  obtain ⟨h0, hmax⟩ := newIntrinsicId_fresh e.sfm_data_.intrinsics
  refine ⟨?_, ?_, ?_, h0, hmax⟩
  · rw [hi, StlMap.find_assign, if_pos rfl]
    rfl
  · rw [hv, StlMap.find_assign, if_pos rfl]
  · intro k hk
    rw [hi, StlMap.find_assign, if_neg (fun h => hk h.symm)]

set_option maxRecDepth 100000 in
/-- Witness for C19: `Resection(3)` on `engineNoIntrinsic`, whose view 3 refers
to no stored intrinsic, succeeds; the largest intrinsic id is 0 and the new
intrinsic is stored under the id 1, which was not a key. -/
theorem Resection_new_intrinsic_id_witness :
    newIntrinsicId engineNoIntrinsic.sfm_data_.intrinsics = 0 + 1
      ∧ newIntrinsicId engineNoIntrinsic.sfm_data_.intrinsics
          ∉ StlMap.keys engineNoIntrinsic.sfm_data_.intrinsics :=
  ((Resection_new_intrinsic_id exampleCollaborators engineNoIntrinsic engineNoIntrinsicResected 3
      true ⟨3, 7, 3, 10, 10⟩ (by decide) (by decide)).1 rfl (by decide)).2.2.2.2 0 (by decide)
    (by decide) (by decide)

/-! ## Cubic polynomials -/

/-- The overload on arrays does what its documentation says when neither
`coeffs[0]` nor `coeffs[3]` is zero. -/
theorem SolveCubicPolynomial_coeffs_eq_documented (M : RealMath) (coeffs : ℚ × ℚ × ℚ × ℚ)
    (x : ℚ × ℚ × ℚ) (h0 : coeffs.1 ≠ 0) (h3 : coeffs.2.2.2 ≠ 0) :
    SolveCubicPolynomial_coeffs M coeffs x = SolveCubicPolynomial_coeffs_documented M coeffs x := by
  simp [SolveCubicPolynomial_coeffs, SolveCubicPolynomial_coeffs_documented, h0, h3]

/-- C20: the overload of `SolveCubicPolynomial` on arrays tests `coeffs[0]`.
For the cubic `x^3 - x`, coefficients `(0, -1, 0, 1)` in ascending order, it
returns 0 solutions and leaves `solutions` as it is, whatever the functions of
`<cmath>` are, while the documented behaviour, the solver on `a = 0/1`,
`b = -1/1`, `c = 0/1`, returns 3 solutions. -/
theorem SolveCubicPolynomial_coeffs_rejects_cubic (M : RealMath) (x : ℚ × ℚ × ℚ) :
    SolveCubicPolynomial_coeffs M (0, -1, 0, 1) x = (0, x)
      ∧ SolveCubicPolynomial_coeffs_documented M (0, -1, 0, 1) x
          = SolveCubicPolynomial M (0 / 1) (-1 / 1) (0 / 1) x
      ∧ (SolveCubicPolynomial M (0 / 1) (-1 / 1) (0 / 1) x).1 = 3 := by
  refine ⟨by simp [SolveCubicPolynomial_coeffs],
    by simp [SolveCubicPolynomial_coeffs_documented], ?_⟩
  unfold SolveCubicPolynomial
  norm_num
  split_ifs <;> rfl

/-! ## The refinement block of `Process` -/

theorem refineTrace_eq (C : Collaborators) :
    ∀ (fuel : Nat) (e : Engine),
      refineTrace C fuel e
        = (refineLoop C fuel e).map fun x =>
            (repeatedCycles (x.1 - 1)
              ++ [RefineEvent.callBundleAdjustment, RefineEvent.callBadTrackRejector false], x.2) := by
  intro fuel
  induction fuel with
  | zero => intro e; rfl
  | succ n ih =>
    intro e
    simp only [refineTrace, refineLoop, refineCycle]
    by_cases h : (badTrackRejector C (BundleAdjustment C e).2 4 50).1 = true
    · rw [if_pos h, if_pos h, ih]
      cases hl : refineLoop C n (badTrackRejector C (BundleAdjustment C e).2 4 50).2 with
      | none => rfl
      | some x =>
        have hx : 1 ≤ x.1 := by
          cases n with
          | zero => simp [refineLoop] at hl
          | succ m =>
            simp only [refineLoop] at hl
            split_ifs at hl
            · cases hm : refineLoop C m (refineCycle C (badTrackRejector C
                  (BundleAdjustment C e).2 4 50).2).2 with
              | none => simp [hm] at hl
              | some y =>
                simp only [hm, Option.map_some', Option.some.injEq] at hl
                rw [← hl]
                exact Nat.le_add_left _ _
            · simp only [Option.some.injEq] at hl
              rw [← hl]
        simp only [Option.map_some', Nat.add_sub_cancel]
        obtain ⟨k, hk⟩ : ∃ k, x.1 = k + 1 := ⟨x.1 - 1, by omega⟩
        rw [hk, Nat.add_sub_cancel]
        rfl
    · rw [if_neg h, if_neg h]
      rfl

/-- Counterexample for C18: with an outlier pass that removes 60 observations
in the first cycle and none in the second, the calls of the refinement block
are bundle adjustment, rejection (repeat), bundle adjustment, rejection (stop),
pruning: the second bundle adjustment runs with no pruning since the
rejection before it. -/
theorem refineBlock_repeats_without_prune :
    (refineBlock collaboratorsRemovingOnce 2 engineScores43).map Prod.fst
        = some [RefineEvent.callBundleAdjustment, RefineEvent.callBadTrackRejector true,
                RefineEvent.callBundleAdjustment, RefineEvent.callBadTrackRejector false,
                RefineEvent.callEraseUnstable]
      ∧ ((refineBlock collaboratorsRemovingOnce 2 engineScores43).map
          fun x => prunedBeforeRepeat x.1) = some false := by
  decide

/-- C18, amended: the refinement block of `Process` returns exactly when its
loop does; if the loop runs `n` cycles, the calls are `n - 1` times bundle
adjustment and a rejection that asks for a repeat, with no pruning between
them, then a bundle adjustment, the rejection that stops the loop, and one
pruning; the scene is that of the loop, pruned. -/
theorem refineBlock_prunes_once (C : Collaborators) (fuel : Nat) (e : Engine) :
    refineBlock C fuel e
      = (refineLoop C fuel e).map fun x =>
          (repeatedCycles (x.1 - 1)
            ++ [RefineEvent.callBundleAdjustment, RefineEvent.callBadTrackRejector false,
                RefineEvent.callEraseUnstable],
           { x.2 with sfm_data_ := C.eraseUnstablePosesAndObservations x.2.sfm_data_ }) := by
  unfold refineBlock
  rw [refineTrace_eq]
  cases refineLoop C fuel e with
  | none => rfl
  | some x => simp

/-! ## Resection, step G: the order of the views -/

theorem triangulateTrack_eq_trackUpdate (C : Collaborators) (map_ACThreshold : StlMap ℚ) (I J : Nat)
    (cam_I cam_J : Intrinsic) (pose_I pose_J : Pose3) (s : StlMap Landmark)
    (t : Nat × SubmapTrack) :
    triangulateTrack C map_ACThreshold I J cam_I cam_J pose_I pose_J s t
      = (trackUpdate C map_ACThreshold I J cam_I cam_J pose_I pose_J t (StlMap.find s t.1)).map
          (storeLandmark s t.1) := by
  unfold triangulateTrack trackUpdate
  cases hI : StlMap.find t.2 I with
  | none => rfl
  | some featI =>
    cases hJ : StlMap.find t.2 J with
    | none => rfl
    | some featJ =>
      simp only []
      cases hs : StlMap.find s t.1 with
      | some landmark =>
        simp only []
        cases extendLandmark C map_ACThreshold I cam_I pose_I (C.feats I featI) featI landmark with
        | none => rfl
        | some landmark1 =>
          simp only []
          cases extendLandmark C map_ACThreshold J cam_J pose_J (C.feats J featJ) featJ
            landmark1 with
          | none => rfl
          | some landmark2 => rfl
      | none =>
        simp only []
        split_ifs
        · cases viewThreshold map_ACThreshold I with
          | none => rfl
          | some tI =>
            simp only []
            split_ifs
            · cases viewThreshold map_ACThreshold J with
              | none => rfl
              | some tJ =>
                simp only []
                split_ifs <;> rfl
            · rfl
        · rfl

theorem Landmark.view_assign (l : Landmark) (I : Nat) (o : Observation) :
    Landmark.view { l with obs := StlMap.assign l.obs I o }
      = (l.view.1, Function.update l.view.2 I (some o)) := by
  unfold Landmark.view
  refine Prod.ext rfl ?_
  funext v
  simp only [StlMap.find_assign, Function.update_apply]
  by_cases h : v = I
  · subst h; simp
  · rw [if_neg h, if_neg (fun h' => h h'.symm)]

theorem extendLandmark_view (C : Collaborators) (map_ACThreshold : StlMap ℚ) (I : Nat)
    (cam_I : Intrinsic) (pose_I : Pose3) (xI : Vec2) (featI : Nat) (l : Landmark) :
    (extendLandmark C map_ACThreshold I cam_I pose_I xI featI l).map Landmark.view
      = extendView C map_ACThreshold I cam_I pose_I xI featI l.view := by
  unfold extendLandmark extendView
  have hc : StlMap.contains l.obs I = (l.view.2 I).isSome := rfl
  have hX : l.view.1 = l.X := rfl
  rw [hc, hX]
  by_cases h1 : (l.view.2 I).isSome = true
  · rw [if_pos h1, if_pos h1]; rfl
  · rw [if_neg h1, if_neg h1]
    by_cases h2 : C.depth pose_I l.X > 0
    · rw [if_pos h2, if_pos h2]
      cases viewThreshold map_ACThreshold I with
      | none => rfl
      | some t =>
        simp only []
        by_cases h3 : C.residualNorm cam_I pose_I l.X xI < t
        · rw [if_pos h3, if_pos h3]
          simp only [Option.map_some', Landmark.view_assign]
          rfl
        · rw [if_neg h3, if_neg h3]; rfl
    · rw [if_neg h2, if_neg h2]; rfl

theorem trackUpdate_view (C : Collaborators) (map_ACThreshold : StlMap ℚ) (I J : Nat)
    (cam_I cam_J : Intrinsic) (pose_I pose_J : Pose3) (t : Nat × SubmapTrack)
    (x : Option Landmark) :
    (trackUpdate C map_ACThreshold I J cam_I cam_J pose_I pose_J t x).map (Option.map Landmark.view)
      = trackUpdateView C map_ACThreshold I J cam_I cam_J pose_I pose_J t (x.map Landmark.view) := by
  cases x with
  | none => rfl
  | some l =>
    unfold trackUpdate trackUpdateView
    simp only [Option.map_some']
    cases hI : StlMap.find t.2 I with
    | none => rfl
    | some featI =>
      cases hJ : StlMap.find t.2 J with
      | none => rfl
      | some featJ =>
        simp only []
        rw [← extendLandmark_view]
        cases extendLandmark C map_ACThreshold I cam_I pose_I (C.feats I featI) featI l with
        | none => rfl
        | some landmark1 =>
          simp only [Option.map_some', Option.some_bind]
          rw [← extendLandmark_view]
          cases extendLandmark C map_ACThreshold J cam_J pose_J (C.feats J featJ) featJ
            landmark1 with
          | none => rfl
          | some landmark2 => rfl

theorem trackUpdate_some_none (C : Collaborators) (map_ACThreshold : StlMap ℚ) (I J : Nat)
    (cam_I cam_J : Intrinsic) (pose_I pose_J : Pose3) (t : Nat × SubmapTrack)
    (x : Option Landmark)
    (h : trackUpdate C map_ACThreshold I J cam_I cam_J pose_I pose_J t x = some none) :
    x = none := by
  cases x with
  | none => rfl
  | some l =>
    exfalso
    unfold trackUpdate at h
    cases hI : StlMap.find t.2 I with
    | none => simp [hI] at h
    | some featI =>
      cases hJ : StlMap.find t.2 J with
      | none => simp [hI, hJ] at h
      | some featJ =>
        simp only [hI, hJ] at h
        cases h1 : extendLandmark C map_ACThreshold I cam_I pose_I (C.feats I featI) featI l with
        | none => simp [h1] at h
        | some landmark1 =>
          simp only [h1] at h
          cases h2 : extendLandmark C map_ACThreshold J cam_J pose_J (C.feats J featJ) featJ
            landmark1 with
          | none => simp [h2] at h
          | some landmark2 => simp [h2] at h

theorem structureView_assign (s : StlMap Landmark) (k : Nat) (l : Landmark) :
    structureView (StlMap.assign s k l) = Function.update (structureView s) k (some l.view) := by
  funext v
  simp only [structureView, StlMap.find_assign, Function.update_apply]
  by_cases h : v = k
  · subst h; simp
  · rw [if_neg h, if_neg (fun h' => h h'.symm)]

theorem triangulateTrack_view (C : Collaborators) (map_ACThreshold : StlMap ℚ) (I J : Nat)
    (cam_I cam_J : Intrinsic) (pose_I pose_J : Pose3) (s : StlMap Landmark)
    (t : Nat × SubmapTrack) :
    (triangulateTrack C map_ACThreshold I J cam_I cam_J pose_I pose_J s t).map structureView
      = applyUpdate (structureView s)
          (t.1, trackUpdateView C map_ACThreshold I J cam_I cam_J pose_I pose_J t) := by
  rw [triangulateTrack_eq_trackUpdate]
  unfold applyUpdate
  have hx : structureView s t.1 = (StlMap.find s t.1).map Landmark.view := rfl
  simp only [hx, ← trackUpdate_view]
  cases h : trackUpdate C map_ACThreshold I J cam_I cam_J pose_I pose_J t (StlMap.find s t.1) with
  | none => rfl
  | some r =>
    simp only [Option.map_some', Option.some.injEq]
    cases r with
    | none =>
      have hn := trackUpdate_some_none C map_ACThreshold I J cam_I cam_J pose_I pose_J t _ h
      simp only [storeLandmark, Option.map_none']
      funext v
      by_cases hv : v = t.1
      · subst hv; simp [structureView, hn]
      · simp [Function.update_apply, hv]
    | some l => exact structureView_assign s t.1 l

theorem foldlOpt_triangulateTrack_view (C : Collaborators) (map_ACThreshold : StlMap ℚ) (I J : Nat)
    (cam_I cam_J : Intrinsic) (pose_I pose_J : Pose3) :
    ∀ (T : List (Nat × SubmapTrack)) (s : StlMap Landmark),
      (foldlOpt (triangulateTrack C map_ACThreshold I J cam_I cam_J pose_I pose_J) T s).map
          structureView
        = applyUpdates
            (T.map fun t => (t.1, trackUpdateView C map_ACThreshold I J cam_I cam_J pose_I pose_J t))
            (structureView s) := by
  intro T
  induction T with
  | nil => intro s; rfl
  | cons t T ih =>
    intro s
    simp only [foldlOpt, applyUpdates, List.map_cons]
    rw [← triangulateTrack_view]
    cases h : triangulateTrack C map_ACThreshold I J cam_I cam_J pose_I pose_J s t with
    | none => rfl
    | some s1 =>
      simp only [Option.map_some']
      exact ih s1

theorem foldlOpt_append {α β : Type} (f : β → α → Option β) :
    ∀ (l1 l2 : List α) (b : β),
      foldlOpt f (l1 ++ l2) b = (foldlOpt f l1 b).bind (foldlOpt f l2) := by
  intro l1
  induction l1 with
  | nil => intro l2 b; rfl
  | cons a l1 ih =>
    intro l2 b
    simp only [List.cons_append, foldlOpt]
    cases f b a with
    | none => rfl
    | some b' => exact ih l2 b'

theorem applyUpdates_at :
    ∀ (L : List KeyUpdate) (σ σ' : Nat → Option LandmarkView),
      applyUpdates L σ = some σ' → ∀ k, applyUpdatesAt k L (σ k) = some (σ' k) := by
  intro L
  induction L with
  | nil =>
    intro σ σ' h k
    simp only [applyUpdates, foldlOpt, Option.some.injEq] at h
    subst h
    rfl
  | cons u L ih =>
    intro σ σ' h k
    simp only [applyUpdates, foldlOpt, applyUpdate] at h
    simp only [applyUpdatesAt, foldlOpt]
    cases hu : u.2 (σ u.1) with
    | none => simp [hu] at h
    | some r =>
      simp only [hu, Option.map_some'] at h
      have := ih _ σ' h k
      by_cases hk : u.1 = k
      · subst hk
        simp only [if_true, hu]
        simpa [Function.update_same] using this
      · simp only [if_neg hk]
        rw [Function.update_noteq (fun h' => hk h'.symm)] at this
        exact this

theorem applyUpdates_none :
    ∀ (L : List KeyUpdate) (σ : Nat → Option LandmarkView),
      applyUpdates L σ = none → ∃ k, applyUpdatesAt k L (σ k) = none := by
  intro L
  induction L with
  | nil =>
    intro σ h
    simp [applyUpdates, foldlOpt] at h
  | cons u L ih =>
    intro σ h
    simp only [applyUpdates, foldlOpt, applyUpdate] at h
    cases hu : u.2 (σ u.1) with
    | none =>
      refine ⟨u.1, ?_⟩
      simp [applyUpdatesAt, foldlOpt, hu]
    | some r =>
      simp only [hu, Option.map_some'] at h
      obtain ⟨k, hk⟩ := ih _ h
      refine ⟨k, ?_⟩
      simp only [applyUpdatesAt, foldlOpt]
      by_cases hk' : u.1 = k
      · subst hk'
        simp only [if_true, hu]
        simpa [Function.update_same] using hk
      · simp only [if_neg hk']
        rw [Function.update_noteq (fun h' => hk' h'.symm)] at hk
        exact hk

theorem applyUpdates_ext (L L' : List KeyUpdate) (σ : Nat → Option LandmarkView)
    (h : ∀ k, applyUpdatesAt k L (σ k) = applyUpdatesAt k L' (σ k)) :
    applyUpdates L σ = applyUpdates L' σ := by
  cases h1 : applyUpdates L σ with
  | none =>
    obtain ⟨k, hk⟩ := applyUpdates_none L σ h1
    cases h2 : applyUpdates L' σ with
    | none => rfl
    | some σ2 =>
      have := applyUpdates_at L' σ σ2 h2 k
      rw [← h k, hk] at this
      simp at this
  | some σ1 =>
    cases h2 : applyUpdates L' σ with
    | none =>
      obtain ⟨k, hk⟩ := applyUpdates_none L' σ h2
      have := applyUpdates_at L σ σ1 h1 k
      rw [h k, hk] at this
      simp at this
    | some σ2 =>
      congr 1
      funext k
      have a1 := applyUpdates_at L σ σ1 h1 k
      have a2 := applyUpdates_at L' σ σ2 h2 k
      rw [h k, a2] at a1
      simpa using a1.symm

theorem applyUpdatesAt_not_mem (k : Nat) :
    ∀ (L : List KeyUpdate) (x : Option LandmarkView), k ∉ L.map Prod.fst →
      applyUpdatesAt k L x = some x := by
  intro L
  induction L with
  | nil => intro x _; rfl
  | cons u L ih =>
    intro x hk
    simp only [List.map_cons, List.mem_cons, not_or] at hk
    simp only [applyUpdatesAt, foldlOpt]
    rw [if_neg (fun h => hk.1 h.symm)]
    exact ih x hk.2

theorem applyUpdatesAt_single (k : Nat) (f : Option LandmarkView → Option (Option LandmarkView)) :
    ∀ (L : List KeyUpdate) (x : Option LandmarkView), (L.map Prod.fst).Nodup → (k, f) ∈ L →
      applyUpdatesAt k L x = f x := by
  intro L
  induction L with
  | nil => intro x _ h; simp at h
  | cons u L ih =>
    intro x hnd hmem
    simp only [List.map_cons, List.nodup_cons] at hnd
    simp only [applyUpdatesAt, foldlOpt]
    rcases List.mem_cons.mp hmem with h | h
    · subst h
      simp only [if_true]
      cases hf : f x with
      | none => rfl
      | some y => exact applyUpdatesAt_not_mem k L y hnd.1
    · have hne : u.1 ≠ k := by
        intro he
        apply hnd.1
        rw [he]
        exact List.mem_map_of_mem Prod.fst h
      rw [if_neg hne]
      exact ih x hnd.2 h

theorem applyUpdatesAt_append (k : Nat) (L1 L2 : List KeyUpdate) (x : Option LandmarkView) :
    applyUpdatesAt k (L1 ++ L2) x = (applyUpdatesAt k L1 x).bind (applyUpdatesAt k L2) :=
  foldlOpt_append _ L1 L2 x

theorem extendView_comm (C : Collaborators) (thr : StlMap ℚ) (a b : Nat) (cam_a cam_b : Intrinsic)
    (pose_a pose_b : Pose3) (xa xb : Vec2) (fa fb : Nat) (hab : a ≠ b) (l : LandmarkView) :
    (extendView C thr a cam_a pose_a xa fa l).bind (extendView C thr b cam_b pose_b xb fb)
      = (extendView C thr b cam_b pose_b xb fb l).bind (extendView C thr a cam_a pose_a xa fa) := by
  unfold extendView
  by_cases ha : (l.2 a).isSome = true <;> by_cases hb : (l.2 b).isSome = true <;>
    by_cases hda : 0 < C.depth pose_a l.1 <;> by_cases hdb : 0 < C.depth pose_b l.1 <;>
    cases hta : viewThreshold thr a <;> cases htb : viewThreshold thr b <;>
    simp only [ha, hb, hda, hdb, hta, htb, gt_iff_lt, if_true, if_false, Option.some_bind,
      Option.none_bind, Bool.false_eq_true, not_false_eq_true] <;>
    (try split_ifs) <;>
    simp [ha, hb, hda, hdb, hta, htb, Function.update_noteq hab, Function.update_noteq hab.symm,
      Function.update_comm hab, *]

theorem triangulateWithView_view (C : Collaborators) (e : Engine) (viewIndex : Nat)
    (s : StlMap Landmark) (indexI : Nat) :
    (triangulateWithView C e viewIndex s indexI).map structureView
      = (viewUpdates C e viewIndex indexI).bind fun L => applyUpdates L (structureView s) := by
  unfold triangulateWithView viewUpdates
  by_cases h : indexI = viewIndex
  · rw [if_pos h, if_pos h]; rfl
  · rw [if_neg h, if_neg h]
    simp only [viewCamera]
    cases h1 : StlMap.find e.sfm_data_.views (min viewIndex indexI) with
    | none => rfl
    | some view_I =>
      cases h2 : StlMap.find e.sfm_data_.views (max viewIndex indexI) with
      | none =>
        simp only []
        cases StlMap.find e.sfm_data_.intrinsics view_I.id_intrinsic <;>
          cases StlMap.find e.sfm_data_.poses view_I.id_pose <;> rfl
      | some view_J =>
        simp only []
        cases StlMap.find e.sfm_data_.intrinsics view_I.id_intrinsic <;>
          cases StlMap.find e.sfm_data_.poses view_I.id_pose <;>
          cases StlMap.find e.sfm_data_.intrinsics view_J.id_intrinsic <;>
          cases StlMap.find e.sfm_data_.poses view_J.id_pose <;>
          first
            | rfl
            | (simp only [Option.some_bind]
               exact foldlOpt_triangulateTrack_view C _ _ _ _ _ _ _ _ s)

theorem StlMap.find_filter {α : Type} (p : Nat → Bool) (k : Nat) (hk : p k = true) :
    ∀ m : StlMap α, StlMap.find (m.filter fun x => p x.1) k = StlMap.find m k := by
  intro m
  induction m with
  | nil => rfl
  | cons a m ih =>
    obtain ⟨k', v⟩ := a
    by_cases hp : p k' = true
    · rw [List.filter_cons_of_pos (by simpa using hp)]
      simp only [StlMap.find]
      rw [ih]
    · rw [List.filter_cons_of_neg (by simpa using hp)]
      have hne : k' ≠ k := fun h => hp (h ▸ hk)
      simp only [StlMap.find, if_neg hne]
      exact ih

theorem StlMap.find_of_mem_nodup {α : Type} (k : Nat) (v : α) :
    ∀ m : StlMap α, (StlMap.keys m).Nodup → (k, v) ∈ m → StlMap.find m k = some v := by
  intro m
  induction m with
  | nil => intro _ h; simp at h
  | cons a m ih =>
    intro hnd hmem
    obtain ⟨k', v'⟩ := a
    simp only [StlMap.keys, List.map_cons, List.nodup_cons] at hnd
    rcases List.mem_cons.mp hmem with h | h
    · simp only [Prod.mk.injEq] at h
      obtain ⟨rfl, rfl⟩ := h
      simp [StlMap.find]
    · have hne : k' ≠ k := by
        intro he
        apply hnd.1
        rw [he]
        exact List.mem_map_of_mem Prod.fst h
      simp only [StlMap.find, if_neg hne]
      exact ih hnd.2 h

theorem mem_GetTracksInImages (I J : Nat) (map_tracks : STLMAPTracks) (t : Nat × SubmapTrack)
    (h : t ∈ GetTracksInImages [I, J] map_tracks) :
    ∃ sub, (t.1, sub) ∈ map_tracks ∧ StlMap.contains sub I = true ∧ StlMap.contains sub J = true
      ∧ StlMap.find t.2 I = StlMap.find sub I ∧ StlMap.find t.2 J = StlMap.find sub J := by
  unfold GetTracksInImages at h
  obtain ⟨kt, hkt, hsome⟩ := List.mem_filterMap.mp h
  split_ifs at hsome with hc
  simp only [Option.some.injEq] at hsome
  subst hsome
  obtain ⟨hall, _⟩ := hc
  simp only [List.all_cons, List.all_nil, Bool.and_true, Bool.and_eq_true] at hall
  refine ⟨kt.2, hkt, hall.1, hall.2, ?_, ?_⟩
  · exact StlMap.find_filter (fun v => [I, J].contains v) I (by simp) kt.2
  · exact StlMap.find_filter (fun v => [I, J].contains v) J (by simp) kt.2

theorem GetTracksInImages_keys_sublist (S : StlSet) :
    ∀ map_tracks : STLMAPTracks,
      ((GetTracksInImages S map_tracks).map Prod.fst).Sublist (StlMap.keys map_tracks) := by
  intro m
  induction m with
  | nil => exact List.Sublist.slnil
  | cons a m ih =>
    unfold GetTracksInImages at ih ⊢
    simp only [List.filterMap_cons, StlMap.keys, List.map_cons]
    split_ifs
    · simp only [List.map_cons]
      exact List.Sublist.cons₂ _ ih
    · exact List.Sublist.cons _ ih

theorem trackUpdateView_some (C : Collaborators) (thr : StlMap ℚ) (I J : Nat)
    (cam_I cam_J : Intrinsic) (pose_I pose_J : Pose3) (map_tracks : STLMAPTracks)
    (t : Nat × SubmapTrack) (h : t ∈ GetTracksInImages [I, J] map_tracks) :
    ∃ sub featI featJ, (t.1, sub) ∈ map_tracks
      ∧ StlMap.find sub I = some featI ∧ StlMap.find sub J = some featJ
      ∧ ∀ l, trackUpdateView C thr I J cam_I cam_J pose_I pose_J t (some l)
          = (thenStep (extendView C thr I cam_I pose_I (C.feats I featI) featI)
              (extendView C thr J cam_J pose_J (C.feats J featJ) featJ) l).map some := by
  obtain ⟨sub, hmem, hcI, hcJ, hfI, hfJ⟩ := mem_GetTracksInImages I J map_tracks t h
  obtain ⟨featI, hI⟩ := Option.isSome_iff_exists.mp hcI
  obtain ⟨featJ, hJ⟩ := Option.isSome_iff_exists.mp hcJ
  refine ⟨sub, featI, featJ, hmem, hI, hJ, fun l => ?_⟩
  unfold trackUpdateView
  simp only [hfI, hfJ, hI, hJ]
  rfl

theorem viewUpdates_mem (C : Collaborators) (e : Engine) (viewIndex indexI : Nat)
    (L : List KeyUpdate) (hne : indexI ≠ viewIndex)
    (hL : viewUpdates C e viewIndex indexI = some L) :
    ∃ cpV cpJ, viewCamera e viewIndex = some cpV ∧ viewCamera e indexI = some cpJ
      ∧ (L.map Prod.fst).Sublist (StlMap.keys e.map_tracks_)
      ∧ ∀ u ∈ L, ∃ sub featV featJ, (u.1, sub) ∈ e.map_tracks_
          ∧ StlMap.find sub viewIndex = some featV ∧ StlMap.find sub indexI = some featJ
          ∧ ∀ l, u.2 (some l)
              = (thenStep
                  (extendView C e.map_ACThreshold_ viewIndex cpV.1 cpV.2 (C.feats viewIndex featV)
                    featV)
                  (extendView C e.map_ACThreshold_ indexI cpJ.1 cpJ.2 (C.feats indexI featJ)
                    featJ) l).map some := by
  unfold viewUpdates at hL
  rw [if_neg hne] at hL
  simp only [] at hL
  rcases Nat.lt_or_gt_of_ne hne with hlt | hgt
  · -- indexI < viewIndex
    rw [Nat.min_eq_right (Nat.le_of_lt hlt), Nat.max_eq_left (Nat.le_of_lt hlt)] at hL
    cases hJ : viewCamera e indexI with
    | none => simp [hJ] at hL
    | some cpJ =>
      cases hV : viewCamera e viewIndex with
      | none => simp [hJ, hV] at hL
      | some cpV =>
        simp only [hJ, hV, Option.some.injEq] at hL
        subst hL
        refine ⟨cpV, cpJ, rfl, rfl, ?_, ?_⟩
        · rw [List.map_map]
          exact GetTracksInImages_keys_sublist _ _
        · intro u hu
          obtain ⟨t, ht, rfl⟩ := List.mem_map.mp hu
          obtain ⟨sub, featI, featJ, hmem, hI, hJ', hall⟩ :=
            trackUpdateView_some C e.map_ACThreshold_ indexI viewIndex cpJ.1 cpV.1 cpJ.2 cpV.2
              e.map_tracks_ t ht
          refine ⟨sub, featJ, featI, hmem, hJ', hI, fun l => ?_⟩
          refine (hall l).trans ?_
          congr 1
          exact extendView_comm C _ indexI viewIndex _ _ _ _ _ _ _ _ hne l
  · -- viewIndex < indexI
    rw [Nat.min_eq_left (Nat.le_of_lt hgt), Nat.max_eq_right (Nat.le_of_lt hgt)] at hL
    cases hV : viewCamera e viewIndex with
    | none => simp [hV] at hL
    | some cpV =>
      cases hJ : viewCamera e indexI with
      | none => simp [hJ, hV] at hL
      | some cpJ =>
        simp only [hJ, hV, Option.some.injEq] at hL
        subst hL
        refine ⟨cpV, cpJ, rfl, rfl, ?_, ?_⟩
        · rw [List.map_map]
          exact GetTracksInImages_keys_sublist _ _
        · intro u hu
          obtain ⟨t, ht, rfl⟩ := List.mem_map.mp hu
          exact trackUpdateView_some C e.map_ACThreshold_ viewIndex indexI cpV.1 cpJ.1 cpV.2 cpJ.2
            e.map_tracks_ t ht

theorem thenStep_assoc {α : Type} (f g h : α → Option α) :
    thenStep (thenStep f g) h = thenStep f (thenStep g h) := by
  funext x
  unfold thenStep
  cases f x <;> rfl

theorem thenStep_comm4 {α : Type} (A B D : α → Option α)
    (hAB : thenStep A B = thenStep B A) (hAD : thenStep A D = thenStep D A)
    (hBD : thenStep B D = thenStep D B) :
    thenStep (thenStep A B) (thenStep A D) = thenStep (thenStep A D) (thenStep A B) := by
  have h1 : thenStep B (thenStep A D) = thenStep A (thenStep B D) := by
    rw [← thenStep_assoc, ← hAB, thenStep_assoc]
  have h2 : thenStep D (thenStep A B) = thenStep A (thenStep B D) := by
    rw [← thenStep_assoc, ← hAD, thenStep_assoc, ← hBD]
  rw [thenStep_assoc, thenStep_assoc, h1, h2]

theorem bind_map_some {α : Type} (G1 G2 : α → Option α) (f1 f2 : Option α → Option (Option α))
    (h1 : ∀ l, f1 (some l) = (G1 l).map some) (h2 : ∀ l, f2 (some l) = (G2 l).map some)
    (l : α) :
    (f1 (some l)).bind f2 = (thenStep G1 G2 l).map some := by
  rw [h1]
  unfold thenStep
  cases G1 l with
  | none => rfl
  | some l1 => exact h2 l1

theorem triangulateWithView_pair_view (C : Collaborators) (e : Engine) (viewIndex : Nat)
    (s : StlMap Landmark) (Ja Jb : Nat) :
    ((triangulateWithView C e viewIndex s Ja).bind fun s1 =>
        triangulateWithView C e viewIndex s1 Jb).map structureView
      = (viewUpdates C e viewIndex Ja).bind fun La =>
          (viewUpdates C e viewIndex Jb).bind fun Lb => applyUpdates (La ++ Lb) (structureView s) := by
  have ha := triangulateWithView_view C e viewIndex s Ja
  cases h : triangulateWithView C e viewIndex s Ja with
  | none =>
    rw [h] at ha
    cases hLa : viewUpdates C e viewIndex Ja with
    | none => rfl
    | some La =>
      rw [hLa] at ha
      simp only [Option.map_none', Option.some_bind] at ha
      simp only [Option.none_bind, Option.map_none', Option.some_bind, applyUpdates,
        foldlOpt_append]
      have ha' : foldlOpt applyUpdate La (structureView s) = none := ha.symm
      rw [ha']
      cases viewUpdates C e viewIndex Jb <;> rfl
  | some s1 =>
    rw [h] at ha
    simp only [Option.some_bind]
    rw [triangulateWithView_view C e viewIndex s1 Jb]
    cases hLa : viewUpdates C e viewIndex Ja with
    | none => simp [hLa] at ha
    | some La =>
      rw [hLa] at ha
      simp only [Option.map_some', Option.some_bind] at ha
      simp only [Option.some_bind, applyUpdates, foldlOpt_append]
      have ha' : foldlOpt applyUpdate La (structureView s) = some (structureView s1) := ha.symm
      rw [ha']
      rfl

theorem viewUpdates_nil_of_eq (C : Collaborators) (e : Engine) (viewIndex indexI : Nat)
    (L : List KeyUpdate) (heq : indexI = viewIndex)
    (hL : viewUpdates C e viewIndex indexI = some L) : L = [] := by
  unfold viewUpdates at hL
  rw [if_pos heq] at hL
  simp only [Option.some.injEq] at hL
  exact hL.symm

theorem viewUpdates_commute_at (C : Collaborators) (e : Engine) (viewIndex : Nat)
    (s : StlMap Landmark) (J1 J2 : Nat) (L1 L2 : List KeyUpdate) (hJ : J1 ≠ J2)
    (hkeys : (StlMap.keys e.map_tracks_).Nodup)
    (hshared : ∀ t ∈ e.map_tracks_, StlMap.contains t.2 viewIndex = true →
      StlMap.contains t.2 J1 = true → StlMap.contains t.2 J2 = true →
      StlMap.contains s t.1 = true)
    (h1 : viewUpdates C e viewIndex J1 = some L1) (h2 : viewUpdates C e viewIndex J2 = some L2)
    (k : Nat) :
    applyUpdatesAt k (L1 ++ L2) (structureView s k)
      = applyUpdatesAt k (L2 ++ L1) (structureView s k) := by
  rw [applyUpdatesAt_append, applyUpdatesAt_append]
  by_cases hk1 : k ∈ L1.map Prod.fst
  swap
  · have hf : applyUpdatesAt k L1 = some := funext fun x => applyUpdatesAt_not_mem k L1 x hk1
    rw [hf, Option.some_bind, Option.bind_some]
  by_cases hk2 : k ∈ L2.map Prod.fst
  swap
  · have hf : applyUpdatesAt k L2 = some := funext fun x => applyUpdatesAt_not_mem k L2 x hk2
    rw [hf, Option.some_bind, Option.bind_some]
  have hne1 : J1 ≠ viewIndex := by
    intro heq
    rw [viewUpdates_nil_of_eq C e viewIndex J1 L1 heq h1] at hk1
    simp at hk1
  have hne2 : J2 ≠ viewIndex := by
    intro heq
    rw [viewUpdates_nil_of_eq C e viewIndex J2 L2 heq h2] at hk2
    simp at hk2
  obtain ⟨cpV, cp1, hV, _, hsub1, hall1⟩ := viewUpdates_mem C e viewIndex J1 L1 hne1 h1
  obtain ⟨cpV', cp2, hV', _, hsub2, hall2⟩ := viewUpdates_mem C e viewIndex J2 L2 hne2 h2
  have hcp : cpV' = cpV := by
    rw [hV] at hV'
    exact (Option.some.inj hV').symm
  subst hcp
  obtain ⟨u1, hu1, hk1'⟩ := List.mem_map.mp hk1
  obtain ⟨u2, hu2, hk2'⟩ := List.mem_map.mp hk2
  obtain ⟨k1, f1⟩ := u1
  obtain ⟨k2, f2⟩ := u2
  simp only at hk1' hk2'
  subst k1
  subst k2
  obtain ⟨sub, featV, feat1, hmem1, hfV, hf1, hstep1⟩ := hall1 _ hu1
  obtain ⟨sub', featV', feat2, hmem2, hfV', hf2, hstep2⟩ := hall2 _ hu2
  simp only at hmem1 hmem2 hstep1 hstep2
  have hsubeq : sub' = sub := by
    have a := StlMap.find_of_mem_nodup k sub e.map_tracks_ hkeys hmem1
    have b := StlMap.find_of_mem_nodup k sub' e.map_tracks_ hkeys hmem2
    rw [a] at b
    exact (Option.some.inj b).symm
  subst hsubeq
  have hfeat : featV' = featV := by
    rw [hfV] at hfV'
    exact (Option.some.inj hfV').symm
  subst hfeat
  have hland : StlMap.contains s k = true :=
    hshared (k, sub') hmem1 (by simp [StlMap.contains, hfV]) (by simp [StlMap.contains, hf1])
      (by simp [StlMap.contains, hf2])
  obtain ⟨l, hl⟩ := Option.isSome_iff_exists.mp hland
  have hσ : structureView s k = some l.view := by simp [structureView, hl]
  have hs1 : applyUpdatesAt k L1 = f1 :=
    funext fun x => applyUpdatesAt_single k f1 L1 x (hkeys.sublist hsub1) hu1
  have hs2 : applyUpdatesAt k L2 = f2 :=
    funext fun x => applyUpdatesAt_single k f2 L2 x (hkeys.sublist hsub2) hu2
  rw [hs1, hs2, hσ, bind_map_some _ _ f1 f2 hstep1 hstep2, bind_map_some _ _ f2 f1 hstep2 hstep1]
  congr 1
  refine congrFun (thenStep_comm4 _ _ _ ?_ ?_ ?_) l.view
  · exact funext fun x => extendView_comm C _ viewIndex J1 _ _ _ _ _ _ _ _ (Ne.symm hne1) x
  · exact funext fun x => extendView_comm C _ viewIndex J2 _ _ _ _ _ _ _ _ (Ne.symm hne2) x
  · exact funext fun x => extendView_comm C _ J1 J2 _ _ _ _ _ _ _ _ hJ x

/-- C12, amended: step G of `Resection` for the new view `viewIndex`. For two
distinct other views `J1` and `J2`, when every track seen by `viewIndex`, `J1`
and `J2` already has a landmark, running the update for `J1` then for `J2`
and running it for `J2` then for `J1` are undefined together, and otherwise
give structure maps with the same content: the same landmark ids, positions
and observation per view. The track ids are distinct keys, as in `std::map`. -/
theorem triangulateWithView_order (C : Collaborators) (e : Engine) (viewIndex : Nat)
    (s : StlMap Landmark) (J1 J2 : Nat) (hJ : J1 ≠ J2)
    (hkeys : (StlMap.keys e.map_tracks_).Nodup)
    (hshared : ∀ t ∈ e.map_tracks_, StlMap.contains t.2 viewIndex = true →
      StlMap.contains t.2 J1 = true → StlMap.contains t.2 J2 = true →
      StlMap.contains s t.1 = true) :
    ((triangulateWithView C e viewIndex s J1).bind fun s1 =>
        triangulateWithView C e viewIndex s1 J2).map structureView
      = ((triangulateWithView C e viewIndex s J2).bind fun s2 =>
          triangulateWithView C e viewIndex s2 J1).map structureView := by
  rw [triangulateWithView_pair_view, triangulateWithView_pair_view]
  cases h1 : viewUpdates C e viewIndex J1 with
  | none => cases viewUpdates C e viewIndex J2 <;> rfl
  | some L1 =>
    cases h2 : viewUpdates C e viewIndex J2 with
    | none => rfl
    | some L2 =>
      simp only [Option.some_bind]
      exact applyUpdates_ext _ _ _
        (viewUpdates_commute_at C e viewIndex s J1 J2 L1 L2 hJ hkeys hshared h1 h2)

set_option maxRecDepth 100000 in
/-- Counterexample for C12: track 5 is seen by the new view 2 and by the
reconstructed views 0 and 1, and has no landmark. Running step G for view 0
then view 1 stores the point triangulated from the views 0 and 2, running it
for view 1 then view 0 stores the point triangulated from the views 1 and 2. -/
theorem triangulateWithView_order_matters :
    (((triangulateWithView collaboratorsPoseDependent engineSharedTrack 2 [] 0).bind fun s1 =>
        triangulateWithView collaboratorsPoseDependent engineSharedTrack 2 s1 1).map
          fun s => (StlMap.find s 5).map fun l => l.X) = some (some (0, 0, 1))
      ∧ (((triangulateWithView collaboratorsPoseDependent engineSharedTrack 2 [] 1).bind fun s2 =>
          triangulateWithView collaboratorsPoseDependent engineSharedTrack 2 s2 0).map
            fun s => (StlMap.find s 5).map fun l => l.X) = some (some (1, 0, 1)) := by
  decide

set_option maxRecDepth 100000 in
/-- Witness for C12: in `engineResected` every track has a landmark; step G of
view 2 for view 0 then view 1 is defined, and gives the same content as for
view 1 then view 0. -/
theorem triangulateWithView_order_witness :
    ((triangulateWithView exampleCollaborators engineResected 2
          engineResected.sfm_data_.structure_ 0).bind fun s1 =>
        triangulateWithView exampleCollaborators engineResected 2 s1 1).isSome = true
      ∧ ((triangulateWithView exampleCollaborators engineResected 2
            engineResected.sfm_data_.structure_ 0).bind fun s1 =>
          triangulateWithView exampleCollaborators engineResected 2 s1 1).map structureView
        = ((triangulateWithView exampleCollaborators engineResected 2
              engineResected.sfm_data_.structure_ 1).bind fun s2 =>
            triangulateWithView exampleCollaborators engineResected 2 s2 0).map structureView :=
  ⟨by decide,
    triangulateWithView_order exampleCollaborators engineResected 2
      engineResected.sfm_data_.structure_ 0 1 (by decide) (by decide) (by decide)⟩

/-! ## Cubic polynomials: the branches in exact arithmetic -/

/-- The branches of `SolveCubicPolynomial` in terms of `cubic_Q`, `cubic_R`,
`cubic_CR2` and `cubic_CQ3`: the first three tests of the function. -/
theorem SolveCubicPolynomial_tests (M : RealMath) (a b c : ℚ) (x : ℚ × ℚ × ℚ) :
    (cubic_R a b c = 0 ∧ cubic_Q a b = 0 →
        SolveCubicPolynomial M a b c x = (3, -a / 3, -a / 3, -a / 3))
      ∧ (¬ (cubic_R a b c = 0 ∧ cubic_Q a b = 0) → cubic_CR2 a b c = cubic_CQ3 a b →
          SolveCubicPolynomial M a b c x
            = if cubic_R a b c > 0 then
                (3, -2 * M.sqrt (cubic_Q a b) - a / 3, M.sqrt (cubic_Q a b) - a / 3,
                  M.sqrt (cubic_Q a b) - a / 3)
              else
                (3, -M.sqrt (cubic_Q a b) - a / 3, -M.sqrt (cubic_Q a b) - a / 3,
                  2 * M.sqrt (cubic_Q a b) - a / 3))
      ∧ (¬ (cubic_R a b c = 0 ∧ cubic_Q a b = 0) → cubic_CR2 a b c ≠ cubic_CQ3 a b →
          ((SolveCubicPolynomial M a b c x).1 = 3 ↔ cubic_CR2 a b c < cubic_CQ3 a b)) := by
  refine ⟨?_, ?_, ?_⟩
  · intro h
    unfold SolveCubicPolynomial
    unfold cubic_R cubic_Q at h
    simp only [h, and_self, if_true]
  · intro h heq
    unfold SolveCubicPolynomial
    unfold cubic_R cubic_Q at h
    unfold cubic_CR2 cubic_CQ3 at heq
    simp only [h, heq, if_false, if_true]
    rfl
  · intro h hne
    unfold SolveCubicPolynomial
    unfold cubic_R cubic_Q at h
    unfold cubic_CR2 cubic_CQ3 at hne
    simp only [h, hne, if_false]
    unfold cubic_CR2 cubic_CQ3
    split_ifs with hlt <;> simp [hlt]

theorem cubic_tests_iff (a b c : ℚ) :
    (cubic_CR2 a b c = cubic_CQ3 a b
        ↔ cubic_R a b c * cubic_R a b c = cubic_Q a b * cubic_Q a b * cubic_Q a b)
      ∧ (cubic_CR2 a b c < cubic_CQ3 a b
        ↔ cubic_R a b c * cubic_R a b c < cubic_Q a b * cubic_Q a b * cubic_Q a b) := by
  have h1 : cubic_CR2 a b c = 2125764 * (cubic_R a b c * cubic_R a b c) := by
    unfold cubic_CR2 cubic_R; ring
  have h2 : cubic_CQ3 a b = 2125764 * (cubic_Q a b * cubic_Q a b * cubic_Q a b) := by
    unfold cubic_CQ3 cubic_Q; ring
  rw [h1, h2]
  constructor
  · constructor
    · intro h; linarith
    · intro h; rw [h]
  · constructor
    · intro h; linarith
    · intro h; linarith

theorem cubicValue_shift (a b c y : ℚ) :
    cubicValue a b c (y - a / 3) = y ^ 3 - 3 * cubic_Q a b * y + 2 * cubic_R a b c := by
  unfold cubicValue cubic_Q cubic_R
  ring

theorem cubic_double_root_sqrt (a b c s : ℚ) (hs0 : 0 ≤ s) (hs : s * s = cubic_Q a b)
    (heq : cubic_R a b c * cubic_R a b c = cubic_Q a b * cubic_Q a b * cubic_Q a b) :
    (cubic_R a b c > 0 → cubic_R a b c = s ^ 3)
      ∧ (¬ cubic_R a b c > 0 → cubic_R a b c = -(s ^ 3)) := by
  have h6 : cubic_R a b c * cubic_R a b c = s ^ 3 * s ^ 3 := by
    rw [heq, ← hs]; ring
  have hfac : (cubic_R a b c - s ^ 3) * (cubic_R a b c + s ^ 3) = 0 := by
    have : (cubic_R a b c - s ^ 3) * (cubic_R a b c + s ^ 3)
        = cubic_R a b c * cubic_R a b c - s ^ 3 * s ^ 3 := by ring
    rw [this, h6, sub_self]
  have hs3 : 0 ≤ s ^ 3 := pow_nonneg hs0 3
  rcases mul_eq_zero.mp hfac with h | h
  · have hR : cubic_R a b c = s ^ 3 := by linarith
    refine ⟨fun _ => hR, fun hn => ?_⟩
    have : cubic_R a b c ≤ 0 := not_lt.mp hn
    have h0 : s ^ 3 = 0 := by linarith
    rw [hR, h0]; simp
  · have hR : cubic_R a b c = -(s ^ 3) := by linarith
    refine ⟨fun hp => ?_, fun _ => hR⟩
    have hp' : 0 < cubic_R a b c := hp
    have h0 : s ^ 3 = 0 := by linarith
    rw [hR, h0]; simp

/-- C21: `SolveCubicPolynomial(a, b, c, ...)` in exact arithmetic. The test
`CR2 == CQ3` holds iff `R * R = Q * Q * Q`, and `CR2 < CQ3` iff
`R * R < Q * Q * Q`. In the branch of the triple root the function returns 3
and the three values written are roots of `x^3 + a x^2 + b x + c`. In the
branch of the double root the number `Q` has a non-negative square root, and
when `sqrt(Q)` is that root the function returns 3 and the three values
written are roots of the polynomial. -/
theorem SolveCubicPolynomial_exact_roots (M : RealMath) (a b c : ℚ) (x : ℚ × ℚ × ℚ) :
    (cubic_CR2 a b c = cubic_CQ3 a b
        ↔ cubic_R a b c * cubic_R a b c = cubic_Q a b * cubic_Q a b * cubic_Q a b)
      ∧ (cubic_CR2 a b c < cubic_CQ3 a b
        ↔ cubic_R a b c * cubic_R a b c < cubic_Q a b * cubic_Q a b * cubic_Q a b)
      ∧ (cubic_R a b c = 0 ∧ cubic_Q a b = 0 →
          (SolveCubicPolynomial M a b c x).1 = 3
            ∧ cubicValue a b c (SolveCubicPolynomial M a b c x).2.1 = 0
            ∧ cubicValue a b c (SolveCubicPolynomial M a b c x).2.2.1 = 0
            ∧ cubicValue a b c (SolveCubicPolynomial M a b c x).2.2.2 = 0)
      ∧ (¬ (cubic_R a b c = 0 ∧ cubic_Q a b = 0) → cubic_CR2 a b c = cubic_CQ3 a b →
          (∃ s : ℚ, 0 ≤ s ∧ s * s = cubic_Q a b)
            ∧ (0 ≤ M.sqrt (cubic_Q a b) →
                M.sqrt (cubic_Q a b) * M.sqrt (cubic_Q a b) = cubic_Q a b →
                (SolveCubicPolynomial M a b c x).1 = 3
                  ∧ cubicValue a b c (SolveCubicPolynomial M a b c x).2.1 = 0
                  ∧ cubicValue a b c (SolveCubicPolynomial M a b c x).2.2.1 = 0
                  ∧ cubicValue a b c (SolveCubicPolynomial M a b c x).2.2.2 = 0)) := by
  obtain ⟨hiff1, hiff2⟩ := cubic_tests_iff a b c
  obtain ⟨ht1, ht2, _⟩ := SolveCubicPolynomial_tests M a b c x
  refine ⟨hiff1, hiff2, ?_, ?_⟩
  · intro h
    rw [ht1 h]
    have hroot : cubicValue a b c (-a / 3) = 0 := by
      have := cubicValue_shift a b c 0
      rw [h.1, h.2] at this
      have h0 : (0 : ℚ) - a / 3 = -a / 3 := by ring
      rw [h0] at this
      rw [this]; ring
    exact ⟨rfl, hroot, hroot, hroot⟩
  · intro hn heq
    have hR2 := hiff1.mp heq
    refine ⟨?_, ?_⟩
    · have hQ : cubic_Q a b ≠ 0 := by
        intro hQ0
        apply hn
        refine ⟨?_, hQ0⟩
        rw [hQ0] at hR2
        simpa using hR2
      refine ⟨|cubic_R a b c / cubic_Q a b|, abs_nonneg _, ?_⟩
      rw [abs_mul_abs_self]
      field_simp
      rw [hR2]; ring
    · intro hs0 hs
      rw [ht2 hn heq]
      generalize M.sqrt (cubic_Q a b) = s at hs0 hs ⊢
      obtain ⟨hpos, hneg⟩ := cubic_double_root_sqrt a b c s hs0 hs hR2
      by_cases hR : cubic_R a b c > 0
      · rw [if_pos hR]
        have hRv := hpos hR
        refine ⟨rfl, ?_, ?_, ?_⟩
        · show cubicValue a b c (-2 * s - a / 3) = 0
          rw [cubicValue_shift, hRv, ← hs]
          ring
        · show cubicValue a b c (s - a / 3) = 0
          rw [cubicValue_shift, hRv, ← hs]
          ring
        · show cubicValue a b c (s - a / 3) = 0
          rw [cubicValue_shift, hRv, ← hs]
          ring
      · rw [if_neg hR]
        have hRv := hneg hR
        refine ⟨rfl, ?_, ?_, ?_⟩
        · show cubicValue a b c (-s - a / 3) = 0
          rw [cubicValue_shift, hRv, ← hs]
          ring
        · show cubicValue a b c (-s - a / 3) = 0
          rw [cubicValue_shift, hRv, ← hs]
          ring
        · show cubicValue a b c (2 * s - a / 3) = 0
          rw [cubicValue_shift, hRv, ← hs]
          ring

/-- Witness for C21: on `x^3 - 3 x + 2`, the branch of the double root with
`sqrt(1) = 1`, the first value written is a root. -/
theorem SolveCubicPolynomial_exact_roots_witness :
    cubicValue 0 (-3) 2 (SolveCubicPolynomial exampleMath 0 (-3) 2 (0, 0, 0)).2.1 = 0 :=
  (((SolveCubicPolynomial_exact_roots exampleMath 0 (-3) 2 (0, 0, 0)).2.2.2
      (by norm_num [cubic_R, cubic_Q]) (by norm_num [cubic_CR2, cubic_CQ3])).2
      (by norm_num [cubic_Q, exampleMath]) (by norm_num [cubic_Q, exampleMath])).2.1

/-! ## Resection leaves the engine as it is when it fails -/

theorem Resection_false_eq (C : Collaborators) (e e' : Engine) (viewIndex : Nat)
    (hres : Resection C e viewIndex = some (false, e')) : e' = e := by
  unfold Resection at hres
  simp only [] at hres
  repeat' split at hres
  all_goals first
    | simp only [reduceCtorEq] at hres
    | (simp only [Option.some.injEq, Prod.mk.injEq] at hres
       exact hres.2.symm)
    | simp at hres

/-- C25: when `Resection` returns false, whatever the reason, the engine after
the call is the engine before it: poses, intrinsics, structure, views (with
their intrinsic references) and the threshold map are unchanged. -/
theorem Resection_false_unchanged (C : Collaborators) (e e' : Engine) (viewIndex : Nat)
    (hres : Resection C e viewIndex = some (false, e')) :
    e' = e
      ∧ e'.sfm_data_.poses = e.sfm_data_.poses
      ∧ e'.sfm_data_.intrinsics = e.sfm_data_.intrinsics
      ∧ e'.sfm_data_.structure_ = e.sfm_data_.structure_
      ∧ e'.sfm_data_.views = e.sfm_data_.views
      ∧ e'.map_ACThreshold_ = e.map_ACThreshold_ := by
  have h : e' = e := Resection_false_eq C e e' viewIndex hres
  subst h
  exact ⟨rfl, rfl, rfl, rfl, rfl, rfl⟩

set_option maxRecDepth 100000 in
/-- Witness for C25: with a localization that fails, `Resection(2)` on
`engineScores43` returns false and the engine is unchanged. -/
theorem Resection_false_unchanged_witness :
    Resection collaboratorsNoLocalize engineScores43 2 = some (false, engineScores43)
      ∧ engineScores43.sfm_data_.poses = [(0, Pose3.identity), (1, Pose3.identity)] :=
  ⟨by decide,
    (Resection_false_unchanged collaboratorsNoLocalize engineScores43 engineScores43 2
      (by decide)).2.1⟩

/-! ## Restricted mode: the widening of the window -/

set_option maxRecDepth 100000 in
/-- C22: on `engineEmptyWindow` the first expansion absorbs nothing, so the
active subset is still empty while view 5 remains; no view is scored, and the
widening takes the minimum and maximum of the empty subset: the call is
undefined, it neither widens nor returns. -/
theorem FindImagesWithPossibleResection_widens_empty_subset :
    refillActiveSubset engineEmptyWindow = some engineEmptyWindow
      ∧ engineEmptyWindow.set_remaining_view_id_subset_ = []
      ∧ engineEmptyWindow.set_remaining_view_id_ = [5]
      ∧ putativeViews engineEmptyWindow = []
      ∧ windowBounds engineEmptyWindow.set_remaining_view_id_subset_
          engineEmptyWindow.sfm_slide_window_size_ engineEmptyWindow.sfm_data_.views.length = none
      ∧ FindImagesWithPossibleResection engineEmptyWindow = none := by
  decide

set_option maxRecDepth 100000 in
theorem FindImagesWithPossibleResection_stuck :
    FindImagesWithPossibleResection engineStuckWindow = some (true, [], engineStuckWindow) := by
  decide

/-- C23: on `engineStuckWindow` the best score is 0 and the widened window
around the active subset reaches no remaining view: the call returns true with
no candidate and leaves the engine as it is, active subset included, so the
growth loop of `Process` never ends, whatever the collaborators and the fuel. -/
theorem growthLoop_stuck_widening :
    FindImagesWithPossibleResection engineStuckWindow = some (true, [], engineStuckWindow)
      ∧ putativeViews engineStuckWindow = [(2, 0)]
      ∧ ∀ (C : Collaborators) (fuel : Nat), growthLoop C fuel engineStuckWindow = none := by
  refine ⟨FindImagesWithPossibleResection_stuck, by decide, ?_⟩
  intro C fuel
  induction fuel with
  | zero => rfl
  | succ n ih =>
    simp only [growthLoop, FindImagesWithPossibleResection_stuck, resectGroup]
    exact ih

/-! ## Unrestricted mode: progress of the growth loop -/

theorem growthLoopRounds_engine (C : Collaborators) :
    ∀ (fuel : Nat) (e : Engine),
      (growthLoopRounds C fuel e).map Prod.snd = growthLoop C fuel e := by
  intro fuel
  induction fuel with
  | zero => intro e; rfl
  | succ n ih =>
    intro e
    simp only [growthLoopRounds, growthLoop]
    cases FindImagesWithPossibleResection e with
    | none => rfl
    | some r =>
      obtain ⟨b, cands, e1⟩ := r
      cases b with
      | false => rfl
      | true =>
        simp only []
        cases resectGroup C cands false e1 with
        | none => rfl
        | some r2 =>
          obtain ⟨b2, e2⟩ := r2
          cases b2 with
          | false =>
            simp only [Option.map_map]
            exact ih e2
          | true =>
            simp only []
            cases refineLoop C n e2 with
            | none => rfl
            | some r3 =>
              simp only [Option.map_map]
              exact ih _

theorem dropFromPools_mode (e : Engine) (viewId : Nat) :
    (dropFromPools e viewId).bRestricted_window_SfM_ = e.bRestricted_window_SfM_ := by
  unfold dropFromPools
  simp only []
  split_ifs <;> rfl

theorem resectGroup_shrinks (C : Collaborators) :
    ∀ (cands : List Nat) (b : Bool) (e : Engine) (r : Bool × Engine),
      resectGroup C cands b e = some r → cands.Nodup →
      (∀ v ∈ cands, v ∈ e.set_remaining_view_id_) →
      r.2.bRestricted_window_SfM_ = e.bRestricted_window_SfM_
        ∧ (e.set_remaining_view_id_.Nodup → r.2.set_remaining_view_id_.Nodup)
        ∧ r.2.set_remaining_view_id_.length ≤ e.set_remaining_view_id_.length
        ∧ (cands ≠ [] → r.2.set_remaining_view_id_.length < e.set_remaining_view_id_.length) := by
  intro cands
  induction cands with
  | nil =>
    intro b e r h _ _
    simp only [resectGroup, Option.some.injEq] at h
    subst h
    exact ⟨rfl, fun h => h, le_refl _, fun h => absurd rfl h⟩
  | cons v rest ih =>
    intro b e r h hnd hmem
    simp only [resectGroup] at h
    cases hR : Resection C e v with
    | none => simp [hR] at h
    | some r1 =>
      obtain ⟨ok, e1⟩ := r1
      simp only [hR] at h
      obtain ⟨hrem1, hmode1⟩ := Resection_pools C e e1 v ok hR
      have hrem : (dropFromPools e1 v).set_remaining_view_id_
          = StlSet.erase e.set_remaining_view_id_ v := by
        rw [dropFromPools_remaining, hrem1]
      have hnd' := List.nodup_cons.mp hnd
      have hmem' : ∀ v' ∈ rest, v' ∈ (dropFromPools e1 v).set_remaining_view_id_ := by
        intro v' hv'
        rw [hrem, StlSet.mem_erase]
        exact ⟨hmem v' (List.mem_cons_of_mem _ hv'), fun h => hnd'.1 (h ▸ hv')⟩
      obtain ⟨hm, hn, hle, _⟩ := ih (b || ok) (dropFromPools e1 v) r h hnd'.2 hmem'
      have hlt : (StlSet.erase e.set_remaining_view_id_ v).length
          < e.set_remaining_view_id_.length :=
        StlSet.length_erase_lt _ _ (hmem v (List.mem_cons_self _ _))
      rw [hrem] at hle hn
      refine ⟨?_, ?_, by omega, fun _ => by omega⟩
      · rw [hm, dropFromPools_mode, hmode1]
      · intro hnd0
        exact hn (hnd0.filter _)

theorem growthLoopRounds_le (C : Collaborators) :
    ∀ (fuel : Nat) (e : Engine) (r : Nat × Engine),
      e.bRestricted_window_SfM_ = false → e.set_remaining_view_id_.Nodup →
      growthLoopRounds C fuel e = some r → r.1 ≤ e.set_remaining_view_id_.length := by
  intro fuel
  induction fuel with
  | zero => intro e r _ _ h; simp [growthLoopRounds] at h
  | succ n ih =>
    intro e r hmode hnd h
    simp only [growthLoopRounds] at h
    rcases FindImagesWithPossibleResection_unrestricted e hmode hnd with
      ⟨e1, h1, _⟩ | ⟨cands, h1, hne, hcnd, hmem⟩
    · simp only [h1, Option.some.injEq] at h
      rw [← h]
      exact Nat.zero_le _
    · simp only [h1] at h
      cases hG : resectGroup C cands false e with
      | none => simp [hG] at h
      | some r2 =>
        obtain ⟨b2, e2⟩ := r2
        obtain ⟨hm2, hn2, _, hlt2⟩ := resectGroup_shrinks C cands false e (b2, e2) hG hcnd hmem
        have hlt := hlt2 hne
        simp only [hG] at h
        cases b2 with
        | false =>
          simp only [] at h
          cases hrec : growthLoopRounds C n e2 with
          | none => simp [hrec] at h
          | some r3 =>
            simp only [hrec, Option.map_some', Option.some.injEq] at h
            have := ih e2 r3 (hm2.trans hmode) (hn2 hnd) hrec
            rw [← h]
            simp only []
            simp only [] at hlt
            omega
        | true =>
          simp only [] at h
          cases hL : refineLoop C n e2 with
          | none => simp [hL] at h
          | some r4 =>
            obtain ⟨hrem4, hmode4⟩ := refineLoop_pools C n e2 r4 hL
            simp only [hL] at h
            cases hrec : growthLoopRounds C n
                { r4.2 with sfm_data_ := C.eraseUnstablePosesAndObservations r4.2.sfm_data_ } with
            | none => simp [hrec] at h
            | some r3 =>
              simp only [hrec, Option.map_some', Option.some.injEq] at h
              have hm' : ({ r4.2 with sfm_data_ :=
                  C.eraseUnstablePosesAndObservations r4.2.sfm_data_ } : Engine).bRestricted_window_SfM_
                  = false := by
                show r4.2.bRestricted_window_SfM_ = false
                rw [hmode4]; exact hm2.trans hmode
              have hn' : ({ r4.2 with sfm_data_ :=
                  C.eraseUnstablePosesAndObservations r4.2.sfm_data_ } : Engine).set_remaining_view_id_.Nodup := by
                show r4.2.set_remaining_view_id_.Nodup
                rw [hrem4]; exact hn2 hnd
              have := ih _ r3 hm' hn' hrec
              have hlen : ({ r4.2 with sfm_data_ :=
                  C.eraseUnstablePosesAndObservations r4.2.sfm_data_ } : Engine).set_remaining_view_id_.length
                  = e2.set_remaining_view_id_.length := by
                show r4.2.set_remaining_view_id_.length = _
                rw [hrem4]
              rw [← h]
              simp only []
              simp only [] at hlt
              omega

/-- C24: unrestricted mode, with a remaining set without repetition (a
`std::set`). When `FindImagesWithPossibleResection` returns true it leaves the
engine as it is and the candidate list is non-empty, without repetition and
made of remaining views, so the loop of `Process` over the candidates, which
erases each of them, leaves strictly fewer remaining views. When it returns
false with landmarks in the scene, the remaining set is empty afterwards. A
growth loop that returns has run at most as many rounds as there were
remaining views, and the loop does return when every `Resection` call is
defined and every refinement loop ends. -/
theorem growthLoop_unrestricted_progress (C : Collaborators) (e : Engine)
    (hmode : e.bRestricted_window_SfM_ = false) (hnd : e.set_remaining_view_id_.Nodup) :
    (∀ cands e1, FindImagesWithPossibleResection e = some (true, cands, e1) →
        e1 = e ∧ cands ≠ [] ∧ cands.Nodup ∧ (∀ v ∈ cands, v ∈ e.set_remaining_view_id_)
          ∧ ∀ r, resectGroup C cands false e1 = some r →
              r.2.set_remaining_view_id_.length < e.set_remaining_view_id_.length)
      ∧ (∀ cands e1, FindImagesWithPossibleResection e = some (false, cands, e1) →
          e.sfm_data_.structure_ ≠ [] → e1.set_remaining_view_id_ = [])
      ∧ (∀ fuel r, growthLoopRounds C fuel e = some r → r.1 ≤ e.set_remaining_view_id_.length)
      ∧ (∀ Inv : Engine → Prop,
          (∀ e0, Inv e0 → e0.bRestricted_window_SfM_ = false) →
          (∀ e0, Inv e0 → e0.set_remaining_view_id_.Nodup) →
          (∀ e0 v, Inv e0 → v ∈ e0.set_remaining_view_id_ →
            ∃ r, Resection C e0 v = some r ∧ Inv (dropFromPools r.2 v)) →
          (∀ e0, Inv e0 → ∃ n r, refineLoop C n e0 = some r
            ∧ Inv { r.2 with sfm_data_ := C.eraseUnstablePosesAndObservations r.2.sfm_data_ }) →
          Inv e → ∃ fuel e', growthLoop C fuel e = some e') := by
  refine ⟨?_, ?_, ?_, ?_⟩
  · intro cands e1 h
    rcases FindImagesWithPossibleResection_unrestricted e hmode hnd with
      ⟨e2, h2, _⟩ | ⟨cands2, h2, hne, hcnd, hmem⟩
    · rw [h2] at h
      simp at h
    · rw [h2] at h
      simp only [Option.some.injEq, Prod.mk.injEq, true_and] at h
      obtain ⟨rfl, rfl⟩ := h
      refine ⟨rfl, hne, hcnd, hmem, fun r hr => ?_⟩
      exact (resectGroup_shrinks C cands2 false e r hr hcnd hmem).2.2.2 hne
  · intro cands e1 h hland
    unfold FindImagesWithPossibleResection at h
    simp only [hmode, Bool.false_eq_true, if_false, not_false_eq_true, if_true] at h
    split_ifs at h with h1 h2
    · simp only [Option.some.injEq, Prod.mk.injEq, true_and] at h
      rw [← h.2]
      rcases h1 with h1 | h1
      · exact h1.1
      · exact absurd h1 hland
    · simp only [Option.some.injEq, Prod.mk.injEq, true_and] at h
      rw [← h.2]
    · simp at h
  · intro fuel r h
    exact growthLoopRounds_le C fuel e r hmode hnd h
  · intro Inv hMode hNodup hRes hRefine hInv
    exact growthLoop_terminates C Inv hMode hNodup hRes hRefine _ e hInv (le_refl _)

set_option maxRecDepth 100000 in
/-- Witness for C24: the growth loop of the run example, from two remaining
views, returns after two rounds. -/
theorem growthLoop_unrestricted_progress_witness :
    (growthLoopRounds collaboratorsRun 4 engineRunSeeded).map Prod.fst = some 2
      ∧ ((growthLoopRounds collaboratorsRun 4 engineRunSeeded).getD (0, engineRunSeeded)).1
          ≤ engineRunSeeded.set_remaining_view_id_.length :=
  ⟨by decide,
    (growthLoop_unrestricted_progress collaboratorsRun engineRunSeeded (by decide)
      (by decide)).2.2.1 4 _ (by decide)⟩

/-! ## The thresholds of the views that have a pose -/

theorem StlMap.contains_assign {α : Type} (m : StlMap α) (k : Nat) (v : α) (k' : Nat) :
    StlMap.contains (StlMap.assign m k v) k' = true ↔ k = k' ∨ StlMap.contains m k' = true := by
  unfold StlMap.contains
  rw [StlMap.find_assign]
  by_cases h : k = k'
  · simp [h]
  · simp [h]

theorem StlMap.contains_insertNew {α : Type} (m : StlMap α) (k : Nat) (v : α) (k' : Nat) :
    StlMap.contains (StlMap.insertNew m k v) k' = true ↔ k = k' ∨ StlMap.contains m k' = true := by
  unfold StlMap.insertNew
  by_cases hc : StlMap.contains m k = true
  · rw [if_pos hc]
    constructor
    · intro h; exact Or.inr h
    · rintro (h | h)
      · rw [← h]; exact hc
      · exact h
  · rw [if_neg hc]
    exact StlMap.contains_assign m k v k'

/-- Storing the pose of the view `viewIndex` under its pose id, and a
threshold under `viewIndex`, keeps the thresholds of the views with a pose. -/
theorem ThresholdsCoverPoses_store (views views' : StlMap View) (poses : StlMap Pose3)
    (thr : StlMap ℚ) (viewIndex : Nat) (view_I : View) (pose : Pose3) (error_max : ℚ)
    (hview : (viewIndex, view_I) ∈ views) (hdist : PoseIdsDistinct views)
    (hviews : ∀ x ∈ views', x.1 = viewIndex ∨ x ∈ views)
    (hinv : ∀ kv ∈ views, StlMap.contains poses kv.2.id_pose = true →
      StlMap.contains thr kv.1 = true) :
    ∀ kv ∈ views',
      StlMap.contains (StlMap.assign poses view_I.id_pose pose) kv.2.id_pose = true →
        StlMap.contains (StlMap.insertNew thr viewIndex error_max) kv.1 = true := by
  intro kv hkv hpose
  rw [StlMap.contains_insertNew]
  rcases hviews kv hkv with h | h
  · exact Or.inl h.symm
  · rcases (StlMap.contains_assign _ _ _ _).mp hpose with hp | hp
    · left
      exact hdist (viewIndex, view_I) hview kv h hp
    · right
      exact hinv kv h hp

theorem Resection_true_commit (C : Collaborators) (e e' : Engine) (viewIndex : Nat)
    (hres : Resection C e viewIndex = some (true, e')) :
    ∃ view_I b intrinsic pose error_max,
      StlMap.find e.sfm_data_.views viewIndex = some view_I
        ∧ e'.sfm_data_.views
            = (resectionCommit e viewIndex view_I b intrinsic pose error_max).sfm_data_.views
        ∧ e'.sfm_data_.poses
            = (resectionCommit e viewIndex view_I b intrinsic pose error_max).sfm_data_.poses
        ∧ e'.map_ACThreshold_
            = (resectionCommit e viewIndex view_I b intrinsic pose error_max).map_ACThreshold_
        ∧ e'.map_tracks_ = e.map_tracks_ := by
  unfold Resection at hres
  simp only [] at hres
  split_ifs at hres
  · simp at hres
  · cases hv : StlMap.find e.sfm_data_.views viewIndex with
    | none => simp [hv] at hres
    | some view_I =>
      simp only [hv] at hres
      repeat' split at hres
      all_goals first
        | simp only [reduceCtorEq] at hres
        | (simp only [Option.some.injEq, Prod.mk.injEq, true_and] at hres
           subst hres
           exact ⟨view_I, _, _, _, _, rfl, rfl, rfl, rfl, rfl⟩)
        | simp at hres

theorem resectionCommit_data (e : Engine) (viewIndex : Nat) (view_I : View) (b : Bool)
    (intrinsic : Intrinsic) (pose : Pose3) (error_max : ℚ) :
    (resectionCommit e viewIndex view_I b intrinsic pose error_max).sfm_data_.poses
        = StlMap.assign e.sfm_data_.poses view_I.id_pose pose
      ∧ (resectionCommit e viewIndex view_I b intrinsic pose error_max).map_ACThreshold_
        = StlMap.insertNew e.map_ACThreshold_ viewIndex error_max
      ∧ ∀ x ∈ (resectionCommit e viewIndex view_I b intrinsic pose error_max).sfm_data_.views,
          (x.1 = viewIndex ∧ x.2.id_pose = view_I.id_pose) ∨ x ∈ e.sfm_data_.views := by
  cases b with
  | false =>
    refine ⟨by simp [resectionCommit], by simp [resectionCommit], ?_⟩
    intro x hx
    right
    simpa [resectionCommit] using hx
  | true =>
    refine ⟨by simp [resectionCommit], by simp [resectionCommit], ?_⟩
    intro x hx
    have hx' : x ∈ StlMap.assign e.sfm_data_.views viewIndex
        { view_I with id_intrinsic := newIntrinsicId e.sfm_data_.intrinsics } := by
      simpa [resectionCommit] using hx
    rcases StlMap.mem_assign _ _ _ _ hx' with h | h
    · left
      rw [h]
      exact ⟨rfl, rfl⟩
    · exact Or.inr h

theorem Resection_thresholds (C : Collaborators) (e e' : Engine) (viewIndex : Nat) (b : Bool)
    (hres : Resection C e viewIndex = some (b, e'))
    (hdist : PoseIdsDistinct e.sfm_data_.views) (hinv : ThresholdsCoverPoses e) :
    PoseIdsDistinct e'.sfm_data_.views ∧ ThresholdsCoverPoses e'
      ∧ e'.map_tracks_ = e.map_tracks_ := by
  cases b with
  | false =>
    have := Resection_false_eq C e e' viewIndex hres
    subst this
    exact ⟨hdist, hinv, rfl⟩
  | true =>
    obtain ⟨view_I, b0, intrinsic, pose, error_max, hfind, hviews, hposes, hthr, htracks⟩ :=
      Resection_true_commit C e e' viewIndex hres
    obtain ⟨hp, ht, hmem⟩ := resectionCommit_data e viewIndex view_I b0 intrinsic pose error_max
    have hview := StlMap.find_some_mem _ _ _ hfind
    have htwin : ∀ x ∈ e'.sfm_data_.views,
        ∃ y ∈ e.sfm_data_.views, y.1 = x.1 ∧ y.2.id_pose = x.2.id_pose := by
      intro x hx
      rw [hviews] at hx
      rcases hmem x hx with h | h
      · exact ⟨(viewIndex, view_I), hview, h.1.symm, h.2.symm⟩
      · exact ⟨x, h, rfl, rfl⟩
    refine ⟨?_, ?_, htracks⟩
    · intro a ha b hb hab
      obtain ⟨a', ha', ha1, ha2⟩ := htwin a ha
      obtain ⟨b', hb', hb1, hb2⟩ := htwin b hb
      rw [← ha1, ← hb1]
      exact hdist a' ha' b' hb' (by rw [ha2, hb2, hab])
    · unfold ThresholdsCoverPoses
      rw [hposes, hthr, hp, ht, hviews]
      refine ThresholdsCoverPoses_store e.sfm_data_.views _ e.sfm_data_.poses e.map_ACThreshold_
        viewIndex view_I pose error_max hview hdist ?_ hinv
      intro x hx
      rcases hmem x hx with h | h
      · exact Or.inl h.1
      · exact Or.inr h

theorem MakeInitialPair3D_data (C : Collaborators) (e e' : Engine) (current_pair : Pair)
    (b : Bool) (hres : MakeInitialPair3D C e current_pair = some (b, e')) :
    e' = e ∨ ∃ view_I view_J pose_I pose_J precision,
      StlMap.find e.sfm_data_.views (min current_pair.1 current_pair.2) = some view_I
        ∧ StlMap.find e.sfm_data_.views (max current_pair.1 current_pair.2) = some view_J
        ∧ e'.sfm_data_.views = e.sfm_data_.views
        ∧ e'.sfm_data_.poses
            = StlMap.assign (StlMap.assign e.sfm_data_.poses view_I.id_pose pose_I)
                view_J.id_pose pose_J
        ∧ e'.map_ACThreshold_
            = StlMap.insertNew
                (StlMap.insertNew e.map_ACThreshold_ (min current_pair.1 current_pair.2) precision)
                (max current_pair.1 current_pair.2) precision
        ∧ e'.map_tracks_ = e.map_tracks_ := by
  unfold MakeInitialPair3D at hres
  simp only [] at hres
  split at hres
  · rename_i view_I view_J hvI hvJ
    split at hres
    · split_ifs at hres
      · repeat' split at hres
        all_goals first
          | simp only [reduceCtorEq] at hres
          | (simp only [Option.some.injEq, Prod.mk.injEq] at hres
             exact Or.inl hres.2.symm)
          | (simp only [Option.some.injEq, Prod.mk.injEq] at hres
             obtain ⟨_, rfl⟩ := hres
             exact Or.inr ⟨view_I, view_J, _, _, _, hvI, hvJ, rfl, rfl, rfl, rfl⟩)
      · simp only [Option.some.injEq, Prod.mk.injEq] at hres
        exact Or.inl hres.2.symm
    · simp only [Option.some.injEq, Prod.mk.injEq] at hres
      exact Or.inl hres.2.symm
  · simp at hres

theorem MakeInitialPair3D_thresholds (C : Collaborators) (e e' : Engine) (current_pair : Pair)
    (b : Bool) (hres : MakeInitialPair3D C e current_pair = some (b, e'))
    (hdist : PoseIdsDistinct e.sfm_data_.views) (hinv : ThresholdsCoverPoses e) :
    PoseIdsDistinct e'.sfm_data_.views ∧ ThresholdsCoverPoses e'
      ∧ e'.map_tracks_ = e.map_tracks_ := by
  rcases MakeInitialPair3D_data C e e' current_pair b hres with
    h | ⟨view_I, view_J, pose_I, pose_J, precision, hvI, hvJ, hviews, hposes, hthr, htracks⟩
  · subst h
    exact ⟨hdist, hinv, rfl⟩
  · refine ⟨hviews ▸ hdist, ?_, htracks⟩
    unfold ThresholdsCoverPoses
    rw [hviews, hposes, hthr]
    have h1 := ThresholdsCoverPoses_store e.sfm_data_.views e.sfm_data_.views e.sfm_data_.poses
      e.map_ACThreshold_ _ view_I pose_I precision (StlMap.find_some_mem _ _ _ hvI) hdist
      (fun x hx => Or.inr hx) hinv
    exact ThresholdsCoverPoses_store e.sfm_data_.views e.sfm_data_.views _ _ _ view_J pose_J
      precision (StlMap.find_some_mem _ _ _ hvJ) hdist (fun x hx => Or.inr hx) h1

theorem resectViews_thresholds (C : Collaborators) :
    ∀ (viewIndexes : List Nat) (e e' : Engine), resectViews C viewIndexes e = some e' →
      PoseIdsDistinct e.sfm_data_.views → ThresholdsCoverPoses e →
      PoseIdsDistinct e'.sfm_data_.views ∧ ThresholdsCoverPoses e'
        ∧ e'.map_tracks_ = e.map_tracks_ := by
  intro l
  induction l with
  | nil =>
    intro e e' h hd hi
    simp only [resectViews, foldlOpt, Option.some.injEq] at h
    subst h
    exact ⟨hd, hi, rfl⟩
  | cons v rest ih =>
    intro e e' h hd hi
    simp only [resectViews, foldlOpt] at h
    cases hR : Resection C e v with
    | none => simp [hR] at h
    | some r =>
      obtain ⟨b, e1⟩ := r
      simp only [hR, Option.map_some'] at h
      obtain ⟨hd1, hi1, ht1⟩ := Resection_thresholds C e e1 v b hR hd hi
      obtain ⟨hd2, hi2, ht2⟩ := ih e1 e' h hd1 hi1
      exact ⟨hd2, hi2, ht2.trans ht1⟩

theorem extendLandmark_defined (C : Collaborators) (thr : StlMap ℚ) (I : Nat) (cam_I : Intrinsic)
    (pose_I : Pose3) (xI : Vec2) (featI : Nat) (landmark : Landmark)
    (hI : StlMap.contains thr I = true) :
    ∃ l, extendLandmark C thr I cam_I pose_I xI featI landmark = some l := by
  obtain ⟨t, ht⟩ := Option.isSome_iff_exists.mp hI
  unfold extendLandmark viewThreshold
  simp only [ht, Option.map_some']
  split_ifs <;> exact ⟨_, rfl⟩

theorem triangulateTrack_defined (C : Collaborators) (thr : StlMap ℚ) (I J : Nat)
    (cam_I cam_J : Intrinsic) (pose_I pose_J : Pose3) (s : StlMap Landmark)
    (map_tracks : STLMAPTracks) (t : Nat × SubmapTrack)
    (ht : t ∈ GetTracksInImages [I, J] map_tracks)
    (hI : StlMap.contains thr I = true) (hJ : StlMap.contains thr J = true) :
    (triangulateTrack C thr I J cam_I cam_J pose_I pose_J s t).isSome = true := by
  obtain ⟨sub, _, hcI, hcJ, hfI, hfJ⟩ := mem_GetTracksInImages I J map_tracks t ht
  obtain ⟨featI, hfeatI⟩ := Option.isSome_iff_exists.mp hcI
  obtain ⟨featJ, hfeatJ⟩ := Option.isSome_iff_exists.mp hcJ
  obtain ⟨tI, htI⟩ := Option.isSome_iff_exists.mp hI
  obtain ⟨tJ, htJ⟩ := Option.isSome_iff_exists.mp hJ
  have hvI : viewThreshold thr I = some (max 4 tI) := by simp [viewThreshold, htI]
  have hvJ : viewThreshold thr J = some (max 4 tJ) := by simp [viewThreshold, htJ]
  unfold triangulateTrack
  rw [hfI, hfJ, hfeatI, hfeatJ]
  simp only []
  cases hs : StlMap.find s t.1 with
  | some landmark =>
    simp only []
    obtain ⟨l1, h1⟩ := extendLandmark_defined C thr I cam_I pose_I (C.feats I featI) featI
      landmark hI
    obtain ⟨l2, h2⟩ := extendLandmark_defined C thr J cam_J pose_J (C.feats J featJ) featJ l1 hJ
    simp only [h1, h2, Option.isSome_some]
  | none =>
    simp only [hvI, hvJ]
    split_ifs <;> rfl

/-- C26: from a scene without poses in which each view has its own pose id,
after `MakeInitialPair3D` and any sequence of `Resection` calls every view
that has a pose has an entry in the threshold map; hence for two views with a
pose the step of `Resection` step G on a common track, with its lookups
`map_ACThreshold_.at(I)` and `map_ACThreshold_.at(J)`, is defined. -/
theorem thresholds_cover_poses (C : Collaborators) (e0 e1 e2 : Engine) (current_pair : Pair)
    (b : Bool) (viewIndexes : List Nat)
    (hposes : e0.sfm_data_.poses = []) (hdist : PoseIdsDistinct e0.sfm_data_.views)
    (hseed : MakeInitialPair3D C e0 current_pair = some (b, e1))
    (hseq : resectViews C viewIndexes e1 = some e2) :
    ThresholdsCoverPoses e2
      ∧ ∀ (I J : Nat) (view_I view_J : View),
          StlMap.find e2.sfm_data_.views I = some view_I →
          StlMap.find e2.sfm_data_.views J = some view_J →
          StlMap.contains e2.sfm_data_.poses view_I.id_pose = true →
          StlMap.contains e2.sfm_data_.poses view_J.id_pose = true →
          (viewThreshold e2.map_ACThreshold_ I).isSome = true
            ∧ (viewThreshold e2.map_ACThreshold_ J).isSome = true
            ∧ ∀ (cam_I cam_J : Intrinsic) (pose_I pose_J : Pose3) (s : StlMap Landmark),
                ∀ t ∈ GetTracksInImages [I, J] e2.map_tracks_,
                  (triangulateTrack C e2.map_ACThreshold_ I J cam_I cam_J pose_I pose_J s
                    t).isSome = true := by
  have h0 : ThresholdsCoverPoses e0 := by
    intro kv _ hp
    rw [hposes] at hp
    simp [StlMap.contains, StlMap.find] at hp
  obtain ⟨hd1, hi1, _⟩ := MakeInitialPair3D_thresholds C e0 e1 current_pair b hseed hdist h0
  obtain ⟨_, hi2, _⟩ := resectViews_thresholds C viewIndexes e1 e2 hseq hd1 hi1
  refine ⟨hi2, ?_⟩
  intro I J view_I view_J hvI hvJ hpI hpJ
  have hI : StlMap.contains e2.map_ACThreshold_ I = true :=
    hi2 (I, view_I) (StlMap.find_some_mem _ _ _ hvI) hpI
  have hJ : StlMap.contains e2.map_ACThreshold_ J = true :=
    hi2 (J, view_J) (StlMap.find_some_mem _ _ _ hvJ) hpJ
  refine ⟨?_, ?_, ?_⟩
  · obtain ⟨t, ht⟩ := Option.isSome_iff_exists.mp hI
    simp [viewThreshold, ht]
  · obtain ⟨t, ht⟩ := Option.isSome_iff_exists.mp hJ
    simp [viewThreshold, ht]
  · intro cam_I cam_J pose_I pose_J s t ht
    exact triangulateTrack_defined C _ I J cam_I cam_J pose_I pose_J s _ t ht hI hJ

set_option maxRecDepth 100000 in
/-- Witness for C26: in the run example, after the seed on (0, 1) and
`Resection(2)`, the views 0, 1 and 2 have a pose and a threshold. -/
theorem thresholds_cover_poses_witness :
    ThresholdsCoverPoses { engineRunResected with set_remaining_view_id_ := [2, 3] }
      ∧ StlMap.keys engineRunResected.sfm_data_.poses = [0, 1, 2]
      ∧ StlMap.keys engineRunResected.map_ACThreshold_ = [0, 1, 2] :=
  ⟨(thresholds_cover_poses collaboratorsRun (filterAndBuildTracks collaboratorsRun engineStart)
      engineRunSeeded { engineRunResected with set_remaining_view_id_ := [2, 3] } (0, 1) true [2]
      (by decide) (by decide) (by decide) (by decide)).1, by decide, by decide⟩

/-! ## Frame matching: the search of the best candidate -/

/-- C29: one reference feature and one candidate, of index 0, inside the
window and at squared descriptor distance 10: the candidate is the only one
below 30, and the search stores no match (-1), because the index 0 is the
value that stands for "no best candidate". With the same candidate at index 1
(the candidate of index 0 being outside the window) the match is stored. -/
theorem matchReference_misses_candidate_zero :
    matchReference 50 (4 / 5) (fun _ => 0) (fun _ => 10) 1 = -1
      ∧ matchReference 50 (4 / 5) (fun c => if c = 0 then 100 else 0) (fun _ => 10) 2 = 1 := by
  constructor <;> decide

theorem bestTwoStep_skip (win_size : ℚ) (pixelDistance descriptorDistance : Nat → ℚ) :
    ∀ (l : List Nat) (st : BestTwo),
      (∀ j ∈ l, pixelDistance j > win_size ∨ ¬ descriptorDistance j < 30) →
      st.best_distance ≤ 30 → st.second_best_distance = 30 →
      l.foldl (bestTwoStep win_size pixelDistance descriptorDistance) st = st := by
  intro l
  induction l with
  | nil => intro st _ _ _; rfl
  | cons j l ih =>
    intro st hbad hb hs
    have hstep : bestTwoStep win_size pixelDistance descriptorDistance st j = st := by
      unfold bestTwoStep
      rcases hbad j (List.mem_cons_self _ _) with h | h
      · rw [if_pos h]
      · have h2 : ¬ descriptorDistance j < st.best_distance :=
          fun h2 => h (lt_of_lt_of_le h2 hb)
        have h3 : ¬ descriptorDistance j < st.second_best_distance := by
          rw [hs]; exact h
        by_cases h1 : pixelDistance j > win_size
        · rw [if_pos h1]
        · rw [if_neg h1]
          simp only [if_neg h2, if_neg h3]
    rw [List.foldl_cons, hstep]
    exact ih st (fun x hx => hbad x (List.mem_cons_of_mem _ hx)) hb hs

theorem bestTwo_unique (win_size : ℚ) (pixelDistance descriptorDistance : Nat → ℚ)
    (n c : Nat) (hc : c < n) (hwin : ¬ pixelDistance c > win_size)
    (hd : descriptorDistance c < 30)
    (hothers : ∀ j, j < n → j ≠ c → pixelDistance j > win_size ∨ ¬ descriptorDistance j < 30) :
    (List.range n).foldl (bestTwoStep win_size pixelDistance descriptorDistance) BestTwo.init
      = ⟨c, size_t_infinity, descriptorDistance c, 30⟩ := by
  obtain ⟨pre, post, hl⟩ := List.append_of_mem (List.mem_range.mpr hc)
  have hnd : (pre ++ c :: post).Nodup := hl ▸ List.nodup_range n
  have hpre : ∀ j ∈ pre, pixelDistance j > win_size ∨ ¬ descriptorDistance j < 30 := by
    intro j hj
    have hjn : j < n := List.mem_range.mp (hl ▸ List.mem_append_left _ hj)
    refine hothers j hjn ?_
    rintro rfl
    exact (List.nodup_append.mp hnd).2.2 hj (List.mem_cons_self _ _)
  have hpost : ∀ j ∈ post, pixelDistance j > win_size ∨ ¬ descriptorDistance j < 30 := by
    intro j hj
    have hjn : j < n :=
      List.mem_range.mp (hl ▸ List.mem_append_right _ (List.mem_cons_of_mem _ hj))
    refine hothers j hjn ?_
    rintro rfl
    exact (List.nodup_cons.mp (List.nodup_append.mp hnd).2.1).1 hj
  rw [hl, List.foldl_append, List.foldl_cons,
    bestTwoStep_skip win_size pixelDistance descriptorDistance pre BestTwo.init hpre (le_refl _) rfl]
  have hstep : bestTwoStep win_size pixelDistance descriptorDistance BestTwo.init c
      = ⟨c, size_t_infinity, descriptorDistance c, 30⟩ := by
    unfold bestTwoStep
    rw [if_neg hwin]
    simp only [BestTwo.init]
    rw [if_pos hd]
  rw [hstep]
  exact bestTwoStep_skip win_size pixelDistance descriptorDistance post _ hpost (le_of_lt hd) rfl

/-- The search for one reference feature: a candidate that is the only one
inside the window and below the distance 30 is stored as the match when its
index is not 0, and is not stored when its index is 0; without such a
candidate no match is stored. -/
theorem matchReference_unique (win_size ratio : ℚ) (pixelDistance descriptorDistance : Nat → ℚ)
    (n : Nat) :
    (∀ c, c < n → ¬ pixelDistance c > win_size → descriptorDistance c < 30 →
        (∀ j, j < n → j ≠ c → pixelDistance j > win_size ∨ ¬ descriptorDistance j < 30) →
        matchReference win_size ratio pixelDistance descriptorDistance n
          = if c = 0 then -1 else (c : Int))
      ∧ ((∀ j, j < n → pixelDistance j > win_size ∨ ¬ descriptorDistance j < 30) →
          matchReference win_size ratio pixelDistance descriptorDistance n = -1) := by
  constructor
  · intro c hc hwin hd hothers
    unfold matchReference
    rw [bestTwo_unique win_size pixelDistance descriptorDistance n c hc hwin hd hothers]
    unfold detectBestMatch
    by_cases h0 : c = 0
    · simp [h0, size_t_infinity]
    · simp [h0, size_t_infinity]
  · intro hbad
    unfold matchReference
    rw [bestTwoStep_skip win_size pixelDistance descriptorDistance (List.range n) BestTwo.init
      (fun j hj => hbad j (List.mem_range.mp hj)) (le_refl _) rfl]
    simp [detectBestMatch, BestTwo.init]

/-! ## Frame matching: the pruning of the matches -/

theorem StlMap.sorted_assign {α : Type} (k : Nat) (v : α) :
    ∀ m : StlMap α, (StlMap.keys m).Sorted (· < ·) →
      (StlMap.keys (StlMap.assign m k v)).Sorted (· < ·) := by
  intro m
  induction m with
  | nil => intro _; simp [StlMap.assign, StlMap.keys]
  | cons a t ih =>
    intro h
    obtain ⟨k', v'⟩ := a
    have h' : (k' :: StlMap.keys t).Sorted (· < ·) := h
    obtain ⟨hlt, ht⟩ := List.sorted_cons.mp h'
    simp only [StlMap.assign]
    split_ifs with h1 h2
    · show (k :: k' :: StlMap.keys t).Sorted (· < ·)
      refine List.sorted_cons.mpr ⟨?_, h'⟩
      intro b hb
      rcases List.mem_cons.mp hb with rfl | hb
      · exact h1
      · exact lt_trans h1 (hlt b hb)
    · show (k :: StlMap.keys t).Sorted (· < ·)
      rw [← h2]
      exact h'
    · show (k' :: StlMap.keys (StlMap.assign t k v)).Sorted (· < ·)
      refine List.sorted_cons.mpr ⟨?_, ih ht⟩
      intro b hb
      rcases (StlMap.mem_keys_assign t k v b).mp hb with rfl | hb
      · omega
      · exact hlt b hb

theorem pruneScan_snd (v : Int) :
    ∀ (t : List Int) (ok : Bool),
      (pruneScan v ok t).2 = t.map fun y => if v = y then -1 else y := by
  intro t
  induction t with
  | nil => intro ok; rfl
  | cons x t ih =>
    intro ok
    simp only [pruneScan, List.map_cons]
    split_ifs
    · simp only [ih]
    · simp only [ih]

theorem pruneScan_fst (v : Int) :
    ∀ (t : List Int) (ok : Bool), (pruneScan v ok t).1 = (ok && decide (v ∉ t)) := by
  intro t
  induction t with
  | nil => intro ok; simp [pruneScan]
  | cons x t ih =>
    intro ok
    simp only [pruneScan]
    split_ifs with h
    · rw [ih false]
      simp [h]
    · simp only [ih, List.mem_cons, not_or]
      simp [h]

theorem replace_count_indexOf (v a : Int) (hva : v ≠ a) (ha : a ≠ -1) :
    ∀ t : List Int,
      (t.map fun y => if v = y then -1 else y).count a = t.count a
        ∧ (t.map fun y => if v = y then -1 else y).indexOf a = t.indexOf a := by
  intro t
  induction t with
  | nil => exact ⟨rfl, rfl⟩
  | cons x t ih =>
    simp only [List.map_cons]
    by_cases hx : v = x
    · have hxa : x ≠ a := hx ▸ hva
      rw [if_pos hx, List.count_cons_of_ne ha, List.count_cons_of_ne (Ne.symm hxa),
        List.indexOf_cons_ne _ (Ne.symm ha), List.indexOf_cons_ne _ hxa, ih.1, ih.2]
      exact ⟨rfl, rfl⟩
    · rw [if_neg hx]
      by_cases hxa : x = a
      · subst hxa
        rw [List.count_cons_self, List.count_cons_self, List.indexOf_cons_self,
          List.indexOf_cons_self, ih.1]
        exact ⟨rfl, rfl⟩
      · rw [List.count_cons_of_ne (Ne.symm hxa), List.count_cons_of_ne (Ne.symm hxa),
          List.indexOf_cons_ne _ hxa, List.indexOf_cons_ne _ hxa, ih.1, ih.2]
        exact ⟨rfl, rfl⟩

theorem replace_count_self (v : Int) (hv : v ≠ -1) (t : List Int) :
    (t.map fun y => if v = y then -1 else y).count v = 0 := by
  rw [List.count_eq_zero]
  intro hmem
  obtain ⟨y, _, hy⟩ := List.mem_map.mp hmem
  by_cases h : v = y
  · rw [if_pos h] at hy
    exact hv hy.symm
  · rw [if_neg h] at hy
    exact h hy.symm

theorem pruneLoop_find :
    ∀ (fuel i : Nat) (rest : List Int) (out : StlMap Nat), rest.length ≤ fuel →
      (∀ x ∈ rest, -1 ≤ x) → ∀ c : Nat,
      StlMap.find (pruneLoop fuel i rest out) c
        = if rest.count (c : Int) = 1 then some (i + rest.indexOf (c : Int))
          else StlMap.find out c := by
  intro fuel
  induction fuel with
  | zero =>
    intro i rest out hlen _ c
    have hnil : rest = [] := List.length_eq_zero.mp (Nat.le_zero.mp hlen)
    subst hnil
    simp [pruneLoop]
  | succ n ih =>
    intro i rest out hlen hge c
    cases rest with
    | nil => simp [pruneLoop]
    | cons x t =>
      have hlen' : t.length ≤ n := by
        simp only [List.length_cons] at hlen
        omega
      have hget : ∀ y ∈ t, -1 ≤ y := fun y hy => hge y (List.mem_cons_of_mem _ hy)
      have hc1 : ((c : Int)) ≠ -1 := by omega
      simp only [pruneLoop]
      by_cases hx : x = -1
      · rw [if_neg (not_not.mpr hx), ih (i + 1) t out hlen' hget c]
        rw [List.count_cons_of_ne (hx ▸ hc1), List.indexOf_cons_ne _ (hx ▸ Ne.symm hc1)]
        simp only [Nat.succ_eq_add_one]
        congr 2
        omega
      · rw [if_pos hx]
        have hx0 : 0 ≤ x := by
          have := hge x (List.mem_cons_self _ _)
          omega
        have hmaplen : ((pruneScan x true t).2).length ≤ n := by
          rw [pruneScan_snd, List.length_map]; exact hlen'
        have hmapge : ∀ y ∈ (pruneScan x true t).2, -1 ≤ y := by
          intro y hy
          rw [pruneScan_snd] at hy
          obtain ⟨z, hz, hzy⟩ := List.mem_map.mp hy
          split_ifs at hzy
          · omega
          · rw [← hzy]; exact hget z hz
        by_cases hcx : (c : Int) = x
        · -- the candidate of the entry `i`
          have hzero : ((pruneScan x true t).2).count (c : Int) = 0 := by
            rw [pruneScan_snd, hcx]
            exact replace_count_self x hx t
          have hcnat : x.toNat = c := by omega
          rw [hcx, List.count_cons_self, List.indexOf_cons_self]
          by_cases hok : (pruneScan x true t).1 = true
          · rw [if_pos hok, ih (i + 1) _ _ hmaplen hmapge c, hzero]
            have hnot : x ∉ t := by
              rw [pruneScan_fst] at hok
              simpa using hok
            rw [List.count_eq_zero.mpr hnot, hcnat, StlMap.find_assign]
            simp
          · rw [if_neg hok, ih (i + 1) _ _ hmaplen hmapge c, hzero]
            have hin : x ∈ t := by
              rw [pruneScan_fst] at hok
              simpa using hok
            have hpos : 0 < t.count x := List.count_pos_iff.mpr hin
            have hne1 : ¬ (t.count x + 1 = 1) := by omega
            rw [if_neg hne1]
            simp
        · -- another candidate
          have hxc : x ≠ (c : Int) := fun h => hcx h.symm
          obtain ⟨hcount, hindex⟩ := replace_count_indexOf x (c : Int) hxc hc1 t
          have hnat : x.toNat ≠ c := by omega
          rw [List.count_cons_of_ne hcx, List.indexOf_cons_ne _ hxc]
          by_cases hok : (pruneScan x true t).1 = true
          · rw [if_pos hok, ih (i + 1) _ _ hmaplen hmapge c, pruneScan_snd, hcount, hindex,
              StlMap.find_assign, if_neg hnat]
            simp only [Nat.succ_eq_add_one]
            congr 2
            omega
          · rw [if_neg hok, ih (i + 1) _ _ hmaplen hmapge c, pruneScan_snd, hcount, hindex]
            simp only [Nat.succ_eq_add_one]
            congr 2
            omega

theorem count_one_indexOf_iff (a : Int) :
    ∀ (l : List Int) (p : Nat),
      (l.count a = 1 ∧ l.indexOf a = p)
        ↔ (l[p]? = some a ∧ ∀ q, l[q]? = some a → q = p) := by
  intro l
  induction l with
  | nil =>
    intro p
    simp
  | cons x t ih =>
    intro p
    by_cases hx : x = a
    · subst hx
      rw [List.count_cons_self, List.indexOf_cons_self]
      constructor
      · rintro ⟨hcount, rfl⟩
        have hnot : x ∉ t := List.count_eq_zero.mp (by omega)
        refine ⟨by simp, ?_⟩
        intro q hq
        cases q with
        | zero => rfl
        | succ q' =>
          exfalso
          rw [List.getElem?_cons_succ] at hq
          exact hnot (List.mem_iff_getElem?.mpr ⟨q', hq⟩)
      · rintro ⟨_, huniq⟩
        have hp : 0 = p := huniq 0 (by simp)
        subst hp
        refine ⟨?_, rfl⟩
        have hnot : x ∉ t := by
          intro hmem
          obtain ⟨q', hq'⟩ := List.mem_iff_getElem?.mp hmem
          have := huniq (q' + 1) (by rw [List.getElem?_cons_succ]; exact hq')
          omega
        rw [List.count_eq_zero.mpr hnot]
    · rw [List.count_cons_of_ne (Ne.symm hx), List.indexOf_cons_ne _ hx]
      cases p with
      | zero =>
        constructor
        · rintro ⟨_, h⟩
          exact absurd h (Nat.succ_ne_zero _)
        · rintro ⟨h, _⟩
          rw [List.getElem?_cons_zero] at h
          exact absurd (Option.some.inj h) hx
      | succ p' =>
        rw [List.getElem?_cons_succ]
        constructor
        · rintro ⟨hcount, hidx⟩
          obtain ⟨h1, h2⟩ := (ih p').mp ⟨hcount, Nat.succ.inj hidx⟩
          refine ⟨h1, ?_⟩
          intro q hq
          cases q with
          | zero =>
            rw [List.getElem?_cons_zero] at hq
            exact absurd (Option.some.inj hq) hx
          | succ q' =>
            rw [List.getElem?_cons_succ] at hq
            rw [h2 q' hq]
        · rintro ⟨h1, h2⟩
          have := (ih p').mpr ⟨h1, fun q hq => by
            have := h2 (q + 1) (by rw [List.getElem?_cons_succ]; exact hq)
            omega⟩
          exact ⟨this.1, by rw [this.2]⟩

theorem pruneLoop_sorted :
    ∀ (fuel i : Nat) (rest : List Int) (out : StlMap Nat), (StlMap.keys out).Sorted (· < ·) →
      (StlMap.keys (pruneLoop fuel i rest out)).Sorted (· < ·) := by
  intro fuel
  induction fuel with
  | zero => intro i rest out h; simpa [pruneLoop] using h
  | succ n ih =>
    intro i rest out h
    cases rest with
    | nil => simpa [pruneLoop] using h
    | cons x t =>
      simp only [pruneLoop]
      split_ifs
      · exact ih _ _ _ (StlMap.sorted_assign _ _ out h)
      · exact ih _ _ _ h
      · exact ih _ _ _ h

/-- C28: the pruning of `matchFramesFeatureMatchingNoMM` on an array of best
matches whose entries are -1 or a candidate index, with an empty map on entry.
The map holds `c -> r` iff the entry `r` is `c` and no other entry is `c`; a
candidate selected by two reference features has no entry; the map is
one-to-one, its keys are distinct, and the returned count is its size. -/
theorem pruneMatches_unique (matches_ref_cur_idxs : List Int)
    (hentries : ∀ x ∈ matches_ref_cur_idxs, -1 ≤ x) :
    (∀ c r : Nat, StlMap.find (pruneMatches matches_ref_cur_idxs []).1 c = some r
        ↔ (matches_ref_cur_idxs[r]? = some (c : Int)
            ∧ ∀ r', matches_ref_cur_idxs[r']? = some (c : Int) → r' = r))
      ∧ (∀ c r r' : Nat, r ≠ r' → matches_ref_cur_idxs[r]? = some (c : Int) →
          matches_ref_cur_idxs[r']? = some (c : Int) →
          StlMap.find (pruneMatches matches_ref_cur_idxs []).1 c = none)
      ∧ (∀ c c' r : Nat, StlMap.find (pruneMatches matches_ref_cur_idxs []).1 c = some r →
          StlMap.find (pruneMatches matches_ref_cur_idxs []).1 c' = some r → c = c')
      ∧ (StlMap.keys (pruneMatches matches_ref_cur_idxs []).1).Nodup
      ∧ (pruneMatches matches_ref_cur_idxs []).2
          = (pruneMatches matches_ref_cur_idxs []).1.length := by
  have hfind : ∀ c : Nat, StlMap.find (pruneMatches matches_ref_cur_idxs []).1 c
      = if matches_ref_cur_idxs.count (c : Int) = 1
          then some (0 + matches_ref_cur_idxs.indexOf (c : Int)) else none := by
    intro c
    exact pruneLoop_find _ 0 matches_ref_cur_idxs [] (le_refl _) hentries c
  have hiff : ∀ c r : Nat, StlMap.find (pruneMatches matches_ref_cur_idxs []).1 c = some r
      ↔ (matches_ref_cur_idxs[r]? = some (c : Int)
          ∧ ∀ r', matches_ref_cur_idxs[r']? = some (c : Int) → r' = r) := by
    intro c r
    rw [hfind c, ← count_one_indexOf_iff]
    by_cases h1 : matches_ref_cur_idxs.count (c : Int) = 1
    · rw [if_pos h1]
      simp [h1]
    · rw [if_neg h1]
      simp [h1]
  refine ⟨hiff, ?_, ?_, ?_, rfl⟩
  · intro c r r' hne hr hr'
    cases hf : StlMap.find (pruneMatches matches_ref_cur_idxs []).1 c with
    | none => rfl
    | some r0 =>
      exfalso
      obtain ⟨_, huniq⟩ := (hiff c r0).mp hf
      exact hne ((huniq r hr).trans (huniq r' hr').symm)
  · intro c c' r hc hc'
    have h1 := ((hiff c r).mp hc).1
    have h2 := ((hiff c' r).mp hc').1
    rw [h1] at h2
    exact Int.ofNat.inj (Option.some.inj h2)
  · haveI : IsIrrefl Nat (fun x1 x2 => x1 < x2) := ⟨fun a => lt_irrefl a⟩
    exact List.Sorted.nodup (pruneLoop_sorted _ 0 matches_ref_cur_idxs [] List.sorted_nil)

/-- Witness for C28: in the array `[2, -1, 2, 0]` the candidate 2 is the best
match of the reference features 0 and 2, and has no entry in the map. -/
theorem pruneMatches_unique_witness :
    StlMap.find (pruneMatches [2, -1, 2, 0] []).1 2 = none
      ∧ (pruneMatches [2, -1, 2, 0] []) = ([(0, 3)], 1) :=
  ⟨(pruneMatches_unique [2, -1, 2, 0] (by decide)).2.1 2 0 2 (by decide) rfl rfl, by decide⟩

/-! ## Map initialization: the landmark quality -/

theorem degreeTotal_cons (p : Nat → Bool) (k c : Nat) (m : List (Nat × Nat)) :
    degreeTotal p ((k, c) :: m) = (if p k then c else 0) + degreeTotal p m := by
  unfold degreeTotal
  by_cases h : p k = true
  · simp [List.filter_cons, h]
  · simp [List.filter_cons, h]

theorem StlMap.find_none_of_sorted_lt {α : Type} (k k' : Nat) (t : StlMap α)
    (hlt : ∀ b ∈ StlMap.keys t, k' < b) (hk : k ≤ k') : StlMap.find t k = none := by
  cases h : StlMap.find t k with
  | none => rfl
  | some v =>
    have hmem : k ∈ StlMap.keys t := (StlMap.find_isSome_iff t k).mp (by simp [h])
    have := hlt k hmem
    omega

theorem degreeTotal_assign (p : Nat → Bool) (k : Nat) :
    ∀ m : StlMap Nat, (StlMap.keys m).Sorted (· < ·) →
      degreeTotal p (StlMap.assign m k ((StlMap.find m k).getD 0 + 1))
        = degreeTotal p m + if p k then 1 else 0 := by
  intro m
  induction m with
  | nil =>
    intro _
    simp only [StlMap.assign, StlMap.find, Option.getD_none, degreeTotal_cons]
    simp [degreeTotal]
  | cons a t ih =>
    intro h
    obtain ⟨k', v'⟩ := a
    have h' : (k' :: StlMap.keys t).Sorted (· < ·) := h
    obtain ⟨hlt, ht⟩ := List.sorted_cons.mp h'
    by_cases h1 : k < k'
    · have hnone : StlMap.find t k = none :=
        StlMap.find_none_of_sorted_lt k k' t hlt (Nat.le_of_lt h1)
      have hne : k' ≠ k := by omega
      simp only [StlMap.find, if_neg hne, hnone, Option.getD_none, StlMap.assign, if_pos h1,
        degreeTotal_cons]
      split_ifs <;> omega
    · by_cases h2 : k' = k
      · subst h2
        simp only [StlMap.find, if_true, Option.getD_some, StlMap.assign, if_neg h1,
          degreeTotal_cons]
        split_ifs <;> omega
      · simp only [StlMap.find, if_neg h2, StlMap.assign, if_neg h1, degreeTotal_cons, ih ht]
        split_ifs <;> omega

theorem landmarkDegreeCounts_spec (p : Nat → Bool) :
    ∀ (l : List Nat) (m : StlMap Nat), (StlMap.keys m).Sorted (· < ·) →
      (StlMap.keys (l.foldl (fun m n_all_obs =>
          StlMap.assign m n_all_obs ((StlMap.find m n_all_obs).getD 0 + 1)) m)).Sorted (· < ·)
        ∧ degreeTotal p (l.foldl (fun m n_all_obs =>
            StlMap.assign m n_all_obs ((StlMap.find m n_all_obs).getD 0 + 1)) m)
          = degreeTotal p m + l.countP p := by
  intro l
  induction l with
  | nil => intro m h; exact ⟨h, by simp⟩
  | cons x l ih =>
    intro m h
    simp only [List.foldl_cons]
    obtain ⟨hs, ht⟩ := ih _ (StlMap.sorted_assign x _ m h)
    refine ⟨hs, ?_⟩
    rw [ht, degreeTotal_assign p x m h, List.countP_cons]
    omega

theorem degreeTotal_append (p : Nat → Bool) (A B : List (Nat × Nat)) :
    degreeTotal p (A ++ B) = degreeTotal p A + degreeTotal p B := by
  unfold degreeTotal
  rw [List.filter_append, List.map_append, List.sum_append]

theorem degreeTotal_all (p : Nat → Bool) :
    ∀ m : List (Nat × Nat), (∀ kc ∈ m, p kc.1 = true) →
      degreeTotal p m = (m.map Prod.snd).sum := by
  intro m
  induction m with
  | nil => intro _; rfl
  | cons a t ih =>
    intro h
    obtain ⟨k, c⟩ := a
    rw [degreeTotal_cons, if_pos (h (k, c) (List.mem_cons_self _ _)),
      ih (fun kc hkc => h kc (List.mem_cons_of_mem _ hkc))]
    simp

theorem degreeTotal_none (p : Nat → Bool) :
    ∀ m : List (Nat × Nat), (∀ kc ∈ m, p kc.1 = false) → degreeTotal p m = 0 := by
  intro m
  induction m with
  | nil => intro _; rfl
  | cons a t ih =>
    intro h
    obtain ⟨k, c⟩ := a
    have hk : ¬ p k = true := by
      rw [h (k, c) (List.mem_cons_self _ _)]; simp
    rw [degreeTotal_cons, if_neg hk, ih (fun kc hkc => h kc (List.mem_cons_of_mem _ hkc))]

theorem firstSufficientDegree_zero (N minObs : Nat) :
    ∀ (L : List (Nat × Nat)) (n : Nat), n + (L.map Prod.snd).sum < N →
      firstSufficientDegree N minObs L n = 0 := by
  intro L
  induction L with
  | nil => intro n _; rfl
  | cons a t ih =>
    intro n h
    obtain ⟨d, c⟩ := a
    simp only [List.map_cons, List.sum_cons] at h
    simp only [firstSufficientDegree]
    rw [if_neg (by omega)]
    exact ih (n + c) (by omega)

theorem firstSufficientDegree_split (N minObs : Nat) :
    ∀ (L : List (Nat × Nat)) (n : Nat), N ≤ n + (L.map Prod.snd).sum → n < N →
      ∃ pre d c post, L = pre ++ (d, c) :: post
        ∧ n + (pre.map Prod.snd).sum < N ∧ N ≤ n + (pre.map Prod.snd).sum + c
        ∧ firstSufficientDegree N minObs L n = min minObs d := by
  intro L
  induction L with
  | nil =>
    intro n h hn
    simp at h
    omega
  | cons a t ih =>
    intro n h hn
    obtain ⟨d, c⟩ := a
    simp only [List.map_cons, List.sum_cons] at h
    by_cases hge : n + c ≥ N
    · refine ⟨[], d, c, t, rfl, by simpa using hn, by simpa using hge, ?_⟩
      simp only [firstSufficientDegree]
      rw [if_pos hge]
    · obtain ⟨pre, d', c', post, hL, h1, h2, h3⟩ := ih (n + c) (by omega) (by omega)
      refine ⟨(d, c) :: pre, d', c', post, by rw [hL]; rfl, ?_, ?_, ?_⟩
      · simp only [List.map_cons, List.sum_cons]; omega
      · simp only [List.map_cons, List.sum_cons]; omega
      · simp only [firstSufficientDegree]
        rw [if_neg hge]
        exact h3

theorem degreeTotal_sorted_split (m pre post : List (Nat × Nat)) (d c : Nat)
    (hsorted : (StlMap.keys m).Sorted (· < ·)) (hsplit : m.reverse = pre ++ (d, c) :: post) :
    degreeTotal (fun k => decide (d < k)) m = (pre.map Prod.snd).sum
      ∧ degreeTotal (fun k => decide (d ≤ k)) m = (pre.map Prod.snd).sum + c := by
  have hm : m = post.reverse ++ (d, c) :: pre.reverse := by
    have := congrArg List.reverse hsplit
    rw [List.reverse_reverse] at this
    rw [this]
    simp
  rw [hm] at hsorted
  have hkeys : StlMap.keys (post.reverse ++ (d, c) :: pre.reverse)
      = StlMap.keys post.reverse ++ d :: StlMap.keys pre.reverse := by
    simp [StlMap.keys]
  rw [hkeys] at hsorted
  have hpw := List.pairwise_append.mp hsorted
  have hA : ∀ kc ∈ post.reverse, kc.1 < d := by
    intro kc hkc
    exact hpw.2.2 kc.1 (List.mem_map_of_mem Prod.fst hkc) d (List.mem_cons_self _ _)
  have hB : ∀ kc ∈ pre.reverse, d < kc.1 := by
    intro kc hkc
    exact (List.pairwise_cons.mp hpw.2.1).1 kc.1 (List.mem_map_of_mem Prod.fst hkc)
  have hsum : ((pre.reverse).map Prod.snd).sum = (pre.map Prod.snd).sum := by
    rw [List.map_reverse, List.sum_reverse]
  constructor
  · rw [hm, degreeTotal_append, degreeTotal_cons,
      degreeTotal_none _ _ (fun kc hkc => by
        have := hA kc hkc
        simp only [decide_eq_false_iff_not]; omega),
      degreeTotal_all _ _ (fun kc hkc => by
        have := hB kc hkc
        simp only [decide_eq_true_eq]; omega), hsum]
    simp
  · rw [hm, degreeTotal_append, degreeTotal_cons,
      degreeTotal_none _ _ (fun kc hkc => by
        have := hA kc hkc
        simp only [decide_eq_false_iff_not]; omega),
      degreeTotal_all _ _ (fun kc hkc => by
        have := hB kc hkc
        simp only [decide_eq_true_eq]; omega), hsum]
    simp
    omega

/-- C27: `findMinLandmarkQualityForGlobalMapInitialization` with
`init_min_map_pts >= 1`. With fewer landmarks than `init_min_map_pts` in the
local structure the result is 0. Otherwise the result is
`min(min_obs_per_landmark, d)` where at least `init_min_map_pts` landmarks have
`d` observations or more and, for every larger degree, fewer landmarks have that
many. The result never exceeds `min_obs_per_landmark`. -/
theorem findMinLandmarkQuality_spec (tmp_structure : List Nat)
    (init_min_map_pts min_obs_per_landmark : Nat) (hmin : 1 ≤ init_min_map_pts) :
    (tmp_structure.length < init_min_map_pts →
        findMinLandmarkQualityForGlobalMapInitialization tmp_structure init_min_map_pts
          min_obs_per_landmark = 0)
      ∧ (init_min_map_pts ≤ tmp_structure.length →
          ∃ d, findMinLandmarkQualityForGlobalMapInitialization tmp_structure init_min_map_pts
                min_obs_per_landmark = min min_obs_per_landmark d
            ∧ init_min_map_pts ≤ tmp_structure.countP (fun n_all_obs => decide (d ≤ n_all_obs))
            ∧ ∀ d', d < d' →
                tmp_structure.countP (fun n_all_obs => decide (d' ≤ n_all_obs))
                  < init_min_map_pts)
      ∧ findMinLandmarkQualityForGlobalMapInitialization tmp_structure init_min_map_pts
          min_obs_per_landmark ≤ min_obs_per_landmark := by
  have hspec : ∀ p : Nat → Bool,
      (StlMap.keys (landmarkDegreeCounts tmp_structure)).Sorted (· < ·)
        ∧ degreeTotal p (landmarkDegreeCounts tmp_structure) = tmp_structure.countP p := by
    intro p
    have := landmarkDegreeCounts_spec p tmp_structure [] List.sorted_nil
    refine ⟨this.1, ?_⟩
    have h2 := this.2
    simp only [degreeTotal, List.filter_nil, List.map_nil, List.sum_nil, zero_add] at h2
    exact h2
  have htotal : (((landmarkDegreeCounts tmp_structure).reverse).map Prod.snd).sum
      = tmp_structure.length := by
    rw [List.map_reverse, List.sum_reverse,
      ← degreeTotal_all (fun _ => true) _ (fun _ _ => rfl), (hspec _).2]
    simp
  have hcases : init_min_map_pts ≤ tmp_structure.length →
      ∃ d, findMinLandmarkQualityForGlobalMapInitialization tmp_structure init_min_map_pts
            min_obs_per_landmark = min min_obs_per_landmark d
        ∧ init_min_map_pts ≤ tmp_structure.countP (fun n_all_obs => decide (d ≤ n_all_obs))
        ∧ ∀ d', d < d' →
            tmp_structure.countP (fun n_all_obs => decide (d' ≤ n_all_obs))
              < init_min_map_pts := by
    intro hlen
    obtain ⟨pre, d, c, post, hL, h1, h2, h3⟩ :=
      firstSufficientDegree_split init_min_map_pts min_obs_per_landmark
        (landmarkDegreeCounts tmp_structure).reverse 0 (by rw [htotal]; omega) (by omega)
    obtain ⟨hgt, hge⟩ := degreeTotal_sorted_split _ pre post d c (hspec (fun _ => true)).1 hL
    rw [(hspec _).2] at hgt hge
    refine ⟨d, h3, by omega, ?_⟩
    intro d' hd'
    have hmono : tmp_structure.countP (fun n_all_obs => decide (d' ≤ n_all_obs))
        ≤ tmp_structure.countP (fun n_all_obs => decide (d < n_all_obs)) := by
      apply List.countP_mono_left
      intro x _ hx
      simp only [decide_eq_true_eq] at hx ⊢
      omega
    omega
  refine ⟨?_, hcases, ?_⟩
  · intro hlen
    exact firstSufficientDegree_zero _ _ _ 0 (by rw [htotal]; omega)
  · by_cases hlen : init_min_map_pts ≤ tmp_structure.length
    · obtain ⟨d, hd, _, _⟩ := hcases hlen
      rw [hd]
      exact Nat.min_le_left _ _
    · have : findMinLandmarkQualityForGlobalMapInitialization tmp_structure init_min_map_pts
          min_obs_per_landmark = 0 :=
        firstSufficientDegree_zero _ _ _ 0 (by rw [htotal]; omega)
      rw [this]
      exact Nat.zero_le _

/-- Witness for C27: five landmarks with 5, 3, 3, 2 and 1 observations, three
points required and a minimum of 4 observations per landmark: three landmarks
have 3 observations or more, one has more than 3, and the result is 3. -/
theorem findMinLandmarkQuality_spec_witness :
    findMinLandmarkQualityForGlobalMapInitialization [3, 5, 1, 3, 2] 3 4 = 3
      ∧ findMinLandmarkQualityForGlobalMapInitialization [3, 5, 1, 3, 2] 3 4 ≤ 4 :=
  ⟨by decide, (findMinLandmarkQuality_spec [3, 5, 1, 3, 2] 3 4 (by decide)).2.2⟩

/-! ## Colouring of the landmarks -/

theorem countObservations_inner (obs : StlMap Observation) :
    ∀ (m : StlMap Nat) (v : Nat),
      StlMap.contains
          (obs.foldl (fun m vo => StlMap.assign m vo.1 ((StlMap.find m vo.1).getD 0 + 1)) m) v
          = true
        ↔ StlMap.contains m v = true ∨ StlMap.contains obs v = true := by
  induction obs with
  | nil => intro m v; simp [StlMap.contains, StlMap.find]
  | cons a t ih =>
    intro m v
    obtain ⟨k, ob⟩ := a
    rw [List.foldl_cons, ih, StlMap.contains_assign]
    have hc : StlMap.contains ((k, ob) :: t) v = true ↔ k = v ∨ StlMap.contains t v = true := by
      unfold StlMap.contains
      simp only [StlMap.find]
      by_cases h : k = v
      · simp [h]
      · simp [h]
    rw [hc]
    tauto

theorem countObservations_keys (structure_ : StlMap Landmark) :
    ∀ (remaining : StlSet) (m : StlMap Nat),
      (∀ t ∈ remaining, t ∈ StlMap.keys structure_) →
      ∃ card,
        foldlOpt
            (fun map_IndexCardinal trackId =>
              match StlMap.find structure_ trackId with
              | none => none
              | some landmark =>
                some (landmark.obs.foldl
                  (fun m vo => StlMap.assign m vo.1 ((StlMap.find m vo.1).getD 0 + 1))
                  map_IndexCardinal))
            remaining m = some card
          ∧ ∀ v, StlMap.contains card v = true
              ↔ StlMap.contains m v = true ∨ ∃ t ∈ remaining, trackSeenIn structure_ v t = true := by
  intro remaining
  induction remaining with
  | nil =>
    intro m _
    exact ⟨m, rfl, fun v => by simp⟩
  | cons t rest ih =>
    intro m hsub
    have ht : (StlMap.find structure_ t).isSome = true :=
      (StlMap.find_isSome_iff structure_ t).mpr (hsub t (List.mem_cons_self _ _))
    obtain ⟨lm, hlm⟩ := Option.isSome_iff_exists.mp ht
    obtain ⟨card, hcard, hkeys⟩ := ih
      (lm.obs.foldl (fun m vo => StlMap.assign m vo.1 ((StlMap.find m vo.1).getD 0 + 1)) m)
      (fun x hx => hsub x (List.mem_cons_of_mem _ hx))
    refine ⟨card, ?_, ?_⟩
    · simp only [foldlOpt, hlm]
      exact hcard
    · intro v
      rw [hkeys v, countObservations_inner]
      have hseen : trackSeenIn structure_ v t = StlMap.contains lm.obs v := by
        simp [trackSeenIn, hlm]
      constructor
      · rintro ((h | h) | ⟨x, hx, hs⟩)
        · exact Or.inl h
        · exact Or.inr ⟨t, List.mem_cons_self _ _, by rw [hseen]; exact h⟩
        · exact Or.inr ⟨x, List.mem_cons_of_mem _ hx, hs⟩
      · rintro (h | ⟨x, hx, hs⟩)
        · exact Or.inl (Or.inl h)
        · rcases List.mem_cons.mp hx with rfl | hx
          · rw [hseen] at hs
            exact Or.inl (Or.inr hs)
          · exact Or.inr ⟨x, hx, hs⟩

theorem mostRepresentedView_max (map_IndexCardinal : StlMap Nat) (hne : map_IndexCardinal ≠ []) :
    ∃ v c, mostRepresentedView map_IndexCardinal = some v ∧ (v, c) ∈ map_IndexCardinal
      ∧ ∀ kc ∈ map_IndexCardinal, kc.2 ≤ c := by
  have hvals : map_IndexCardinal.map Prod.snd ≠ [] := by
    intro h
    exact hne (List.map_eq_nil_iff.mp h)
  obtain ⟨_, hle, hor⟩ := foldl_max_ge (map_IndexCardinal.map Prod.snd) 0
  have hmem : (map_IndexCardinal.map Prod.snd).foldl max 0 ∈ map_IndexCardinal.map Prod.snd := by
    rcases hor with h0 | h
    · obtain ⟨x, hx⟩ := List.exists_mem_of_ne_nil _ hvals
      have hx0 : x = 0 := by
        have := hle x hx
        omega
      rw [h0, ← hx0]
      exact hx
    · exact h
  have hget := List.getElem?_indexOf hmem
  rw [List.getElem?_map] at hget
  cases hkc : map_IndexCardinal[(map_IndexCardinal.map Prod.snd).indexOf
      ((map_IndexCardinal.map Prod.snd).foldl max 0)]? with
  | none => simp [hkc] at hget
  | some kc =>
    simp only [hkc, Option.map_some', Option.some.injEq] at hget
    refine ⟨kc.1, kc.2, ?_, List.mem_iff_getElem?.mpr ⟨_, hkc⟩, ?_⟩
    · unfold mostRepresentedView sort_index_first
      rw [if_neg hvals]
      simp only [List.get?_eq_getElem?, hkc, Option.map_some']
    · intro x hx
      rw [hget]
      exact hle x.2 (List.mem_map_of_mem Prod.snd hx)

theorem colorTrack_pass (structure_ : StlMap Landmark) (contiguous : StlMap Nat)
    (image : Vec2 → Vec3) (view_index : Nat) :
    ∀ (l : List Nat) (st : StlMap Vec3 × StlSet), (∀ t ∈ l, t ∈ StlMap.keys structure_) →
      ∃ st', foldlOpt (colorTrack structure_ contiguous image view_index) l st = some st'
        ∧ (∀ t, t ∈ st'.2 ↔ t ∈ st.2 ∨ (t ∈ l ∧ trackSeenIn structure_ view_index t = true))
        ∧ (∀ i, StlMap.contains st.1 i = true → StlMap.contains st'.1 i = true)
        ∧ (∀ t ∈ l, trackSeenIn structure_ view_index t = true →
            StlMap.contains st'.1 ((StlMap.find contiguous t).getD 0) = true) := by
  intro l
  induction l with
  | nil =>
    intro st _
    exact ⟨st, rfl, fun t => by simp, fun i h => h, fun t ht => by simp at ht⟩
  | cons t rest ih =>
    intro st hsub
    have ht : (StlMap.find structure_ t).isSome = true :=
      (StlMap.find_isSome_iff structure_ t).mpr (hsub t (List.mem_cons_self _ _))
    obtain ⟨lm, hlm⟩ := Option.isSome_iff_exists.mp ht
    have hrest : ∀ x ∈ rest, x ∈ StlMap.keys structure_ :=
      fun x hx => hsub x (List.mem_cons_of_mem _ hx)
    cases hob : StlMap.find lm.obs view_index with
    | none =>
      have hseen : trackSeenIn structure_ view_index t = false := by
        simp [trackSeenIn, hlm, StlMap.contains, hob]
      obtain ⟨st', hst', hrem, hcol, hnew⟩ := ih st hrest
      refine ⟨st', ?_, ?_, hcol, ?_⟩
      · simp only [foldlOpt, colorTrack, hlm, hob]
        exact hst'
      · intro x
        rw [hrem x]
        constructor
        · rintro (h | ⟨h1, h2⟩)
          · exact Or.inl h
          · exact Or.inr ⟨List.mem_cons_of_mem _ h1, h2⟩
        · rintro (h | ⟨h1, h2⟩)
          · exact Or.inl h
          · rcases List.mem_cons.mp h1 with rfl | h1
            · rw [hseen] at h2
              simp at h2
            · exact Or.inr ⟨h1, h2⟩
      · intro x hx hs
        rcases List.mem_cons.mp hx with rfl | hx
        · rw [hseen] at hs
          simp at hs
        · exact hnew x hx hs
    | some ob =>
      have hseen : trackSeenIn structure_ view_index t = true := by
        simp [trackSeenIn, hlm, StlMap.contains, hob]
      obtain ⟨st', hst', hrem, hcol, hnew⟩ := ih
        (StlMap.assign st.1 ((StlMap.find contiguous t).getD 0) (image ob.x),
          StlSet.insert st.2 t) hrest
      refine ⟨st', ?_, ?_, ?_, ?_⟩
      · simp only [foldlOpt, colorTrack, hlm, hob]
        exact hst'
      · intro x
        rw [hrem x, StlSet.mem_insert]
        constructor
        · rintro ((rfl | h) | ⟨h1, h2⟩)
          · exact Or.inr ⟨List.mem_cons_self _ _, hseen⟩
          · exact Or.inl h
          · exact Or.inr ⟨List.mem_cons_of_mem _ h1, h2⟩
        · rintro (h | ⟨h1, h2⟩)
          · exact Or.inl (Or.inr h)
          · rcases List.mem_cons.mp h1 with rfl | h1
            · exact Or.inl (Or.inl rfl)
            · exact Or.inr ⟨h1, h2⟩
      · intro i hi
        exact hcol i ((StlMap.contains_assign _ _ _ _).mpr (Or.inr hi))
      · intro x hx hs
        rcases List.mem_cons.mp hx with rfl | hx
        · exact hcol _ ((StlMap.contains_assign _ _ _ _).mpr (Or.inl rfl))
        · exact hnew x hx hs

theorem foldl_erase_mem :
    ∀ (toRemove remaining : StlSet) (t : Nat),
      t ∈ toRemove.foldl StlSet.erase remaining ↔ t ∈ remaining ∧ t ∉ toRemove := by
  intro toRemove
  induction toRemove with
  | nil => intro remaining t; simp
  | cons a rest ih =>
    intro remaining t
    rw [List.foldl_cons, ih, StlSet.mem_erase, List.mem_cons]
    tauto

theorem foldl_erase_length :
    ∀ (toRemove remaining : StlSet),
      (toRemove.foldl StlSet.erase remaining).length ≤ remaining.length
        ∧ ((∃ t, t ∈ toRemove ∧ t ∈ remaining) →
            (toRemove.foldl StlSet.erase remaining).length < remaining.length) := by
  intro toRemove
  induction toRemove with
  | nil =>
    intro remaining
    exact ⟨le_refl _, fun ⟨t, h, _⟩ => by simp at h⟩
  | cons a rest ih =>
    intro remaining
    rw [List.foldl_cons]
    obtain ⟨hle, hlt⟩ := ih (StlSet.erase remaining a)
    have hle1 := StlSet.length_erase_le remaining a
    refine ⟨by omega, ?_⟩
    rintro ⟨t, ht, htr⟩
    by_cases ha : a ∈ remaining
    · have := StlSet.length_erase_lt remaining a ha
      omega
    · rcases List.mem_cons.mp ht with rfl | ht
      · exact absurd htr ha
      · have hmem : t ∈ StlSet.erase remaining a :=
          (StlSet.mem_erase remaining a t).mpr ⟨htr, fun h => ha (h ▸ htr)⟩
        have := hlt ⟨t, ht, hmem⟩
        omega

theorem countObservations_inner_count (obs : StlMap Observation) :
    ∀ (m : StlMap Nat) (v : Nat), (StlMap.keys m).Sorted (· < ·) →
      (StlMap.keys
          (obs.foldl (fun m vo => StlMap.assign m vo.1 ((StlMap.find m vo.1).getD 0 + 1)) m)).Sorted
          (· < ·)
        ∧ (StlMap.find
            (obs.foldl (fun m vo => StlMap.assign m vo.1 ((StlMap.find m vo.1).getD 0 + 1)) m)
            v).getD 0
          = (StlMap.find m v).getD 0 + obs.countP (fun vo => vo.1 == v) := by
  induction obs with
  | nil => intro m v hs; exact ⟨hs, by simp⟩
  | cons a t ih =>
    intro m v hs
    obtain ⟨hs', hc⟩ := ih (StlMap.assign m a.1 ((StlMap.find m a.1).getD 0 + 1)) v
      (StlMap.sorted_assign _ _ m hs)
    refine ⟨hs', ?_⟩
    rw [List.foldl_cons, hc, StlMap.find_assign, List.countP_cons]
    by_cases h : a.1 = v
    · subst h
      simp
      omega
    · simp [h]

theorem countObservations_count (structure_ : StlMap Landmark) :
    ∀ (remaining : StlSet) (m card : StlMap Nat),
      (StlMap.keys m).Sorted (· < ·) →
      foldlOpt
          (fun map_IndexCardinal trackId =>
            match StlMap.find structure_ trackId with
            | none => none
            | some landmark =>
              some (landmark.obs.foldl
                (fun m vo => StlMap.assign m vo.1 ((StlMap.find m vo.1).getD 0 + 1))
                map_IndexCardinal))
          remaining m = some card →
      (StlMap.keys card).Sorted (· < ·)
        ∧ ∀ v, (StlMap.find card v).getD 0
            = (StlMap.find m v).getD 0 + observationCount structure_ remaining v := by
  intro remaining
  induction remaining with
  | nil =>
    intro m card hs h
    simp only [foldlOpt, Option.some.injEq] at h
    subst h
    exact ⟨hs, fun v => by simp [observationCount]⟩
  | cons t rest ih =>
    intro m card hs h
    cases hlm : StlMap.find structure_ t with
    | none => simp [foldlOpt, hlm] at h
    | some lm =>
      simp only [foldlOpt, hlm] at h
      obtain ⟨hs', hc⟩ := ih _ card
        (countObservations_inner_count lm.obs m 0 hs).1 h
      refine ⟨hs', fun v => ?_⟩
      rw [hc v, (countObservations_inner_count lm.obs m v hs).2]
      simp only [observationCount, List.map_cons, List.sum_cons, hlm]
      omega

theorem colorizeStep_spec (ReadImage : View → Option (Vec2 → Vec3)) (d : SfM_Data)
    (contiguous : StlMap Nat)
    (hobs : ∀ kl ∈ d.structure_, kl.2.obs ≠ [])
    (hread : ∀ kl ∈ d.structure_, ∀ vo ∈ kl.2.obs,
      ((StlMap.find d.views vo.1).bind ReadImage).isSome = true)
    (remaining : StlSet) (colours : StlMap Vec3) (hne : remaining ≠ [])
    (hsub : ∀ t ∈ remaining, t ∈ StlMap.keys d.structure_) :
    ∃ v remaining' colours',
      colorizeStep ReadImage d contiguous remaining colours = some (some (v, remaining', colours'))
        ∧ (∀ w, observationCount d.structure_ remaining w
            ≤ observationCount d.structure_ remaining v)
        ∧ remaining'.length < remaining.length
        ∧ (∀ t, t ∈ remaining' ↔ t ∈ remaining ∧ trackSeenIn d.structure_ v t = false)
        ∧ (∀ i, StlMap.contains colours i = true → StlMap.contains colours' i = true)
        ∧ (∀ t ∈ remaining, trackSeenIn d.structure_ v t = true →
            StlMap.contains colours' ((StlMap.find contiguous t).getD 0) = true) := by
  obtain ⟨card, hcard, hkeys⟩ := countObservations_keys d.structure_ remaining [] hsub
  obtain ⟨hsorted, hcount⟩ := countObservations_count d.structure_ remaining [] card
    (by simp [StlMap.keys]) hcard
  have hnil : ∀ v, StlMap.contains ([] : StlMap Nat) v = false := fun v => rfl
  -- the map of the counts is not empty
  have hcardne : card ≠ [] := by
    obtain ⟨t0, ht0⟩ := List.exists_mem_of_ne_nil remaining hne
    obtain ⟨lm0, hlm0⟩ := Option.isSome_iff_exists.mp
      ((StlMap.find_isSome_iff d.structure_ t0).mpr (hsub t0 ht0))
    have hmem0 := StlMap.find_some_mem _ _ _ hlm0
    obtain ⟨vo, hvo⟩ := List.exists_mem_of_ne_nil _ (hobs _ hmem0)
    have hseen : trackSeenIn d.structure_ vo.1 t0 = true := by
      simp only [trackSeenIn, hlm0, StlMap.contains]
      exact (StlMap.find_isSome_iff lm0.obs vo.1).mpr (List.mem_map_of_mem Prod.fst hvo)
    have hc := (hkeys vo.1).mpr (Or.inr ⟨t0, ht0, hseen⟩)
    intro hnilc
    rw [hnilc, hnil] at hc
    exact Bool.false_ne_true hc
  obtain ⟨v, c, hv, hmem, hmax⟩ := mostRepresentedView_max card hcardne
  have hcv : StlMap.contains card v = true :=
    (StlMap.find_isSome_iff card v).mpr (List.mem_map_of_mem Prod.fst hmem)
  -- a remaining track is seen in the view selected
  obtain ⟨t, ht, hseen⟩ : ∃ t ∈ remaining, trackSeenIn d.structure_ v t = true := by
    rcases (hkeys v).mp hcv with h | h
    · rw [hnil] at h
      exact absurd h Bool.false_ne_true
    · exact h
  -- the view exists and its image is read
  obtain ⟨view, image, hview, himage⟩ :
      ∃ view image, StlMap.find d.views v = some view ∧ ReadImage view = some image := by
    obtain ⟨lm, hlm⟩ := Option.isSome_iff_exists.mp
      ((StlMap.find_isSome_iff d.structure_ t).mpr (hsub t ht))
    simp only [trackSeenIn, hlm, StlMap.contains] at hseen
    obtain ⟨ob, hob⟩ := Option.isSome_iff_exists.mp hseen
    have h := hread _ (StlMap.find_some_mem _ _ _ hlm) _ (StlMap.find_some_mem _ _ _ hob)
    cases hfv : StlMap.find d.views v with
    | none => simp [hfv] at h
    | some view =>
      simp only [hfv, Option.some_bind] at h
      obtain ⟨image, himage⟩ := Option.isSome_iff_exists.mp h
      exact ⟨view, image, rfl, himage⟩
  obtain ⟨st', hst', hrem, hcol, hnew⟩ :=
    colorTrack_pass d.structure_ contiguous image v remaining (colours, []) hsub
  refine ⟨v, st'.2.foldl StlSet.erase remaining, st'.1, ?_, ?_, ?_, ?_, hcol, hnew⟩
  · unfold colorizeStep countObservations
    simp only [hcard, hv, hview, himage, hst']
  · intro w
    haveI : IsIrrefl Nat (fun x1 x2 => x1 < x2) := ⟨fun a => lt_irrefl a⟩
    have hfv : StlMap.find card v = some c :=
      StlMap.find_of_mem_nodup v c card (List.Sorted.nodup hsorted) hmem
    have hcv := hcount v
    have hcw := hcount w
    simp only [StlMap.find, Option.getD_none, Nat.zero_add] at hcv hcw
    rw [hfv] at hcv
    simp only [Option.getD_some] at hcv
    rw [← hcv, ← hcw]
    cases hfw : StlMap.find card w with
    | none => simp
    | some cw =>
      simp only [Option.getD_some]
      exact hmax (w, cw) (StlMap.find_some_mem _ _ _ hfw)
  · exact (foldl_erase_length st'.2 remaining).2
      ⟨t, (hrem t).mpr (Or.inr ⟨ht, hseen⟩), ht⟩
  · intro x
    rw [foldl_erase_mem, hrem x]
    constructor
    · rintro ⟨hx, hnot⟩
      refine ⟨hx, ?_⟩
      cases hs : trackSeenIn d.structure_ v x with
      | false => rfl
      | true => exact absurd (Or.inr ⟨hx, hs⟩) hnot
    · rintro ⟨hx, hs⟩
      refine ⟨hx, ?_⟩
      rintro (h | ⟨_, h⟩)
      · simp at h
      · rw [hs] at h
        exact Bool.false_ne_true h

theorem contiguousIndexes_fold :
    ∀ (l : StlMap Landmark) (n : Nat) (m : StlMap Nat) (k : Nat), (StlMap.keys l).Nodup →
      StlMap.find ((l.enumFrom n).foldl (fun m ikl => StlMap.assign m ikl.2.1 ikl.1) m) k
        = if k ∈ StlMap.keys l then some (n + (StlMap.keys l).indexOf k) else StlMap.find m k := by
  intro l
  induction l with
  | nil => intro n m k _; simp [StlMap.keys]
  | cons a t ih =>
    intro n m k hnd
    obtain ⟨k0, v0⟩ := a
    have hnd' : (StlMap.keys t).Nodup ∧ k0 ∉ StlMap.keys t := by
      simp only [StlMap.keys, List.map_cons, List.nodup_cons] at hnd
      exact ⟨hnd.2, hnd.1⟩
    rw [List.enumFrom_cons, List.foldl_cons, ih (n + 1) _ k hnd'.1]
    simp only [StlMap.keys, List.map_cons, List.mem_cons]
    by_cases hk : k = k0
    · subst hk
      have hnot : k ∉ List.map Prod.fst t := hnd'.2
      rw [if_neg hnot, StlMap.find_assign, if_pos rfl, if_pos (Or.inl rfl),
        List.indexOf_cons_self]
      rfl
    · by_cases hin : k ∈ List.map Prod.fst t
      · rw [if_pos hin, if_pos (Or.inr hin), List.indexOf_cons_ne _ (Ne.symm hk)]
        congr 1
        omega
      · rw [if_neg hin, StlMap.find_assign, if_neg (Ne.symm hk), if_neg]
        rintro (h | h)
        · exact hk h
        · exact hin h

theorem contiguousIndexes_rank (structure_ : StlMap Landmark)
    (hkeys : (StlMap.keys structure_).Nodup) (i : Nat) (h : i < structure_.length) :
    StlMap.find (contiguousIndexes structure_) (structure_.get ⟨i, h⟩).1 = some i := by
  have hlen : i < (StlMap.keys structure_).length := by
    simp only [StlMap.keys, List.length_map]
    exact h
  have hget : (StlMap.keys structure_)[i] = (structure_.get ⟨i, h⟩).1 := by
    simp [StlMap.keys]
  have hmem : (structure_.get ⟨i, h⟩).1 ∈ StlMap.keys structure_ :=
    List.mem_map_of_mem Prod.fst (List.get_mem structure_ i h)
  unfold contiguousIndexes
  rw [List.enum_eq_enumFrom, contiguousIndexes_fold structure_ 0 [] _ hkeys, if_pos hmem,
    ← hget, List.indexOf_getElem hkeys i hlen, Nat.zero_add]

theorem colorizeLoop_spec (ReadImage : View → Option (Vec2 → Vec3)) (d : SfM_Data)
    (contiguous : StlMap Nat)
    (hobs : ∀ kl ∈ d.structure_, kl.2.obs ≠ [])
    (hread : ∀ kl ∈ d.structure_, ∀ vo ∈ kl.2.obs,
      ((StlMap.find d.views vo.1).bind ReadImage).isSome = true) :
    ∀ (n : Nat) (remaining : StlSet) (colours : StlMap Vec3) (selected : List Nat),
      remaining.length ≤ n → (∀ t ∈ remaining, t ∈ StlMap.keys d.structure_) →
      ∃ colours' selected',
        (∀ fuel, remaining.length ≤ fuel →
          colorizeLoop ReadImage d contiguous fuel remaining colours selected
            = some (true, colours', selected'))
        ∧ selected'.length ≤ selected.length + remaining.length
        ∧ (∀ i, StlMap.contains colours i = true → StlMap.contains colours' i = true)
        ∧ (∀ t ∈ remaining,
            StlMap.contains colours' ((StlMap.find contiguous t).getD 0) = true) := by
  intro n
  induction n with
  | zero =>
    intro remaining colours selected hlen _
    have hnil : remaining = [] := List.length_eq_zero.mp (Nat.le_zero.mp hlen)
    subst hnil
    refine ⟨colours, selected, ?_, by simp, fun i h => h, fun t ht => by simp at ht⟩
    intro fuel _
    cases fuel <;> simp [colorizeLoop]
  | succ n ih =>
    intro remaining colours selected hlen hsub
    by_cases hnil : remaining = []
    · subst hnil
      refine ⟨colours, selected, ?_, by simp, fun i h => h, fun t ht => by simp at ht⟩
      intro fuel _
      cases fuel <;> simp [colorizeLoop]
    · obtain ⟨v, remaining', colours1, hstep, _, hlt, hrem, hcol, hnew⟩ :=
        colorizeStep_spec ReadImage d contiguous hobs hread remaining colours hnil hsub
      obtain ⟨colours', selected', hrun, hsel, hcol', hall⟩ :=
        ih remaining' colours1 (selected ++ [v]) (by omega)
          (fun t ht => hsub t ((hrem t).mp ht).1)
      refine ⟨colours', selected', ?_, ?_, fun i h => hcol' i (hcol i h), ?_⟩
      · intro fuel hfuel
        cases fuel with
        | zero =>
          have : remaining.length = 0 := Nat.le_zero.mp hfuel
          exact absurd (List.length_eq_zero.mp this) hnil
        | succ f =>
          simp only [colorizeLoop, if_neg hnil, hstep]
          exact hrun f (by omega)
      · simp only [List.length_append, List.length_singleton] at hsel
        omega
      · intro t ht
        cases hs : trackSeenIn d.structure_ v t with
        | true => exact hcol' _ (hnew t ht hs)
        | false => exact hall t ((hrem t).mpr ⟨ht, hs⟩)

/-- C30: `ColorizeTracks` terminates. In a scene whose landmarks have distinct
ids and at least one observation each, and where the view of every observation
exists and its image is read: each iteration of the colouring loop, from any
non-empty set of remaining tracks, is defined, selects a view whose number of
observations among the remaining tracks is maximal, and leaves strictly fewer
remaining tracks, all of them among the former ones; with as many iterations
allowed as there are landmarks, or more, the function returns `true` after at
most as many iterations as there are landmarks, and every slot of
`vec_tracksColor` has received a colour. -/
theorem ColorizeTracks_terminates (ReadImage : View → Option (Vec2 → Vec3)) (d : SfM_Data)
    (hkeys : (StlMap.keys d.structure_).Nodup)
    (hobs : ∀ kl ∈ d.structure_, kl.2.obs ≠ [])
    (hread : ∀ kl ∈ d.structure_, ∀ vo ∈ kl.2.obs,
      ((StlMap.find d.views vo.1).bind ReadImage).isSome = true) :
    (∀ (remaining : StlSet) (colours : StlMap Vec3), remaining ≠ [] →
        (∀ t ∈ remaining, t ∈ StlMap.keys d.structure_) →
        ∃ v remaining' colours',
          colorizeStep ReadImage d (contiguousIndexes d.structure_) remaining colours
              = some (some (v, remaining', colours'))
            ∧ (∀ w, observationCount d.structure_ remaining w
                ≤ observationCount d.structure_ remaining v)
            ∧ remaining'.length < remaining.length
            ∧ ∀ t ∈ remaining', t ∈ remaining)
      ∧ ∃ colours selected,
          (∀ fuel, d.structure_.length ≤ fuel →
            ColorizeTracks ReadImage fuel d = some (true, colours, selected))
          ∧ selected.length ≤ d.structure_.length
          ∧ ∀ i, i < d.structure_.length → StlMap.contains colours i = true := by
  constructor
  · intro remaining colours hne hsub
    obtain ⟨v, remaining', colours', hstep, hmax, hlt, hrem, _, _⟩ :=
      colorizeStep_spec ReadImage d (contiguousIndexes d.structure_) hobs hread remaining colours
        hne hsub
    exact ⟨v, remaining', colours', hstep, hmax, hlt, fun t ht => ((hrem t).mp ht).1⟩
  · obtain ⟨colours, selected, hrun, hsel, _, hall⟩ :=
      colorizeLoop_spec ReadImage d (contiguousIndexes d.structure_) hobs hread
        (StlMap.keys d.structure_).length (StlMap.keys d.structure_) [] []
        (le_refl _) (fun t ht => ht)
    have hlen : (StlMap.keys d.structure_).length = d.structure_.length := by
      simp [StlMap.keys]
    refine ⟨colours, selected, ?_, ?_, ?_⟩
    · intro fuel hfuel
      exact hrun fuel (by omega)
    · simp only [List.length_nil, Nat.zero_add] at hsel
      omega
    · intro i hi
      have h := hall (d.structure_.get ⟨i, hi⟩).1
        (List.mem_map_of_mem Prod.fst (List.get_mem d.structure_ i hi))
      rw [contiguousIndexes_rank d.structure_ hkeys i hi] at h
      exact h

/-- Witness for C30: in the example scene the loop selects view 1, which sees
three of the four landmarks, then view 2 for the last one; the call returns
`true` after two iterations and the four slots hold a colour. -/
theorem ColorizeTracks_terminates_witness :
    ColorizeTracks exampleReadImage 4 colourScene
        = some (true, [(0, (3, 4, 1)), (1, (5, 6, 1)), (2, (7, 8, 1)), (3, (11, 12, 2))], [1, 2])
      ∧ ((ColorizeTracks exampleReadImage 4 colourScene).getD (false, [], [])).1 = true
      ∧ ((ColorizeTracks exampleReadImage 4 colourScene).getD (false, [], [])).2.2.length ≤ 4 := by
  obtain ⟨_, colours, selected, hrun, hlen, _⟩ :=
    ColorizeTracks_terminates exampleReadImage colourScene (by decide) (by decide) (by decide)
  refine ⟨by rfl, ?_, ?_⟩
  · rw [hrun 4 (le_refl _)]
    rfl
  · rw [hrun 4 (le_refl _)]
    exact hlen

/-! ## `Process` in restricted mode -/

set_option maxRecDepth 100000 in
/-- C5: on `engineStartRestricted` (restricted mode, window size 1, preset
pair (0, 1)) the connectivity filter keeps the views 0, 1 and 5, the tracks are
built and `MakeInitialPair3D` returns true with three landmarks, so none of the
fatal conditions occurs. The first call of `FindImagesWithPossibleResection`
in the growth loop finds no remaining view inside the window `[0, 2]`, scores no
view and takes the minimum of the empty active subset: it is undefined, and
`Process` does not return true, whatever the number of rounds allowed. -/
theorem Process_restricted_does_not_return :
    (filterAndBuildTracks collaboratorsRestrictedRun engineStartRestricted).set_remaining_view_id_
        = [0, 1, 5]
      ∧ (filterAndBuildTracks collaboratorsRestrictedRun engineStartRestricted).map_tracks_ ≠ []
      ∧ chooseSeed collaboratorsRestrictedRun
          (filterAndBuildTracks collaboratorsRestrictedRun engineStartRestricted)
          = some (some (filterAndBuildTracks collaboratorsRestrictedRun engineStartRestricted))
      ∧ MakeInitialPair3D collaboratorsRestrictedRun
          (filterAndBuildTracks collaboratorsRestrictedRun engineStartRestricted) (0, 1)
          = some (true, engineRestrictedSeeded)
      ∧ refillActiveSubset (markSeedReconstructed engineRestrictedSeeded)
          = some (markSeedReconstructed engineRestrictedSeeded)
      ∧ putativeViews (markSeedReconstructed engineRestrictedSeeded) = []
      ∧ FindImagesWithPossibleResection (markSeedReconstructed engineRestrictedSeeded) = none
      ∧ ∀ fuel, Process collaboratorsRestrictedRun fuel engineStartRestricted = none := by
  have hF : FindImagesWithPossibleResection (markSeedReconstructed engineRestrictedSeeded)
      = none := by decide
  have hM : MakeInitialPair3D collaboratorsRestrictedRun
      (filterAndBuildTracks collaboratorsRestrictedRun engineStartRestricted) (0, 1)
      = some (true, engineRestrictedSeeded) := by decide
  refine ⟨by decide, by decide, by decide, hM, by decide, by decide, hF, ?_⟩
  intro fuel
  have hP := (Process_false_iff_fatal collaboratorsRestrictedRun engineStartRestricted).2.1
    (filterAndBuildTracks collaboratorsRestrictedRun engineStartRestricted) engineRestrictedSeeded
    (by decide) (by decide) (by decide) hM fuel
  rw [hP]
  cases fuel with
  | zero => rfl
  | succ n => simp only [growthLoop, hF, Option.map_none']

/-! ## The automatic choice of the initial pair: the median angle -/

/-- The value computed by `medianAngle` is the median of rank `length / 2`. -/
theorem medianAngle_spec (vec_angles : List ℚ) (m : ℚ)
    (h : medianAngle vec_angles = some m) : IsMedianAngle vec_angles m := by
  haveI : IsTotal ℚ (fun a b => a ≤ b) := ⟨le_total⟩
  haveI : IsTrans ℚ (fun a b => a ≤ b) := ⟨fun _ _ _ => le_trans⟩
  have hsorted : (vec_angles.insertionSort fun a b => a ≤ b).Sorted (fun a b => a ≤ b) :=
    List.sorted_insertionSort _ vec_angles
  have hperm : (vec_angles.insertionSort fun a b => a ≤ b).Perm vec_angles :=
    List.perm_insertionSort _ vec_angles
  generalize hs : (vec_angles.insertionSort fun a b => a ≤ b) = s at hsorted hperm
  have hlen : s.length = vec_angles.length := hperm.length_eq
  unfold medianAngle at h
  rw [hs, List.get?_eq_getElem?, List.getElem?_eq_some_iff] at h
  obtain ⟨hk, hm⟩ := h
  have hsplit : s = s.take (vec_angles.length / 2) ++ m :: s.drop (vec_angles.length / 2 + 1) := by
    rw [← hm, ← List.drop_eq_getElem_cons hk, List.take_append_drop]
  have htake : (s.take (vec_angles.length / 2)).length = vec_angles.length / 2 := by
    rw [List.length_take]
    omega
  rw [hsplit] at hsorted
  have hpw := List.pairwise_append.mp hsorted
  have hbelow : ∀ a ∈ s.take (vec_angles.length / 2), a ≤ m :=
    fun a ha => hpw.2.2 a ha m (List.mem_cons_self _ _)
  have habove : ∀ b ∈ s.drop (vec_angles.length / 2 + 1), m ≤ b :=
    fun b hb => (List.pairwise_cons.mp hpw.2.1).1 b hb
  refine ⟨?_, ?_, ?_⟩
  · refine hperm.mem_iff.mp ?_
    rw [hsplit]
    exact List.mem_append_right _ (List.mem_cons_self _ _)
  · rw [← hperm.countP_eq, hsplit, List.countP_append,
      List.countP_cons_of_neg _ _ (by simp)]
    have h0 : (s.drop (vec_angles.length / 2 + 1)).countP (fun a => decide (a < m)) = 0 := by
      rw [List.countP_eq_zero]
      intro b hb
      simp only [decide_eq_true_eq, not_lt]
      exact habove b hb
    have h1 := List.countP_le_length (fun a => decide (a < m))
      (l := s.take (vec_angles.length / 2))
    omega
  · rw [← hperm.countP_eq, hsplit, List.countP_append,
      List.countP_cons_of_pos _ _ (by simp)]
    have h1 : (s.take (vec_angles.length / 2)).countP (fun a => decide (a ≤ m))
        = (s.take (vec_angles.length / 2)).length := by
      rw [List.countP_eq_length]
      intro a ha
      simp only [decide_eq_true_eq]
      exact hbelow a ha
    omega

/-- The median of rank `length / 2` is unique. -/
theorem IsMedianAngle_unique (vec_angles : List ℚ) (a b : ℚ)
    (ha : IsMedianAngle vec_angles a) (hb : IsMedianAngle vec_angles b) : a = b := by
  have key : ∀ x y : ℚ, IsMedianAngle vec_angles x → IsMedianAngle vec_angles y → ¬ x < y := by
    intro x y hx hy hlt
    have hmono : vec_angles.countP (fun c => decide (c ≤ x))
        ≤ vec_angles.countP (fun c => decide (c < y)) := by
      apply List.countP_mono_left
      intro c _ hc
      simp only [decide_eq_true_eq] at hc ⊢
      exact lt_of_le_of_lt hc hlt
    have h1 := hx.2.2
    have h2 := hy.2.1
    omega
  rcases lt_trichotomy a b with h | h | h
  · exact absurd h (key a b ha hb)
  · exact h
  · exact absurd h (key b a hb ha)

/-- The median is computed for every non-empty list of angles. -/
theorem medianAngle_defined (vec_angles : List ℚ) (hne : vec_angles ≠ []) :
    ∃ m, medianAngle vec_angles = some m := by
  have hperm : (vec_angles.insertionSort fun a b => a ≤ b).Perm vec_angles :=
    List.perm_insertionSort _ vec_angles
  have hpos : 0 < vec_angles.length := List.length_pos.mpr hne
  have hk : vec_angles.length / 2 < (vec_angles.insertionSort fun a b => a ≤ b).length := by
    rw [hperm.length_eq]
    omega
  exact ⟨_, by unfold medianAngle; rw [List.get?_eq_getElem?, List.getElem?_eq_getElem hk]⟩

/-- The value of `medianAngle` is the only median of the angles. -/
theorem medianAngle_eq_iff (vec_angles : List ℚ) (m : ℚ) :
    medianAngle vec_angles = some m ↔ IsMedianAngle vec_angles m := by
  constructor
  · exact medianAngle_spec vec_angles m
  · intro h
    obtain ⟨m', hm'⟩ := medianAngle_defined vec_angles (List.ne_nil_of_mem h.1)
    rw [hm', IsMedianAngle_unique vec_angles m' m (medianAngle_spec vec_angles m' hm') h]

theorem optionAll_some_ne_none {α : Type} : ∀ (l : List (Option α)) (r : List α),
    optionAll l = some r → ∀ x ∈ l, x ≠ none
  | [], _, _, x, hx => by simp at hx
  | none :: t, r, h, x, hx => by simp [optionAll] at h
  | some a :: t, r, h, x, hx => by
    simp only [optionAll, Option.map_eq_some'] at h
    obtain ⟨r', hr', _⟩ := h
    rcases List.mem_cons.mp hx with rfl | hx
    · simp
    · exact optionAll_some_ne_none t r' hr' x hx

/-- A pair is stored by the loop body with the angle `sp.1` exactly when it is
accepted with that median angle. -/
theorem scorePair_accepted_iff (C : Collaborators) (e : Engine) (current_pair : Pair)
    (sp : ℚ × Pair) :
    scorePair C e (viewsWithIntrinsic e.sfm_data_) current_pair = some (some sp)
      ↔ sp.2 = current_pair ∧ PairAccepted C e current_pair sp.1 := by
  constructor
  · intro h
    unfold scorePair at h
    simp only [fRequired_min_angle, fLimit_max_angle, iMin_inliers_count, gt_iff_lt] at h
    by_cases hv : (viewsWithIntrinsic e.sfm_data_).contains (min current_pair.1 current_pair.2) = true
        ∧ (viewsWithIntrinsic e.sfm_data_).contains (max current_pair.1 current_pair.2) = true
    · rw [if_pos hv] at h
      have hmI : min current_pair.1 current_pair.2 ∈ viewsWithIntrinsic e.sfm_data_ := by
        simpa using hv.1
      have hmJ : max current_pair.1 current_pair.2 ∈ viewsWithIntrinsic e.sfm_data_ := by
        simpa using hv.2
      cases hvI : StlMap.find e.sfm_data_.views (min current_pair.1 current_pair.2) with
      | none => simp [hvI] at h
      | some view_I =>
        cases hvJ : StlMap.find e.sfm_data_.views (max current_pair.1 current_pair.2) with
        | none => simp [hvI, hvJ] at h
        | some view_J =>
          simp only [hvI, hvJ] at h
          cases hcI : StlMap.find e.sfm_data_.intrinsics view_I.id_intrinsic with
          | none => simp [hcI] at h
          | some cam_I =>
            cases hcJ : StlMap.find e.sfm_data_.intrinsics view_J.id_intrinsic with
            | none => simp [hcI, hcJ] at h
            | some cam_J =>
              simp only [hcI, hcJ] at h
              by_cases hp : cam_I.isPinhole = true ∧ cam_J.isPinhole = true
              · rw [if_pos hp] at h
                cases hcommon : commonFeatures (GetTracksInImages
                    (pairImageSet (min current_pair.1 current_pair.2)
                      (max current_pair.1 current_pair.2)) e.map_tracks_) with
                | none => simp [hcommon] at h
                | some common =>
                  simp only [hcommon] at h
                  cases hest : C.robustRelativePose cam_I cam_J (some 16)
                      (common.map fun ij =>
                        C.get_ud_pixel cam_I (C.feats (min current_pair.1 current_pair.2) ij.1))
                      (common.map fun ij =>
                        C.get_ud_pixel cam_J (C.feats (max current_pair.1 current_pair.2) ij.2))
                      256 with
                  | none => simp [hest] at h
                  | some info =>
                    simp only [hest] at h
                    by_cases hin : 100 < info.vec_inliers.length
                    · rw [if_pos hin] at h
                      cases hang : pairAngles C (min current_pair.1 current_pair.2)
                          (max current_pair.1 current_pair.2) cam_I cam_J common info with
                      | none => simp [hang] at h
                      | some vec_angles =>
                        simp only [hang] at h
                        cases hmed : medianAngle vec_angles with
                        | none => simp [hmed] at h
                        | some m =>
                          simp only [hmed] at h
                          by_cases hr : 3 < m ∧ m < 60
                          · rw [if_pos hr] at h
                            simp only [Option.some.injEq] at h
                            subst h
                            exact ⟨rfl, view_I, view_J, cam_I, cam_J, common, info, vec_angles,
                              hmI, hmJ, hvI, hvJ, hcI, hcJ, hp.1, hp.2, hcommon, hest, hin, hang,
                              medianAngle_spec vec_angles m hmed, hr.1, hr.2⟩
                          · rw [if_neg hr] at h
                            simp at h
                    · rw [if_neg hin] at h
                      simp at h
              · rw [if_neg hp] at h
                simp at h
    · rw [if_neg hv] at h
      simp at h
  · rintro ⟨h2, view_I, view_J, cam_I, cam_J, common, info, vec_angles, hmI, hmJ, hvI, hvJ, hcI,
      hcJ, hpI, hpJ, hcommon, hest, hin, hang, hmed, h3, h60⟩
    obtain ⟨a, p⟩ := sp
    simp only at h2 hmed h3 h60
    subst h2
    have hI : (viewsWithIntrinsic e.sfm_data_).contains (min p.1 p.2) = true := by
      simpa using hmI
    have hJ : (viewsWithIntrinsic e.sfm_data_).contains (max p.1 p.2) = true := by
      simpa using hmJ
    have hmed' := (medianAngle_eq_iff vec_angles a).mpr hmed
    simp only [scorePair, hI, hJ, hvI, hvJ, hcI, hcJ, hpI, hpJ, hcommon, hest, hang, hmed',
      iMin_inliers_count, fRequired_min_angle, fLimit_max_angle, and_self, if_true, gt_iff_lt]
    simp [hin, h3, h60]

/-- The median angle of an accepted pair is determined by the pair. -/
theorem PairAccepted_unique (C : Collaborators) (e : Engine) (current_pair : Pair) (a b : ℚ)
    (ha : PairAccepted C e current_pair a) (hb : PairAccepted C e current_pair b) : a = b := by
  have h1 := (scorePair_accepted_iff C e current_pair (a, current_pair)).mpr ⟨rfl, ha⟩
  have h2 := (scorePair_accepted_iff C e current_pair (b, current_pair)).mpr ⟨rfl, hb⟩
  rw [h1] at h2
  simp only [Option.some.injEq, Prod.mk.injEq, and_true] at h2
  exact h2

/-- A track of a `std::map` has one entry per view, so its restriction to a
single view has no second feature. -/
theorem trackFeatures_single_view (I : Nat) (map_tracks : STLMAPTracks)
    (htracks : ∀ t ∈ map_tracks, (StlMap.keys t.2).Nodup) :
    ∀ t ∈ GetTracksInImages [I] map_tracks, trackFeatures t.2 = none := by
  intro t ht
  simp only [GetTracksInImages, List.mem_filterMap] at ht
  obtain ⟨kt, hkt, hsome⟩ := ht
  split_ifs at hsome
  simp only [Option.some.injEq] at hsome
  subst hsome
  have hnd : (StlMap.keys (kt.2.filter fun x => [I].contains x.1)).Nodup :=
    ((List.filter_sublist kt.2).map Prod.fst).nodup (htracks kt hkt)
  have hall : ∀ x ∈ kt.2.filter (fun x => [I].contains x.1), x.1 = I := by
    intro x hx
    have := (List.mem_filter.mp hx).2
    simpa using this
  show trackFeatures (kt.2.filter fun x => [I].contains x.1) = none
  generalize kt.2.filter (fun x => [I].contains x.1) = l at hnd hall
  match l, hnd, hall with
  | [], _, _ => rfl
  | [_], _, _ => rfl
  | x :: y :: rest, hnd, hall =>
    exfalso
    have hx := hall x (List.mem_cons_self _ _)
    have hy := hall y (List.mem_cons_of_mem _ (List.mem_cons_self _ _))
    simp only [StlMap.keys, List.map_cons, List.nodup_cons, List.mem_cons] at hnd
    exact hnd.1 (Or.inl (hx.trans hy.symm))

/-- The two views of an accepted pair are different, when every track has one
entry per view. -/
theorem PairAccepted_distinct (C : Collaborators) (e : Engine) (current_pair : Pair) (m : ℚ)
    (htracks : ∀ t ∈ e.map_tracks_, (StlMap.keys t.2).Nodup)
    (h : PairAccepted C e current_pair m) :
    min current_pair.1 current_pair.2 ≠ max current_pair.1 current_pair.2 := by
  intro heq
  obtain ⟨view_I, view_J, cam_I, cam_J, common, info, vec_angles, _, _, _, _, _, _, _, _,
    hcommon, _, hin, hang, _, _, _⟩ := h
  rw [← heq] at hcommon hang
  simp only [pairImageSet, if_true] at hcommon
  have hsingle := trackFeatures_single_view (min current_pair.1 current_pair.2) e.map_tracks_ htracks
  have hnil : GetTracksInImages [min current_pair.1 current_pair.2] e.map_tracks_ = [] := by
    cases hl : GetTracksInImages [min current_pair.1 current_pair.2] e.map_tracks_ with
    | nil => rfl
    | cons t rest =>
      exfalso
      rw [hl] at hcommon hsingle
      have := optionAll_some_ne_none _ common hcommon (trackFeatures t.2)
        (List.mem_map_of_mem (fun (t : Nat × SubmapTrack) => trackFeatures t.2)
          (List.mem_cons_self _ _))
      exact this (hsingle t (List.mem_cons_self _ _))
  rw [hnil] at hcommon
  simp only [commonFeatures, List.map_nil, optionAll, Option.some.injEq] at hcommon
  subst hcommon
  cases hi : info.vec_inliers with
  | nil =>
    rw [hi] at hin
    simp at hin
  | cons idx rest =>
    unfold pairAngles at hang
    rw [hi] at hang
    have := optionAll_some_ne_none _ vec_angles hang none (by simp)
    exact this rfl

/-- The stored pairs are the accepted pairs of `pairWise_matches_`, each with
its median angle. -/
theorem scoring_per_pair_accepted (C : Collaborators) (e : Engine) (scoring : List (ℚ × Pair))
    (hscoring : scoring_per_pair C e = some scoring) (sp : ℚ × Pair) :
    sp ∈ scoring ↔ (∃ m ∈ e.pairWise_matches_, m.1 = sp.2) ∧ PairAccepted C e sp.2 sp.1 := by
  constructor
  · intro hsp
    obtain ⟨m, hm, hsc⟩ := scoring_per_pair_mem C e scoring hscoring sp hsp
    obtain ⟨h2, hacc⟩ := (scorePair_accepted_iff C e m.1 sp).mp hsc
    exact ⟨⟨m, hm, h2.symm⟩, h2 ▸ hacc⟩
  · rintro ⟨⟨m, hm, hm2⟩, hacc⟩
    have hsc : scorePair C e (viewsWithIntrinsic e.sfm_data_) m.1 = some (some sp) :=
      (scorePair_accepted_iff C e m.1 sp).mpr ⟨hm2.symm, hm2 ▸ hacc⟩
    simp only [scoring_per_pair, Option.map_eq_some'] at hscoring
    obtain ⟨r, hr, rfl⟩ := hscoring
    have h1 : some sp ∈ r := by
      rw [optionAll_mem _ r hr (some sp), ← hsc]
      exact List.mem_map_of_mem
        (fun (m : PairMatches) => scorePair C e (viewsWithIntrinsic e.sfm_data_) m.1) hm
    exact List.mem_filterMap.mpr ⟨some sp, h1, rfl⟩

/-- C4: `AutomaticInitialPairChoice`, when the loop over the pairs is defined
(the tracks have one feature per view, as in a `std::map`). The pairs stored by
the loop are the accepted pairs of `pairWise_matches_`, each with the median
angle of its inliers, strictly inside (3, 60). If no pair is accepted the
function returns false. If at least one pair is accepted it returns true with
an accepted pair whose median angle is the maximum over the accepted pairs. An
accepted pair whose median angle is strictly above that of every other
accepted pair is the pair returned. -/
theorem AutomaticInitialPairChoice_best (C : Collaborators) (e : Engine)
    (scoring : List (ℚ × Pair))
    (htracks : ∀ t ∈ e.map_tracks_, (StlMap.keys t.2).Nodup)
    (hscoring : scoring_per_pair C e = some scoring) :
    (∀ sp, sp ∈ scoring ↔
        (∃ m ∈ e.pairWise_matches_, m.1 = sp.2) ∧ PairAccepted C e sp.2 sp.1)
      ∧ ((∀ m ∈ e.pairWise_matches_, ∀ a, ¬ PairAccepted C e m.1 a) →
          AutomaticInitialPairChoice C e = some none)
      ∧ ((∃ m ∈ e.pairWise_matches_, ∃ a, PairAccepted C e m.1 a) →
          ∃ m0 ∈ e.pairWise_matches_, ∃ a0,
            AutomaticInitialPairChoice C e = some (some m0.1)
              ∧ PairAccepted C e m0.1 a0
              ∧ ∀ m ∈ e.pairWise_matches_, ∀ a, PairAccepted C e m.1 a → a ≤ a0)
      ∧ (∀ m0 ∈ e.pairWise_matches_, ∀ a0, PairAccepted C e m0.1 a0 →
          (∀ m ∈ e.pairWise_matches_, ∀ a, PairAccepted C e m.1 a → m.1 ≠ m0.1 → a < a0) →
          AutomaticInitialPairChoice C e = some (some m0.1)) := by
  have hmem := scoring_per_pair_accepted C e scoring hscoring
  have hlen : scoring ≠ [] → ¬ (viewsWithIntrinsic e.sfm_data_).length < 2 := by
    intro hne
    obtain ⟨sp, hsp⟩ := List.exists_mem_of_ne_nil scoring hne
    have hacc := ((hmem sp).mp hsp).2
    have hdist := PairAccepted_distinct C e sp.2 sp.1 htracks hacc
    obtain ⟨_, _, _, _, _, _, _, hI, hJ, _⟩ := hacc
    have := two_le_length_of_mem_ne hI hJ hdist
    omega
  obtain ⟨hnone, hsome, huniq⟩ := AutomaticInitialPairChoice_head C e scoring hscoring hlen
  refine ⟨hmem, ?_, ?_, ?_⟩
  · intro hno
    apply hnone
    cases hs : scoring with
    | nil => rfl
    | cons sp rest =>
      exfalso
      obtain ⟨⟨m, hm, hm2⟩, hacc⟩ := (hmem sp).mp (hs ▸ List.mem_cons_self _ _)
      exact hno m hm sp.1 (hm2 ▸ hacc)
  · rintro ⟨m, hm, a, hacc⟩
    have hin : (a, m.1) ∈ scoring := (hmem (a, m.1)).mpr ⟨⟨m, hm, rfl⟩, hacc⟩
    obtain ⟨best, hbest, hres, hmax⟩ := hsome (List.ne_nil_of_mem hin)
    obtain ⟨⟨m0, hm0, hm02⟩, hacc0⟩ := (hmem best).mp hbest
    refine ⟨m0, hm0, best.1, hm02 ▸ hres, hm02 ▸ hacc0, ?_⟩
    intro m' hm' a' hacc'
    exact hmax (a', m'.1) ((hmem (a', m'.1)).mpr ⟨⟨m', hm', rfl⟩, hacc'⟩)
  · intro m0 hm0 a0 hacc0 hstrict
    have hin : (a0, m0.1) ∈ scoring := (hmem (a0, m0.1)).mpr ⟨⟨m0, hm0, rfl⟩, hacc0⟩
    refine huniq (a0, m0.1) hin ?_
    intro sp hsp hne
    obtain ⟨⟨m, hm, hm2⟩, hacc⟩ := (hmem sp).mp hsp
    by_cases hpair : sp.2 = m0.1
    · exfalso
      apply hne
      have ha : sp.1 = a0 := PairAccepted_unique C e m0.1 sp.1 a0 (hpair ▸ hacc) hacc0
      exact Prod.ext ha hpair
    · exact hstrict m hm sp.1 (hm2 ▸ hacc) (hm2 ▸ hpair)

set_option maxRecDepth 100000 in
/-- Witness for C4: on the engine with 101 common tracks the pair (0, 1) is
accepted with the median angle 20 and is the pair returned. -/
theorem AutomaticInitialPairChoice_best_witness :
    AutomaticInitialPairChoice exampleCollaborators (enginePair 101) = some (some (0, 1))
      ∧ PairAccepted exampleCollaborators (enginePair 101) (0, 1) 20 :=
  ⟨(AutomaticInitialPairChoice_best exampleCollaborators (enginePair 101) [(20, (0, 1))]
      (by decide) (by decide)).2.2.2 ((0, 1), []) (by decide) 20
      (((AutomaticInitialPairChoice_best exampleCollaborators (enginePair 101) [(20, (0, 1))]
        (by decide) (by decide)).1 (20, (0, 1))).mp (by simp)).2
      (fun m hm a _ hne => by
        exfalso
        have h1 : m = ((0, 1), []) := by simpa [enginePair] using hm
        exact hne (by rw [h1])),
    (((AutomaticInitialPairChoice_best exampleCollaborators (enginePair 101) [(20, (0, 1))]
        (by decide) (by decide)).1 (20, (0, 1))).mp (by simp)).2⟩

/-! ## Resection, step G: the landmarks created in one iteration -/

theorem storeLandmark_find (C : Collaborators) (thr : StlMap ℚ) (I J : Nat)
    (cam_I cam_J : Intrinsic) (pose_I pose_J : Pose3) (s : StlMap Landmark)
    (t : Nat × SubmapTrack) (r : Option Landmark)
    (h : trackUpdate C thr I J cam_I cam_J pose_I pose_J t (StlMap.find s t.1) = some r) :
    StlMap.find (storeLandmark s t.1 r) t.1 = r
      ∧ ∀ k, k ≠ t.1 → StlMap.find (storeLandmark s t.1 r) k = StlMap.find s k := by
  cases r with
  | none =>
    have hx := trackUpdate_some_none C thr I J cam_I cam_J pose_I pose_J t _ h
    exact ⟨hx, fun k _ => rfl⟩
  | some l =>
    refine ⟨?_, ?_⟩
    · simp only [storeLandmark, StlMap.find_assign, if_true]
    · intro k hk
      have hk' : ¬ t.1 = k := fun h' => hk h'.symm
      simp only [storeLandmark, StlMap.find_assign, if_neg hk']

/-- The loop of step G over the common tracks of two views changes the
structure only under the ids of these tracks, and under the id of a track it
stores what `trackUpdate` gives for the landmark found there. -/
theorem foldlOpt_triangulateTrack_find (C : Collaborators) (thr : StlMap ℚ) (I J : Nat)
    (cam_I cam_J : Intrinsic) (pose_I pose_J : Pose3) :
    ∀ (T : List (Nat × SubmapTrack)) (s s2 : StlMap Landmark),
      foldlOpt (triangulateTrack C thr I J cam_I cam_J pose_I pose_J) T s = some s2 →
      (∀ k, k ∉ T.map Prod.fst → StlMap.find s2 k = StlMap.find s k)
        ∧ ((T.map Prod.fst).Nodup → ∀ t ∈ T,
            trackUpdate C thr I J cam_I cam_J pose_I pose_J t (StlMap.find s t.1)
              = some (StlMap.find s2 t.1)) := by
  intro T
  induction T with
  | nil =>
    intro s s2 h
    simp only [foldlOpt, Option.some.injEq] at h
    subst h
    exact ⟨fun k _ => rfl, fun _ t ht => by simp at ht⟩
  | cons t0 T ih =>
    intro s s2 h
    simp only [foldlOpt] at h
    cases h0 : triangulateTrack C thr I J cam_I cam_J pose_I pose_J s t0 with
    | none => simp [h0] at h
    | some s1 =>
      simp only [h0] at h
      rw [triangulateTrack_eq_trackUpdate] at h0
      cases hr : trackUpdate C thr I J cam_I cam_J pose_I pose_J t0 (StlMap.find s t0.1) with
      | none => simp [hr] at h0
      | some r =>
        simp only [hr, Option.map_some', Option.some.injEq] at h0
        subst h0
        obtain ⟨hself, hother⟩ := storeLandmark_find C thr I J cam_I cam_J pose_I pose_J s t0 r hr
        obtain ⟨ih1, ih2⟩ := ih _ s2 h
        refine ⟨?_, ?_⟩
        · intro k hk
          simp only [List.map_cons, List.mem_cons, not_or] at hk
          rw [ih1 k hk.2, hother k hk.1]
        · intro hnd t ht
          simp only [List.map_cons, List.nodup_cons] at hnd
          rcases List.mem_cons.mp ht with rfl | ht
          · rw [ih1 t.1 hnd.1, hself]
            exact hr
          · have hne : t.1 ≠ t0.1 := by
              intro heq
              exact hnd.1 (heq ▸ List.mem_map_of_mem Prod.fst ht)
            have := ih2 hnd.2 t ht
            rw [hother t.1 hne] at this
            exact this

theorem foldlOpt_triangulateTrack_defined (C : Collaborators) (thr : StlMap ℚ) (I J : Nat)
    (cam_I cam_J : Intrinsic) (pose_I pose_J : Pose3) (map_tracks : STLMAPTracks)
    (hI : StlMap.contains thr I = true) (hJ : StlMap.contains thr J = true) :
    ∀ (T : List (Nat × SubmapTrack)) (s : StlMap Landmark),
      (∀ t ∈ T, t ∈ GetTracksInImages [I, J] map_tracks) →
      ∃ s2, foldlOpt (triangulateTrack C thr I J cam_I cam_J pose_I pose_J) T s = some s2 := by
  intro T
  induction T with
  | nil => intro s _; exact ⟨s, rfl⟩
  | cons t0 T ih =>
    intro s hT
    obtain ⟨s1, hs1⟩ := Option.isSome_iff_exists.mp
      (triangulateTrack_defined C thr I J cam_I cam_J pose_I pose_J s map_tracks t0
        (hT t0 (List.mem_cons_self _ _)) hI hJ)
    obtain ⟨s2, hs2⟩ := ih s1 (fun t ht => hT t (List.mem_cons_of_mem _ ht))
    exact ⟨s2, by simp only [foldlOpt, hs1, hs2]⟩

theorem GetTracksInImages_mem_of (I J : Nat) (map_tracks : STLMAPTracks) (k : Nat)
    (track : SubmapTrack) (h : (k, track) ∈ map_tracks)
    (hI : StlMap.contains track I = true) (hJ : StlMap.contains track J = true) :
    (k, track.filter fun x => [I, J].contains x.1) ∈ GetTracksInImages [I, J] map_tracks := by
  unfold GetTracksInImages
  refine List.mem_filterMap.mpr ⟨(k, track), h, ?_⟩
  simp [hI, hJ]

/-- C11: step G of `Resection` for the new view `viewIndex`, in the iteration
of its loop over the valid views that handles the reconstructed view `indexI`
(`I` and `J` are the smaller and the larger of the two ids). For a track of
the scene seen by both views that has no landmark when the iteration starts,
the iteration is defined and, when it ends, the track has a landmark if and
only if the parallax angle is > 2 degrees, the depth of the triangulated point
is positive in both views and the residual norm in each view is strictly
below `max(4, stored threshold of the view)`; that landmark is the
triangulated point with exactly the observations of `I` and `J`. Otherwise
the track still has no landmark. Step G is the iterations before, this one,
and the iterations after it. -/
theorem resectionStepG_creates_iff (C : Collaborators) (e : Engine) (viewIndex indexI I J : Nat)
    (pre post : List Nat) (s s1 : StlMap Landmark)
    (view_I view_J : View) (cam_I cam_J : Intrinsic) (pose_I pose_J : Pose3)
    (trackId : Nat) (track : SubmapTrack) (featI featJ : Nat) (tI tJ : ℚ)
    (hvalid : C.Get_Valid_Views e.sfm_data_ = pre ++ indexI :: post)
    (hne : indexI ≠ viewIndex)
    (hI : I = min viewIndex indexI) (hJ : J = max viewIndex indexI)
    (hpre : foldlOpt (triangulateWithView C e viewIndex) pre s = some s1)
    (hvI : StlMap.find e.sfm_data_.views I = some view_I)
    (hvJ : StlMap.find e.sfm_data_.views J = some view_J)
    (hcI : StlMap.find e.sfm_data_.intrinsics view_I.id_intrinsic = some cam_I)
    (hcJ : StlMap.find e.sfm_data_.intrinsics view_J.id_intrinsic = some cam_J)
    (hpI : StlMap.find e.sfm_data_.poses view_I.id_pose = some pose_I)
    (hpJ : StlMap.find e.sfm_data_.poses view_J.id_pose = some pose_J)
    (htI : StlMap.find e.map_ACThreshold_ I = some tI)
    (htJ : StlMap.find e.map_ACThreshold_ J = some tJ)
    (hkeys : (StlMap.keys e.map_tracks_).Nodup)
    (htrack : (trackId, track) ∈ e.map_tracks_)
    (hfI : StlMap.find track I = some featI) (hfJ : StlMap.find track J = some featJ)
    (hnew : StlMap.find s1 trackId = none) :
    ∃ s2, triangulateWithView C e viewIndex s1 indexI = some s2
      ∧ resectionStepG C e viewIndex s = foldlOpt (triangulateWithView C e viewIndex) post s2
      ∧ StlMap.find s2 trackId =
          if C.AngleBetweenRay pose_I cam_I pose_J cam_J (C.feats I featI) (C.feats J featJ) > 2
              ∧ C.depth pose_I (C.TriangulateDLT cam_I pose_I (C.get_ud_pixel cam_I (C.feats I featI))
                  cam_J pose_J (C.get_ud_pixel cam_J (C.feats J featJ))) > 0
              ∧ C.depth pose_J (C.TriangulateDLT cam_I pose_I (C.get_ud_pixel cam_I (C.feats I featI))
                  cam_J pose_J (C.get_ud_pixel cam_J (C.feats J featJ))) > 0
              ∧ C.residualNorm cam_I pose_I (C.TriangulateDLT cam_I pose_I
                  (C.get_ud_pixel cam_I (C.feats I featI)) cam_J pose_J
                  (C.get_ud_pixel cam_J (C.feats J featJ))) (C.feats I featI) < max 4 tI
              ∧ C.residualNorm cam_J pose_J (C.TriangulateDLT cam_I pose_I
                  (C.get_ud_pixel cam_I (C.feats I featI)) cam_J pose_J
                  (C.get_ud_pixel cam_J (C.feats J featJ))) (C.feats J featJ) < max 4 tJ
          then some ⟨C.TriangulateDLT cam_I pose_I (C.get_ud_pixel cam_I (C.feats I featI))
                  cam_J pose_J (C.get_ud_pixel cam_J (C.feats J featJ)),
                [(I, ⟨C.feats I featI, featI⟩), (J, ⟨C.feats J featJ, featJ⟩)]⟩
          else none := by
  have hIJ : I < J := by
    rw [hI, hJ]
    rcases Nat.lt_or_gt_of_ne hne with h | h
    · rw [min_eq_right (le_of_lt h), max_eq_left (le_of_lt h)]
      exact h
    · rw [min_eq_left (le_of_lt h), max_eq_right (le_of_lt h)]
      exact h
  -- the iteration is the loop over the common tracks of `I` and `J`
  have hiter : ∀ s0, triangulateWithView C e viewIndex s0 indexI
      = foldlOpt (triangulateTrack C e.map_ACThreshold_ I J cam_I cam_J pose_I pose_J)
          (GetTracksInImages [I, J] e.map_tracks_) s0 := by
    intro s0
    simp only [triangulateWithView, if_neg hne, ← hI, ← hJ, hvI, hvJ, hcI, hcJ, hpI, hpJ]
  have hthrI : StlMap.contains e.map_ACThreshold_ I = true := by
    simp [StlMap.contains, htI]
  have hthrJ : StlMap.contains e.map_ACThreshold_ J = true := by
    simp [StlMap.contains, htJ]
  obtain ⟨s2, hs2⟩ := foldlOpt_triangulateTrack_defined C e.map_ACThreshold_ I J cam_I cam_J
    pose_I pose_J e.map_tracks_ hthrI hthrJ (GetTracksInImages [I, J] e.map_tracks_) s1
    (fun t ht => ht)
  refine ⟨s2, (hiter s1).trans hs2, ?_, ?_⟩
  · unfold resectionStepG
    rw [hvalid, foldlOpt_append, hpre]
    simp only [Option.some_bind, foldlOpt, hiter s1, hs2]
  · have hmem := GetTracksInImages_mem_of I J e.map_tracks_ trackId track htrack
      (by simp [StlMap.contains, hfI]) (by simp [StlMap.contains, hfJ])
    have hnd : ((GetTracksInImages [I, J] e.map_tracks_).map Prod.fst).Nodup :=
      (GetTracksInImages_keys_sublist [I, J] e.map_tracks_).nodup hkeys
    have hup := (foldlOpt_triangulateTrack_find C e.map_ACThreshold_ I J cam_I cam_J pose_I pose_J
      _ s1 s2 hs2).2 hnd _ hmem
    have hfI' : StlMap.find (track.filter fun x => [I, J].contains x.1) I = some featI := by
      rw [StlMap.find_filter (fun k => [I, J].contains k) I (by simp) track]
      exact hfI
    have hfJ' : StlMap.find (track.filter fun x => [I, J].contains x.1) J = some featJ := by
      rw [StlMap.find_filter (fun k => [I, J].contains k) J (by simp) track]
      exact hfJ
    have hobs : ∀ (a b : Observation),
        StlMap.assign (StlMap.assign [] I a) J b = [(I, a), (J, b)] := by
      intro a b
      have h1 : ¬ J < I := by omega
      have h2 : ¬ I = J := by omega
      simp only [StlMap.assign, h1, h2, if_false]
    simp only [hnew, trackUpdate, hfI', hfJ', viewThreshold, htI, htJ, Option.map_some',
      hobs] at hup
    split_ifs at hup ⊢ <;>
      first
      | exact (Option.some.inj hup).symm
      | (exfalso; tauto)

set_option maxRecDepth 100000 in
/-- Witness for C11: in step G of `Resection(2)` on `engineSharedTrack`, the
iteration for the reconstructed view 0 creates the landmark of track 5 with
the observations of the views 0 and 2, and step G as a whole, after the
iteration for view 1, leaves that landmark with the three observations. -/
theorem resectionStepG_creates_iff_witness :
    triangulateWithView exampleCollaborators engineSharedTrack 2 [] 0
        = some [(5, ⟨(0, 0, 1), [(0, ⟨(0, 0), 5⟩), (2, ⟨(0, 0), 5⟩)]⟩)]
      ∧ resectionStepG exampleCollaborators engineSharedTrack 2 []
        = some [(5, ⟨(0, 0, 1), [(0, ⟨(0, 0), 5⟩), (1, ⟨(0, 0), 5⟩), (2, ⟨(0, 0), 5⟩)]⟩)] := by
  obtain ⟨s2, h1, h2, _⟩ := resectionStepG_creates_iff exampleCollaborators engineSharedTrack
    2 0 0 2 [] [1, 2] [] [] ⟨0, 0, 0, 10, 10⟩ ⟨2, 0, 2, 10, 10⟩ exampleCamera exampleCamera
    Pose3.identity Pose3.identity 5 [(0, 5), (1, 5), (2, 5)] 5 5 1 2
    (by decide) (by decide) (by decide) (by decide) rfl (by decide) (by decide) (by decide)
    (by decide) (by decide) (by decide) (by decide) (by decide) (by decide) (by decide)
    (by decide) (by decide) rfl
  have hs2 : triangulateWithView exampleCollaborators engineSharedTrack 2 [] 0
      = some [(5, ⟨(0, 0, 1), [(0, ⟨(0, 0), 5⟩), (2, ⟨(0, 0), 5⟩)]⟩)] := by decide
  have heq : s2 = [(5, ⟨(0, 0, 1), [(0, ⟨(0, 0), 5⟩), (2, ⟨(0, 0), 5⟩)]⟩)] :=
    Option.some.inj (h1.symm.trans hs2)
  subst heq
  exact ⟨h1, h2.trans (by decide)⟩

end OpenMVG
